import Mathlib

/-!
The graph IR of simple_ai

A shallow embedding of the graph construction pipeline of `src/ir/graph.cpp`
(with `node.cpp`, `node_arg.cpp` and `node_shape_manager.cpp`), of the shape
inferers of `src/ir/node_shapes`, of the tensor storage of `src/ir/tensor.cpp`
and `src/framework/allocator.cpp` and of the graph part of the deserializer
`src/io/onnx_serializer.cpp`, and the properties proved about them.

Conventions of the embedding.

* A `Status` is represented by its `StatusCode`; the message text is dropped.
* A `NodeArg*` is an address (`NodeArgPtr`); the objects live in a store
  `NodeArgPtr → NodeArg`.  A nullable pointer is an `Option NodeArgPtr`.
* `std::unordered_set` / `std::unordered_map` are association lists that are
  only queried by key; `emplace` / `insert` keep the first binding of a key.
* An `Edge` holds a reference to its other node; the only thing ever read
  through that reference is `id()`, so the edge stores the id.
* A `Node*` of `m_topological_nodes` is represented by the node value.
* A loop or a recursion that need not end is run with a bound on its steps
  (`fuel`) and returns an `Option`; `none` means no result within the bound.
* `int64_t` and `size_t` values are integers; an operation on them reduces its
  result into the range of the type.  A `float` is carried as its 32-bit
  pattern and never computed with.
* A read outside a vector, a division without defined result, a write
  through the null pointer and a loop step from an erased set element give
  `none` (or `InferResult.undefined`).
-/

namespace simple_ai

/-- The enumeration `common::StatusCode` (`include/common/common.h`). -/
inductive StatusCode where
  | OK
  | FAIL
  | FILE_NOT_FOUND
  | OUT_OF_MEMORY
  | INVALID_MODEL
  | INVALID_PARAM
  | RUNTIME_ERROR
  | NOT_IMPLEMENTED
  | THREAD_ERROR
  deriving DecidableEq, Repr

/-- Address of a `NodeArg` object. -/
abbrev NodeArgPtr := Nat

/-- The class `ir::Edge`: the id of the other node and the two arg indices. -/
structure Edge where
  other_node : Int
  src_arg_index : Int
  dst_arg_index : Int
  deriving DecidableEq, Repr

/-- The enumeration `framework::PrimitiveDataType`. -/
inductive PrimitiveDataType where
  | FLOAT32
  | FLOAT16
  | INT8
  | UINT8
  | INT16
  | UINT16
  | INT32
  | UINT32
  | INT64
  | UINT64
  | UNKNOWN
  deriving DecidableEq, Repr

/-- The class `ir::Tensor`: name, element type, shape (the dims of the
`TensorShape`), the raw data pointer (`none` is the null pointer), the byte
offset and whether `m_allocator` is set, i.e. whether the tensor owns its
buffer.  The bytes of the buffer are not represented. -/
structure Tensor where
  name : String
  data_type : PrimitiveDataType
  shape : List Int
  m_p_data : Option Nat := none
  m_byte_offset : Int := 0
  m_allocator : Bool := false
  deriving DecidableEq, Repr

/-- The enumeration `ir::NodeAttributeType`. -/
inductive NodeAttributeType where
  | INT64
  | FLOAT
  | STRING
  | TENSOR
  | INT64_ARRAY
  | FLOAT_ARRAY
  | STRING_ARRAY
  | TENSOR_ARRAY
  | INVALID
  deriving DecidableEq, Repr

/-- The class `ir::NodeAttribute`: the stored kind and the data section.  A
`float` is held as its 32-bit pattern. -/
structure NodeAttribute where
  type : NodeAttributeType
  m_int64 : Int := 0
  m_string : String := ""
  m_int64s : List Int := []
  m_strings : List String := []
  m_float : Nat := 0
  m_floats : List Nat := []
  m_tensor : Option Tensor := none
  m_tensors : List Tensor := []
  deriving DecidableEq, Repr

/-- The class `ir::Node`, restricted to the members the graph pipeline reads:
id, name, operator type, the arg vectors, the attribute map and the two edge
sets (in set order). -/
structure Node where
  id : Int
  name : String
  type : String
  input_args : List NodeArgPtr
  output_args : List NodeArgPtr
  input_edges : List Edge
  output_edges : List Edge
  attributes : List (String × NodeAttribute) := []
  deriving DecidableEq, Repr

/-! ## `Graph::topological_sort` -/

/-- The local variables of `Graph::topological_sort` together with
`m_topological_nodes`.  The head of `nodes_stack` is the top of the stack. -/
structure TopoState where
  topological_nodes : List Node
  downstream_nodes : List Int
  nodes_visited : List Int
  nodes_added : List Int
  nodes_stack : List Int
  deriving DecidableEq, Repr

/-- `std::find_if(m_nodes.cbegin(), m_nodes.cend(), id == current_node)`. -/
def find_node (nodes : List Node) (id : Int) : Option Node :=
  nodes.find? (fun n => decide (n.id = id))

/-- The first `std::for_each` of `topological_sort`: every node without input
edges is appended to the result and marked visited and added. -/
def topo_roots : List Node → TopoState → TopoState
  | [], s => s
  | n :: ns, s =>
    if n.input_edges.length = 0 then
      topo_roots ns
        { s with
          topological_nodes := s.topological_nodes ++ [n]
          nodes_visited := n.id :: s.nodes_visited
          nodes_added := n.id :: s.nodes_added }
    else topo_roots ns s

/-- The second loop of `topological_sort`: the id of every node without output
edges is pushed on the stack. -/
def topo_leaves : List Node → List Int → List Int
  | [], st => st
  | n :: ns, st =>
    if n.output_edges.isEmpty then topo_leaves ns (n.id :: st) else topo_leaves ns st

/-- The inner `for` over the input edges of the current node: `none` when an
input is in `downstream_nodes` (the `return Status(INVALID_MODEL, ...)`),
otherwise the stack after pushing every input not yet visited. -/
def topo_scan_inputs (downstream visited : List Int) : List Edge → List Int → Option (List Int)
  | [], st => some st
  | e :: es, st =>
    if e.other_node ∈ downstream then none
    else if e.other_node ∉ visited then
      topo_scan_inputs downstream visited es (e.other_node :: st)
    else topo_scan_inputs downstream visited es st

/-- The epilogue of `topological_sort`: the size check. -/
def topo_finish (nodes : List Node) (s : TopoState) : StatusCode × List Node :=
  if s.topological_nodes.length ≠ nodes.length then
    (StatusCode.INVALID_MODEL, s.topological_nodes)
  else (StatusCode.OK, s.topological_nodes)

/-- One iteration of `while (!nodes_stack.empty())`, or the epilogue when the
stack is empty.  `Sum.inl` is a `return`, `Sum.inr` the state at the next
loop test.  (`current_node` is bound by reference to the popped top; it is read
as the popped value.) -/
def topo_step (nodes : List Node) (s : TopoState) : (StatusCode × List Node) ⊕ TopoState :=
  match s.nodes_stack with
  | [] => Sum.inl (topo_finish nodes s)
  | current_node :: rest =>
    match find_node nodes current_node with
    | none => Sum.inr { s with nodes_stack := rest }
    | some current_node_ptr =>
      if current_node ∈ s.nodes_added then Sum.inr { s with nodes_stack := rest }
      else if current_node ∈ s.nodes_visited then
        Sum.inr
          { s with
            topological_nodes := s.topological_nodes ++ [current_node_ptr]
            nodes_added := current_node :: s.nodes_added
            downstream_nodes := s.downstream_nodes.filter (fun x => decide (x ≠ current_node))
            nodes_stack := rest }
      else
        let visited := current_node :: s.nodes_visited
        let downstream := current_node :: s.downstream_nodes
        match topo_scan_inputs downstream visited current_node_ptr.input_edges
            (current_node :: rest) with
        | none => Sum.inl (StatusCode.INVALID_MODEL, s.topological_nodes)
        | some st =>
          Sum.inr
            { s with
              nodes_visited := visited
              downstream_nodes := downstream
              nodes_stack := st }

/-- The `while` loop, run for at most `fuel` iterations; `none` when the fuel
runs out before a `return`. -/
def topo_loop (nodes : List Node) : Nat → TopoState → Option (StatusCode × List Node)
  | 0, _ => none
  | fuel + 1, s =>
    match topo_step nodes s with
    | Sum.inl r => some r
    | Sum.inr s' => topo_loop nodes fuel s'

/-- The state before the `while` loop. -/
def topo_init (nodes : List Node) : TopoState :=
  let s := topo_roots nodes
    { topological_nodes := [], downstream_nodes := [], nodes_visited := [],
      nodes_added := [], nodes_stack := [] }
  { s with nodes_stack := topo_leaves nodes [] }

/-- Weight of the nodes whose id is not yet visited: each may still be pushed
once itself and push each of its inputs once. -/
def topo_weight (nodes : List Node) (visited : List Int) : Nat :=
  ((nodes.filter (fun n => decide (n.id ∉ visited))).map
    (fun n => n.input_edges.length + 1)).sum

/-- Number of loop iterations granted to the run from state `s`. -/
def topo_fuel (nodes : List Node) (s : TopoState) : Nat :=
  topo_weight nodes s.nodes_visited + s.nodes_stack.length + 1

/-- `Graph::topological_sort` on the node list `m_nodes`: the returned status
and the final `m_topological_nodes`. -/
def topological_sort (nodes : List Node) : Option (StatusCode × List Node) :=
  topo_loop nodes (topo_fuel nodes (topo_init nodes)) (topo_init nodes)

/-- A node without input edges (a root of the sort). -/
def is_root (n : Node) : Bool := decide (n.input_edges.length = 0)

/-- The quantity that decreases at every loop iteration. -/
def topo_potential (nodes : List Node) (s : TopoState) : Nat :=
  topo_weight nodes s.nodes_visited + s.nodes_stack.length


/-- The loop invariant of the depth-first walk of `topological_sort`. -/
structure TopoInv (nodes : List Node) (s : TopoState) : Prop where
  /-- The result is the roots followed by emitted nodes with distinct ids. -/
  topo_eq : ∃ E, s.topological_nodes = nodes.filter is_root ++ E ∧
    (∀ n ∈ E, find_node nodes n.id = some n) ∧ (E.map Node.id).Nodup ∧
    (∀ n ∈ E, ∀ r ∈ nodes.filter is_root, r.id ≠ n.id)
  /-- The added ids are the ids of the result. -/
  added_iff : ∀ x, x ∈ s.nodes_added ↔ x ∈ s.topological_nodes.map Node.id
  /-- The downstream ids are the ids visited and not yet added. -/
  down_iff : ∀ x, x ∈ s.downstream_nodes ↔ x ∈ s.nodes_visited ∧ x ∉ s.nodes_added
  /-- Every downstream id is the id of a node. -/
  down_found : ∀ x ∈ s.downstream_nodes, find_node nodes x ≠ none
  /-- Every input of an emitted node that is a node id was emitted earlier. -/
  order : ∀ l1 v l2, s.topological_nodes = l1 ++ v :: l2 → ∀ e ∈ v.input_edges,
    find_node nodes e.other_node ≠ none → e.other_node ∈ l1.map Node.id
  /-- Every downstream id waits on the stack below its pending inputs. -/
  pending : ∀ x ∈ s.downstream_nodes, ∃ pre post, s.nodes_stack = pre ++ x :: post ∧ x ∉ pre ∧
    ∀ n, find_node nodes x = some n → ∀ e ∈ n.input_edges,
      find_node nodes e.other_node ≠ none → e.other_node ∈ s.nodes_added ∨ e.other_node ∈ pre

/-- The edge relation of a node list: `u` is the other node of an input edge
of `v`. -/
def input_edge (nodes : List Node) (u v : Node) : Prop :=
  u ∈ nodes ∧ v ∈ nodes ∧ ∃ e ∈ v.input_edges, e.other_node = u.id

/-- The edge relation has a directed cycle. -/
def has_cycle (nodes : List Node) : Prop :=
  ∃ v, Relation.TransGen (input_edge nodes) v v

/-- A node with the given id and edges to the listed ids (no args). -/
def sample_node (id : Int) (inputs outputs : List Int) : Node :=
  { id := id, name := "", type := "", input_args := [], output_args := [],
    input_edges := inputs.map (fun i => { other_node := i, src_arg_index := 0, dst_arg_index := 0 }),
    output_edges := outputs.map (fun i => { other_node := i, src_arg_index := 0, dst_arg_index := 0 }) }

/-- A diamond with a shortcut: 0 → 1 → 2 → 3 and 1 → 3, listed leaf first. -/
def sample_dag : List Node :=
  [sample_node 3 [1, 2] [], sample_node 1 [0] [2, 3], sample_node 2 [1] [3],
   sample_node 0 [] [1]]

/-- A three-node cycle 1 → 2 → 3 → 1 feeding a leaf 4. -/
def sample_cyclic : List Node :=
  [sample_node 1 [3] [2], sample_node 2 [1] [3], sample_node 3 [2] [1, 4],
   sample_node 4 [3] []]

/-- The order in which the sample DAG is sorted. -/
def sample_dag_order : List Node :=
  [sample_node 0 [] [1], sample_node 1 [0] [2, 3], sample_node 2 [1] [3],
   sample_node 3 [1, 2] []]

/-! ## The graph state -/

/-- The class `ir::NodeArg`: name, element type and shape (the dims of the
`TensorShape`). -/
structure NodeArg where
  name : String
  data_type : PrimitiveDataType
  shape : List Int
  deriving DecidableEq, Repr

/-- The constructor `NodeArg(const std::string& name)`. -/
def NodeArg.named (name : String) : NodeArg :=
  { name := name, data_type := PrimitiveDataType.UNKNOWN, shape := [] }

/-- `find` on a map held as an association list. -/
def map_find {β : Type} (m : List (String × β)) (key : String) : Option β :=
  (m.find? (fun kv => decide (kv.1 = key))).map Prod.snd

/-- `emplace` / `insert` on a map: a key already present keeps its value. -/
def map_insert {β : Type} (m : List (String × β)) (key : String) (value : β) :
    List (String × β) :=
  match map_find m key with
  | some _ => m
  | none => m ++ [(key, value)]

/-- `erase` of a key. -/
def map_erase {β : Type} (m : List (String × β)) (key : String) : List (String × β) :=
  m.filter (fun kv => decide (kv.1 ≠ key))

/-- `m[key] = value`: the key is bound to the new value. -/
def map_assign {β : Type} (m : List (String × β)) (key : String) (value : β) :
    List (String × β) :=
  match map_find m key with
  | some _ => m.map (fun kv => if kv.1 = key then (key, value) else kv)
  | none => m ++ [(key, value)]

/-- The struct `Graph::TopologyContext`.  An entry of `output_args` holds the
id of the producing node (all that is read through the `Node*`) and the index
of the arg among the node's outputs. -/
structure TopologyContext where
  inputs_and_initializers : List String
  output_args : List (String × (Int × Int))
  node_name_to_id : List (String × Int)

/-- The members of `ir::Graph`, with the memory its `NodeArg` pointers refer
to: `heap` gives the object at each address and `heap_next` is the first
address not yet handed out by `std::make_unique<NodeArg>`. -/
structure Graph where
  m_inputs_name : List String
  m_outputs_name : List String
  m_nodes : List Node
  m_initializer_map : List (String × Tensor)
  m_nodearg_map : List (String × NodeArgPtr)
  m_inputs_include_initializer : List (Option NodeArgPtr)
  m_inputs_exclude_initializer : List (Option NodeArgPtr)
  m_outputs : List (Option NodeArgPtr)
  m_overridable_initializers : List (Option NodeArgPtr)
  m_topological_nodes : List Node
  m_node_arg_to_producer_node : List (String × Int)
  m_node_arg_to_consumer_nodes : List (String × List Int)
  m_topology_context : TopologyContext
  heap : NodeArgPtr → NodeArg
  heap_next : NodeArgPtr

/-- A freshly constructed `Graph` in a memory holding no graph-owned
`NodeArg` yet. -/
def Graph.empty (heap : NodeArgPtr → NodeArg) (heap_next : NodeArgPtr) : Graph :=
  { m_inputs_name := [], m_outputs_name := [], m_nodes := [], m_initializer_map := [],
    m_nodearg_map := [], m_inputs_include_initializer := [],
    m_inputs_exclude_initializer := [], m_outputs := [], m_overridable_initializers := [],
    m_topological_nodes := [], m_node_arg_to_producer_node := [],
    m_node_arg_to_consumer_nodes := [],
    m_topology_context :=
      { inputs_and_initializers := [], output_args := [], node_name_to_id := [] },
    heap := heap, heap_next := heap_next }

/-- `Graph::add_input_name`. -/
def add_input_name (g : Graph) (name : String) : Graph :=
  { g with m_inputs_name := g.m_inputs_name ++ [name] }

/-- `Graph::add_output_name`. -/
def add_output_name (g : Graph) (name : String) : Graph :=
  { g with m_outputs_name := g.m_outputs_name ++ [name] }

/-- `Graph::add_initializer`: both branches store the new tensor under its
name. -/
def add_initializer (g : Graph) (tensor : Tensor) : Graph :=
  { g with m_initializer_map := map_assign g.m_initializer_map tensor.name tensor }

/-- `Graph::has_initializer`. -/
def has_initializer (g : Graph) (name : String) : Bool :=
  (map_find g.m_initializer_map name).isSome

/-- `Graph::add_node`. -/
def add_node (g : Graph) (node : Node) : Graph :=
  { g with m_nodes := g.m_nodes ++ [node] }

/-- `Graph::get_nodearg`: `none` is the null pointer. -/
def get_nodearg (g : Graph) (name : String) : Option NodeArgPtr :=
  map_find g.m_nodearg_map name

/-- `Graph::get_or_create_nodearg`: the returned handle and the graph
afterwards.  A new entry owns a copy of `node_arg` at a fresh address. -/
def get_or_create_nodearg (g : Graph) (name : String) (node_arg : NodeArg) :
    NodeArgPtr × Graph :=
  match map_find g.m_nodearg_map name with
  | some p => (p, g)
  | none =>
    (g.heap_next,
      { g with
        m_nodearg_map := g.m_nodearg_map ++ [(name, g.heap_next)]
        heap := fun p => if p = g.heap_next then node_arg else g.heap p
        heap_next := g.heap_next + 1 })

/-! ### `Graph::initialize` -/

/-- The loop filling `nodes_outputs`: every output arg of every node, keyed
by its name; the first arg of a name stays. -/
def collect_nodes_outputs (heap : NodeArgPtr → NodeArg) (nodes : List Node) :
    List (String × NodeArgPtr) :=
  (nodes.flatMap (fun n => n.output_args)).foldl
    (fun m out => map_insert m (heap out).name out) []

/-- The loop over `m_outputs_name`, started with the outputs stored so far:
the status (INVALID_MODEL at the first name found in none of the three maps)
and the outputs stored when the loop is left. -/
def resolve_outputs (nodes_outputs : List (String × NodeArgPtr))
    (graph_initializers graph_inputs : List (String × Option NodeArgPtr)) :
    List String → List (Option NodeArgPtr) → StatusCode × List (Option NodeArgPtr)
  | [], acc => (StatusCode.OK, acc)
  | name :: names, acc =>
    match map_find nodes_outputs name with
    | some p => resolve_outputs nodes_outputs graph_initializers graph_inputs names
        (acc ++ [some p])
    | none =>
      match map_find graph_initializers name with
      | some p => resolve_outputs nodes_outputs graph_initializers graph_inputs names
          (acc ++ [p])
      | none =>
        match map_find graph_inputs name with
        | some p => resolve_outputs nodes_outputs graph_initializers graph_inputs names
            (acc ++ [p])
        | none => (StatusCode.INVALID_MODEL, acc)

/-- The final `while` of `initialize`: the entries of the first list that are
not matched, in step, by the second. -/
def collect_overridable : List (Option NodeArgPtr) → List (Option NodeArgPtr) →
    List (Option NodeArgPtr)
  | [], _ => []
  | inc :: incs, [] => inc :: collect_overridable incs []
  | inc :: incs, exc :: excs =>
    if inc = exc then collect_overridable incs excs
    else inc :: collect_overridable incs (exc :: excs)

/-- `Graph::initialize` (the bare name is reserved in Lean). -/
def initialize_graph (g : Graph) : StatusCode × Graph :=
  let graph_initializers : List (String × Option NodeArgPtr) :=
    g.m_initializer_map.foldl (fun m kv => map_insert m kv.1 (get_nodearg g kv.1)) []
  let graph_inputs : List (String × Option NodeArgPtr) :=
    g.m_inputs_name.foldl (fun m name => map_insert m name (get_nodearg g name)) []
  let include_initializer := g.m_inputs_name.map (get_nodearg g)
  let exclude_initializer :=
    (g.m_inputs_name.filter (fun name => (map_find graph_initializers name).isNone)).map
      (get_nodearg g)
  let nodes_outputs := collect_nodes_outputs g.heap g.m_nodes
  let g1 : Graph :=
    { g with
      m_inputs_include_initializer := include_initializer
      m_inputs_exclude_initializer := exclude_initializer
      m_overridable_initializers := [] }
  match resolve_outputs nodes_outputs graph_initializers graph_inputs g.m_outputs_name [] with
  | (StatusCode.OK, outputs) =>
    (StatusCode.OK,
      { g1 with
        m_outputs := outputs
        m_overridable_initializers :=
          collect_overridable include_initializer exclude_initializer })
  | (status, outputs) => (status, { g1 with m_outputs := outputs })

/-! ### `Graph::check_no_duplicate_names` -/

/-- The inner loop over the output args of one node (`output_index` is the
index of the head of the list): the status and `output_args` afterwards. -/
def check_node_outputs (heap : NodeArgPtr → NodeArg) (inputs_and_initializers : List String)
    (node_id : Int) :
    List NodeArgPtr → Int → List (String × (Int × Int)) →
      StatusCode × List (String × (Int × Int))
  | [], _, output_args => (StatusCode.OK, output_args)
  | output :: outputs, output_index, output_args =>
    let output_name := (heap output).name
    if output_name ≠ "" then
      if output_name ∈ inputs_and_initializers then (StatusCode.INVALID_MODEL, output_args)
      else
        match map_find output_args output_name with
        | some _ => (StatusCode.INVALID_MODEL, output_args)
        | none =>
          check_node_outputs heap inputs_and_initializers node_id outputs (output_index + 1)
            (output_args ++ [(output_name, (node_id, output_index))])
    else
      check_node_outputs heap inputs_and_initializers node_id outputs (output_index + 1)
        output_args

/-- The loop over `m_nodes`: the status with `node_name_to_id` and
`output_args` afterwards. -/
def check_nodes_names (heap : NodeArgPtr → NodeArg) (inputs_and_initializers : List String) :
    List Node → List (String × Int) → List (String × (Int × Int)) →
      StatusCode × List (String × Int) × List (String × (Int × Int))
  | [], node_name_to_id, output_args => (StatusCode.OK, node_name_to_id, output_args)
  | item :: items, node_name_to_id, output_args =>
    if item.name ≠ "" ∧ (map_find node_name_to_id item.name).isSome then
      (StatusCode.INVALID_MODEL, node_name_to_id, output_args)
    else
      let node_name_to_id' := map_assign node_name_to_id item.name item.id
      match check_node_outputs heap inputs_and_initializers item.id item.output_args 0
          output_args with
      | (StatusCode.OK, output_args') =>
        check_nodes_names heap inputs_and_initializers items node_name_to_id' output_args'
      | (status, output_args') => (status, node_name_to_id', output_args')

/-- `Graph::check_no_duplicate_names`. -/
def check_no_duplicate_names (g : Graph) : StatusCode × Graph :=
  match check_nodes_names g.heap g.m_topology_context.inputs_and_initializers g.m_nodes [] [] with
  | (status, node_name_to_id, output_args) =>
    (status,
      { g with
        m_topology_context :=
          { g.m_topology_context with
            output_args := output_args
            node_name_to_id := node_name_to_id } })

/-! ### `Graph::clean_unused_initializers_args` -/

/-- The args marked before the initializers are examined: the graph inputs
without initializers, the overridable initializers, the graph outputs and the
input args of the nodes. -/
def used_before_initializers (g : Graph) : List (Option NodeArgPtr) :=
  g.m_inputs_exclude_initializer ++ g.m_overridable_initializers ++ g.m_outputs ++
    (g.m_nodes.flatMap (fun n => n.input_args)).map some

/-- The args marked when the node args are examined: the former and the
output args of the nodes. -/
def used_node_args (g : Graph) : List (Option NodeArgPtr) :=
  used_before_initializers g ++ (g.m_nodes.flatMap (fun n => n.output_args)).map some

/-- The loop over `m_initializer_map`: `none` on the `return Status(FAIL)` for
an initializer without `NodeArg`, otherwise `erase_initializers`. -/
def collect_erase_initializers (g : Graph) (used : List (Option NodeArgPtr)) :
    List (String × Tensor) → List String → Option (List String)
  | [], erase_initializers => some erase_initializers
  | (init_name, _) :: rest, erase_initializers =>
    match get_nodearg g init_name with
    | none => none
    | some tmp_node_arg =>
      if some tmp_node_arg ∉ used then
        collect_erase_initializers g used rest (erase_initializers ++ [init_name])
      else collect_erase_initializers g used rest erase_initializers

/-- `Graph::clean_unused_initializers_args`. -/
def clean_unused_initializers_args (g : Graph) : StatusCode × Graph :=
  match collect_erase_initializers g (used_before_initializers g) g.m_initializer_map [] with
  | none => (StatusCode.FAIL, g)
  | some erase_initializers =>
    (StatusCode.OK,
      { g with
        m_initializer_map := erase_initializers.foldl map_erase g.m_initializer_map
        m_nodearg_map :=
          g.m_nodearg_map.filter
            (fun kv => !(decide (kv.1 ≠ "") && decide (some kv.2 ∉ used_node_args g))) })

/-! ### `NodeShapeManager` -/

/-- The seven implementations of `IShapeInfer`, one constructor per class. -/
inductive IShapeInfer where
  | ConvShapeInfer
  | GemmShapeInfer
  | ReluShapeInfer
  | MaxPoolShapeInfer
  | GlobalAveragePoolShapeInfer
  | FlattenShapeInfer
  | AddShapeInfer
  deriving DecidableEq, Repr

/-- The virtual method `node_type()` of each class. -/
def IShapeInfer.node_type : IShapeInfer → String
  | ConvShapeInfer => "Conv"
  | GemmShapeInfer => "Gemm"
  | ReluShapeInfer => "Relu"
  | MaxPoolShapeInfer => "MaxPool"
  | GlobalAveragePoolShapeInfer => "GlobalAveragePool"
  | FlattenShapeInfer => "Flatten"
  | AddShapeInfer => "Add"

/-- The member `m_node_infer_map` of `NodeShapeManager`. -/
abbrev NodeInferMap := List (String × IShapeInfer)

/-- `NodeShapeManager::register_node_infer<T>`, for the class `infer`. -/
def register_node_infer (m : NodeInferMap) (infer : IShapeInfer) : NodeInferMap :=
  map_insert m infer.node_type infer

/-- `NodeShapeManager::register_all_infer`. -/
def register_all_infer (m : NodeInferMap) : NodeInferMap :=
  let m := register_node_infer m IShapeInfer.ConvShapeInfer
  let m := register_node_infer m IShapeInfer.GemmShapeInfer
  let m := register_node_infer m IShapeInfer.ReluShapeInfer
  let m := register_node_infer m IShapeInfer.MaxPoolShapeInfer
  let m := register_node_infer m IShapeInfer.GlobalAveragePoolShapeInfer
  let m := register_node_infer m IShapeInfer.FlattenShapeInfer
  register_node_infer m IShapeInfer.AddShapeInfer

/-- `NodeShapeManager::get_shape_infer`: on a hit the statement
`iter->second.get();` discards its value, and control reaches
`return nullptr;` on every path.  `none` is the null pointer. -/
def get_shape_infer (m : NodeInferMap) (node_type : String) : Option IShapeInfer :=
  match map_find m node_type with
  | some _ => none
  | none => none

/-- The keys of a map. -/
def map_keys {β : Type} (m : List (String × β)) : List String := m.map Prod.fst

/-- The non-empty node names of a node list, one entry per node. -/
def node_names (nodes : List Node) : List String :=
  (nodes.map Node.name).filter (fun s => decide (s ≠ ""))

/-- The non-empty names of the output args of a node list, one entry per
output arg. -/
def output_names (heap : NodeArgPtr → NodeArg) (nodes : List Node) : List String :=
  ((nodes.flatMap Node.output_args).map (fun p => (heap p).name)).filter
    (fun s => decide (s ≠ ""))

/-- A sequence of `get_or_create_nodearg` calls, each with its name and
template, applied in order. -/
def nodearg_calls (g : Graph) (calls : List (String × NodeArg)) : Graph :=
  calls.foldl (fun g c => (get_or_create_nodearg g c.1 c.2).2) g

/-- The names of the output args of all nodes, empty names included. -/
def all_output_names (g : Graph) : List String :=
  (g.m_nodes.flatMap Node.output_args).map (fun p => (g.heap p).name)

/-- The handle a name stands for as a graph output: the first node output arg
of that name when there is one, otherwise the `NodeArg` registered under the
name, null when there is none. -/
def output_handle (g : Graph) (name : String) : Option NodeArgPtr :=
  match (g.m_nodes.flatMap Node.output_args).find? (fun p => decide ((g.heap p).name = name)) with
  | some p => some p
  | none => get_nodearg g name

/-- A graph with the initializer "w", for which no `NodeArg` was created, and
the declared output "w". -/
def sample_output_initializer : Graph :=
  add_output_name
    (add_initializer (Graph.empty (fun _ => NodeArg.named "") 0)
      { name := "w", data_type := PrimitiveDataType.FLOAT32, shape := [1] })
    "w"

/-- A graph without nodes whose only declared input "w" is also an
initializer. -/
def sample_overridable : Graph :=
  add_initializer
    (add_input_name
      (get_or_create_nodearg (Graph.empty (fun _ => NodeArg.named "") 0) "w"
        { name := "w", data_type := PrimitiveDataType.FLOAT32, shape := [1] }).2
      "w")
    { name := "w", data_type := PrimitiveDataType.FLOAT32, shape := [1] }

/-! ### Edges and `Graph::build_nodes_connections` -/

/-- `EdgeCompare::operator()`: the strict order of an `EdgeSet`. -/
def edge_less (lhs rhs : Edge) : Bool :=
  if lhs.other_node = rhs.other_node then
    if lhs.src_arg_index = rhs.src_arg_index then
      decide (lhs.dst_arg_index < rhs.dst_arg_index)
    else decide (lhs.src_arg_index < rhs.src_arg_index)
  else decide (lhs.other_node < rhs.other_node)

/-- `EdgeSet::insert`: the edge is placed in order unless an equivalent edge
is present. -/
def edge_set_insert (e : Edge) : List Edge → List Edge
  | [] => [e]
  | x :: xs =>
    if edge_less e x then e :: x :: xs
    else if edge_less x e then x :: edge_set_insert e xs
    else x :: xs

/-- `EdgeSet::erase`: the edges equivalent to `e` are removed. -/
def edge_set_erase (e : Edge) (s : List Edge) : List Edge :=
  s.filter (fun x => edge_less x e || edge_less e x)

/-- `Node::add_input_edge`. -/
def Node.add_input_edge (n : Node) (e : Edge) : Node :=
  { n with input_edges := edge_set_insert e n.input_edges }

/-- `Node::add_output_edge`. -/
def Node.add_output_edge (n : Node) (e : Edge) : Node :=
  { n with output_edges := edge_set_insert e n.output_edges }

/-- `Node::remove_input_edge`. -/
def Node.remove_input_edge (n : Node) (e : Edge) : Node :=
  { n with input_edges := edge_set_erase e n.input_edges }

/-- `Node::remove_output_edge`. -/
def Node.remove_output_edge (n : Node) (e : Edge) : Node :=
  { n with output_edges := edge_set_erase e n.output_edges }

/-- A call of a member function on the node that `std::find_if` returns for
`id`: the first node with that id is replaced by its image. -/
def update_node (id : Int) (f : Node → Node) : List Node → List Node
  | [] => []
  | n :: ns => if n.id = id then f n :: ns else n :: update_node id f ns

/-- `NodeArg::operator==`. -/
def NodeArg.eq (lhs rhs : NodeArg) : Bool :=
  decide (lhs.name = rhs.name) && decide (lhs.data_type = rhs.data_type) &&
    decide (lhs.shape = rhs.shape)

/-- `NodeArg::operator!=`, whose body `return (*this) != rhs;` is a call of
itself: the result when at most `fuel` nested calls are allowed, `none` when
that does not suffice. -/
def NodeArg.ne : Nat → NodeArg → NodeArg → Option Bool
  | 0, _, _ => none
  | fuel + 1, lhs, rhs => NodeArg.ne fuel lhs rhs

/-- `Graph::add_edge`.  `none`: the comparison `*src_arg != *dst_arg` did not
return within `fuel` nested calls. -/
def add_edge (fuel : Nat) (g : Graph)
    (src_node_id dest_node_id src_arg_index dst_arg_index : Int) :
    Option (StatusCode × Graph) :=
  match find_node g.m_nodes src_node_id with
  | none => some (StatusCode.FAIL, g)
  | some node_src =>
    match find_node g.m_nodes dest_node_id with
    | none => some (StatusCode.FAIL, g)
    | some node_dst =>
      if src_arg_index < 0 ∨ dst_arg_index < 0 then some (StatusCode.FAIL, g)
      else
        match node_src.output_args.get? src_arg_index.toNat with
        | none => some (StatusCode.FAIL, g)
        | some src_arg =>
          match node_dst.input_args.get? dst_arg_index.toNat with
          | none => some (StatusCode.FAIL, g)
          | some dst_arg =>
            let connected : Graph :=
              { g with
                m_nodes :=
                  update_node dest_node_id
                    (fun n => n.add_input_edge
                      { other_node := src_node_id, src_arg_index := src_arg_index,
                        dst_arg_index := dst_arg_index })
                    (update_node src_node_id
                      (fun n => n.add_output_edge
                        { other_node := dest_node_id, src_arg_index := src_arg_index,
                          dst_arg_index := dst_arg_index })
                      g.m_nodes) }
            if src_arg ≠ dst_arg then
              match NodeArg.ne fuel (g.heap src_arg) (g.heap dst_arg) with
              | none => none
              | some true => some (StatusCode.FAIL, g)
              | some false => some (StatusCode.OK, connected)
            else some (StatusCode.OK, connected)

/-- `Graph::remove_edge`. -/
def remove_edge (g : Graph) (src_node_id dest_node_id src_arg_index dst_arg_index : Int) :
    StatusCode × Graph :=
  match find_node g.m_nodes src_node_id with
  | none => (StatusCode.FAIL, g)
  | some node_src =>
    match find_node g.m_nodes dest_node_id with
    | none => (StatusCode.FAIL, g)
    | some node_dst =>
      if src_arg_index < 0 ∨ dst_arg_index < 0 then (StatusCode.FAIL, g)
      else
        match node_src.output_args.get? src_arg_index.toNat with
        | none => (StatusCode.FAIL, g)
        | some src_arg =>
          match node_dst.input_args.get? dst_arg_index.toNat with
          | none => (StatusCode.FAIL, g)
          | some dst_arg =>
            if src_arg ≠ dst_arg then (StatusCode.FAIL, g)
            else
              (StatusCode.OK,
                { g with
                  m_nodes :=
                    update_node src_node_id
                      (fun n => n.remove_output_edge
                        { other_node := dest_node_id, src_arg_index := src_arg_index,
                          dst_arg_index := dst_arg_index })
                      (update_node dest_node_id
                        (fun n => n.remove_input_edge
                          { other_node := src_node_id, src_arg_index := src_arg_index,
                            dst_arg_index := dst_arg_index })
                        g.m_nodes) })

/-- The loop of `Graph::remove_node` over the input edges of the node `id`;
the status of each `remove_edge` is dropped, as in the source.  A
`remove_edge` that returns OK has erased, from the set the loop runs over, the
edge the loop stands on: from there the loop has no defined behaviour
(`none`). -/
def remove_input_edges (id : Int) : List Edge → Graph → Option Graph
  | [], g => some g
  | input_edge :: rest, g =>
    match remove_edge g input_edge.other_node id input_edge.src_arg_index
        input_edge.dst_arg_index with
    | (StatusCode.OK, _) => none
    | (_, g') => remove_input_edges id rest g'

/-- `Graph::remove_node`; `none`: the loop over the input edges has no defined
behaviour. -/
def remove_node (g : Graph) (id : Int) : Option (StatusCode × Graph) :=
  match find_node g.m_nodes id with
  | none => some (StatusCode.OK, g)
  | some node =>
    if node.output_edges.length ≠ 0 then some (StatusCode.FAIL, g)
    else
      match remove_input_edges id node.input_edges g with
      | none => none
      | some g1 =>
        some (StatusCode.OK,
          { g1 with m_nodes := g1.m_nodes.eraseP (fun n => decide (n.id = id)) })

/-- `Graph::init_node_arg_to_connected_nodes`. -/
def init_node_arg_to_connected_nodes (g : Graph) : StatusCode × Graph :=
  (StatusCode.OK,
    { g with
      m_node_arg_to_producer_node :=
        (g.m_nodes.flatMap (fun n => n.output_args.map (fun out => ((g.heap out).name, n.id)))).foldl
          (fun m kv => map_insert m kv.1 kv.2) []
      m_node_arg_to_consumer_nodes :=
        (g.m_nodes.flatMap (fun n => n.input_args.map (fun inp => ((g.heap inp).name, n.id)))).foldl
          (fun m kv =>
            let ids := (map_find m kv.1).getD []
            map_assign m kv.1 (if kv.2 ∈ ids then ids else ids ++ [kv.2])) [] })

/-- The inner loop of `build_nodes_connections` over the input args of the
node `node_id` (`input_arg_index` is the index of the head of the list).  The
status of `add_edge` is dropped, as in the source; `none`: `add_edge` did not
return. -/
def connect_inputs (fuel : Nat) (node_id : Int) :
    List NodeArgPtr → Int → Graph → Option (StatusCode × Graph)
  | [], _, g => some (StatusCode.OK, g)
  | input_arg :: rest, input_arg_index, g =>
    let input_name := (g.heap input_arg).name
    if input_name = "" then connect_inputs fuel node_id rest (input_arg_index + 1) g
    else
      match map_find g.m_topology_context.output_args input_name with
      | some (output_node_id, output_index) =>
        match add_edge fuel g output_node_id node_id output_index input_arg_index with
        | none => none
        | some (_, g') => connect_inputs fuel node_id rest (input_arg_index + 1) g'
      | none =>
        if input_name ∉ g.m_topology_context.inputs_and_initializers then
          some (StatusCode.INVALID_MODEL, g)
        else connect_inputs fuel node_id rest (input_arg_index + 1) g

/-- The outer loop of `build_nodes_connections` over the nodes, with
`unused_nodes_id`. -/
def connect_nodes (fuel : Nat) :
    List Node → List Int → Graph → Option (StatusCode × List Int × Graph)
  | [], unused_nodes_id, g => some (StatusCode.OK, unused_nodes_id, g)
  | node :: nodes, unused_nodes_id, g =>
    if node.input_args ≠ [] then
      match connect_inputs fuel node.id node.input_args 0 g with
      | none => none
      | some (StatusCode.OK, g') => connect_nodes fuel nodes unused_nodes_id g'
      | some (status, g') => some (status, unused_nodes_id, g')
    else if node.output_args = [] then
      connect_nodes fuel nodes (unused_nodes_id ++ [node.id]) g
    else connect_nodes fuel nodes unused_nodes_id g

/-- The loop of `build_nodes_connections` removing the nodes without args. -/
def remove_unused_nodes : List Int → Graph → Option (StatusCode × Graph)
  | [], g => some (StatusCode.OK, g)
  | id :: ids, g =>
    match remove_node g id with
    | none => none
    | some (StatusCode.OK, g') => remove_unused_nodes ids g'
    | some (status, g') => some (status, g')

/-- `Graph::build_nodes_connections`; `none`: a call of `add_edge` did not
return, or a call of `remove_node` has no defined behaviour. -/
def build_nodes_connections (fuel : Nat) (g : Graph) : Option (StatusCode × Graph) :=
  match connect_nodes fuel g.m_nodes [] g with
  | none => none
  | some (StatusCode.OK, unused_nodes_id, g1) =>
    match remove_unused_nodes unused_nodes_id g1 with
    | none => none
    | some (StatusCode.OK, g2) => some (init_node_arg_to_connected_nodes g2)
    | some (status, g2) => some (status, g2)
  | some (status, _, g1) => some (status, g1)

/-- The memory of the sample below: two distinct `NodeArg` objects named "x"
at the addresses 0 and 1 and a `NodeArg` named "bad" at the address 2. -/
def sample_split_heap : NodeArgPtr → NodeArg :=
  fun p => if p = 2 then NodeArg.named "bad" else NodeArg.named "x"

/-- A graph whose node `n0` produces the `NodeArg` "x" at address 0 and whose
node `n1` consumes the other `NodeArg` "x" at address 1 and the `NodeArg`
"bad", which is no node output, graph input or initializer. -/
def sample_split_args : Graph :=
  add_node
    (add_node (Graph.empty sample_split_heap 3)
      { id := 0, name := "n0", type := "Relu", input_args := [], output_args := [0],
        input_edges := [], output_edges := [] })
    { id := 1, name := "n1", type := "Add", input_args := [1, 2], output_args := [],
      input_edges := [], output_edges := [] }

/-- The sample above with the `NodeArg` "x" shared: `n1` consumes the object at
address 0 that `n0` produces. -/
def sample_shared_args : Graph :=
  add_node
    (add_node (Graph.empty sample_split_heap 3)
      { id := 0, name := "n0", type := "Relu", input_args := [], output_args := [0],
        input_edges := [], output_edges := [] })
    { id := 1, name := "n1", type := "Add", input_args := [0, 2], output_args := [],
      input_edges := [], output_edges := [] }

/-! ## Shape inference -/

/-- The member `m_attributes` of a node, keyed by attribute name. -/
abbrev Attributes := List (String × NodeAttribute)

/-- `utils::get_attr<int64_t>`: the error is the returned `Status(FAIL)`, the
value is what is stored through `value` with `Status::ok()`. -/
def get_attr_int64 (name : String) (attributes : Attributes) : Except StatusCode Int :=
  match map_find attributes name with
  | none => Except.error StatusCode.FAIL
  | some attr =>
    if attr.type ≠ NodeAttributeType.INT64 then Except.error StatusCode.FAIL
    else Except.ok attr.m_int64

/-- `utils::get_attr<std::string>`. -/
def get_attr_string (name : String) (attributes : Attributes) : Except StatusCode String :=
  match map_find attributes name with
  | none => Except.error StatusCode.FAIL
  | some attr =>
    if attr.type ≠ NodeAttributeType.STRING then Except.error StatusCode.FAIL
    else Except.ok attr.m_string

/-- `utils::get_attrs<int64_t>`. -/
def get_attrs_int64 (name : String) (attributes : Attributes) : Except StatusCode (List Int) :=
  match map_find attributes name with
  | none => Except.error StatusCode.FAIL
  | some attr =>
    if attr.type ≠ NodeAttributeType.INT64_ARRAY then Except.error StatusCode.FAIL
    else Except.ok attr.m_int64s

/-- `utils::get_attr_or_default<int64_t>`. -/
def get_attr_or_default_int64 (name : String) (default_value : Int)
    (attributes : Attributes) : Int :=
  match get_attr_int64 name attributes with
  | Except.ok tmp => tmp
  | Except.error _ => default_value

/-- `utils::get_attr_or_default<std::string>`. -/
def get_attr_or_default_string (name : String) (default_value : String)
    (attributes : Attributes) : String :=
  match get_attr_string name attributes with
  | Except.ok tmp => tmp
  | Except.error _ => default_value

/-- `utils::get_attrs_or_default<int64_t>`. -/
def get_attrs_or_default_int64 (name : String) (default_value : List Int)
    (attributes : Attributes) : List Int :=
  match get_attrs_int64 name attributes with
  | Except.ok tmp => tmp
  | Except.error _ => default_value

/-- The value of an `int64_t` result: the integer is reduced into the range
from -2^63 to 2^63 - 1. -/
def wrap_int64 (x : Int) : Int :=
  (x + 9223372036854775808) % 18446744073709551616 - 9223372036854775808

/-- `a + b` on `int64_t`. -/
def add_int64 (a b : Int) : Int := wrap_int64 (a + b)

/-- `a - b` on `int64_t`. -/
def sub_int64 (a b : Int) : Int := wrap_int64 (a - b)

/-- `a * b` on `int64_t`. -/
def mul_int64 (a b : Int) : Int := wrap_int64 (a * b)

/-- `a / b` on `int64_t`: the quotient rounded towards zero; `none` where the
division is undefined (a zero divisor, or the least value divided by -1). -/
def div_int64 (a b : Int) : Option Int :=
  if b = 0 ∨ (a = -9223372036854775808 ∧ b = -1) then none else some (Int.tdiv a b)

/-- What a call of `IShapeInfer::infer` does: it has no defined behaviour (a
read outside a vector, an undefined division), or it returns a failure status
and leaves the outputs alone, or it stores a shape in `outputs[0]` and returns
OK. -/
inductive InferResult where
  | undefined
  | failed (code : StatusCode)
  | inferred (shape : List Int)
  deriving DecidableEq, Repr

/-- `ReluShapeInfer::infer` on the shapes of `inputs`, for `num_outputs`
outputs. -/
def ReluShapeInfer_infer (inputs : List (List Int)) (num_outputs : Nat) : InferResult :=
  if inputs.length ≠ 1 ∨ num_outputs ≠ 1 then InferResult.failed StatusCode.INVALID_PARAM
  else
    match inputs.get? 0 with
    | none => InferResult.undefined
    | some shape => InferResult.inferred shape

/-- The loop body of `AddShapeInfer::infer` run over the aligned pairs: the
first list holds the values of `d1`, the second the values of `d2`, index by
index.  The error is the `return Status(INVALID_PARAM)` inside the loop, the
value the dims written to `out_dims`. -/
def add_overlap : List Int → List Int → Except StatusCode (List Int)
  | d1 :: d1s, d2 :: d2s =>
    if d1 = 1 ∨ d2 = 1 ∨ d1 = d2 then
      match add_overlap d1s d2s with
      | Except.ok rest => Except.ok (max d1 d2 :: rest)
      | Except.error code => Except.error code
    else Except.error StatusCode.INVALID_PARAM
  | _, _ => Except.ok []

/-- `AddShapeInfer::infer`.  In the first branch `d1` runs over the last dims
of `shape1` and `d2` over `shape2`; in the second `d1` runs over `shape1` and
`d2` over the last dims of `shape2`. -/
def AddShapeInfer_infer (inputs : List (List Int)) (num_outputs : Nat) : InferResult :=
  if inputs.length ≠ 2 ∨ num_outputs ≠ 1 then InferResult.failed StatusCode.INVALID_PARAM
  else
    match inputs.get? 0, inputs.get? 1 with
    | some shape1, some shape2 =>
      if shape1.length ≥ shape2.length then
        let start1 := shape1.length - shape2.length
        match add_overlap (shape1.drop start1) shape2 with
        | Except.ok dims => InferResult.inferred (shape1.take start1 ++ dims)
        | Except.error code => InferResult.failed code
      else
        let start2 := shape2.length - shape1.length
        match add_overlap shape1 (shape2.drop start2) with
        | Except.ok dims => InferResult.inferred (shape2.take start2 ++ dims)
        | Except.error code => InferResult.failed code
    | _, _ => InferResult.undefined

/-- The two loops of `FlattenShapeInfer::infer`: the running `int64_t` product
of the dims, started at 1. -/
def flatten_product (dims : List Int) : Int := dims.foldl mul_int64 1

/-- `FlattenShapeInfer::infer`.  (`axis += rank` is done for a negative `axis`
and a rank that is not negative, so it cannot leave the range of `int64_t`.) -/
def FlattenShapeInfer_infer (inputs : List (List Int)) (attributes : Attributes)
    (num_outputs : Nat) : InferResult :=
  if inputs.length ≠ 1 ∨ num_outputs ≠ 1 then InferResult.failed StatusCode.INVALID_PARAM
  else
    match inputs.get? 0 with
    | none => InferResult.undefined
    | some input_shape =>
      let axis := get_attr_or_default_int64 "axis" 1 attributes
      let rank : Int := input_shape.length
      let axis := if axis < 0 then axis + rank else axis
      if axis < 0 ∨ axis > rank then InferResult.failed StatusCode.INVALID_PARAM
      else
        InferResult.inferred
          [flatten_product (input_shape.take axis.toNat),
           flatten_product (input_shape.drop axis.toNat)]

/-- The check of the third input of `GemmShapeInfer::infer`:
`valid_c_shape`. -/
def gemm_valid_c_shape (mat_C_shape : List Int) (m_a n_b : Int) : Bool :=
  match mat_C_shape with
  | [c0, c1] => (decide (c0 = m_a) || decide (c0 = 1)) && (decide (c1 = n_b) || decide (c1 = 1))
  | [c0] => decide (c0 = 1) || decide (c0 = n_b)
  | _ => false

/-- `GemmShapeInfer::infer`. -/
def GemmShapeInfer_infer (inputs : List (List Int)) (attributes : Attributes)
    (num_outputs : Nat) : InferResult :=
  if inputs.length < 2 ∨ num_outputs ≠ 1 then InferResult.failed StatusCode.INVALID_PARAM
  else
    match inputs.get? 0, inputs.get? 1 with
    | some [a0, a1], some [b0, b1] =>
      let transA := get_attr_or_default_int64 "transA" 0 attributes
      let transB := get_attr_or_default_int64 "transB" 0 attributes
      let m_a := if transA ≠ 0 then a1 else a0
      let k_a := if transA ≠ 0 then a0 else a1
      let n_b := if transB ≠ 0 then b0 else b1
      let k_b := if transB ≠ 0 then b1 else b0
      if k_a ≠ k_b then InferResult.failed StatusCode.INVALID_PARAM
      else if inputs.length = 3 then
        match inputs.get? 2 with
        | none => InferResult.undefined
        | some mat_C_shape =>
          if !gemm_valid_c_shape mat_C_shape m_a n_b then
            InferResult.failed StatusCode.INVALID_PARAM
          else InferResult.inferred [m_a, n_b]
      else InferResult.inferred [m_a, n_b]
    | some _, some _ => InferResult.failed StatusCode.INVALID_PARAM
    | _, _ => InferResult.undefined

/-- `GlobalAveragePoolShapeInfer::infer`. -/
def GlobalAveragePoolShapeInfer_infer (inputs : List (List Int)) (num_outputs : Nat) :
    InferResult :=
  if inputs.length ≠ 1 ∨ num_outputs ≠ 1 then InferResult.failed StatusCode.INVALID_PARAM
  else
    match inputs.get? 0 with
    | none => InferResult.undefined
    | some input_shape =>
      if input_shape.length < 2 then InferResult.failed StatusCode.INVALID_PARAM
      else
        match input_shape.get? 0, input_shape.get? 1 with
        | some d0, some d1 =>
          InferResult.inferred (d0 :: d1 :: List.replicate (input_shape.length - 2) 1)
        | _, _ => InferResult.undefined

/-- An element read `v[i]` of a vector: `none` outside the vector, where the
read has no defined behaviour. -/
def vector_at (v : List Int) (i : Nat) : Option Int := v.get? i

/-- The loop of `ConvShapeInfer::infer` over the spatial axes `i`, for
`remaining` more iterations: the dims appended to `out_shape`, `none` where an
iteration has no defined behaviour. -/
def conv_spatial_dims (input_shape kernel_shape pads dilations strides : List Int) :
    Nat → Nat → Option (List Int)
  | _, 0 => some []
  | i, remaining + 1 =>
    match vector_at input_shape (i + 2), vector_at pads i,
        vector_at pads (i + pads.length / 2), vector_at dilations i,
        vector_at kernel_shape i, vector_at strides i with
    | some x, some pad_begin, some pad_end, some dilation, some kernel, some stride =>
      match div_int64
          (sub_int64
            (sub_int64 (add_int64 (add_int64 x pad_begin) pad_end)
              (mul_int64 dilation (sub_int64 kernel 1)))
            1)
          stride with
      | none => none
      | some quotient =>
        match conv_spatial_dims input_shape kernel_shape pads dilations strides (i + 1)
            remaining with
        | none => none
        | some rest => some (add_int64 quotient 1 :: rest)
    | _, _, _, _, _, _ => none

/-- `ConvShapeInfer::infer`. -/
def ConvShapeInfer_infer (inputs : List (List Int)) (attributes : Attributes)
    (num_outputs : Nat) : InferResult :=
  if inputs.length < 2 ∨ num_outputs ≠ 1 then InferResult.failed StatusCode.INVALID_PARAM
  else
    let auto_pad := get_attr_or_default_string "auto_pad" "NOTSET" attributes
    let dilations := get_attrs_or_default_int64 "dilations" [] attributes
    let group := get_attr_or_default_int64 "group" 1 attributes
    let kernel_shape := get_attrs_or_default_int64 "kernel_shape" [] attributes
    let pads := get_attrs_or_default_int64 "pads" [] attributes
    let strides := get_attrs_or_default_int64 "strides" [] attributes
    if auto_pad ≠ "NOTSET" then InferResult.failed StatusCode.NOT_IMPLEMENTED
    else if group ≤ 1 then InferResult.failed StatusCode.NOT_IMPLEMENTED
    else
      match inputs.get? 0, inputs.get? 1 with
      | some input_shape, some weight_shape =>
        if input_shape.length < 2 then InferResult.failed StatusCode.INVALID_PARAM
        else if weight_shape.length < 2 ∨ input_shape.length ≠ weight_shape.length then
          InferResult.failed StatusCode.INVALID_PARAM
        else
          let kernel_shape := if kernel_shape.length = 0 then weight_shape.drop 2 else kernel_shape
          let kernel_size := kernel_shape.length
          if kernel_size > input_shape.length then InferResult.failed StatusCode.INVALID_PARAM
          else if dilations.length ≠ kernel_size ∧ dilations.length ≠ 0 then
            InferResult.failed StatusCode.INVALID_PARAM
          else
            let dilations :=
              if dilations.length ≠ kernel_size then List.replicate kernel_size 1 else dilations
            if pads.length % 2 ≠ 0 then InferResult.failed StatusCode.INVALID_PARAM
            else if pads.length / 2 = kernel_size ∧ pads.any (fun pad => decide (pad < 0)) then
              InferResult.failed StatusCode.INVALID_PARAM
            else if pads.length / 2 ≠ kernel_size ∧ pads.length ≠ 0 then
              InferResult.failed StatusCode.INVALID_PARAM
            else
              let pads :=
                if pads.length / 2 = kernel_size then pads
                else List.replicate (kernel_size * 2) 0
              if strides.length ≠ kernel_size ∧ strides.length ≠ 0 then
                InferResult.failed StatusCode.INVALID_PARAM
              else
                let strides :=
                  if strides.length ≠ kernel_size then List.replicate kernel_size 1 else strides
                match vector_at input_shape 0, vector_at kernel_shape 0,
                    conv_spatial_dims input_shape kernel_shape pads dilations strides 0
                      kernel_size with
                | some batch, some channel, some dims =>
                  InferResult.inferred (batch :: channel :: dims)
                | _, _, _ => InferResult.undefined
      | _, _ => InferResult.undefined

/-- The second loop of `MaxPoolShapeInfer::infer`, over the axes `i` with the
kernel index `j`, for `remaining` more iterations: the dims stored in
`output_shape` from `i` on, `none` where an iteration has no defined
behaviour.  The stride is read as `strides[i]`, as in the source. -/
def max_pool_spatial_dims (input_shape kernel_shape pads dilations strides : List Int)
    (ceil_mode : Int) : Nat → Nat → Nat → Option (List Int)
  | _, _, 0 => some []
  | i, j, remaining + 1 =>
    match vector_at input_shape i, vector_at pads j, vector_at pads (j + pads.length / 2),
        vector_at dilations j, vector_at kernel_shape j, vector_at strides i with
    | some x, some pad_begin, some pad_end, some dilation, some kernel, some stride =>
      let tmp1 :=
        sub_int64
          (sub_int64 (add_int64 (add_int64 x pad_begin) pad_end)
            (mul_int64 dilation (sub_int64 kernel 1)))
          1
      match div_int64 tmp1 stride with
      | none => none
      | some tmp2 =>
        let dim :=
          if ceil_mode ≠ 0 then
            if mul_int64 tmp2 stride = tmp1 then add_int64 tmp2 1 else add_int64 tmp2 2
          else add_int64 tmp2 1
        match max_pool_spatial_dims input_shape kernel_shape pads dilations strides ceil_mode
            (i + 1) (j + 1) remaining with
        | none => none
        | some rest => some (dim :: rest)
    | _, _, _, _, _, _ => none

/-- `MaxPoolShapeInfer::infer`. -/
def MaxPoolShapeInfer_infer (inputs : List (List Int)) (attributes : Attributes)
    (num_outputs : Nat) : InferResult :=
  if inputs.length ≠ 1 ∨ num_outputs ≠ 1 then InferResult.failed StatusCode.NOT_IMPLEMENTED
  else
    let auto_pad := get_attr_or_default_string "auto_pad" "NOTSET" attributes
    let ceil_mode := get_attr_or_default_int64 "ceil_mode" 0 attributes
    let dilations := get_attrs_or_default_int64 "dilations" [] attributes
    let kernel_shape := get_attrs_or_default_int64 "kernel_shape" [] attributes
    let pads := get_attrs_or_default_int64 "pads" [] attributes
    let strides := get_attrs_or_default_int64 "strides" [] attributes
    match inputs.get? 0 with
    | none => InferResult.undefined
    | some input_shape =>
      let dim_num := input_shape.length
      if dim_num < 2 then InferResult.failed StatusCode.INVALID_PARAM
      else if auto_pad ≠ "NOTSET" then InferResult.failed StatusCode.INVALID_PARAM
      else
        let kernel_size := kernel_shape.length
        if kernel_size > dim_num then InferResult.failed StatusCode.INVALID_PARAM
        else if dilations.length ≠ kernel_size ∧ dilations.length ≠ 0 then
          InferResult.failed StatusCode.INVALID_PARAM
        else
          let dilations :=
            if dilations.length ≠ kernel_size then List.replicate kernel_size 1 else dilations
          if pads.length % 2 ≠ 0 then InferResult.failed StatusCode.INVALID_PARAM
          else if pads.length / 2 = kernel_size ∧ pads.any (fun pad => decide (pad < 0)) then
            InferResult.failed StatusCode.INVALID_PARAM
          else if pads.length / 2 ≠ kernel_size ∧ pads.length ≠ 0 then
            InferResult.failed StatusCode.INVALID_PARAM
          else
            let pads :=
              if pads.length / 2 = kernel_size then pads
              else List.replicate (kernel_size * 2) 0
            if strides.length ≠ kernel_size ∧ strides.length ≠ 0 then
              InferResult.failed StatusCode.INVALID_PARAM
            else
              let strides :=
                if strides.length ≠ kernel_size then List.replicate kernel_size 1 else strides
              match max_pool_spatial_dims input_shape kernel_shape pads dilations strides
                  ceil_mode (dim_num - kernel_size) 0 kernel_size with
              | none => InferResult.undefined
              | some dims => InferResult.inferred (input_shape.take (dim_num - kernel_size) ++ dims)

/-- The virtual call `infer->infer(...)` on the shapes of the inputs. -/
def IShapeInfer.infer_shape (self : IShapeInfer) (inputs : List (List Int))
    (attributes : Attributes) (num_outputs : Nat) : InferResult :=
  match self with
  | IShapeInfer.ConvShapeInfer => ConvShapeInfer_infer inputs attributes num_outputs
  | IShapeInfer.GemmShapeInfer => GemmShapeInfer_infer inputs attributes num_outputs
  | IShapeInfer.ReluShapeInfer => ReluShapeInfer_infer inputs num_outputs
  | IShapeInfer.MaxPoolShapeInfer => MaxPoolShapeInfer_infer inputs attributes num_outputs
  | IShapeInfer.GlobalAveragePoolShapeInfer =>
    GlobalAveragePoolShapeInfer_infer inputs num_outputs
  | IShapeInfer.FlattenShapeInfer => FlattenShapeInfer_infer inputs attributes num_outputs
  | IShapeInfer.AddShapeInfer => AddShapeInfer_infer inputs num_outputs

/-- `NodeArg::set_shape` through a pointer. -/
def set_shape (heap : NodeArgPtr → NodeArg) (arg : NodeArgPtr) (shape : List Int) :
    NodeArgPtr → NodeArg :=
  fun p => if p = arg then { heap arg with shape := shape } else heap p

/-- `Node::infer_shape`: the call `infer->infer(m_name, m_input_args,
m_attributes, m_output_args)` in the memory `heap`; `none` where the call has
no defined behaviour. -/
def Node.infer_shape (node : Node) (infer : IShapeInfer) (heap : NodeArgPtr → NodeArg) :
    Option (StatusCode × (NodeArgPtr → NodeArg)) :=
  match infer.infer_shape (node.input_args.map (fun p => (heap p).shape)) node.attributes
      node.output_args.length with
  | InferResult.undefined => none
  | InferResult.failed code => some (code, heap)
  | InferResult.inferred shape =>
    match node.output_args.get? 0 with
    | none => none
    | some output => some (StatusCode.OK, set_shape heap output shape)

/-! ### `Graph::construct_topology` -/

/-- The first loop of `check_inputs_initializers_names` over
`m_inputs_exclude_initializer`: the status and the name set afterwards; `none`
where `item->name()` is read through a null pointer. -/
def check_input_names (heap : NodeArgPtr → NodeArg) :
    List (Option NodeArgPtr) → List String → Option (StatusCode × List String)
  | [], names => some (StatusCode.OK, names)
  | none :: _, _ => none
  | some item :: rest, names =>
    if (heap item).name ∈ names then some (StatusCode.INVALID_MODEL, names)
    else check_input_names heap rest (names ++ [(heap item).name])

/-- `Graph::check_inputs_initializers_names`.  The set
`inputs_and_initializers` is not cleared on entry, as in the source. -/
def check_inputs_initializers_names (g : Graph) : Option (StatusCode × Graph) :=
  match check_input_names g.heap g.m_inputs_exclude_initializer
      g.m_topology_context.inputs_and_initializers with
  | none => none
  | some (StatusCode.OK, names) =>
    some (StatusCode.OK,
      { g with
        m_topology_context :=
          { g.m_topology_context with
            inputs_and_initializers :=
              g.m_initializer_map.foldl
                (fun names kv => if kv.1 ∈ names then names else names ++ [kv.1]) names } })
  | some (status, names) =>
    some (status,
      { g with
        m_topology_context :=
          { g.m_topology_context with inputs_and_initializers := names } })

/-- `Graph::init_inputs_initializers_outputs`. -/
def init_inputs_initializers_outputs (g : Graph) : Option (StatusCode × Graph) :=
  match check_inputs_initializers_names g with
  | none => none
  | some (StatusCode.OK, g1) => some (check_no_duplicate_names g1)
  | some (status, g1) => some (status, g1)

/-- The loop of `Graph::infer_shape` over `m_topological_nodes`, with the
inferers held by the `NodeShapeManager` singleton: the status and the memory
afterwards. -/
def infer_shape_nodes (registry : NodeInferMap) :
    List Node → (NodeArgPtr → NodeArg) → Option (StatusCode × (NodeArgPtr → NodeArg))
  | [], heap => some (StatusCode.OK, heap)
  | node :: nodes, heap =>
    match get_shape_infer registry node.type with
    | none => some (StatusCode.FAIL, heap)
    | some infer =>
      match node.infer_shape infer heap with
      | none => none
      | some (StatusCode.OK, heap') => infer_shape_nodes registry nodes heap'
      | some (status, heap') => some (status, heap')

/-- `Graph::infer_shape`. -/
def infer_shape (registry : NodeInferMap) (g : Graph) : Option (StatusCode × Graph) :=
  match infer_shape_nodes registry g.m_topological_nodes g.heap with
  | none => none
  | some (status, heap) => some (status, { g with heap := heap })

/-- `TopologyContext::clear`. -/
def TopologyContext.clear (_ : TopologyContext) : TopologyContext :=
  { inputs_and_initializers := [], output_args := [], node_name_to_id := [] }

/-- `Graph::construct_topology`, with the inferers held by the
`NodeShapeManager` singleton; `none` where a step does not return or has no
defined behaviour. -/
def construct_topology (fuel : Nat) (registry : NodeInferMap) (g : Graph) :
    Option (StatusCode × Graph) :=
  match init_inputs_initializers_outputs g with
  | none => none
  | some (StatusCode.OK, g1) =>
    match build_nodes_connections fuel g1 with
    | none => none
    | some (StatusCode.OK, g2) =>
      match topological_sort g2.m_nodes with
      | none => none
      | some (StatusCode.OK, topological_nodes) =>
        match infer_shape registry { g2 with m_topological_nodes := topological_nodes } with
        | none => none
        | some (StatusCode.OK, g3) =>
          some (clean_unused_initializers_args
            { g3 with m_topology_context := g3.m_topology_context.clear })
        | some (status, g3) => some (status, g3)
      | some (status, topological_nodes) =>
        some (status, { g2 with m_topological_nodes := topological_nodes })
    | some (status, g2) => some (status, g2)
  | some (status, g1) => some (status, g1)

/-- The graph of the single-op scenario: the declared float32 input "x" of
shape `shape`, the declared output "y", and the Relu node "r" from "x" to "y";
the `NodeArg` of "x" is at address 0, that of "y" at address 1.  `initialize`
has been called. -/
def sample_relu_graph (shape : List Int) : Graph :=
  (initialize_graph
    (add_node
      (add_output_name
        (get_or_create_nodearg
          (add_input_name
            (get_or_create_nodearg (Graph.empty (fun _ => NodeArg.named "") 0) "x"
              { name := "x", data_type := PrimitiveDataType.FLOAT32, shape := shape }).2
            "x")
          "y" { name := "y", data_type := PrimitiveDataType.FLOAT32, shape := [] }).2
        "y")
      { id := 0, name := "r", type := "Relu", input_args := [0], output_args := [1],
        input_edges := [], output_edges := [] })).2

/-- An attribute of kind INT64. -/
def NodeAttribute.of_int64 (value : Int) : NodeAttribute :=
  { type := NodeAttributeType.INT64, m_int64 := value }

/-- An attribute of kind STRING. -/
def NodeAttribute.of_string (value : String) : NodeAttribute :=
  { type := NodeAttributeType.STRING, m_string := value }

/-- An attribute of kind INT64_ARRAY. -/
def NodeAttribute.of_int64s (values : List Int) : NodeAttribute :=
  { type := NodeAttributeType.INT64_ARRAY, m_int64s := values }

/-- The attributes of the Conv scenario: pads {3,3,3,3}, strides {2,2},
dilations {1,1}. -/
def sample_conv_attributes : Attributes :=
  [("pads", NodeAttribute.of_int64s [3, 3, 3, 3]),
   ("strides", NodeAttribute.of_int64s [2, 2]),
   ("dilations", NodeAttribute.of_int64s [1, 1])]

/-- The normalised axis of Flatten for an input of rank `rank`: the attribute
`axis`, 1 when absent, plus the rank when negative. -/
def flatten_axis (attributes : Attributes) (rank : Nat) : Int :=
  if get_attr_or_default_int64 "axis" 1 attributes < 0 then
    get_attr_or_default_int64 "axis" 1 attributes + rank
  else get_attr_or_default_int64 "axis" 1 attributes

/-- The pair (m, k) read from a rank-2 shape {d0, d1}: the shape itself, or its
transpose when `trans` is not zero. -/
def gemm_dims_A (trans d0 d1 : Int) : Int × Int :=
  if trans ≠ 0 then (d1, d0) else (d0, d1)

/-- The pair (k, n) read from a rank-2 shape {d0, d1}: the shape itself, or its
transpose when `trans` is not zero. -/
def gemm_dims_B (trans d0 d1 : Int) : Int × Int :=
  if trans ≠ 0 then (d1, d0) else (d0, d1)

/-- The shapes accepted for the third Gemm input: rank 1 with size 1 or n, or
rank 2 with first dim 1 or m and second dim 1 or n. -/
def gemm_c_accepted (C : List Int) (m n : Int) : Prop :=
  (∃ c0, C = [c0] ∧ (c0 = 1 ∨ c0 = n)) ∨
  (∃ c0 c1, C = [c0, c1] ∧ (c0 = 1 ∨ c0 = m) ∧ (c1 = 1 ∨ c1 = n))
/-! ## Allocator and tensor storage -/

/-- `IAllocator::calc_aligned_mem_size` on a 64-bit `size_t`: the sum wraps
modulo 2^64 and the complement of the mask is `2^64 - 1 - mask`. -/
def calc_aligned_mem_size (size alignment : Nat) : Nat :=
  if alignment = 0 then size
  else
    let alignment_mask := alignment - 1
    ((size + alignment_mask) % 18446744073709551616) &&&
      (18446744073709551615 - alignment_mask)

/-- The interface `framework::IAllocator`, reduced to `alloc`: the address of
the block handed out for a byte count, `none` for the null pointer. -/
structure IAllocator where
  alloc : Nat → Option Nat

/-- `framework::size_of_datatype`: the table `kPrimitiveSize`. -/
def size_of_datatype : PrimitiveDataType → Nat
  | PrimitiveDataType.FLOAT32 => 4
  | PrimitiveDataType.FLOAT16 => 2
  | PrimitiveDataType.INT8 => 1
  | PrimitiveDataType.UINT8 => 1
  | PrimitiveDataType.INT16 => 2
  | PrimitiveDataType.UINT16 => 2
  | PrimitiveDataType.INT32 => 4
  | PrimitiveDataType.UINT32 => 4
  | PrimitiveDataType.INT64 => 8
  | PrimitiveDataType.UINT64 => 8
  | PrimitiveDataType.UNKNOWN => 0

/-- `TensorShape::element_num`: 0 without dims, otherwise the first dim
multiplied by the others in `int64_t`. -/
def element_num : List Int → Int
  | [] => 0
  | d :: ds => ds.foldl mul_int64 d

/-- `Tensor::calc_storage_size`: the returned status and the value of the
output parameter `size` afterwards (`size` is its value before the call).  The
product is taken in `size_t`. -/
def calc_storage_size (data_type : PrimitiveDataType) (shape : List Int) (size : Nat) :
    StatusCode × Nat :=
  if element_num shape < 0 then (StatusCode.FAIL, size)
  else if element_num shape = 0 then (StatusCode.OK, 0)
  else
    (StatusCode.OK,
      (size_of_datatype data_type * (element_num shape % 18446744073709551616).toNat)
        % 18446744073709551616)

/-- `Tensor::init(data_type, shape, allocator)`: the returned status and the
tensor afterwards.  The release of a buffer held before is not represented. -/
def Tensor.init (t : Tensor) (data_type : PrimitiveDataType) (shape : List Int)
    (allocator : IAllocator) : StatusCode × Tensor :=
  let r := calc_storage_size data_type shape 0
  (StatusCode.OK,
    { t with
      data_type := data_type
      shape := shape
      m_byte_offset := 0
      m_allocator := true
      m_p_data := if r.1 = StatusCode.OK ∧ r.2 > 0 then allocator.alloc r.2 else none })

/-- An allocator that hands out the address 4096 for every request. -/
def sample_allocator : IAllocator := { alloc := fun _ => some 4096 }

/-- An allocator that is out of memory: every request gives the null
pointer. -/
def sample_failing_allocator : IAllocator := { alloc := fun _ => none }

/-- `utils::get_attr<float>`; the value is the 32-bit pattern of the stored
`float`. -/
def get_attr_float (name : String) (attributes : Attributes) : Except StatusCode Nat :=
  match map_find attributes name with
  | none => Except.error StatusCode.FAIL
  | some attr =>
    if attr.type ≠ NodeAttributeType.FLOAT then Except.error StatusCode.FAIL
    else Except.ok attr.m_float

/-- `utils::get_attr_or_default<float>`. -/
def get_attr_or_default_float (name : String) (default_value : Nat)
    (attributes : Attributes) : Nat :=
  match get_attr_float name attributes with
  | Except.ok tmp => tmp
  | Except.error _ => default_value

/-- The graph of the cycle scenario: the nodes n1 (input "a", output "b"), n2
(input "b", output "c") and n3 (input "c", output "a") with ids 0, 1, 2, sharing
the `NodeArg` objects of "a", "b", "c" at the addresses 0, 1, 2; "a" is a
declared graph input when `declare_a` is set.  `initialize` has been called. -/
def sample_cycle_graph (declare_a : Bool) : Graph :=
  let g0 := (get_or_create_nodearg (Graph.empty (fun _ => NodeArg.named "") 0) "a"
    { name := "a", data_type := PrimitiveDataType.FLOAT32, shape := [1] }).2
  let g1 := (get_or_create_nodearg g0 "b"
    { name := "b", data_type := PrimitiveDataType.FLOAT32, shape := [1] }).2
  let g2 := (get_or_create_nodearg g1 "c"
    { name := "c", data_type := PrimitiveDataType.FLOAT32, shape := [1] }).2
  let g3 := if declare_a then add_input_name g2 "a" else g2
  (initialize_graph
    (add_node
      (add_node
        (add_node g3
          { id := 0, name := "n1", type := "Relu", input_args := [0], output_args := [1],
            input_edges := [], output_edges := [] })
        { id := 1, name := "n2", type := "Relu", input_args := [1], output_args := [2],
          input_edges := [], output_edges := [] })
      { id := 2, name := "n3", type := "Relu", input_args := [2], output_args := [0],
        input_edges := [], output_edges := [] })).2

/-- The status of a step and the nodes afterwards, each as name, input edges
and output edges. -/
def status_and_edges (r : Option (StatusCode × Graph)) :
    Option (StatusCode × List (String × List Edge × List Edge)) :=
  r.map (fun p => (p.1, p.2.m_nodes.map (fun n => (n.name, n.input_edges, n.output_edges))))

/-- `build_nodes_connections` followed by `topological_sort`, as in steps 2
and 3 of `construct_topology`: the two statuses and the names of
`m_topological_nodes`. -/
def build_then_sort (fuel : Nat) (g : Graph) : Option (StatusCode × StatusCode × List String) :=
  match build_nodes_connections fuel g with
  | none => none
  | some (status, g2) =>
    match topological_sort g2.m_nodes with
    | none => none
    | some (sorted, topological_nodes) =>
      some (status, sorted, topological_nodes.map Node.name)

/-! ## The ONNX deserializer (`src/io/onnx_serializer.cpp`)

The protobuf messages of `onnx.proto` are records holding the fields the
deserializer reads; a `float` is held as its 32-bit pattern and `raw_data` as
its bytes. -/

/-- The enumeration `onnx::AttributeProto_AttributeType`. -/
inductive AttributeProto_AttributeType where
  | UNDEFINED
  | FLOAT
  | INT
  | STRING
  | TENSOR
  | GRAPH
  | FLOATS
  | INTS
  | STRINGS
  | TENSORS
  | GRAPHS
  | SPARSE_TENSOR
  | SPARSE_TENSORS
  | TYPE_PROTO
  | TYPE_PROTOS
  deriving DecidableEq, Repr

/-- The enumeration `onnx::TensorProto_DataType`. -/
inductive TensorProto_DataType where
  | UNDEFINED
  | FLOAT
  | UINT8
  | INT8
  | UINT16
  | INT16
  | INT32
  | INT64
  | STRING
  | BOOL
  | FLOAT16
  | DOUBLE
  | UINT32
  | UINT64
  | COMPLEX64
  | COMPLEX128
  | BFLOAT16
  deriving DecidableEq, Repr

/-- The message `onnx::TensorProto`. -/
structure TensorProto where
  name : String := ""
  data_type : TensorProto_DataType := TensorProto_DataType.UNDEFINED
  dims : List Int := []
  raw_data : List Nat := []
  float_data : List Nat := []
  deriving DecidableEq, Repr

/-- The message `onnx::TensorShapeProto_Dimension` by its `value_case`. -/
inductive TensorShapeProto_Dimension where
  | dim_value (value : Int)
  | dim_param (param : String)
  | not_set
  deriving DecidableEq, Repr

/-- The message `onnx::TypeProto` by its `value_case`: a tensor type with its
element type and the dims of its shape, or anything else. -/
inductive TypeProto where
  | tensor_type (elem_type : TensorProto_DataType) (shape : List TensorShapeProto_Dimension)
  | other
  deriving DecidableEq, Repr

/-- The message `onnx::ValueInfoProto`. -/
structure ValueInfoProto where
  name : String
  type : TypeProto
  deriving DecidableEq, Repr

/-- The message `onnx::AttributeProto`. -/
structure AttributeProto where
  name : String
  type : AttributeProto_AttributeType
  f : Nat := 0
  i : Int := 0
  s : String := ""
  t : TensorProto := {}
  floats : List Nat := []
  ints : List Int := []
  strings : List String := []
  tensors : List TensorProto := []
  deriving DecidableEq, Repr

/-- The message `onnx::NodeProto`; its repeated field `attribute` is named
`attributes` here. -/
structure NodeProto where
  name : String
  op_type : String
  input : List String := []
  output : List String := []
  attributes : List AttributeProto := []
  deriving DecidableEq, Repr

/-- The message `onnx::GraphProto`. -/
structure GraphProto where
  node : List NodeProto := []
  input : List ValueInfoProto := []
  initializer : List TensorProto := []
  output : List ValueInfoProto := []
  value_info : List ValueInfoProto := []
  deriving DecidableEq, Repr

/-- `OnnxSerializer::tensor_datatype_to_primitive`. -/
def tensor_datatype_to_primitive : TensorProto_DataType → PrimitiveDataType
  | TensorProto_DataType.FLOAT => PrimitiveDataType.FLOAT32
  | TensorProto_DataType.INT8 => PrimitiveDataType.INT8
  | TensorProto_DataType.UINT8 => PrimitiveDataType.UINT8
  | TensorProto_DataType.INT16 => PrimitiveDataType.INT16
  | TensorProto_DataType.UINT16 => PrimitiveDataType.UINT16
  | TensorProto_DataType.INT32 => PrimitiveDataType.INT32
  | TensorProto_DataType.UINT32 => PrimitiveDataType.UINT32
  | TensorProto_DataType.INT64 => PrimitiveDataType.INT64
  | TensorProto_DataType.UINT64 => PrimitiveDataType.UINT64
  | _ => PrimitiveDataType.UNKNOWN

/-- `OnnxSerializer::shapeproto_to_tensorshape`. -/
def shapeproto_to_tensorshape (shape_proto : List TensorShapeProto_Dimension) : List Int :=
  shape_proto.map (fun dim =>
    match dim with
    | TensorShapeProto_Dimension.dim_value value => value
    | _ => -1)

/-- `OnnxSerializer::convert_to_node_attrtype`. -/
def convert_to_node_attrtype : AttributeProto_AttributeType → NodeAttributeType
  | AttributeProto_AttributeType.INT => NodeAttributeType.INT64
  | AttributeProto_AttributeType.FLOAT => NodeAttributeType.FLOAT
  | AttributeProto_AttributeType.STRING => NodeAttributeType.STRING
  | AttributeProto_AttributeType.TENSOR => NodeAttributeType.TENSOR
  | AttributeProto_AttributeType.INTS => NodeAttributeType.INT64_ARRAY
  | AttributeProto_AttributeType.FLOATS => NodeAttributeType.FLOAT_ARRAY
  | AttributeProto_AttributeType.STRINGS => NodeAttributeType.STRING_ARRAY
  | AttributeProto_AttributeType.TENSORS => NodeAttributeType.TENSOR_ARRAY
  | _ => NodeAttributeType.INVALID

/-- The constructor `Tensor(const std::string& name)`; the element type, which
the constructor leaves unset, is shown as UNKNOWN. -/
def Tensor.named (name : String) : Tensor :=
  { name := name, data_type := PrimitiveDataType.UNKNOWN, shape := [] }

/-- A write of `count` elements through `data_as<T>()` of the tensor: `none`
when elements are written through the null pointer. -/
def write_elements (tensor : Tensor) (count : Nat) : Option (Except StatusCode Tensor) :=
  if count > 0 ∧ tensor.m_p_data = none then none else some (Except.ok tensor)

/-- `OnnxSerializer::retrieve_tensor_data`: the status, with the tensor stored
in `ir_tensor` on OK; `none` where the copy has no defined behaviour. -/
def retrieve_tensor_data (proto_tensor : TensorProto) (allocator : IAllocator) (name : String) :
    Option (Except StatusCode Tensor) :=
  match proto_tensor.data_type with
  | TensorProto_DataType.FLOAT =>
    match Tensor.init (Tensor.named name) PrimitiveDataType.FLOAT32 proto_tensor.dims
        allocator with
    | (StatusCode.OK, tensor) =>
      if proto_tensor.raw_data.length > 0 then
        if proto_tensor.raw_data.length
            = (4 * (element_num tensor.shape % 18446744073709551616).toNat)
                % 18446744073709551616 then
          write_elements tensor proto_tensor.raw_data.length
        else some (Except.error StatusCode.INVALID_MODEL)
      else
        if (proto_tensor.float_data.length : Int) = element_num tensor.shape then
          write_elements tensor proto_tensor.float_data.length
        else some (Except.error StatusCode.INVALID_MODEL)
    | (status, _) => some (Except.error status)
  | _ => some (Except.error StatusCode.NOT_IMPLEMENTED)

/-- The cases FLOAT, FLOATS, INT and INTS of `constant_protonode_to_tensor`: a
tensor of `count` elements of the given type, filled from the attribute. -/
def constant_of_values (name : String) (data_type : PrimitiveDataType) (dim : Int)
    (count : Nat) (allocator : IAllocator) : Option (Except StatusCode Tensor) :=
  match Tensor.init (Tensor.named name) data_type [dim] allocator with
  | (StatusCode.OK, ir_tensor) => write_elements ir_tensor count
  | (status, _) => some (Except.error status)

/-- `OnnxSerializer::constant_protonode_to_tensor`. -/
def constant_protonode_to_tensor (proto_node : NodeProto) (allocator : IAllocator) :
    Option (Except StatusCode Tensor) :=
  match proto_node.output, proto_node.attributes with
  | [], _ => some (Except.error StatusCode.INVALID_MODEL)
  | _ :: _, [] => some (Except.error StatusCode.INVALID_MODEL)
  | name :: _, const_attr :: _ =>
    match const_attr.type with
    | AttributeProto_AttributeType.TENSOR => retrieve_tensor_data const_attr.t allocator name
    | AttributeProto_AttributeType.FLOAT =>
      constant_of_values name PrimitiveDataType.FLOAT32 1 1 allocator
    | AttributeProto_AttributeType.FLOATS =>
      constant_of_values name PrimitiveDataType.FLOAT32 const_attr.floats.length
        const_attr.floats.length allocator
    | AttributeProto_AttributeType.INT =>
      constant_of_values name PrimitiveDataType.INT64 1 1 allocator
    | AttributeProto_AttributeType.INTS =>
      constant_of_values name PrimitiveDataType.INT64 const_attr.ints.length
        const_attr.ints.length allocator
    | _ => some (Except.error StatusCode.INVALID_MODEL)

/-- The loop of the case TENSORS of `parse_onnx_attribute`. -/
def retrieve_tensors (allocator : IAllocator) :
    List TensorProto → List Tensor → Option (Except StatusCode (List Tensor))
  | [], acc => some (Except.ok acc)
  | tensor :: tensors, acc =>
    match retrieve_tensor_data tensor allocator tensor.name with
    | none => none
    | some (Except.ok ir_tensor) => retrieve_tensors allocator tensors (acc ++ [ir_tensor])
    | some (Except.error status) => some (Except.error status)

/-- `OnnxSerializer::parse_onnx_attribute`. -/
def parse_onnx_attribute (proto_attr : AttributeProto) (allocator : IAllocator) :
    Option (Except StatusCode NodeAttribute) :=
  if convert_to_node_attrtype proto_attr.type = NodeAttributeType.INVALID then
    some (Except.error StatusCode.INVALID_MODEL)
  else
    let node_attr : NodeAttribute := { type := convert_to_node_attrtype proto_attr.type }
    match proto_attr.type with
    | AttributeProto_AttributeType.FLOAT =>
      some (Except.ok { node_attr with m_float := proto_attr.f })
    | AttributeProto_AttributeType.INT =>
      some (Except.ok { node_attr with m_int64 := proto_attr.i })
    | AttributeProto_AttributeType.STRING =>
      some (Except.ok { node_attr with m_string := proto_attr.s })
    | AttributeProto_AttributeType.TENSOR =>
      match retrieve_tensor_data proto_attr.t allocator proto_attr.t.name with
      | none => none
      | some (Except.ok ir_tensor) => some (Except.ok { node_attr with m_tensor := some ir_tensor })
      | some (Except.error status) => some (Except.error status)
    | AttributeProto_AttributeType.FLOATS =>
      some (Except.ok { node_attr with m_floats := proto_attr.floats })
    | AttributeProto_AttributeType.INTS =>
      some (Except.ok { node_attr with m_int64s := proto_attr.ints })
    | AttributeProto_AttributeType.STRINGS =>
      some (Except.ok { node_attr with m_strings := proto_attr.strings })
    | AttributeProto_AttributeType.TENSORS =>
      match retrieve_tensors allocator proto_attr.tensors [] with
      | none => none
      | some (Except.ok ir_tensors) => some (Except.ok { node_attr with m_tensors := ir_tensors })
      | some (Except.error status) => some (Except.error status)
    | _ => some (Except.error StatusCode.INVALID_MODEL)

/-- The lambda `create_node_args` of `parse_onnx_node`: the handles for the
names and the graph afterwards. -/
def create_node_args (nodearg_map : List (String × NodeArg)) :
    List String → Graph → List NodeArgPtr × Graph
  | [], graph => ([], graph)
  | name :: names, graph =>
    let created :=
      match map_find nodearg_map name with
      | some arg => get_or_create_nodearg graph name arg
      | none => get_or_create_nodearg graph name (NodeArg.named name)
    let rest := create_node_args nodearg_map names created.2
    (created.1 :: rest.1, rest.2)

/-- The loop of `parse_onnx_node` over the attributes of the node. -/
def parse_node_attributes (allocator : IAllocator) :
    List AttributeProto → Attributes → Option (Except StatusCode Attributes)
  | [], attributes => some (Except.ok attributes)
  | item :: items, attributes =>
    match parse_onnx_attribute item allocator with
    | none => none
    | some (Except.ok attr) =>
      parse_node_attributes allocator items (map_insert attributes item.name attr)
    | some (Except.error status) => some (Except.error status)

/-- `OnnxSerializer::parse_onnx_node`: the status with the node stored in
`ir_node` on OK, and the graph afterwards. -/
def parse_onnx_node (onnx_node : NodeProto) (node_id : Int) (graph : Graph)
    (nodearg_map : List (String × NodeArg)) (allocator : IAllocator) :
    Option (Except StatusCode Node × Graph) :=
  let node_input_args := create_node_args nodearg_map onnx_node.input graph
  let node_output_args := create_node_args nodearg_map onnx_node.output node_input_args.2
  match parse_node_attributes allocator onnx_node.attributes [] with
  | none => none
  | some (Except.error status) => some (Except.error status, node_output_args.2)
  | some (Except.ok attributes) =>
    some (Except.ok
        { id := node_id, name := onnx_node.name, type := onnx_node.op_type,
          input_args := node_input_args.1, output_args := node_output_args.1,
          input_edges := [], output_edges := [], attributes := attributes },
      node_output_args.2)

/-- Step 1 of `parse_onnx_graph`: every "Constant" node that converts to a
tensor becomes an initializer; the status of a failed conversion is dropped,
as in the source. -/
def lift_constant_nodes (allocator : IAllocator) : List NodeProto → Graph → Option Graph
  | [], ir_graph => some ir_graph
  | proto_node :: nodes, ir_graph =>
    if proto_node.op_type ≠ "Constant" then lift_constant_nodes allocator nodes ir_graph
    else
      match constant_protonode_to_tensor proto_node allocator with
      | none => none
      | some (Except.ok ir_tensor) =>
        lift_constant_nodes allocator nodes (add_initializer ir_graph ir_tensor)
      | some (Except.error _) => lift_constant_nodes allocator nodes ir_graph

/-- Step 2 of `parse_onnx_graph` (the graph inputs) and, with `declare` as
`add_output_name`, its step for the graph outputs. -/
def parse_value_infos (declare : Graph → String → Graph) :
    List ValueInfoProto → List (String × NodeArg) → Graph →
      StatusCode × List (String × NodeArg) × Graph
  | [], name_to_nodearg_map, ir_graph => (StatusCode.OK, name_to_nodearg_map, ir_graph)
  | info :: infos, name_to_nodearg_map, ir_graph =>
    if info.name ≠ "" then
      match info.type with
      | TypeProto.tensor_type elem_type shape =>
        if tensor_datatype_to_primitive elem_type = PrimitiveDataType.UNKNOWN then
          (StatusCode.INVALID_MODEL, name_to_nodearg_map, ir_graph)
        else
          let arg : NodeArg :=
            { name := info.name, data_type := tensor_datatype_to_primitive elem_type,
              shape := shapeproto_to_tensorshape shape }
          parse_value_infos declare infos (map_insert name_to_nodearg_map info.name arg)
            (declare (get_or_create_nodearg ir_graph info.name arg).2 info.name)
      | TypeProto.other => parse_value_infos declare infos name_to_nodearg_map ir_graph
    else parse_value_infos declare infos name_to_nodearg_map ir_graph

/-- Step 3 of `parse_onnx_graph`: the initializers. -/
def parse_initializers (allocator : IAllocator) :
    List TensorProto → List (String × NodeArg) → Graph →
      Option (StatusCode × List (String × NodeArg) × Graph)
  | [], name_to_nodearg_map, ir_graph => some (StatusCode.OK, name_to_nodearg_map, ir_graph)
  | proto :: protos, name_to_nodearg_map, ir_graph =>
    match retrieve_tensor_data proto allocator proto.name with
    | none => none
    | some (Except.error status) => some (status, name_to_nodearg_map, ir_graph)
    | some (Except.ok tensor) =>
      match get_nodearg ir_graph tensor.name with
      | none =>
        let arg : NodeArg :=
          { name := tensor.name, data_type := tensor.data_type, shape := tensor.shape }
        parse_initializers allocator protos (map_insert name_to_nodearg_map tensor.name arg)
          (add_initializer (get_or_create_nodearg ir_graph tensor.name arg).2 tensor)
      | some _ =>
        parse_initializers allocator protos name_to_nodearg_map (add_initializer ir_graph tensor)

/-- The step of `parse_onnx_graph` for the `value_info` entries, which only
fills `name_to_nodearg_map`. -/
def parse_value_info_templates :
    List ValueInfoProto → List (String × NodeArg) → StatusCode × List (String × NodeArg)
  | [], name_to_nodearg_map => (StatusCode.OK, name_to_nodearg_map)
  | info :: infos, name_to_nodearg_map =>
    if info.name ≠ "" then
      match info.type with
      | TypeProto.tensor_type elem_type shape =>
        if tensor_datatype_to_primitive elem_type = PrimitiveDataType.UNKNOWN then
          (StatusCode.INVALID_MODEL, name_to_nodearg_map)
        else
          parse_value_info_templates infos
            (map_insert name_to_nodearg_map info.name
              { name := info.name, data_type := tensor_datatype_to_primitive elem_type,
                shape := shapeproto_to_tensorshape shape })
      | TypeProto.other => parse_value_info_templates infos name_to_nodearg_map
    else parse_value_info_templates infos name_to_nodearg_map

/-- Step 5 of `parse_onnx_graph`: the nodes other than "Constant"; `node_id`
is the id given last. -/
def parse_nodes (allocator : IAllocator) (name_to_nodearg_map : List (String × NodeArg)) :
    List NodeProto → Int → Graph → Option (StatusCode × Graph)
  | [], _, ir_graph => some (StatusCode.OK, ir_graph)
  | proto_node :: nodes, node_id, ir_graph =>
    if proto_node.op_type = "Constant" then
      parse_nodes allocator name_to_nodearg_map nodes node_id ir_graph
    else
      match parse_onnx_node proto_node (node_id + 1) ir_graph name_to_nodearg_map allocator with
      | none => none
      | some (Except.error status, graph) => some (status, graph)
      | some (Except.ok ir_node, graph) =>
        parse_nodes allocator name_to_nodearg_map nodes (node_id + 1) (add_node graph ir_node)

/-- `OnnxSerializer::parse_onnx_graph`, with the CPU allocator of the
`AllocatorManager` singleton as `allocator`. -/
def parse_onnx_graph (allocator : IAllocator) (onnx_graph : GraphProto) (ir_graph : Graph) :
    Option (StatusCode × Graph) :=
  match lift_constant_nodes allocator onnx_graph.node ir_graph with
  | none => none
  | some g1 =>
    match parse_value_infos add_input_name onnx_graph.input [] g1 with
    | (StatusCode.OK, map2, g2) =>
      match parse_initializers allocator onnx_graph.initializer map2 g2 with
      | none => none
      | some (StatusCode.OK, map3, g3) =>
        match parse_value_infos add_output_name onnx_graph.output map3 g3 with
        | (StatusCode.OK, map4, g4) =>
          match parse_value_info_templates onnx_graph.value_info map4 with
          | (StatusCode.OK, map5) =>
            match parse_nodes allocator map5 onnx_graph.node (-1) g4 with
            | none => none
            | some (StatusCode.OK, g5) => some (initialize_graph g5)
            | some (status, g5) => some (status, g5)
          | (status, _) => (some (status, g4))
        | (status, _, g4) => some (status, g4)
      | some (status, _, g3) => some (status, g3)
    | (status, _, g2) => some (status, g2)

/-- A "Constant" node with output "c" and the given attributes. -/
def sample_constant (attributes : List AttributeProto) : NodeProto :=
  { name := "k", op_type := "Constant", output := ["c"], attributes := attributes }

/-- A graph proto whose only nodes are the "Constant" node above and a Relu
node "r" from "c" to "y". -/
def sample_constant_graph (attributes : List AttributeProto) : GraphProto :=
  { node := [sample_constant attributes,
      { name := "r", op_type := "Relu", input := ["c"], output := ["y"] }] }

/-- What is observed of a loaded graph: the status, the initializers as name,
element type and shape, and the nodes as id, name and operator type. -/
def loaded_summary (r : Option (StatusCode × Graph)) :
    Option (StatusCode × List (String × PrimitiveDataType × List Int) ×
      List (Int × String × String)) :=
  r.map (fun p =>
    (p.1, p.2.m_initializer_map.map (fun kv => (kv.1, kv.2.data_type, kv.2.shape)),
      p.2.m_nodes.map (fun n => (n.id, n.name, n.type))))

/-- A graph as `parse_onnx_model` creates it before `parse_onnx_graph`. -/
def fresh_graph : Graph := Graph.empty (fun _ => NodeArg.named "") 0

/-- A STRING attribute "value_string". -/
def sample_attr_string : AttributeProto :=
  { name := "value_string", type := AttributeProto_AttributeType.STRING, s := "abc" }

/-- An INT attribute "value_int". -/
def sample_attr_int : AttributeProto :=
  { name := "value_int", type := AttributeProto_AttributeType.INT, i := 3 }

/-- A FLOATS attribute "value_floats" with the given entries. -/
def sample_attr_floats (floats : List Nat) : AttributeProto :=
  { name := "value_floats", type := AttributeProto_AttributeType.FLOATS, floats := floats }

/-- The graph proto of the constant-folding scenario with, in addition, a graph
initializer that carries the output name "c" of the "Constant" node: a FLOAT
tensor of dims {2}. -/
def sample_constant_overridden : GraphProto :=
  { node := (sample_constant_graph [sample_attr_floats [0, 0, 0, 0, 0]]).node,
    initializer := [{ name := "c", data_type := TensorProto_DataType.FLOAT, dims := [2],
                      float_data := [0, 0] }] }

/-- The pairs (`tmp1`, `strides[i]`) that the second loop of
`MaxPoolShapeInfer::infer` divides, in the order of its iterations, up to the
first iteration with a read outside a vector. -/
def max_pool_numerators (input_shape kernel_shape pads dilations strides : List Int) :
    Nat → Nat → Nat → List (Int × Int)
  | _, _, 0 => []
  | i, j, remaining + 1 =>
    match vector_at input_shape i, vector_at pads j, vector_at pads (j + pads.length / 2),
        vector_at dilations j, vector_at kernel_shape j, vector_at strides i with
    | some x, some pad_begin, some pad_end, some dilation, some kernel, some stride =>
      (sub_int64
          (sub_int64 (add_int64 (add_int64 x pad_begin) pad_end)
            (mul_int64 dilation (sub_int64 kernel 1)))
          1, stride) ::
        max_pool_numerators input_shape kernel_shape pads dilations strides (i + 1) (j + 1)
          remaining
    | _, _, _, _, _, _ => []

/-- The pairs above for the attribute vectors as `MaxPoolShapeInfer::infer`
completes them: absent dilations and strides are 1, absent pads are 0. -/
def MaxPoolShapeInfer_numerators (input_shape : List Int) (attributes : Attributes) :
    List (Int × Int) :=
  let dilations := get_attrs_or_default_int64 "dilations" [] attributes
  let kernel_shape := get_attrs_or_default_int64 "kernel_shape" [] attributes
  let pads := get_attrs_or_default_int64 "pads" [] attributes
  let strides := get_attrs_or_default_int64 "strides" [] attributes
  max_pool_numerators input_shape kernel_shape
    (if pads.length / 2 = kernel_shape.length then pads
      else List.replicate (kernel_shape.length * 2) 0)
    (if dilations.length ≠ kernel_shape.length then List.replicate kernel_shape.length 1
      else dilations)
    (if strides.length ≠ kernel_shape.length then List.replicate kernel_shape.length 1
      else strides)
    (input_shape.length - kernel_shape.length) 0 kernel_shape.length

/-! ### Invariants of `Graph::build_nodes_connections` -/

/-- A node without its edge sets: what `add_edge` and `remove_edge` leave
unchanged. -/
def Node.without_edges (n : Node) : Node :=
  { n with input_edges := [], output_edges := [] }

/-- A node without input args and without output args, which
`build_nodes_connections` removes. -/
def Node.is_unused (n : Node) : Bool :=
  decide (n.input_args = []) && decide (n.output_args = [])

/-- The state of the nodes while `build_nodes_connections` runs on the nodes
`nodes0`: the nodes are those of `nodes0` up to their edge sets, and the edge
sets hold, mirrored, the connections `E src dst src_arg_index dst_arg_index`
made so far. -/
structure EdgesInv (nodes0 nodes : List Node) (E : Int → Int → Int → Int → Prop) : Prop where
  skeleton : nodes.map Node.without_edges = nodes0.map Node.without_edges
  input_edges : ∀ n ∈ nodes, ∀ e : Edge,
    e ∈ n.input_edges ↔ E e.other_node n.id e.src_arg_index e.dst_arg_index
  output_edges : ∀ n ∈ nodes, ∀ e : Edge,
    e ∈ n.output_edges ↔ E n.id e.other_node e.src_arg_index e.dst_arg_index

/-- The connection that the name of an input arg induces: the input arg of the
node `dst` at index `dst_arg_index` has a non-empty name, and `output_args`
binds that name to the node `src` and the index `src_arg_index`. -/
def name_match (heap : NodeArgPtr → NodeArg) (output_args : List (String × (Int × Int)))
    (nodes : List Node) (src dst src_arg_index dst_arg_index : Int) : Prop :=
  ∃ v ∈ nodes, v.id = dst ∧ ∃ (k : Nat) (p : NodeArgPtr),
    v.input_args.get? k = some p ∧ dst_arg_index = (k : Int) ∧ (heap p).name ≠ "" ∧
      map_find output_args (heap p).name = some (src, src_arg_index)


/-- A graph with the node n0 (id 0) producing "x", the node n1 (id 1) without
args and the node n2 (id 2) consuming "x"; the `NodeArg` "x" is shared. -/
def sample_unused_node_graph : Graph :=
  add_node
    (add_node
      (add_node (Graph.empty (fun _ => NodeArg.named "x") 1)
        { id := 0, name := "n0", type := "Relu", input_args := [], output_args := [0],
          input_edges := [], output_edges := [] })
      { id := 1, name := "n1", type := "Relu", input_args := [], output_args := [],
        input_edges := [], output_edges := [] })
    { id := 2, name := "n2", type := "Relu", input_args := [0], output_args := [],
      input_edges := [], output_edges := [] }


/-- A graph without nodes whose declared inputs are "x", "w" and "y", each with
a `NodeArg`, and whose only initializer is "w". -/
def sample_mixed_inputs : Graph :=
  add_initializer
    (add_input_name
      (add_input_name
        (add_input_name
          (get_or_create_nodearg
            (get_or_create_nodearg
              (get_or_create_nodearg (Graph.empty (fun _ => NodeArg.named "") 0) "x"
                (NodeArg.named "x")).2
              "w" (NodeArg.named "w")).2
            "y" (NodeArg.named "y")).2
          "x")
        "w")
      "y")
    { name := "w", data_type := PrimitiveDataType.FLOAT32, shape := [1] }


/-- A graph with the declared input "x" and a node consuming "x" and the arg
"bad", which is no node output, graph input or initializer; `initialize` has
been called. -/
def sample_unknown_input : Graph :=
  (initialize_graph
    (add_node
      (add_input_name
        (get_or_create_nodearg
          (get_or_create_nodearg (Graph.empty (fun _ => NodeArg.named "") 0) "x"
            (NodeArg.named "x")).2
          "bad" (NodeArg.named "bad")).2
        "x")
      { id := 0, name := "n0", type := "Add", input_args := [0, 1], output_args := [],
        input_edges := [], output_edges := [] })).2


/-- What `topological_sort` reads of a node: its id and its two edge sets. -/
def Node.edges_only (n : Node) : Node :=
  { id := n.id, name := "", type := "", input_args := [], output_args := [],
    input_edges := n.input_edges, output_edges := n.output_edges, attributes := [] }

/-- The state of `topological_sort` with the nodes of the result reduced to id
and edge sets. -/
def TopoState.edges_only (s : TopoState) : TopoState :=
  { s with topological_nodes := s.topological_nodes.map Node.edges_only }


/-- A graph proto whose only node is a "Constant" node with output "c" and a
FLOATS attribute of two elements; no node consumes "c". -/
def sample_unconsumed_constant : GraphProto :=
  { node := [sample_constant [sample_attr_floats [0, 0]]] }

/-- The graph that `parse_onnx_graph` makes of the proto above. -/
def sample_unconsumed_graph : Graph :=
  match parse_onnx_graph sample_allocator sample_unconsumed_constant fresh_graph with
  | some (_, g) => g
  | none => fresh_graph

theorem topo_roots_spec (nodes : List Node) (s : TopoState) :
    (topo_roots nodes s).topological_nodes = s.topological_nodes ++ nodes.filter is_root ∧
    (topo_roots nodes s).nodes_added
      = ((nodes.filter is_root).map Node.id).reverse ++ s.nodes_added ∧
    (topo_roots nodes s).nodes_visited
      = ((nodes.filter is_root).map Node.id).reverse ++ s.nodes_visited ∧
    (topo_roots nodes s).downstream_nodes = s.downstream_nodes ∧
    (topo_roots nodes s).nodes_stack = s.nodes_stack := by
  induction nodes generalizing s with
  | nil => simp [topo_roots]
  | cons n ns ih =>
    by_cases h : n.input_edges.length = 0
    · have hr : is_root n = true := by simp [is_root, h]
      simp only [topo_roots, h, if_true, List.filter_cons, hr]
      obtain ⟨h1, h2, h3, h4, h5⟩ := ih
        { s with
          topological_nodes := s.topological_nodes ++ [n]
          nodes_visited := n.id :: s.nodes_visited
          nodes_added := n.id :: s.nodes_added }
      refine ⟨?_, ?_, ?_, ?_, ?_⟩
      · rw [h1]; simp
      · rw [h2]; simp
      · rw [h3]; simp
      · rw [h4]
      · rw [h5]
    · have hr : is_root n = false := by simp [is_root, h]
      simp only [topo_roots, h, if_false, List.filter_cons, hr]
      exact ih s

theorem topo_scan_inputs_spec (d v : List Int) (es : List Edge) (st0 st : List Int)
    (h : topo_scan_inputs d v es st0 = some st) :
    ∃ pushes, st = pushes ++ st0 ∧ pushes.length ≤ es.length ∧
      (∀ p ∈ pushes, p ∉ v) ∧
      (∀ e ∈ es, e.other_node ∉ d ∧ (e.other_node ∈ v ∨ e.other_node ∈ pushes)) := by
  induction es generalizing st0 with
  | nil =>
    simp only [topo_scan_inputs, Option.some.injEq] at h
    exact ⟨[], by simp [h], by simp, by simp, by simp⟩
  | cons e es ih =>
    simp only [topo_scan_inputs] at h
    by_cases hd : e.other_node ∈ d
    · simp [hd] at h
    · by_cases hv : e.other_node ∈ v
      · simp only [hd, if_false, hv, not_true_eq_false] at h
        obtain ⟨pushes, h1, h2, h3, h4⟩ := ih st0 h
        refine ⟨pushes, h1, by simp; omega, h3, ?_⟩
        intro e' he'
        rcases List.mem_cons.1 he' with rfl | he'
        · exact ⟨hd, Or.inl hv⟩
        · exact h4 e' he'
      · simp only [hd, if_false, hv, not_false_eq_true, if_true] at h
        obtain ⟨pushes, h1, h2, h3, h4⟩ := ih (e.other_node :: st0) h
        refine ⟨pushes ++ [e.other_node], by simp [h1], by simp; omega, ?_, ?_⟩
        · intro p hp
          rcases List.mem_append.1 hp with hp | hp
          · exact h3 p hp
          · simp only [List.mem_singleton] at hp; rw [hp]; exact hv
        · intro e' he'
          rcases List.mem_cons.1 he' with rfl | he'
          · exact ⟨hd, Or.inr (by simp)⟩
          · obtain ⟨a, b⟩ := h4 e' he'
            refine ⟨a, ?_⟩
            rcases b with b | b
            · exact Or.inl b
            · exact Or.inr (List.mem_append_left _ b)

theorem find_node_some {nodes : List Node} {x : Int} {n : Node}
    (h : find_node nodes x = some n) : n ∈ nodes ∧ n.id = x := by
  unfold find_node at h
  refine ⟨List.mem_of_find?_eq_some h, ?_⟩
  have := List.find?_some h
  simpa using this

theorem find_node_none {nodes : List Node} {x : Int}
    (h : find_node nodes x = none) : ∀ n ∈ nodes, n.id ≠ x := by
  unfold find_node at h
  intro n hn
  have := List.find?_eq_none.1 h n hn
  simpa using this

theorem filter_sum_mono {α : Type} (f : α → Nat) (p q : α → Bool)
    (hpq : ∀ a, q a = true → p a = true) (l : List α) :
    ((l.filter q).map f).sum ≤ ((l.filter p).map f).sum := by
  induction l with
  | nil => simp
  | cons k ks ih =>
    cases hq : q k with
    | true =>
      have hp : p k = true := hpq k hq
      simp only [List.filter_cons, hq, hp, if_true, List.map_cons, List.sum_cons]
      omega
    | false =>
      cases hp : p k with
      | true =>
        simp only [List.filter_cons, hq, hp, if_true, List.map_cons, List.sum_cons]
        simp only [Bool.false_eq_true, if_false]
        omega
      | false =>
        simp only [List.filter_cons, hq, hp, Bool.false_eq_true, if_false]
        exact ih

theorem filter_sum_drop {α : Type} (f : α → Nat) (p q : α → Bool)
    (hpq : ∀ a, q a = true → p a = true) (l : List α) (m : α) (hm : m ∈ l)
    (hpm : p m = true) (hqm : q m = false) :
    ((l.filter q).map f).sum + f m ≤ ((l.filter p).map f).sum := by
  induction l with
  | nil => simp at hm
  | cons k ks ih =>
    rcases List.mem_cons.1 hm with rfl | hm'
    · have := filter_sum_mono f p q hpq ks
      simp only [List.filter_cons, hqm, hpm, if_true, List.map_cons, List.sum_cons,
        Bool.false_eq_true, if_false]
      omega
    · have h1 := ih hm'
      cases hq : q k with
      | true =>
        have hp : p k = true := hpq k hq
        simp only [List.filter_cons, hq, hp, if_true, List.map_cons, List.sum_cons]
        omega
      | false =>
        cases hp : p k with
        | true =>
          simp only [List.filter_cons, hq, hp, if_true, List.map_cons, List.sum_cons,
            Bool.false_eq_true, if_false]
          omega
        | false =>
          simp only [List.filter_cons, hq, hp, Bool.false_eq_true, if_false]
          exact h1

theorem topo_weight_visit (nodes : List Node) (visited : List Int) (n : Node)
    (hn : n ∈ nodes) (hv : n.id ∉ visited) :
    topo_weight nodes (n.id :: visited) + (n.input_edges.length + 1)
      ≤ topo_weight nodes visited := by
  unfold topo_weight
  apply filter_sum_drop (fun k => k.input_edges.length + 1)
    (fun k => decide (k.id ∉ visited)) (fun k => decide (k.id ∉ n.id :: visited)) _ nodes n hn
  · simpa using hv
  · simp
  · intro a ha
    simp only [List.mem_cons, not_or, decide_eq_true_eq] at ha ⊢
    exact ha.2

theorem topo_step_decreases (nodes : List Node) (s s' : TopoState)
    (h : topo_step nodes s = Sum.inr s') :
    topo_potential nodes s' < topo_potential nodes s := by
  unfold topo_step at h
  unfold topo_potential
  cases hst : s.nodes_stack with
  | nil => simp [hst] at h
  | cons cur rest =>
    simp only [hst] at h
    cases hf : find_node nodes cur with
    | none =>
      simp only [hf, Sum.inr.injEq] at h
      subst h; simp
    | some n =>
      simp only [hf] at h
      by_cases ha : cur ∈ s.nodes_added
      · simp only [ha, if_true, Sum.inr.injEq] at h
        subst h; simp
      · by_cases hv : cur ∈ s.nodes_visited
        · simp only [ha, if_false, hv, if_true, Sum.inr.injEq] at h
          subst h; simp
        · simp only [ha, if_false, hv] at h
          cases hsc : topo_scan_inputs (cur :: s.downstream_nodes) (cur :: s.nodes_visited)
              n.input_edges (cur :: rest) with
          | none => simp [hsc] at h
          | some st =>
            simp only [hsc, Sum.inr.injEq] at h
            subst h
            obtain ⟨pushes, h1, h2, -, -⟩ := topo_scan_inputs_spec _ _ _ _ _ hsc
            obtain ⟨hn, hid⟩ := find_node_some hf
            have hw := topo_weight_visit nodes s.nodes_visited n hn (by rw [hid]; exact hv)
            rw [hid] at hw
            simp only [h1, List.length_append, List.length_cons]
            omega

theorem topo_step_status (nodes : List Node) (s : TopoState) (r : StatusCode × List Node)
    (h : topo_step nodes s = Sum.inl r) :
    r.1 = StatusCode.OK ∨ r.1 = StatusCode.INVALID_MODEL := by
  unfold topo_step at h
  cases hst : s.nodes_stack with
  | nil =>
    simp only [hst, Sum.inl.injEq] at h
    subst h
    unfold topo_finish
    split <;> simp
  | cons cur rest =>
    simp only [hst] at h
    cases hf : find_node nodes cur with
    | none => simp [hf] at h
    | some n =>
      simp only [hf] at h
      by_cases ha : cur ∈ s.nodes_added
      · simp [ha] at h
      · by_cases hv : cur ∈ s.nodes_visited
        · simp [ha, hv] at h
        · simp only [ha, if_false, hv] at h
          cases hsc : topo_scan_inputs (cur :: s.downstream_nodes) (cur :: s.nodes_visited)
              n.input_edges (cur :: rest) with
          | none =>
            simp only [hsc, Sum.inl.injEq] at h
            subst h; simp
          | some st => simp [hsc] at h

theorem topo_loop_total (nodes : List Node) (fuel : Nat) (s : TopoState)
    (h : topo_potential nodes s < fuel) :
    ∃ r, topo_loop nodes fuel s = some r ∧
      (r.1 = StatusCode.OK ∨ r.1 = StatusCode.INVALID_MODEL) := by
  induction fuel generalizing s with
  | zero => omega
  | succ fuel ih =>
    unfold topo_loop
    cases hs : topo_step nodes s with
    | inl r => exact ⟨r, rfl, topo_step_status nodes s r hs⟩
    | inr s' =>
      have := topo_step_decreases nodes s s' hs
      exact ih s' (by omega)

theorem topological_sort_total (nodes : List Node) :
    ∃ r, topological_sort nodes = some r ∧
      (r.1 = StatusCode.OK ∨ r.1 = StatusCode.INVALID_MODEL) := by
  unfold topological_sort
  apply topo_loop_total
  unfold topo_potential topo_fuel
  omega

theorem topo_init_inv (nodes : List Node) : TopoInv nodes (topo_init nodes) := by
  obtain ⟨h1, h2, h3, h4, _⟩ := topo_roots_spec nodes
    { topological_nodes := [], downstream_nodes := [], nodes_visited := [],
      nodes_added := [], nodes_stack := [] }
  simp only [List.nil_append, List.append_nil] at h1 h2 h3 h4
  refine ⟨⟨[], ?_, ?_, ?_, ?_⟩, ?_, ?_, ?_, ?_, ?_⟩
  · simp [topo_init, h1]
  · simp
  · simp
  · simp
  · intro x
    simp only [topo_init, h1, h2, List.mem_reverse]
  · intro x
    simp only [topo_init, h2, h3, h4]
    simp only [List.not_mem_nil, false_iff, not_and, not_not]
    exact fun h => h
  · intro x hx
    simp only [topo_init, h4] at hx
    simp at hx
  · intro l1 v l2 hl e he
    simp only [topo_init, h1] at hl
    have hv : v ∈ nodes.filter is_root := by rw [hl]; simp
    have := (List.mem_filter.1 hv).2
    simp only [is_root, decide_eq_true_eq, List.length_eq_zero] at this
    rw [this] at he
    simp at he
  · intro x hx
    simp only [topo_init, h4] at hx
    simp at hx

theorem append_singleton_eq_split {α : Type} (t l1 l2 : List α) (n v : α)
    (h : t ++ [n] = l1 ++ v :: l2) :
    (l1 = t ∧ v = n ∧ l2 = []) ∨ ∃ l2', l2 = l2' ++ [n] ∧ t = l1 ++ v :: l2' := by
  rcases List.eq_nil_or_concat l2 with rfl | ⟨l2', b, rfl⟩
  · left
    have h' : t ++ [n] = l1 ++ [v] := h
    have := List.append_inj' h' rfl
    simp only [List.cons.injEq, and_true] at this
    exact ⟨this.1.symm, this.2.symm, rfl⟩
  · right
    have h' : t ++ [n] = (l1 ++ v :: l2') ++ [b] := by simp [h]
    have := List.append_inj' h' rfl
    simp only [List.cons.injEq, and_true] at this
    refine ⟨l2', ?_, this.1⟩
    rw [this.2]; simp


theorem stack_pop_ne {cur x : Int} {rest pre post : List Int}
    (h : cur :: rest = pre ++ x :: post) (hne : x ≠ cur) :
    ∃ pre', pre = cur :: pre' ∧ rest = pre' ++ x :: post := by
  cases pre with
  | nil =>
    simp only [List.nil_append, List.cons.injEq] at h
    exact absurd h.1.symm hne
  | cons a pre' =>
    simp only [List.cons_append, List.cons.injEq] at h
    exact ⟨pre', by rw [h.1], h.2⟩

theorem stack_pop_eq {cur : Int} {rest pre post : List Int}
    (h : cur :: rest = pre ++ cur :: post) (hni : cur ∉ pre) : pre = [] := by
  cases pre with
  | nil => rfl
  | cons a pre' =>
    simp only [List.cons_append, List.cons.injEq] at h
    exact absurd (by rw [h.1]; simp) hni

/-- Popping an entry that is not pending keeps the invariant, provided the
popped id is not an awaited input any more. -/
theorem topo_inv_pop (nodes : List Node) (s : TopoState) (cur : Int) (rest : List Int)
    (hinv : TopoInv nodes s) (hst : s.nodes_stack = cur :: rest)
    (hcur : find_node nodes cur = none ∨ cur ∈ s.nodes_added) :
    TopoInv nodes { s with nodes_stack := rest } := by
  have hnd : cur ∉ s.downstream_nodes := by
    intro hd
    rcases hcur with hc | hc
    · exact hinv.down_found cur hd hc
    · exact ((hinv.down_iff cur).1 hd).2 hc
  refine ⟨hinv.topo_eq, hinv.added_iff, hinv.down_iff, hinv.down_found, hinv.order, ?_⟩
  intro x hx
  obtain ⟨pre, post, h1, h2, h3⟩ := hinv.pending x hx
  have hne : x ≠ cur := fun h => hnd (h ▸ hx)
  rw [hst] at h1
  obtain ⟨pre', rfl, h4⟩ := stack_pop_ne h1 hne
  refine ⟨pre', post, h4, fun h => h2 (List.mem_cons_of_mem _ h), ?_⟩
  intro n hn e he hfound
  rcases h3 n hn e he hfound with h | h
  · exact Or.inl h
  · rcases List.mem_cons.1 h with h | h
    · rcases hcur with hc | hc
      · exact absurd (h ▸ hc) hfound
      · exact Or.inl (h ▸ hc)
    · exact Or.inr h


/-- The second pop of a node: it is emitted. -/
theorem topo_inv_emit (nodes : List Node) (s : TopoState) (cur : Int) (rest : List Int)
    (n : Node) (hinv : TopoInv nodes s) (hst : s.nodes_stack = cur :: rest)
    (hf : find_node nodes cur = some n) (ha : cur ∉ s.nodes_added)
    (hv : cur ∈ s.nodes_visited) :
    TopoInv nodes
      { s with
        topological_nodes := s.topological_nodes ++ [n]
        nodes_added := cur :: s.nodes_added
        downstream_nodes := s.downstream_nodes.filter (fun x => decide (x ≠ cur))
        nodes_stack := rest } := by
  obtain ⟨hn, hid⟩ := find_node_some hf
  have hd : cur ∈ s.downstream_nodes := (hinv.down_iff cur).2 ⟨hv, ha⟩
  have hnt : cur ∉ s.topological_nodes.map Node.id := fun h => ha ((hinv.added_iff cur).2 h)
  -- the inputs of the emitted node are all added
  have hin : ∀ e ∈ n.input_edges, find_node nodes e.other_node ≠ none →
      e.other_node ∈ s.nodes_added := by
    intro e he hfound
    obtain ⟨pre, post, h1, h2, h3⟩ := hinv.pending cur hd
    rw [hst] at h1
    have hpre := stack_pop_eq h1 h2
    subst hpre
    rcases h3 n hf e he hfound with h | h
    · exact h
    · simp at h
  obtain ⟨E, hE1, hE2, hE3, hE4⟩ := hinv.topo_eq
  refine ⟨⟨E ++ [n], ?_, ?_, ?_, ?_⟩, ?_, ?_, ?_, ?_, ?_⟩
  · simp [hE1]
  · intro m hm
    rcases List.mem_append.1 hm with hm | hm
    · exact hE2 m hm
    · simp only [List.mem_singleton] at hm
      rw [hm, hid]; exact hf
  · rw [List.map_append, List.nodup_append]
    refine ⟨hE3, by simp, ?_⟩
    intro a ha1 ha2
    simp only [List.map_cons, List.map_nil, List.mem_singleton] at ha2
    apply hnt
    rw [hE1, List.map_append, ← hid, ← ha2]
    exact List.mem_append_right _ ha1
  · intro m hm r hr
    rcases List.mem_append.1 hm with hm | hm
    · exact hE4 m hm r hr
    · simp only [List.mem_singleton] at hm
      intro heq
      apply hnt
      rw [hE1, List.map_append, ← hid, ← hm, ← heq]
      exact List.mem_append_left _ (List.mem_map_of_mem _ hr)
  · intro x
    simp only [List.mem_cons, List.map_append, List.map_cons, List.map_nil, List.mem_append,
      List.mem_singleton, hinv.added_iff x, hid]
    tauto
  · intro x
    simp only [List.mem_filter, decide_eq_true_eq, hinv.down_iff x, List.mem_cons, not_or]
    tauto
  · intro x hx
    exact hinv.down_found x (List.mem_filter.1 hx).1
  · intro l1 v l2 hl e he hfound
    rcases append_singleton_eq_split _ _ _ _ _ hl with ⟨rfl, rfl, rfl⟩ | ⟨l2', rfl, h⟩
    · exact (hinv.added_iff _).1 (hin e he hfound)
    · exact hinv.order l1 v l2' h e he hfound
  · intro x hx
    have hx' := List.mem_filter.1 hx
    have hne : x ≠ cur := by simpa using hx'.2
    obtain ⟨pre, post, h1, h2, h3⟩ := hinv.pending x hx'.1
    rw [hst] at h1
    obtain ⟨pre', rfl, h4⟩ := stack_pop_ne h1 hne
    refine ⟨pre', post, h4, fun h => h2 (List.mem_cons_of_mem _ h), ?_⟩
    intro m hm e he hfound
    rcases h3 m hm e he hfound with h | h
    · exact Or.inl (List.mem_cons_of_mem _ h)
    · rcases List.mem_cons.1 h with h | h
      · exact Or.inl (by rw [h]; simp)
      · exact Or.inr h

/-- The first pop of a node: it is marked and its inputs are pushed. -/
theorem topo_inv_visit (nodes : List Node) (s : TopoState) (cur : Int) (rest st : List Int)
    (n : Node) (hinv : TopoInv nodes s) (hst : s.nodes_stack = cur :: rest)
    (hf : find_node nodes cur = some n) (ha : cur ∉ s.nodes_added)
    (hv : cur ∉ s.nodes_visited)
    (hsc : topo_scan_inputs (cur :: s.downstream_nodes) (cur :: s.nodes_visited)
      n.input_edges (cur :: rest) = some st) :
    TopoInv nodes
      { s with
        nodes_visited := cur :: s.nodes_visited
        downstream_nodes := cur :: s.downstream_nodes
        nodes_stack := st } := by
  obtain ⟨pushes, hp1, -, hp3, hp4⟩ := topo_scan_inputs_spec _ _ _ _ _ hsc
  subst hp1
  have hdown' : ∀ x, x ∈ cur :: s.downstream_nodes ↔
      x ∈ cur :: s.nodes_visited ∧ x ∉ s.nodes_added := by
    intro x
    simp only [List.mem_cons, hinv.down_iff x]
    constructor
    · rintro (h | h)
      · exact ⟨Or.inl h, h ▸ ha⟩
      · exact ⟨Or.inr h.1, h.2⟩
    · rintro ⟨h | h, h'⟩
      · exact Or.inl h
      · exact Or.inr ⟨h, h'⟩
  refine ⟨hinv.topo_eq, hinv.added_iff, hdown', ?_, hinv.order, ?_⟩
  · intro x hx
    rcases List.mem_cons.1 hx with h | h
    · rw [h, hf]; simp
    · exact hinv.down_found x h
  · intro x hx
    rcases List.mem_cons.1 hx with h | h
    · subst h
      refine ⟨pushes, rest, rfl, fun h => hp3 x h (by simp), ?_⟩
      intro m hm e he hfound
      rw [hf] at hm
      simp only [Option.some.injEq] at hm
      subst hm
      obtain ⟨h1, h2⟩ := hp4 e he
      rcases h2 with h2 | h2
      · left
        by_contra hna
        exact h1 ((hdown' _).2 ⟨h2, hna⟩)
      · exact Or.inr h2
    · have hxv : x ∈ s.nodes_visited := ((hinv.down_iff x).1 h).1
      have hne : x ≠ cur := fun heq => hv (heq ▸ hxv)
      obtain ⟨pre, post, h1, h2, h3⟩ := hinv.pending x h
      refine ⟨pushes ++ pre, post, ?_, ?_, ?_⟩
      · show pushes ++ cur :: rest = _
        rw [← hst, h1]; simp
      · intro hmem
        rcases List.mem_append.1 hmem with hm | hm
        · exact hp3 x hm (List.mem_cons_of_mem _ hxv)
        · exact h2 hm
      · intro m hm e he hfound
        rcases h3 m hm e he hfound with h | h
        · exact Or.inl h
        · exact Or.inr (List.mem_append_right _ h)

theorem topo_step_inv (nodes : List Node) (s s' : TopoState) (hinv : TopoInv nodes s)
    (h : topo_step nodes s = Sum.inr s') : TopoInv nodes s' := by
  unfold topo_step at h
  cases hst : s.nodes_stack with
  | nil => simp [hst] at h
  | cons cur rest =>
    simp only [hst] at h
    cases hf : find_node nodes cur with
    | none =>
      simp only [hf, Sum.inr.injEq] at h
      subst h
      exact topo_inv_pop nodes s cur rest hinv hst (Or.inl hf)
    | some n =>
      simp only [hf] at h
      by_cases ha : cur ∈ s.nodes_added
      · simp only [ha, if_true, Sum.inr.injEq] at h
        subst h
        exact topo_inv_pop nodes s cur rest hinv hst (Or.inr ha)
      · by_cases hv : cur ∈ s.nodes_visited
        · simp only [ha, if_false, hv, if_true, Sum.inr.injEq] at h
          subst h
          exact topo_inv_emit nodes s cur rest n hinv hst hf ha hv
        · simp only [ha, if_false, hv] at h
          cases hsc : topo_scan_inputs (cur :: s.downstream_nodes) (cur :: s.nodes_visited)
              n.input_edges (cur :: rest) with
          | none => simp [hsc] at h
          | some st =>
            simp only [hsc, Sum.inr.injEq] at h
            subst h
            exact topo_inv_visit nodes s cur rest st n hinv hst hf ha hv hsc


/-- A run of the loop that returns OK ends in a state satisfying the invariant
whose result has as many entries as there are nodes. -/
theorem topo_loop_ok (nodes : List Node) (topo : List Node) (fuel : Nat) (s : TopoState)
    (hinv : TopoInv nodes s)
    (h : topo_loop nodes fuel s = some (StatusCode.OK, topo)) :
    ∃ s', TopoInv nodes s' ∧ s'.topological_nodes = topo ∧ topo.length = nodes.length := by
  induction fuel generalizing s with
  | zero => simp [topo_loop] at h
  | succ fuel ih =>
    unfold topo_loop at h
    cases hs : topo_step nodes s with
    | inr s' =>
      simp only [hs] at h
      exact ih s' (topo_step_inv nodes s s' hinv hs) h
    | inl r =>
      simp only [hs, Option.some.injEq] at h
      subst h
      unfold topo_step at hs
      cases hst : s.nodes_stack with
      | nil =>
        simp only [hst, Sum.inl.injEq] at hs
        unfold topo_finish at hs
        by_cases hlen : s.topological_nodes.length = nodes.length
        · simp only [hlen, ne_eq, not_true_eq_false, if_false, Prod.mk.injEq, true_and] at hs
          exact ⟨s, hinv, hs, hs ▸ hlen⟩
        · simp [hlen] at hs
      | cons cur rest =>
        simp only [hst] at hs
        cases hf : find_node nodes cur with
        | none => simp [hf] at hs
        | some n =>
          simp only [hf] at hs
          by_cases ha : cur ∈ s.nodes_added
          · simp [ha] at hs
          · by_cases hv : cur ∈ s.nodes_visited
            · simp [ha, hv] at hs
            · simp only [ha, if_false, hv] at hs
              cases hsc : topo_scan_inputs (cur :: s.downstream_nodes)
                  (cur :: s.nodes_visited) n.input_edges (cur :: rest) with
              | none => simp [hsc] at hs
              | some st => simp [hsc] at hs

/-- The shape of an OK result: the roots in insertion order, then a permutation
of the other nodes, each input of an emitted node emitted before it. -/
theorem topological_sort_ok_shape (nodes topo : List Node)
    (h : topological_sort nodes = some (StatusCode.OK, topo)) :
    ∃ E, topo = nodes.filter is_root ++ E ∧
      E.Perm (nodes.filter (fun n => !is_root n)) ∧ (E.map Node.id).Nodup ∧
      (∀ n ∈ E, ∀ r ∈ nodes.filter is_root, r.id ≠ n.id) ∧
      (∀ l1 v l2, topo = l1 ++ v :: l2 → ∀ e ∈ v.input_edges,
        find_node nodes e.other_node ≠ none → e.other_node ∈ l1.map Node.id) := by
  obtain ⟨s', hinv, ht, hlen⟩ := topo_loop_ok nodes topo _ _ (topo_init_inv nodes) h
  obtain ⟨E, hE1, hE2, hE3, hE4⟩ := hinv.topo_eq
  rw [ht] at hE1
  refine ⟨E, hE1, ?_, hE3, hE4, ?_⟩
  · have hsub : E ⊆ nodes.filter (fun n => !is_root n) := by
      intro n hn
      have hmem := (find_node_some (hE2 n hn)).1
      refine List.mem_filter.2 ⟨hmem, ?_⟩
      cases hr : is_root n with
      | false => rfl
      | true => exact absurd rfl (hE4 n hn n (List.mem_filter.2 ⟨hmem, hr⟩))
    have hl1 : (nodes.filter is_root).length + E.length = nodes.length := by
      rw [← hlen, hE1, List.length_append]
    have hl2 := (List.filter_append_perm is_root nodes).length_eq
    rw [List.length_append] at hl2
    exact (List.subperm_of_subset (List.Nodup.of_map _ hE3) hsub).perm_of_length_le (by omega)
  · intro l1 v l2 hl
    exact hinv.order l1 v l2 (ht ▸ hl)


/-- In an OK result every node that is the other node of an input edge of `v`
stands before `v`. -/
theorem topological_sort_ok_before (nodes topo : List Node)
    (h : topological_sort nodes = some (StatusCode.OK, topo))
    (l1 : List Node) (v : Node) (l2 : List Node) (hl : topo = l1 ++ v :: l2)
    (e : Edge) (he : e ∈ v.input_edges) (u : Node) (hu : u ∈ nodes)
    (hid : u.id = e.other_node) : u ∈ l1 := by
  obtain ⟨E, hE1, hE2, hE3, hE4, hord⟩ := topological_sort_ok_shape nodes topo h
  have hfound : find_node nodes e.other_node ≠ none := by
    intro hnone
    exact find_node_none hnone u hu hid
  have hw := hord l1 v l2 hl e he hfound
  obtain ⟨w, hw1, hw2⟩ := List.mem_map.1 hw
  -- the roots are a prefix of `l1`
  have hvnr : v ∉ nodes.filter is_root := by
    intro hv
    have := (List.mem_filter.1 hv).2
    simp only [is_root, decide_eq_true_eq, List.length_eq_zero] at this
    rw [this] at he
    simp at he
  have hsplit : ∃ a, l1 = nodes.filter is_root ++ a ∧ E = a ++ v :: l2 := by
    rw [hE1] at hl
    rcases List.append_eq_append_iff.1 hl with ⟨a, h1, h2⟩ | ⟨c, h1, h2⟩
    · exact ⟨a, h1, h2⟩
    · cases c with
      | nil =>
        simp only [List.append_nil, List.nil_append] at h1 h2
        exact ⟨[], by simp [h1], by simp [h2]⟩
      | cons c cs =>
        simp only [List.cons_append, List.cons.injEq] at h2
        exfalso
        apply hvnr
        rw [h1, h2.1]
        simp
  obtain ⟨a, ha1, ha2⟩ := hsplit
  cases hr : is_root u with
  | true =>
    rw [ha1]
    exact List.mem_append_left _ (List.mem_filter.2 ⟨hu, hr⟩)
  | false =>
    have huE : u ∈ E := hE2.mem_iff.2 (List.mem_filter.2 ⟨hu, by simp [hr]⟩)
    rw [ha1] at hw1
    rcases List.mem_append.1 hw1 with hwr | hwa
    · exact absurd (hw2.trans hid.symm) (hE4 u huE w hwr)
    · have hwE : w ∈ E := by rw [ha2]; exact List.mem_append_left _ hwa
      have : w = u := List.inj_on_of_nodup_map hE3 hwE huE (hw2.trans hid.symm)
      rw [ha1, ← this]
      exact List.mem_append_right _ hwa

/-- An OK result is a permutation of the node list. -/
theorem topological_sort_ok_perm (nodes topo : List Node)
    (h : topological_sort nodes = some (StatusCode.OK, topo)) : topo.Perm nodes := by
  obtain ⟨E, hE1, hE2, -, -, -⟩ := topological_sort_ok_shape nodes topo h
  rw [hE1]
  exact (List.Perm.append_left _ hE2).trans (List.filter_append_perm is_root nodes)

/-- On an OK result the position of first occurrence increases along edges. -/
theorem topological_sort_ok_rank (nodes topo : List Node)
    (h : topological_sort nodes = some (StatusCode.OK, topo)) (u v : Node)
    (huv : input_edge nodes u v) : topo.indexOf u < topo.indexOf v := by
  obtain ⟨hu, hv, e, he, hid⟩ := huv
  have hvt : v ∈ topo := (topological_sort_ok_perm nodes topo h).mem_iff.2 hv
  obtain ⟨l1, l2, hl, hvl⟩ := List.eq_append_cons_of_mem hvt
  have hul := topological_sort_ok_before nodes topo h l1 v l2 hl e he u hu hid.symm
  rw [hl, List.indexOf_append_of_mem hul, List.indexOf_append_of_not_mem hvl,
    List.indexOf_cons_self]
  have := List.indexOf_lt_length.2 hul
  omega

theorem topological_sort_ok_acyclic (nodes topo : List Node)
    (h : topological_sort nodes = some (StatusCode.OK, topo)) : ¬ has_cycle nodes := by
  rintro ⟨v, hv⟩
  have key : ∀ a b, Relation.TransGen (input_edge nodes) a b →
      topo.indexOf a < topo.indexOf b := by
    intro a b hab
    induction hab with
    | single h1 => exact topological_sort_ok_rank nodes topo h _ _ h1
    | tail _ h2 ih => exact lt_trans ih (topological_sort_ok_rank nodes topo h _ _ h2)
  exact lt_irrefl _ (key v v hv)

/-- C1. When `Graph::topological_sort` returns OK, `topological_nodes` is a
topological order of the edge relation: wherever a node `v` stands in the
result, every node `u` of the graph that is the other node of an input edge of
`v` stands at a strictly smaller index. -/
theorem topological_sort_valid_order (nodes topo : List Node)
    (h : topological_sort nodes = some (StatusCode.OK, topo)) :
    ∀ (l1 : List Node) (v : Node) (l2 : List Node), topo = l1 ++ v :: l2 →
      ∀ e ∈ v.input_edges, ∀ u ∈ nodes, u.id = e.other_node → u ∈ l1 :=
  fun l1 v l2 hl e he u hu hid =>
    topological_sort_ok_before nodes topo h l1 v l2 hl e he u hu hid

/-- Witness of C1 on the sample DAG, whose order is 0, 1, 2, 3. -/
theorem topological_sort_valid_order_witness :
    topological_sort sample_dag = some (StatusCode.OK, sample_dag_order) ∧
    ∀ (l1 : List Node) (v : Node) (l2 : List Node), sample_dag_order = l1 ++ v :: l2 →
      ∀ e ∈ v.input_edges, ∀ u ∈ sample_dag, u.id = e.other_node → u ∈ l1 :=
  ⟨by decide, topological_sort_valid_order sample_dag sample_dag_order (by decide)⟩

/-- C2. When `Graph::topological_sort` returns OK, `topological_nodes` holds
every node of `nodes` exactly once: it is a permutation of `nodes`, every node
occurs in it as often as in `nodes`, and the two lengths agree. -/
theorem topological_sort_complete (nodes topo : List Node)
    (h : topological_sort nodes = some (StatusCode.OK, topo)) :
    topo.Perm nodes ∧ (∀ n, topo.count n = nodes.count n) ∧
      topo.length = nodes.length :=
  ⟨topological_sort_ok_perm nodes topo h,
   fun n => (topological_sort_ok_perm nodes topo h).count_eq n,
   (topological_sort_ok_perm nodes topo h).length_eq⟩

/-- Witness of C2 on the sample DAG. -/
theorem topological_sort_complete_witness :
    topological_sort sample_dag = some (StatusCode.OK, sample_dag_order) ∧
    sample_dag_order.Perm sample_dag ∧
    (∀ n, sample_dag_order.count n = sample_dag.count n) ∧
      sample_dag_order.length = sample_dag.length :=
  ⟨by decide, topological_sort_complete sample_dag sample_dag_order (by decide)⟩

/-- C3. On a graph whose edges contain a directed cycle `Graph::topological_sort`
returns a status of kind INVALID_MODEL.  The cycle is taken in the input-edge
relation, which the mirrored edges of a built graph are part of. -/
theorem topological_sort_rejects_cycle (nodes : List Node) (hc : has_cycle nodes) :
    ∃ topo, topological_sort nodes = some (StatusCode.INVALID_MODEL, topo) := by
  obtain ⟨r, hr, hs⟩ := topological_sort_total nodes
  obtain ⟨st, topo⟩ := r
  rcases hs with hs | hs
  · simp only at hs
    subst hs
    exact absurd hc (topological_sort_ok_acyclic nodes topo hr)
  · simp only at hs
    subst hs
    exact ⟨topo, hr⟩

/-- Witness of C3: the sample cyclic graph has the cycle 1 → 2 → 3 → 1. -/
theorem topological_sort_rejects_cycle_witness :
    has_cycle sample_cyclic ∧
    ∃ topo, topological_sort sample_cyclic = some (StatusCode.INVALID_MODEL, topo) :=
  have hc : has_cycle sample_cyclic :=
    ⟨sample_node 1 [3] [2],
      Relation.TransGen.tail
        (Relation.TransGen.tail
          (Relation.TransGen.single
            (show input_edge sample_cyclic (sample_node 1 [3] [2]) (sample_node 2 [1] [3]) from
              ⟨by decide, by decide, ⟨1, 0, 0⟩, by decide, by decide⟩))
          (show input_edge sample_cyclic (sample_node 2 [1] [3]) (sample_node 3 [2] [1, 4]) from
            ⟨by decide, by decide, ⟨2, 0, 0⟩, by decide, by decide⟩))
        (show input_edge sample_cyclic (sample_node 3 [2] [1, 4]) (sample_node 1 [3] [2]) from
          ⟨by decide, by decide, ⟨3, 0, 0⟩, by decide, by decide⟩)⟩
  ⟨hc, topological_sort_rejects_cycle sample_cyclic hc⟩

/-! ### Maps -/

theorem map_find_eq_none {β : Type} (m : List (String × β)) (k : String) :
    map_find m k = none ↔ k ∉ map_keys m := by
  unfold map_find map_keys
  induction m with
  | nil => simp
  | cons kv m ih =>
    by_cases h : kv.1 = k
    · simp [List.find?_cons, h]
    · have h' : ¬ k = kv.1 := fun e => h e.symm
      simp only [List.find?_cons, h, decide_False, List.map_cons, List.mem_cons, h', false_or]
      exact ih

theorem map_find_isSome {β : Type} (m : List (String × β)) (k : String) :
    (map_find m k).isSome = true ↔ k ∈ map_keys m := by
  rw [← not_iff_not, ← map_find_eq_none]
  cases map_find m k <;> simp

theorem map_find_some_mem {β : Type} (m : List (String × β)) (k : String) (v : β)
    (h : map_find m k = some v) : (k, v) ∈ m := by
  unfold map_find at h
  cases hf : m.find? (fun kv => decide (kv.1 = k)) with
  | none => simp [hf] at h
  | some kv =>
    simp only [hf, Option.map_some', Option.some.injEq] at h
    have h1 := List.mem_of_find?_eq_some hf
    have h2 := List.find?_some hf
    simp only [decide_eq_true_eq] at h2
    have : kv = (k, v) := Prod.ext h2 h
    rw [← this]; exact h1

theorem map_keys_assign {β : Type} (m : List (String × β)) (k : String) (v : β) (x : String) :
    x ∈ map_keys (map_assign m k v) ↔ x ∈ map_keys m ∨ x = k := by
  unfold map_assign
  cases hf : map_find m k with
  | none => simp [map_keys]
  | some w =>
    have hk : k ∈ map_keys m := (map_find_isSome m k).1 (by simp [hf])
    simp only [map_keys, List.map_map, List.mem_map, Function.comp]
    constructor
    · rintro ⟨kv, hkv, rfl⟩
      by_cases h : kv.1 = k
      · right; simp [h]
      · left; exact ⟨kv, hkv, by simp [h]⟩
    · rintro (⟨kv, hkv, rfl⟩ | rfl)
      · by_cases h : kv.1 = k
        · exact ⟨kv, hkv, by simp [h]⟩
        · exact ⟨kv, hkv, by simp [h]⟩
      · obtain ⟨kv, hkv, rfl⟩ := List.mem_map.1 hk
        exact ⟨kv, hkv, by simp⟩

/-! ### `check_no_duplicate_names` -/

theorem check_node_outputs_spec (heap : NodeArgPtr → NodeArg) (iai : List String) (id : Int)
    (outs : List NodeArgPtr) (idx : Int) (oa : List (String × (Int × Int))) :
    ((check_node_outputs heap iai id outs idx oa).1 = StatusCode.OK ∨
      (check_node_outputs heap iai id outs idx oa).1 = StatusCode.INVALID_MODEL) ∧
    ((check_node_outputs heap iai id outs idx oa).1 = StatusCode.OK ↔
      ((outs.map (fun p => (heap p).name)).filter (fun s => decide (s ≠ ""))).Nodup ∧
      ∀ x ∈ (outs.map (fun p => (heap p).name)).filter (fun s => decide (s ≠ "")),
        x ∉ iai ∧ x ∉ map_keys oa) ∧
    ((check_node_outputs heap iai id outs idx oa).1 = StatusCode.OK →
      ∀ x, x ∈ map_keys (check_node_outputs heap iai id outs idx oa).2 ↔
        x ∈ map_keys oa ∨
        x ∈ (outs.map (fun p => (heap p).name)).filter (fun s => decide (s ≠ ""))) := by
  induction outs generalizing idx oa with
  | nil => simp [check_node_outputs]
  | cons out outs ih =>
    simp only [check_node_outputs]
    by_cases hne : (heap out).name = ""
    · simp only [hne, ne_eq, not_true_eq_false, if_false, List.map_cons, List.filter_cons,
        decide_False]
      exact ih (idx + 1) oa
    · by_cases hin : (heap out).name ∈ iai
      · simp only [ne_eq, hne, not_false_eq_true, if_true, hin, List.map_cons,
          List.filter_cons, decide_True]
        refine ⟨Or.inr trivial, ⟨(fun h => by cases h), ?_⟩, fun h => by cases h⟩
        rintro ⟨_, hall⟩
        exact absurd hin (hall _ (List.mem_cons_self _ _)).1
      · cases hf : map_find oa (heap out).name with
        | some w =>
          have hk : (heap out).name ∈ map_keys oa := (map_find_isSome _ _).1 (by simp [hf])
          simp only [ne_eq, hne, not_false_eq_true, if_true, hin, if_false, List.map_cons,
            List.filter_cons, decide_True]
          refine ⟨Or.inr trivial, ⟨(fun h => by cases h), ?_⟩, fun h => by cases h⟩
          rintro ⟨_, hall⟩
          exact absurd hk (hall _ (List.mem_cons_self _ _)).2
        | none =>
          have hk : (heap out).name ∉ map_keys oa := (map_find_eq_none _ _).1 hf
          simp only [ne_eq, hne, not_false_eq_true, if_true, hin, if_false, List.map_cons,
            List.filter_cons, decide_True]
          obtain ⟨h1, h2, h3⟩ := ih (idx + 1) (oa ++ [((heap out).name, (id, idx))])
          simp only [ne_eq] at h1 h2 h3
          have hkeys : ∀ x, x ∈ map_keys (oa ++ [((heap out).name, (id, idx))]) ↔
              x ∈ map_keys oa ∨ x = (heap out).name := by
            intro x; simp [map_keys]
          refine ⟨h1, ?_, ?_⟩
          · rw [h2, List.nodup_cons]
            constructor
            · rintro ⟨hnd, hall⟩
              refine ⟨⟨?_, hnd⟩, ?_⟩
              · intro hmem
                exact (hall _ hmem).2 ((hkeys _).2 (Or.inr rfl))
              · intro x hx
                rcases List.mem_cons.1 hx with rfl | hx
                · exact ⟨hin, hk⟩
                · exact ⟨(hall x hx).1, fun h => (hall x hx).2 ((hkeys x).2 (Or.inl h))⟩
            · rintro ⟨⟨hnm, hnd⟩, hall⟩
              refine ⟨hnd, ?_⟩
              intro x hx
              refine ⟨(hall x (List.mem_cons_of_mem _ hx)).1, ?_⟩
              intro h
              rcases (hkeys x).1 h with h | h
              · exact (hall x (List.mem_cons_of_mem _ hx)).2 h
              · exact hnm (h ▸ hx)
          · intro hok x
            rw [h3 hok x, hkeys x, List.mem_cons]
            tauto

theorem check_nodes_names_spec (heap : NodeArgPtr → NodeArg) (iai : List String)
    (nodes : List Node) (m : List (String × Int)) (oa : List (String × (Int × Int))) :
    ((check_nodes_names heap iai nodes m oa).1 = StatusCode.OK ∨
      (check_nodes_names heap iai nodes m oa).1 = StatusCode.INVALID_MODEL) ∧
    ((check_nodes_names heap iai nodes m oa).1 = StatusCode.OK ↔
      ((node_names nodes).Nodup ∧ ∀ x ∈ node_names nodes, x ∉ map_keys m) ∧
      ((output_names heap nodes).Nodup ∧
        ∀ x ∈ output_names heap nodes, x ∉ iai ∧ x ∉ map_keys oa)) := by
  induction nodes generalizing m oa with
  | nil => simp [check_nodes_names, node_names, output_names]
  | cons item items ih =>
    simp only [check_nodes_names]
    have hon : output_names heap (item :: items)
        = (item.output_args.map (fun p => (heap p).name)).filter (fun s => decide (s ≠ ""))
          ++ output_names heap items := by
      simp [output_names]
    by_cases hdup : item.name ≠ "" ∧ (map_find m item.name).isSome = true
    · rw [if_pos hdup]
      refine ⟨Or.inr rfl, ⟨(fun h => by cases h), ?_⟩⟩
      rintro ⟨⟨_, hall⟩, _⟩
      have hmem : item.name ∈ node_names (item :: items) := by
        simp [node_names, List.filter_cons, hdup.1]
      exact absurd ((map_find_isSome m item.name).1 hdup.2) (hall _ hmem)
    · rw [if_neg hdup]
      obtain ⟨o1, o2, o3⟩ := check_node_outputs_spec heap iai item.id item.output_args 0 oa
      have hkm : item.name ≠ "" → item.name ∉ map_keys m := by
        intro hne hk
        exact hdup ⟨hne, (map_find_isSome m item.name).2 hk⟩
      have hnn : ∀ P : String → Prop,
          ((node_names (item :: items)).Nodup ∧ ∀ x ∈ node_names (item :: items), P x) ↔
          ((item.name ≠ "" → item.name ∉ node_names items ∧ P item.name) ∧
            (node_names items).Nodup ∧ ∀ x ∈ node_names items, P x) := by
        intro P
        by_cases hne : item.name = ""
        · simp [node_names, List.filter_cons, hne]
        · simp [node_names, List.filter_cons, hne]
          tauto
      cases hr : check_node_outputs heap iai item.id item.output_args 0 oa with
      | mk st oa' =>
        rw [hr] at o1 o2 o3
        simp only at o1 o2 o3
        cases st with
        | OK =>
          simp only
          obtain ⟨i1, i2⟩ := ih (map_assign m item.name item.id) oa'
          have hk' := o3 rfl
          have ho := o2.1 rfl
          refine ⟨i1, ?_⟩
          rw [i2, hnn, hon, List.nodup_append]
          constructor
          · rintro ⟨⟨hnd, hall⟩, hnd2, hall2⟩
            refine ⟨⟨?_, hnd, ?_⟩, ⟨ho.1, hnd2, ?_⟩, ?_⟩
            · intro hne
              refine ⟨?_, hkm hne⟩
              intro hmem
              exact hall _ hmem ((map_keys_assign _ _ _ _).2 (Or.inr rfl))
            · intro x hx hk
              exact hall x hx ((map_keys_assign _ _ _ _).2 (Or.inl hk))
            · intro a ha1 ha2
              exact (hall2 a ha2).2 ((hk' a).2 (Or.inr ha1))
            · intro x hx
              rcases List.mem_append.1 hx with hx | hx
              · exact ho.2 x hx
              · exact ⟨(hall2 x hx).1, fun hk => (hall2 x hx).2 ((hk' x).2 (Or.inl hk))⟩
          · rintro ⟨⟨h1, hnd, hall⟩, ⟨_, hnd2, hdisj⟩, hall2⟩
            refine ⟨⟨hnd, ?_⟩, hnd2, ?_⟩
            · intro x hx hk
              rcases (map_keys_assign _ _ _ _).1 hk with hk | hk
              · exact hall x hx hk
              · subst hk
                have hxne : item.name ≠ "" := by
                  have := (List.mem_filter.1 hx).2
                  simpa using this
                exact (h1 hxne).1 hx
            · intro x hx
              refine ⟨(hall2 x (List.mem_append_right _ hx)).1, ?_⟩
              intro hk
              rcases (hk' x).1 hk with hk | hk
              · exact (hall2 x (List.mem_append_right _ hx)).2 hk
              · exact hdisj hk hx
        | INVALID_MODEL =>
          simp only
          refine ⟨Or.inr trivial, ⟨(fun h => by cases h), ?_⟩⟩
          rintro ⟨_, hnd2, hall2⟩
          rw [hon, List.nodup_append] at hnd2
          rw [hon] at hall2
          have := o2.2 ⟨hnd2.1, fun x hx => hall2 x (List.mem_append_left _ hx)⟩
          cases this
        | FAIL => simp at o1
        | FILE_NOT_FOUND => simp at o1
        | OUT_OF_MEMORY => simp at o1
        | INVALID_PARAM => simp at o1
        | RUNTIME_ERROR => simp at o1
        | NOT_IMPLEMENTED => simp at o1
        | THREAD_ERROR => simp at o1

/-- C4. `Graph::check_no_duplicate_names` returns OK if and only if every
non-empty node name occurs on exactly one node, every non-empty node-output
arg name occurs exactly once among all node outputs, and no non-empty
node-output name is in the inputs-and-initializers set; in every other case it
returns INVALID_MODEL. -/
theorem check_no_duplicate_names_ok_iff (g : Graph) :
    ((check_no_duplicate_names g).1 = StatusCode.OK ↔
      (node_names g.m_nodes).Nodup ∧ (output_names g.heap g.m_nodes).Nodup ∧
      ∀ x ∈ output_names g.heap g.m_nodes,
        x ∉ g.m_topology_context.inputs_and_initializers) ∧
    ((check_no_duplicate_names g).1 ≠ StatusCode.OK →
      (check_no_duplicate_names g).1 = StatusCode.INVALID_MODEL) := by
  obtain ⟨h1, h2⟩ := check_nodes_names_spec g.heap
    g.m_topology_context.inputs_and_initializers g.m_nodes [] []
  have hst : (check_no_duplicate_names g).1
      = (check_nodes_names g.heap g.m_topology_context.inputs_and_initializers
          g.m_nodes [] []).1 := by
    unfold check_no_duplicate_names
    rfl
  rw [hst]
  constructor
  · rw [h2]
    simp [map_keys]
  · intro hne
    rcases h1 with h1 | h1
    · exact absurd h1 hne
    · exact h1

/-! ### `get_or_create_nodearg` -/

theorem map_find_append_of_some {β : Type} (m m' : List (String × β)) (k : String) (v : β)
    (h : map_find m k = some v) : map_find (m ++ m') k = some v := by
  unfold map_find at h ⊢
  cases hf : m.find? (fun kv => decide (kv.1 = k)) with
  | none => simp [hf] at h
  | some kv =>
    rw [List.find?_append, hf]
    rw [hf] at h
    simpa using h

theorem map_find_append_of_none {β : Type} (m m' : List (String × β)) (k : String)
    (h : map_find m k = none) : map_find (m ++ m') k = map_find m' k := by
  unfold map_find at h ⊢
  cases hf : m.find? (fun kv => decide (kv.1 = k)) with
  | none => rw [List.find?_append, hf]; simp
  | some kv => simp [hf] at h

theorem get_or_create_nodearg_of_bound (g : Graph) (name : String) (p : NodeArgPtr)
    (t : NodeArg) (h : get_nodearg g name = some p) :
    get_or_create_nodearg g name t = (p, g) := by
  unfold get_or_create_nodearg
  unfold get_nodearg at h
  rw [h]

/-- A name that is bound stays bound to the same handle and object through
any later call. -/
theorem get_or_create_nodearg_keeps (g : Graph) (name : String) (p : NodeArgPtr)
    (t : NodeArg) (h1 : get_nodearg g name = some p) (h2 : g.heap p = t)
    (h3 : p < g.heap_next) (n : String) (a : NodeArg) :
    get_nodearg (get_or_create_nodearg g n a).2 name = some p ∧
    (get_or_create_nodearg g n a).2.heap p = t ∧
    p < (get_or_create_nodearg g n a).2.heap_next := by
  unfold get_or_create_nodearg
  cases hf : map_find g.m_nodearg_map n with
  | some q => exact ⟨h1, h2, h3⟩
  | none =>
    refine ⟨?_, ?_, ?_⟩
    · exact map_find_append_of_some _ _ _ _ h1
    · have : p ≠ g.heap_next := Nat.ne_of_lt h3
      simp [this, h2]
    · exact Nat.lt_succ_of_lt h3

theorem nodearg_calls_keeps (calls : List (String × NodeArg)) (g : Graph) (name : String)
    (p : NodeArgPtr) (t : NodeArg) (h1 : get_nodearg g name = some p) (h2 : g.heap p = t)
    (h3 : p < g.heap_next) :
    get_nodearg (nodearg_calls g calls) name = some p ∧
    (nodearg_calls g calls).heap p = t := by
  induction calls generalizing g with
  | nil => exact ⟨h1, h2⟩
  | cons c cs ih =>
    obtain ⟨k1, k2, k3⟩ := get_or_create_nodearg_keeps g name p t h1 h2 h3 c.1 c.2
    exact ih _ k1 k2 k3

/-- C7. `Graph::get_or_create_nodearg` is idempotent per name: the first call
with a name stores a copy of the template and returns its handle; after any
further calls, a call with the same name and any template returns the same
handle and changes nothing, the object behind the handle is still the stored
copy, and `get_nodearg(name)` returns that handle. -/
theorem get_or_create_nodearg_idempotent (g : Graph) (name : String) (t t' : NodeArg)
    (calls : List (String × NodeArg)) (hnew : get_nodearg g name = none) :
    (get_or_create_nodearg g name t).2.heap (get_or_create_nodearg g name t).1 = t ∧
    get_or_create_nodearg (nodearg_calls (get_or_create_nodearg g name t).2 calls) name t'
      = ((get_or_create_nodearg g name t).1,
          nodearg_calls (get_or_create_nodearg g name t).2 calls) ∧
    (nodearg_calls (get_or_create_nodearg g name t).2 calls).heap
      (get_or_create_nodearg g name t).1 = t ∧
    get_nodearg (nodearg_calls (get_or_create_nodearg g name t).2 calls) name
      = some (get_or_create_nodearg g name t).1 := by
  have hr : get_or_create_nodearg g name t
      = (g.heap_next,
          { g with
            m_nodearg_map := g.m_nodearg_map ++ [(name, g.heap_next)]
            heap := fun p => if p = g.heap_next then t else g.heap p
            heap_next := g.heap_next + 1 }) := by
    unfold get_or_create_nodearg
    unfold get_nodearg at hnew
    rw [hnew]
  have k1 : get_nodearg (get_or_create_nodearg g name t).2 name = some g.heap_next := by
    rw [hr]
    unfold get_nodearg at hnew ⊢
    simp only
    rw [map_find_append_of_none _ _ _ hnew]
    simp [map_find]
  have k2 : (get_or_create_nodearg g name t).2.heap g.heap_next = t := by
    rw [hr]; simp
  have k3 : g.heap_next < (get_or_create_nodearg g name t).2.heap_next := by
    rw [hr]; simp
  have k0 : (get_or_create_nodearg g name t).1 = g.heap_next := by rw [hr]
  obtain ⟨c1, c2⟩ := nodearg_calls_keeps calls _ name g.heap_next t k1 k2 k3
  rw [k0]
  exact ⟨k2, get_or_create_nodearg_of_bound _ name _ t' c1, c2, c1⟩

/-- Witness of C7: the name "x" is new in the empty graph; other names are
requested in between. -/
theorem get_or_create_nodearg_idempotent_witness :
    get_nodearg (Graph.empty (fun _ => NodeArg.named "") 0) "x" = none ∧
    (get_or_create_nodearg (Graph.empty (fun _ => NodeArg.named "") 0) "x"
        (NodeArg.mk "x" PrimitiveDataType.FLOAT32 [1, 3])).2.heap
      (get_or_create_nodearg (Graph.empty (fun _ => NodeArg.named "") 0) "x"
        (NodeArg.mk "x" PrimitiveDataType.FLOAT32 [1, 3])).1
      = NodeArg.mk "x" PrimitiveDataType.FLOAT32 [1, 3] :=
  ⟨by decide,
    (get_or_create_nodearg_idempotent (Graph.empty (fun _ => NodeArg.named "") 0) "x"
      (NodeArg.mk "x" PrimitiveDataType.FLOAT32 [1, 3]) (NodeArg.named "x")
      [("y", NodeArg.named "y"), ("x", NodeArg.named "z")] (by decide)).1⟩

/-! ### `NodeShapeManager` -/

theorem get_shape_infer_null (m : NodeInferMap) (node_type : String) :
    get_shape_infer m node_type = none := by
  unfold get_shape_infer
  cases map_find m node_type <;> rfl

/-- C10 (the code departs from the claim). After `register_all_infer` the
type "Relu" is registered with the inferer whose `node_type()` is "Relu", and
`get_shape_infer("Relu")` returns the null pointer all the same; so it does
for all seven registered types. -/
theorem get_shape_infer_registered_null :
    map_find (register_all_infer []) "Relu" = some IShapeInfer.ReluShapeInfer ∧
    IShapeInfer.ReluShapeInfer.node_type = "Relu" ∧
    get_shape_infer (register_all_infer []) "Relu" = none ∧
    ∀ t ∈ ["Add", "Conv", "Flatten", "Gemm", "GlobalAveragePool", "MaxPool", "Relu"],
      (map_find (register_all_infer []) t).isSome = true ∧
      get_shape_infer (register_all_infer []) t = none := by
  refine ⟨by decide, by decide, by decide, ?_⟩
  intro t ht
  refine ⟨?_, get_shape_infer_null _ _⟩
  simp only [List.mem_cons, List.mem_singleton, List.not_mem_nil, or_false] at ht
  rcases ht with rfl | rfl | rfl | rfl | rfl | rfl | rfl <;> decide

/-! ### `initialize` -/

theorem map_find_insert {β : Type} (m : List (String × β)) (key : String) (value : β)
    (k : String) :
    map_find (map_insert m key value) k
      = match map_find m k with
        | some v => some v
        | none => if key = k then some value else none := by
  unfold map_insert
  cases hk : map_find m key with
  | some w =>
    cases hf : map_find m k with
    | some v => simp
    | none =>
      simp only
      by_cases h : key = k
      · rw [h] at hk; rw [hk] at hf; cases hf
      · simp [h]
  | none =>
    cases hf : map_find m k with
    | some v => simp only; exact map_find_append_of_some _ _ _ _ hf
    | none =>
      simp only
      rw [map_find_append_of_none _ _ _ hf]
      by_cases h : key = k
      · simp [map_find, h]
      · simp [map_find, h]

/-- A map filled by `insert` in list order binds each key to the value of the
first list entry with that key, unless the key was bound before. -/
theorem map_find_foldl_insert {α β : Type} (key : α → String) (value : α → β) (l : List α)
    (acc : List (String × β)) (k : String) :
    map_find (l.foldl (fun m a => map_insert m (key a) (value a)) acc) k
      = match map_find acc k with
        | some v => some v
        | none => (l.find? (fun a => decide (key a = k))).map value := by
  induction l generalizing acc with
  | nil => cases h : map_find acc k <;> simp [h]
  | cons a l ih =>
    rw [List.foldl_cons, ih, map_find_insert]
    cases hf : map_find acc k with
    | some v => simp
    | none =>
      by_cases h : key a = k
      · simp [h, List.find?_cons]
      · simp [h, List.find?_cons]

theorem find_isSome_iff_mem_map {α : Type} (key : α → String) (l : List α) (k : String) :
    (l.find? (fun a => decide (key a = k))).isSome = true ↔ k ∈ l.map key := by
  induction l with
  | nil => simp
  | cons a l ih =>
    by_cases h : key a = k
    · simp [List.find?_cons, h]
    · have h' : ¬ k = key a := fun e => h e.symm
      simp only [List.find?_cons, h, decide_False, List.map_cons, List.mem_cons, h', false_or]
      exact ih

theorem find_key_eq {α : Type} (key : α → String) (l : List α) (k : String) (a : α)
    (h : l.find? (fun a => decide (key a = k)) = some a) : key a = k := by
  have := List.find?_some h
  simpa using this

theorem resolve_outputs_spec (no : List (String × NodeArgPtr))
    (gi gn : List (String × Option NodeArgPtr)) (handle : String → Option NodeArgPtr)
    (names : List String) (acc : List (Option NodeArgPtr))
    (hh : ∀ name, (map_find no name).isSome ∨ (map_find gi name).isSome ∨
        (map_find gn name).isSome →
      (match map_find no name with
        | some p => some p
        | none =>
          match map_find gi name with
          | some p => p
          | none =>
            match map_find gn name with
            | some p => p
            | none => none) = handle name) :
    ((resolve_outputs no gi gn names acc).1 = StatusCode.INVALID_MODEL ↔
      ∃ name ∈ names, map_find no name = none ∧ map_find gi name = none ∧
        map_find gn name = none) ∧
    ((resolve_outputs no gi gn names acc).1 ≠ StatusCode.INVALID_MODEL →
      (resolve_outputs no gi gn names acc).1 = StatusCode.OK ∧
      (resolve_outputs no gi gn names acc).2 = acc ++ names.map handle) := by
  induction names generalizing acc with
  | nil => simp [resolve_outputs]
  | cons name names ih =>
    have hn := hh name
    simp only [resolve_outputs]
    cases h1 : map_find no name with
    | some p =>
      rw [h1] at hn
      simp only at hn ⊢
      have hp : some p = handle name := hn (Or.inl rfl)
      obtain ⟨i1, i2⟩ := ih (acc ++ [some p])
      refine ⟨?_, ?_⟩
      · rw [i1]
        constructor
        · rintro ⟨x, hx, h⟩; exact ⟨x, List.mem_cons_of_mem _ hx, h⟩
        · rintro ⟨x, hx, h⟩
          rcases List.mem_cons.1 hx with rfl | hx
          · rw [h1] at h; cases h.1
          · exact ⟨x, hx, h⟩
      · intro hne
        obtain ⟨j1, j2⟩ := i2 hne
        exact ⟨j1, by rw [j2, hp]; simp⟩
    | none =>
      cases h2 : map_find gi name with
      | some p =>
        rw [h1, h2] at hn
        simp only at hn ⊢
        have hp : p = handle name := hn (Or.inr (Or.inl rfl))
        obtain ⟨i1, i2⟩ := ih (acc ++ [p])
        refine ⟨?_, ?_⟩
        · rw [i1]
          constructor
          · rintro ⟨x, hx, h⟩; exact ⟨x, List.mem_cons_of_mem _ hx, h⟩
          · rintro ⟨x, hx, h⟩
            rcases List.mem_cons.1 hx with rfl | hx
            · rw [h2] at h; cases h.2.1
            · exact ⟨x, hx, h⟩
        · intro hne
          obtain ⟨j1, j2⟩ := i2 hne
          exact ⟨j1, by rw [j2, hp]; simp⟩
      | none =>
        cases h3 : map_find gn name with
        | some p =>
          rw [h1, h2, h3] at hn
          simp only at hn ⊢
          have hp : p = handle name := hn (Or.inr (Or.inr rfl))
          obtain ⟨i1, i2⟩ := ih (acc ++ [p])
          refine ⟨?_, ?_⟩
          · rw [i1]
            constructor
            · rintro ⟨x, hx, h⟩; exact ⟨x, List.mem_cons_of_mem _ hx, h⟩
            · rintro ⟨x, hx, h⟩
              rcases List.mem_cons.1 hx with rfl | hx
              · rw [h3] at h; cases h.2.2
              · exact ⟨x, hx, h⟩
          · intro hne
            obtain ⟨j1, j2⟩ := i2 hne
            exact ⟨j1, by rw [j2, hp]; simp⟩
        | none =>
          simp only
          refine ⟨⟨fun _ => ⟨name, List.mem_cons_self _ _, h1, h2, h3⟩, fun _ => trivial⟩, ?_⟩
          intro hne
          exact absurd rfl hne

theorem initialize_graph_outputs (g : Graph) :
    (initialize_graph g).1
      = (resolve_outputs (collect_nodes_outputs g.heap g.m_nodes)
          (g.m_initializer_map.foldl (fun m kv => map_insert m kv.1 (get_nodearg g kv.1)) [])
          (g.m_inputs_name.foldl (fun m name => map_insert m name (get_nodearg g name)) [])
          g.m_outputs_name []).1 ∧
    (initialize_graph g).2.m_outputs
      = (resolve_outputs (collect_nodes_outputs g.heap g.m_nodes)
          (g.m_initializer_map.foldl (fun m kv => map_insert m kv.1 (get_nodearg g kv.1)) [])
          (g.m_inputs_name.foldl (fun m name => map_insert m name (get_nodearg g name)) [])
          g.m_outputs_name []).2 := by
  unfold initialize_graph
  simp only
  cases resolve_outputs (collect_nodes_outputs g.heap g.m_nodes)
      (g.m_initializer_map.foldl (fun m kv => map_insert m kv.1 (get_nodearg g kv.1)) [])
      (g.m_inputs_name.foldl (fun m name => map_insert m name (get_nodearg g name)) [])
      g.m_outputs_name [] with
  | mk st outs => cases st <;> exact ⟨rfl, rfl⟩

theorem map_find_nil {β : Type} (k : String) : map_find ([] : List (String × β)) k = none := rfl

/-- C6 (amended). `Graph::initialize` returns INVALID_MODEL if and only if some
declared graph-output name is not the name of any node output arg, not an
initializer name and not a declared graph-input name; otherwise it returns OK
and `outputs` holds one handle per declared output name, in declaration order:
the first node output arg of that name if there is one, otherwise the `NodeArg`
registered under the name, which is the null pointer when none is registered. -/
theorem initialize_graph_spec (g : Graph) :
    ((initialize_graph g).1 = StatusCode.INVALID_MODEL ↔
      ∃ name ∈ g.m_outputs_name, name ∉ all_output_names g ∧
        name ∉ map_keys g.m_initializer_map ∧ name ∉ g.m_inputs_name) ∧
    ((initialize_graph g).1 ≠ StatusCode.INVALID_MODEL →
      (initialize_graph g).1 = StatusCode.OK ∧
      (initialize_graph g).2.m_outputs = g.m_outputs_name.map (output_handle g)) := by
  obtain ⟨e1, e2⟩ := initialize_graph_outputs g
  have hno : ∀ name, map_find (collect_nodes_outputs g.heap g.m_nodes) name
      = (g.m_nodes.flatMap Node.output_args).find? (fun p => decide ((g.heap p).name = name)) := by
    intro name
    unfold collect_nodes_outputs
    rw [map_find_foldl_insert (fun p => (g.heap p).name) (fun p => p), map_find_nil]
    simp
  have hgi : ∀ name, map_find
      (g.m_initializer_map.foldl (fun m kv => map_insert m kv.1 (get_nodearg g kv.1)) []) name
      = (g.m_initializer_map.find? (fun kv => decide (kv.1 = name))).map
          (fun kv => get_nodearg g kv.1) := by
    intro name
    rw [map_find_foldl_insert (fun kv : String × Tensor => kv.1)
      (fun kv => get_nodearg g kv.1), map_find_nil]
  have hgn : ∀ name, map_find
      (g.m_inputs_name.foldl (fun m name => map_insert m name (get_nodearg g name)) []) name
      = (g.m_inputs_name.find? (fun n => decide (n = name))).map (get_nodearg g) := by
    intro name
    rw [map_find_foldl_insert (fun n : String => n) (get_nodearg g), map_find_nil]
  have hh : ∀ name,
      (map_find (collect_nodes_outputs g.heap g.m_nodes) name).isSome ∨
      (map_find (g.m_initializer_map.foldl
        (fun m kv => map_insert m kv.1 (get_nodearg g kv.1)) []) name).isSome ∨
      (map_find (g.m_inputs_name.foldl
        (fun m name => map_insert m name (get_nodearg g name)) []) name).isSome →
      (match map_find (collect_nodes_outputs g.heap g.m_nodes) name with
        | some p => some p
        | none =>
          match map_find (g.m_initializer_map.foldl
              (fun m kv => map_insert m kv.1 (get_nodearg g kv.1)) []) name with
          | some p => p
          | none =>
            match map_find (g.m_inputs_name.foldl
                (fun m name => map_insert m name (get_nodearg g name)) []) name with
            | some p => p
            | none => none) = output_handle g name := by
    intro name hsome
    rw [hno, hgi, hgn] at *
    unfold output_handle
    cases h1 : (g.m_nodes.flatMap Node.output_args).find?
        (fun p => decide ((g.heap p).name = name)) with
    | some p => rfl
    | none =>
      simp only
      cases h2 : g.m_initializer_map.find? (fun kv => decide (kv.1 = name)) with
      | some kv =>
        have hk : kv.1 = name := find_key_eq (fun kv : String × Tensor => kv.1) _ _ _ h2
        simp only [Option.map_some']
        rw [hk]
      | none =>
        simp only [Option.map_none']
        cases h3 : g.m_inputs_name.find? (fun n => decide (n = name)) with
        | some n =>
          have hk : n = name := find_key_eq (fun n : String => n) _ _ _ h3
          simp only [Option.map_some']
          rw [hk]
        | none =>
          rw [h1, h2, h3] at hsome
          simp at hsome
  obtain ⟨r1, r2⟩ := resolve_outputs_spec _ _ _ (output_handle g) g.m_outputs_name [] hh
  rw [e1, e2]
  refine ⟨?_, ?_⟩
  · rw [r1]
    have key : ∀ name,
        (map_find (collect_nodes_outputs g.heap g.m_nodes) name = none ∧
          map_find (g.m_initializer_map.foldl
            (fun m kv => map_insert m kv.1 (get_nodearg g kv.1)) []) name = none ∧
          map_find (g.m_inputs_name.foldl
            (fun m name => map_insert m name (get_nodearg g name)) []) name = none) ↔
        (name ∉ all_output_names g ∧ name ∉ map_keys g.m_initializer_map ∧
          name ∉ g.m_inputs_name) := by
      intro name
      rw [hno, hgi, hgn]
      have a1 := find_isSome_iff_mem_map (fun p => (g.heap p).name)
        (g.m_nodes.flatMap Node.output_args) name
      have a2 := find_isSome_iff_mem_map (fun kv : String × Tensor => kv.1)
        g.m_initializer_map name
      have a3 := find_isSome_iff_mem_map (fun n : String => n) g.m_inputs_name name
      simp only [List.map_id'] at a3
      unfold all_output_names map_keys
      rw [← a1, ← a2, ← a3]
      cases (g.m_nodes.flatMap Node.output_args).find?
          (fun p => decide ((g.heap p).name = name)) <;>
        cases g.m_initializer_map.find? (fun kv => decide (kv.1 = name)) <;>
        cases g.m_inputs_name.find? (fun n => decide (n = name)) <;> simp
    constructor
    · rintro ⟨name, hn, h⟩
      exact ⟨name, hn, (key name).1 h⟩
    · rintro ⟨name, hn, h⟩
      exact ⟨name, hn, (key name).2 h⟩
  · intro hne
    obtain ⟨j1, j2⟩ := r2 hne
    exact ⟨j1, by rw [j2]; simp⟩

/-- The counterexample to C6: with the initializer "w", which has no
`NodeArg`, declared as output, `initialize` returns OK and the entry of
`outputs` for "w" is the null pointer, not a `NodeArg`. -/
theorem initialize_graph_null_output :
    get_nodearg sample_output_initializer "w" = none ∧
    (initialize_graph sample_output_initializer).1 = StatusCode.OK ∧
    (initialize_graph sample_output_initializer).2.m_outputs = [none] := by
  decide

/-! ### `clean_unused_initializers_args` -/

theorem collect_erase_initializers_spec (g : Graph) (used : List (Option NodeArgPtr))
    (imap : List (String × Tensor)) (acc er : List String)
    (h : collect_erase_initializers g used imap acc = some er) :
    (∀ kv ∈ imap, get_nodearg g kv.1 ≠ none) ∧
    ∀ x, x ∈ er ↔ x ∈ acc ∨ ∃ kv ∈ imap, kv.1 = x ∧ get_nodearg g x ∉ used := by
  induction imap generalizing acc with
  | nil =>
    simp only [collect_erase_initializers, Option.some.injEq] at h
    subst h
    simp
  | cons kv rest ih =>
    obtain ⟨name, t⟩ := kv
    simp only [collect_erase_initializers] at h
    cases hg : get_nodearg g name with
    | none => simp [hg] at h
    | some p =>
      simp only [hg] at h
      by_cases hu : some p ∈ used
      · simp only [hu, not_true_eq_false, if_false] at h
        obtain ⟨i1, i2⟩ := ih acc h
        refine ⟨?_, ?_⟩
        · intro kv hkv
          rcases List.mem_cons.1 hkv with rfl | hkv
          · simp [hg]
          · exact i1 kv hkv
        · intro x
          rw [i2 x]
          constructor
          · rintro (h1 | ⟨kv, hkv, h2⟩)
            · exact Or.inl h1
            · exact Or.inr ⟨kv, List.mem_cons_of_mem _ hkv, h2⟩
          · rintro (h1 | ⟨kv, hkv, h2, h3⟩)
            · exact Or.inl h1
            · rcases List.mem_cons.1 hkv with rfl | hkv
              · simp only at h2
                subst h2
                rw [hg] at h3
                exact absurd hu h3
              · exact Or.inr ⟨kv, hkv, h2, h3⟩
      · simp only [hu, not_false_eq_true, if_true] at h
        obtain ⟨i1, i2⟩ := ih (acc ++ [name]) h
        refine ⟨?_, ?_⟩
        · intro kv hkv
          rcases List.mem_cons.1 hkv with rfl | hkv
          · simp [hg]
          · exact i1 kv hkv
        · intro x
          rw [i2 x, List.mem_append, List.mem_singleton]
          constructor
          · rintro ((h1 | h1) | ⟨kv, hkv, h2⟩)
            · exact Or.inl h1
            · subst h1
              exact Or.inr ⟨(x, t), List.mem_cons_self _ _, rfl, by rw [hg]; exact hu⟩
            · exact Or.inr ⟨kv, List.mem_cons_of_mem _ hkv, h2⟩
          · rintro (h1 | ⟨kv, hkv, h2, h3⟩)
            · exact Or.inl (Or.inl h1)
            · rcases List.mem_cons.1 hkv with rfl | hkv
              · exact Or.inl (Or.inr h2.symm)
              · exact Or.inr ⟨kv, hkv, h2, h3⟩

theorem collect_erase_initializers_none (g : Graph) (used : List (Option NodeArgPtr))
    (imap : List (String × Tensor)) (acc : List String)
    (h : ∀ kv ∈ imap, get_nodearg g kv.1 ≠ none) :
    collect_erase_initializers g used imap acc ≠ none := by
  induction imap generalizing acc with
  | nil => simp [collect_erase_initializers]
  | cons kv rest ih =>
    obtain ⟨name, t⟩ := kv
    simp only [collect_erase_initializers]
    cases hg : get_nodearg g name with
    | none => exact absurd hg (h (name, t) (List.mem_cons_self _ _))
    | some p =>
      simp only
      split
      · exact ih _ (fun kv hkv => h kv (List.mem_cons_of_mem _ hkv))
      · exact ih _ (fun kv hkv => h kv (List.mem_cons_of_mem _ hkv))

theorem mem_foldl_map_erase {β : Type} (er : List String) (m : List (String × β))
    (kv : String × β) :
    kv ∈ er.foldl map_erase m ↔ kv ∈ m ∧ kv.1 ∉ er := by
  induction er generalizing m with
  | nil => simp
  | cons e er ih =>
    rw [List.foldl_cons, ih]
    simp only [map_erase, List.mem_filter, decide_eq_true_eq, List.mem_cons, not_or]
    tauto

/-- What an OK run of the cleanup keeps: an initializer exactly when its
`NodeArg` was marked before the initializers were examined, an entry of
`nodearg_map` exactly when its key is empty or its `NodeArg` was marked at the
end; everything else is unchanged. -/
theorem clean_unused_initializers_args_ok (g g' : Graph)
    (h : clean_unused_initializers_args g = (StatusCode.OK, g')) :
    (∀ kv ∈ g.m_initializer_map, get_nodearg g kv.1 ≠ none) ∧
    (∀ kv, kv ∈ g'.m_initializer_map ↔
      kv ∈ g.m_initializer_map ∧ get_nodearg g kv.1 ∈ used_before_initializers g) ∧
    (∀ kv, kv ∈ g'.m_nodearg_map ↔
      kv ∈ g.m_nodearg_map ∧ (kv.1 = "" ∨ some kv.2 ∈ used_node_args g)) ∧
    g'.m_nodearg_map
      = g.m_nodearg_map.filter
          (fun kv => !(decide (kv.1 ≠ "") && decide (some kv.2 ∉ used_node_args g))) ∧
    g'.m_nodes = g.m_nodes ∧ g'.m_outputs = g.m_outputs ∧
    g'.m_overridable_initializers = g.m_overridable_initializers ∧
    g'.m_inputs_exclude_initializer = g.m_inputs_exclude_initializer ∧
    g'.heap = g.heap := by
  unfold clean_unused_initializers_args at h
  cases hc : collect_erase_initializers g (used_before_initializers g) g.m_initializer_map [] with
  | none => simp [hc] at h
  | some er =>
    simp only [hc, Prod.mk.injEq, true_and] at h
    subst h
    obtain ⟨c1, c2⟩ := collect_erase_initializers_spec g _ _ _ _ hc
    refine ⟨c1, ?_, ?_, rfl, rfl, rfl, rfl, rfl, rfl⟩
    · intro kv
      simp only
      rw [mem_foldl_map_erase, c2]
      simp only [List.not_mem_nil, false_or]
      constructor
      · rintro ⟨h1, h2⟩
        refine ⟨h1, ?_⟩
        by_contra hn
        exact h2 ⟨kv, h1, rfl, hn⟩
      · rintro ⟨h1, h2⟩
        refine ⟨h1, ?_⟩
        rintro ⟨_, _, _, h3⟩
        exact h3 h2
    · intro kv
      simp only [List.mem_filter, Bool.not_eq_true', Bool.and_eq_false_imp, decide_eq_true_eq,
        decide_eq_false_iff_not, not_not, ne_eq]
      constructor
      · rintro ⟨h1, h2⟩
        refine ⟨h1, ?_⟩
        by_cases he : kv.1 = ""
        · exact Or.inl he
        · exact Or.inr (h2 he)
      · rintro ⟨h1, h2 | h2⟩
        · exact ⟨h1, fun he => absurd h2 he⟩
        · exact ⟨h1, fun _ => h2⟩

theorem map_find_filter_of_kept {β : Type} (m : List (String × β)) (keep : String × β → Bool)
    (k : String) (v : β) (h : map_find m k = some v) (hk : keep (k, v) = true) :
    map_find (m.filter keep) k = some v := by
  induction m with
  | nil => simp [map_find] at h
  | cons kv m ih =>
    by_cases hkey : kv.1 = k
    · have hv : kv = (k, v) := by
        have : map_find (kv :: m) k = some kv.2 := by simp [map_find, List.find?_cons, hkey]
        rw [this] at h
        exact Prod.ext hkey (Option.some.inj h)
      subst hv
      simp [List.filter_cons, hk, map_find, List.find?_cons]
    · have h' : map_find m k = some v := by
        simpa [map_find, List.find?_cons, hkey] using h
      cases hkeep : keep kv with
      | true =>
        simp only [List.filter_cons, hkeep, if_true]
        have := ih h'
        simpa [map_find, List.find?_cons, hkey] using this
      | false =>
        simp only [List.filter_cons, hkeep, Bool.false_eq_true, if_false]
        exact ih h'

/-- What `Graph::clean_unused_initializers_args` keeps when it returns OK on any
graph: an initializer exactly when its `NodeArg` is an external graph input, an
overridable initializer, a graph output or an input arg of some node (the
output args of the nodes are marked only after the initializers have been
examined), and a `NodeArg` registered under a non-empty name exactly when it is
one of those or an output arg of some node; nothing is added to either map. -/
theorem clean_unused_initializers_args_keeps (g g' : Graph)
    (h : clean_unused_initializers_args g = (StatusCode.OK, g')) :
    (∀ kv ∈ g.m_initializer_map,
      kv ∈ g'.m_initializer_map ↔
        get_nodearg g kv.1 ∈
          g.m_inputs_exclude_initializer ++ g.m_overridable_initializers ++ g.m_outputs ++
            (g.m_nodes.flatMap (fun n => n.input_args)).map some) ∧
    (∀ kv ∈ g.m_nodearg_map, kv.1 ≠ "" →
      (kv ∈ g'.m_nodearg_map ↔
        some kv.2 ∈
          g.m_inputs_exclude_initializer ++ g.m_overridable_initializers ++ g.m_outputs ++
            (g.m_nodes.flatMap (fun n => n.input_args)).map some ++
            (g.m_nodes.flatMap (fun n => n.output_args)).map some)) ∧
    (∀ kv ∈ g'.m_initializer_map, kv ∈ g.m_initializer_map) ∧
    (∀ kv ∈ g'.m_nodearg_map, kv ∈ g.m_nodearg_map) := by
  obtain ⟨-, h2, h3, -⟩ := clean_unused_initializers_args_ok g g' h
  refine ⟨?_, ?_, fun kv hkv => ((h2 kv).1 hkv).1, fun kv hkv => ((h3 kv).1 hkv).1⟩
  · intro kv hkv
    rw [h2 kv]
    exact ⟨fun hh => hh.2, fun hh => ⟨hkv, hh⟩⟩
  · intro kv hkv hne
    rw [h3 kv]
    constructor
    · rintro ⟨_, he | hu⟩
      · exact absurd he hne
      · exact hu
    · intro hu
      exact ⟨hkv, Or.inr hu⟩

/-- C9 (amended). After a successful cleanup every initializer remaining in
`initializer_map` has a `NodeArg`, and that `NodeArg` is an input arg of some
node, a graph output, an overridable initializer or an external graph input. -/
theorem clean_unused_initializers_args_remaining (g g' : Graph)
    (h : clean_unused_initializers_args g = (StatusCode.OK, g')) :
    ∀ kv ∈ g'.m_initializer_map, ∃ p, get_nodearg g' kv.1 = some p ∧
      ((∃ n ∈ g'.m_nodes, p ∈ n.input_args) ∨ some p ∈ g'.m_outputs ∨
        some p ∈ g'.m_overridable_initializers ∨
        some p ∈ g'.m_inputs_exclude_initializer) := by
  obtain ⟨h1, h2, -, h4, e1, e2, e3, e4, -⟩ := clean_unused_initializers_args_ok g g' h
  intro kv hkv
  obtain ⟨hmem, hused⟩ := (h2 kv).1 hkv
  cases hp : get_nodearg g kv.1 with
  | none => exact absurd hp (h1 kv hmem)
  | some p =>
    rw [hp] at hused
    have hkeep : get_nodearg g' kv.1 = some p := by
      unfold get_nodearg at hp ⊢
      rw [h4]
      apply map_find_filter_of_kept _ _ _ _ hp
      have : some p ∈ used_node_args g := List.mem_append_left _ hused
      simp [this]
    refine ⟨p, hkeep, ?_⟩
    rw [e1, e2, e3, e4]
    simp only [used_before_initializers, List.mem_append, List.mem_map, List.mem_flatMap,
      Option.some.injEq] at hused
    rcases hused with ((hu | hu) | hu) | ⟨q, ⟨n, hn, hq⟩, rfl⟩
    · exact Or.inr (Or.inr (Or.inr hu))
    · exact Or.inr (Or.inr (Or.inl hu))
    · exact Or.inr (Or.inl hu)
    · exact Or.inl ⟨n, hn, hq⟩

/-- Witness of the amended C9 on the graph with the overridable initializer
"w", after `initialize`. -/
theorem clean_unused_initializers_args_remaining_witness :
    (clean_unused_initializers_args (initialize_graph sample_overridable).2).1
      = StatusCode.OK ∧
    ∀ kv ∈ (clean_unused_initializers_args
        (initialize_graph sample_overridable).2).2.m_initializer_map,
      ∃ p, get_nodearg (clean_unused_initializers_args
          (initialize_graph sample_overridable).2).2 kv.1 = some p ∧
        ((∃ n ∈ (clean_unused_initializers_args
            (initialize_graph sample_overridable).2).2.m_nodes, p ∈ n.input_args) ∨
          some p ∈ (clean_unused_initializers_args
            (initialize_graph sample_overridable).2).2.m_outputs ∨
          some p ∈ (clean_unused_initializers_args
            (initialize_graph sample_overridable).2).2.m_overridable_initializers ∨
          some p ∈ (clean_unused_initializers_args
            (initialize_graph sample_overridable).2).2.m_inputs_exclude_initializer) :=
  ⟨by decide,
    clean_unused_initializers_args_remaining (initialize_graph sample_overridable).2
      (clean_unused_initializers_args (initialize_graph sample_overridable).2).2
      (Prod.ext (by decide) rfl)⟩

/-- The counterexample to C9: the graph has no node and the declared input "w"
is an initializer; `initialize` and the cleanup return OK, the graph has no
outputs, and the initializer "w" remains. -/
theorem clean_unused_initializers_args_keeps_overridable :
    (initialize_graph sample_overridable).1 = StatusCode.OK ∧
    (clean_unused_initializers_args (initialize_graph sample_overridable).2).1
      = StatusCode.OK ∧
    (clean_unused_initializers_args (initialize_graph sample_overridable).2).2.m_nodes = [] ∧
    (clean_unused_initializers_args (initialize_graph sample_overridable).2).2.m_outputs = [] ∧
    (clean_unused_initializers_args
      (initialize_graph sample_overridable).2).2.m_overridable_initializers = [some 0] ∧
    has_initializer (clean_unused_initializers_args (initialize_graph sample_overridable).2).2
      "w" = true := by
  decide

/-! ### `build_nodes_connections` -/

/-- `NodeArg::operator!=` returns within no number of nested calls. -/
theorem NodeArg.ne_eq_none (fuel : Nat) (lhs rhs : NodeArg) : NodeArg.ne fuel lhs rhs = none := by
  induction fuel with
  | zero => rfl
  | succ fuel ih => exact ih

/-- `add_edge` does not return when both nodes and both args exist and the
two args are distinct objects. -/
theorem add_edge_distinct_args (fuel : Nat) (g : Graph) (src dst si di : Int)
    (node_src node_dst : Node) (src_arg dst_arg : NodeArgPtr)
    (h1 : find_node g.m_nodes src = some node_src)
    (h2 : find_node g.m_nodes dst = some node_dst)
    (h3 : ¬ (si < 0 ∨ di < 0))
    (h4 : node_src.output_args.get? si.toNat = some src_arg)
    (h5 : node_dst.input_args.get? di.toNat = some dst_arg)
    (h6 : src_arg ≠ dst_arg) :
    add_edge fuel g src dst si di = none := by
  unfold add_edge
  rw [h1, h2]
  simp only [h3, if_false, h4, h5, ne_eq, h6, not_false_eq_true, if_true, NodeArg.ne_eq_none]

/-- C5 (the code departs from the claim). In the sample graph the node `n1`
has the input arg "bad", which is neither a node output nor a graph input nor
an initializer, and `check_no_duplicate_names` returns OK; yet
`build_nodes_connections` returns no status at all: its call of `add_edge` for
the input "x", held by `n0` and `n1` in two distinct `NodeArg` objects, never
returns from `NodeArg::operator!=`. -/
theorem build_nodes_connections_no_return :
    sample_split_args.m_inputs_name = [] ∧ sample_split_args.m_initializer_map = [] ∧
    (check_no_duplicate_names sample_split_args).1 = StatusCode.OK ∧
    "bad" ∉ output_names sample_split_args.heap sample_split_args.m_nodes ∧
    "bad" ∉ (check_no_duplicate_names
      sample_split_args).2.m_topology_context.inputs_and_initializers ∧
    ∀ fuel, build_nodes_connections fuel (check_no_duplicate_names sample_split_args).2
      = none := by
  refine ⟨by decide, by decide, by decide, by decide, by decide, ?_⟩
  intro fuel
  have hadd : add_edge fuel (check_no_duplicate_names sample_split_args).2 0 1 0 0 = none :=
    add_edge_distinct_args fuel _ 0 1 0 0
      { id := 0, name := "n0", type := "Relu", input_args := [], output_args := [0],
        input_edges := [], output_edges := [] }
      { id := 1, name := "n1", type := "Add", input_args := [1, 2], output_args := [],
        input_edges := [], output_edges := [] }
      0 1 (by decide) (by decide) (by decide) (by decide) (by decide) (by decide)
  have hnodes : (check_no_duplicate_names sample_split_args).2.m_nodes
      = [{ id := 0, name := "n0", type := "Relu", input_args := [], output_args := [0],
           input_edges := [], output_edges := [] },
         { id := 1, name := "n1", type := "Add", input_args := [1, 2], output_args := [],
           input_edges := [], output_edges := [] }] := by decide
  have hname : ((check_no_duplicate_names sample_split_args).2.heap 1).name = "x" := by decide
  have hfind : map_find
      (check_no_duplicate_names sample_split_args).2.m_topology_context.output_args "x"
      = some (0, 0) := by decide
  unfold build_nodes_connections
  rw [hnodes]
  simp only [connect_nodes, connect_inputs, hname, hfind, hadd]
  simp

/-- When `n0` and `n1` share the `NodeArg` object "x", `add_edge` skips the
comparison and `build_nodes_connections` reports the unknown input "bad" with
INVALID_MODEL, after the edge for "x" has been stored on both nodes. -/
theorem build_nodes_connections_shared_arg_reports (fuel : Nat) :
    (check_no_duplicate_names sample_shared_args).1 = StatusCode.OK ∧
    (build_nodes_connections fuel (check_no_duplicate_names sample_shared_args).2).map
      (fun r => (r.1, r.2.m_nodes.map (fun n => (n.input_edges, n.output_edges))))
      = some (StatusCode.INVALID_MODEL,
          [([], [{ other_node := 1, src_arg_index := 0, dst_arg_index := 0 }]),
           ([{ other_node := 0, src_arg_index := 0, dst_arg_index := 0 }], [])]) := by
  refine ⟨by decide, ?_⟩
  rfl

/-! ### Shape inference -/

/-- With the Relu inferer at hand, `Node::infer_shape` copies the shape of the
input to the output. -/
theorem relu_node_infer_shape (shape : List Int) :
    Option.map (fun r => (r.1, (r.2 1).shape))
      (Node.infer_shape
        { id := 0, name := "r", type := "Relu", input_args := [0], output_args := [1],
          input_edges := [], output_edges := [] }
        IShapeInfer.ReluShapeInfer (sample_relu_graph shape).heap)
      = some (StatusCode.OK, shape) := by
  rfl

/-- C11 (the code departs from the claim). On the single-op Relu graph with the
input shape {1,3,4,4}, all inferers registered and `initialize` called (it
returns OK), `construct_topology` returns FAIL: the sort yields [r], but
`infer_shape` gets the null pointer from `get_shape_infer("Relu")`; the shape of
"y" is left as declared.  The same holds for every input shape. -/
theorem construct_topology_relu_fails :
    (∀ fuel : Nat,
      Option.map (fun r => (r.1, (r.2.heap 1).shape, r.2.m_topological_nodes.map Node.name))
        (construct_topology fuel (register_all_infer []) (sample_relu_graph [1, 3, 4, 4]))
      = some (StatusCode.FAIL, [], ["r"])) ∧
    (∀ (shape : List Int) (fuel : Nat),
      Option.map Prod.fst
        (construct_topology fuel (register_all_infer []) (sample_relu_graph shape))
      = some StatusCode.FAIL) := by
  refine ⟨fun _ => rfl, fun _ _ => rfl⟩

/-- C12 (the code departs from the claim). `AddShapeInfer::infer` stores
`max(d1, d2)` for a compatible pair: the symbolic dim -1 against 1 gives 1, not
-1, and the dim 0 against 1 gives 1, not 0, in either order.  The instance
{1,3,1,5} and {4,1} gives {1,3,4,5}. -/
theorem AddShapeInfer_infer_max_of_pair :
    AddShapeInfer_infer [[-1], [1]] 1 = InferResult.inferred [1] ∧
    AddShapeInfer_infer [[1], [-1]] 1 = InferResult.inferred [1] ∧
    AddShapeInfer_infer [[0], [1]] 1 = InferResult.inferred [1] ∧
    AddShapeInfer_infer [[2, 0], [1, 1]] 1 = InferResult.inferred [2, 1] ∧
    AddShapeInfer_infer [[1, 3, 1, 5], [4, 1]] 1 = InferResult.inferred [1, 3, 4, 5] := by
  decide

theorem add_overlap_comm (a b : List Int) : add_overlap a b = add_overlap b a := by
  induction a generalizing b with
  | nil => cases b <;> simp [add_overlap]
  | cons d1 a ih =>
    cases b with
    | nil => simp [add_overlap]
    | cons d2 b =>
      simp only [add_overlap]
      rw [ih b, max_comm d1 d2]
      by_cases h : d1 = 1 ∨ d2 = 1 ∨ d1 = d2
      · have h' : d2 = 1 ∨ d1 = 1 ∨ d2 = d1 := by
          rcases h with h | h | h
          · exact Or.inr (Or.inl h)
          · exact Or.inl h
          · exact Or.inr (Or.inr h.symm)
        rw [if_pos h, if_pos h']
      · have h' : ¬ (d2 = 1 ∨ d1 = 1 ∨ d2 = d1) := by
          intro h'
          apply h
          rcases h' with h' | h' | h'
          · exact Or.inr (Or.inl h')
          · exact Or.inl h'
          · exact Or.inr (Or.inr h'.symm)
        rw [if_neg h, if_neg h']

/-- C13. Add shape inference is commutative in shape: on [S1, S2] and on
[S2, S1] `AddShapeInfer::infer` does the same, so it succeeds on one exactly
when it succeeds on the other, and then it writes the same output shape. -/
theorem AddShapeInfer_infer_comm (S1 S2 : List Int) :
    AddShapeInfer_infer [S1, S2] 1 = AddShapeInfer_infer [S2, S1] 1 := by
  unfold AddShapeInfer_infer
  simp only [List.length_cons, List.length_nil, ne_eq, not_true_eq_false, or_self, if_false,
    List.get?_cons_zero, List.get?_cons_succ, Nat.reduceAdd]
  rcases Nat.lt_trichotomy S1.length S2.length with h | h | h
  · have h1 : ¬ S1.length ≥ S2.length := by omega
    have h2 : S2.length ≥ S1.length := by omega
    rw [if_neg h1, if_pos h2, add_overlap_comm S1 (S2.drop (S2.length - S1.length))]
  · have h1 : S1.length ≥ S2.length := by omega
    have h2 : S2.length ≥ S1.length := by omega
    rw [if_pos h1, if_pos h2, h]
    simp only [Nat.sub_self, List.drop_zero, List.take_zero, List.nil_append]
    rw [add_overlap_comm S1 S2]
  · have h1 : S1.length ≥ S2.length := by omega
    have h2 : ¬ S2.length ≥ S1.length := by omega
    rw [if_pos h1, if_neg h2, add_overlap_comm (S1.drop (S1.length - S2.length)) S2]

/-- For dims that are at least 1 the stored `max(d1, d2)` is the dim the
broadcasting rule asks for. -/
theorem max_eq_broadcast_dim (d1 d2 : Int) (h1 : 1 ≤ d1) (h2 : 1 ≤ d2)
    (h : d1 = 1 ∨ d2 = 1 ∨ d1 = d2) :
    max d1 d2 = if d2 = 1 then d1 else if d1 = 1 then d2 else d1 := by
  by_cases e2 : d2 = 1
  · rw [if_pos e2, e2]; exact max_eq_left h1
  · rw [if_neg e2]
    by_cases e1 : d1 = 1
    · rw [if_pos e1, e1]; exact max_eq_right h2
    · rw [if_neg e1]
      rcases h with h | h | h
      · exact absurd h e1
      · exact absurd h e2
      · rw [h]; exact max_self d2

theorem wrap_int64_mul_wrap (a b : Int) :
    wrap_int64 (wrap_int64 a * b) = wrap_int64 (a * b) := by
  unfold wrap_int64
  have h : (((a + 9223372036854775808) % 18446744073709551616 - 9223372036854775808) * b
      + 9223372036854775808) % 18446744073709551616
      = (a * b + 9223372036854775808) % 18446744073709551616 := by
    have e : ((a + 9223372036854775808) % 18446744073709551616 - 9223372036854775808) * b
        + 9223372036854775808
        = (a * b + 9223372036854775808)
          - 18446744073709551616 * (((a + 9223372036854775808) / 18446744073709551616) * b) := by
      have := Int.emod_add_ediv (a + 9223372036854775808) 18446744073709551616
      have e1 : (a + 9223372036854775808) % 18446744073709551616
          = a + 9223372036854775808
            - 18446744073709551616 * ((a + 9223372036854775808) / 18446744073709551616) := by
        omega
      rw [e1]
      ring
    rw [e, sub_eq_add_neg, ← mul_neg, Int.add_mul_emod_self_left]
  rw [h]

theorem wrap_int64_of_range (x : Int) (h1 : -9223372036854775808 ≤ x)
    (h2 : x < 9223372036854775808) : wrap_int64 x = x := by
  unfold wrap_int64
  omega

theorem foldl_mul_int64 (dims : List Int) (acc : Int) :
    dims.foldl mul_int64 (wrap_int64 acc) = wrap_int64 (acc * dims.prod) := by
  induction dims generalizing acc with
  | nil => simp
  | cons d dims ih =>
    rw [List.foldl_cons, List.prod_cons]
    have : mul_int64 (wrap_int64 acc) d = wrap_int64 (acc * d) := by
      unfold mul_int64
      exact wrap_int64_mul_wrap acc d
    rw [this, ih, mul_assoc]

/-- The running product of the Flatten loops is the product of the dims taken
in `int64_t`. -/
theorem flatten_product_eq (dims : List Int) : flatten_product dims = wrap_int64 dims.prod := by
  unfold flatten_product
  have h := foldl_mul_int64 dims 1
  rw [wrap_int64_of_range 1 (by decide) (by decide), one_mul] at h
  exact h

/-- C14. `FlattenShapeInfer::infer` with one input of rank r, one output and
attribute `axis` (default 1, a negative axis normalised by adding r) succeeds if
and only if the normalised axis lies between 0 and r, and fails with
INVALID_PARAM otherwise; on success the output is the 2-D shape whose dims are
the product of the input dims before the axis and the product of the dims from
the axis on, taken in `int64_t` (the exact products whenever they fit), with
first dim 1 when the axis is 0. -/
theorem FlattenShapeInfer_infer_spec (input_shape : List Int) (attributes : Attributes) :
    ((0 ≤ flatten_axis attributes input_shape.length ∧
        flatten_axis attributes input_shape.length ≤ input_shape.length) →
      FlattenShapeInfer_infer [input_shape] attributes 1
        = InferResult.inferred
            [wrap_int64 (input_shape.take
                (flatten_axis attributes input_shape.length).toNat).prod,
             wrap_int64 (input_shape.drop
                (flatten_axis attributes input_shape.length).toNat).prod]) ∧
    (¬ (0 ≤ flatten_axis attributes input_shape.length ∧
        flatten_axis attributes input_shape.length ≤ input_shape.length) →
      FlattenShapeInfer_infer [input_shape] attributes 1
        = InferResult.failed StatusCode.INVALID_PARAM) ∧
    (flatten_axis attributes input_shape.length = 0 →
      FlattenShapeInfer_infer [input_shape] attributes 1
        = InferResult.inferred [1, wrap_int64 input_shape.prod]) ∧
    (∀ dims : List Int, -9223372036854775808 ≤ dims.prod → dims.prod < 9223372036854775808 →
      wrap_int64 dims.prod = dims.prod) ∧
    flatten_axis [] input_shape.length = 1 ∧
    FlattenShapeInfer_infer [[2, 3, 4, 5]] [] 1 = InferResult.inferred [2, 60] ∧
    FlattenShapeInfer_infer [[2, 3, 4, 5]] [("axis", NodeAttribute.of_int64 (-1))] 1
      = InferResult.inferred [24, 5] := by
  have key : FlattenShapeInfer_infer [input_shape] attributes 1
        = if flatten_axis attributes input_shape.length < 0 ∨
              flatten_axis attributes input_shape.length > input_shape.length then
            InferResult.failed StatusCode.INVALID_PARAM
          else
            InferResult.inferred
              [wrap_int64 (input_shape.take
                  (flatten_axis attributes input_shape.length).toNat).prod,
               wrap_int64 (input_shape.drop
                  (flatten_axis attributes input_shape.length).toNat).prod] := by
    unfold FlattenShapeInfer_infer flatten_axis
    simp only [List.length_cons, List.length_nil, ne_eq, not_true_eq_false, or_self, if_false,
      List.get?_cons_zero, Nat.reduceAdd]
    rw [flatten_product_eq, flatten_product_eq]
  refine ⟨?_, ?_, ?_, fun dims h1 h2 => wrap_int64_of_range _ h1 h2, rfl, by decide,
    by decide⟩
  · intro h
    rw [key, if_neg (by omega)]
  · intro h
    rw [key, if_pos (by omega)]
  · intro h
    rw [key, h]
    simp [wrap_int64]

theorem GemmShapeInfer_infer_two (a0 a1 b0 b1 : Int) (attributes : Attributes)
    (rest : List (List Int)) (h3 : rest.length ≠ 1) :
    GemmShapeInfer_infer ([a0, a1] :: [b0, b1] :: rest) attributes 1
      = if (gemm_dims_A (get_attr_or_default_int64 "transA" 0 attributes) a0 a1).2
            ≠ (gemm_dims_B (get_attr_or_default_int64 "transB" 0 attributes) b0 b1).1 then
          InferResult.failed StatusCode.INVALID_PARAM
        else
          InferResult.inferred
            [(gemm_dims_A (get_attr_or_default_int64 "transA" 0 attributes) a0 a1).1,
             (gemm_dims_B (get_attr_or_default_int64 "transB" 0 attributes) b0 b1).2] := by
  unfold GemmShapeInfer_infer gemm_dims_A gemm_dims_B
  have hl : ¬ ((([a0, a1] : List Int) :: [b0, b1] :: rest).length < 2 ∨ (1 : Nat) ≠ 1) := by
    simp
  have hn : ¬ (([a0, a1] : List Int) :: [b0, b1] :: rest).length = 3 := by
    simp only [List.length_cons]
    omega
  rw [if_neg hl]
  simp only [List.get?_cons_zero, List.get?_cons_succ, hn, if_false]
  by_cases hA : get_attr_or_default_int64 "transA" 0 attributes = 0 <;>
    by_cases hB : get_attr_or_default_int64 "transB" 0 attributes = 0 <;>
    simp [hA, hB]

/-- C15. `GemmShapeInfer::infer` on two inputs A and B and one output: when A
or B is not rank-2 it fails with INVALID_PARAM; on rank-2 inputs, with (m, k_a)
read from A or from its transpose when `transA` is not zero and (k_b, n) read
from B or from its transpose when `transB` is not zero, it fails with
INVALID_PARAM when k_a and k_b differ and otherwise writes the output shape
(m, n).  The two instances give {16,64}. -/
theorem GemmShapeInfer_infer_spec (A B : List Int) (attributes : Attributes) :
    ((A.length ≠ 2 ∨ B.length ≠ 2) →
      GemmShapeInfer_infer [A, B] attributes 1 = InferResult.failed StatusCode.INVALID_PARAM) ∧
    (∀ a0 a1 b0 b1 : Int, A = [a0, a1] → B = [b0, b1] →
      ((gemm_dims_A (get_attr_or_default_int64 "transA" 0 attributes) a0 a1).2
          ≠ (gemm_dims_B (get_attr_or_default_int64 "transB" 0 attributes) b0 b1).1 →
        GemmShapeInfer_infer [A, B] attributes 1
          = InferResult.failed StatusCode.INVALID_PARAM) ∧
      ((gemm_dims_A (get_attr_or_default_int64 "transA" 0 attributes) a0 a1).2
          = (gemm_dims_B (get_attr_or_default_int64 "transB" 0 attributes) b0 b1).1 →
        GemmShapeInfer_infer [A, B] attributes 1
          = InferResult.inferred
              [(gemm_dims_A (get_attr_or_default_int64 "transA" 0 attributes) a0 a1).1,
               (gemm_dims_B (get_attr_or_default_int64 "transB" 0 attributes) b0 b1).2])) ∧
    GemmShapeInfer_infer [[16, 32], [32, 64]] [] 1 = InferResult.inferred [16, 64] ∧
    GemmShapeInfer_infer [[16, 32], [64, 32]] [("transB", NodeAttribute.of_int64 1)] 1
      = InferResult.inferred [16, 64] := by
  refine ⟨?_, ?_, by decide, by decide⟩
  · intro h
    unfold GemmShapeInfer_infer
    have hl : ¬ (([A, B] : List (List Int)).length < 2 ∨ (1 : Nat) ≠ 1) := by simp
    rw [if_neg hl]
    simp only [List.get?_cons_zero, List.get?_cons_succ]
    split
    · rename_i a0 a1 b0 b1 hA hB
      simp only [Option.some.injEq] at hA hB
      subst hA hB
      simp at h
    · rfl
    · rename_i hnone
      exact absurd rfl (hnone A B rfl)
  · intro a0 a1 b0 b1 hA hB
    subst hA hB
    have key := GemmShapeInfer_infer_two a0 a1 b0 b1 attributes [] (by simp)
    refine ⟨fun h => ?_, fun h => ?_⟩
    · rw [key, if_pos h]
    · rw [key, if_neg (not_not.2 h)]

theorem gemm_valid_c_shape_iff (C : List Int) (m n : Int) :
    gemm_valid_c_shape C m n = true ↔ gemm_c_accepted C m n := by
  unfold gemm_c_accepted
  match C with
  | [] => simp [gemm_valid_c_shape]
  | [c0] =>
    simp [gemm_valid_c_shape]
  | [c0, c1] =>
    simp only [gemm_valid_c_shape, Bool.and_eq_true, Bool.or_eq_true, decide_eq_true_eq]
    constructor
    · rintro ⟨h0, h1⟩
      exact Or.inr ⟨c0, c1, rfl, h0.symm, h1.symm⟩
    · rintro (⟨d0, hd, _⟩ | ⟨d0, d1, hd, h0, h1⟩)
      · simp at hd
      · simp only [List.cons.injEq, and_true] at hd
        obtain ⟨rfl, rfl⟩ := hd
        exact ⟨h0.symm, h1.symm⟩
  | _ :: _ :: _ :: _ => simp [gemm_valid_c_shape]

theorem GemmShapeInfer_infer_three (a0 a1 b0 b1 : Int) (C : List Int)
    (attributes : Attributes) :
    GemmShapeInfer_infer [[a0, a1], [b0, b1], C] attributes 1
      = if (gemm_dims_A (get_attr_or_default_int64 "transA" 0 attributes) a0 a1).2
            ≠ (gemm_dims_B (get_attr_or_default_int64 "transB" 0 attributes) b0 b1).1 then
          InferResult.failed StatusCode.INVALID_PARAM
        else if gemm_valid_c_shape C
            (gemm_dims_A (get_attr_or_default_int64 "transA" 0 attributes) a0 a1).1
            (gemm_dims_B (get_attr_or_default_int64 "transB" 0 attributes) b0 b1).2 = true then
          InferResult.inferred
            [(gemm_dims_A (get_attr_or_default_int64 "transA" 0 attributes) a0 a1).1,
             (gemm_dims_B (get_attr_or_default_int64 "transB" 0 attributes) b0 b1).2]
        else InferResult.failed StatusCode.INVALID_PARAM := by
  unfold GemmShapeInfer_infer gemm_dims_A gemm_dims_B
  have hl : ¬ (([[a0, a1], [b0, b1], C] : List (List Int)).length < 2 ∨ (1 : Nat) ≠ 1) := by
    simp
  rw [if_neg hl]
  simp only [List.get?_cons_zero, List.get?_cons_succ, List.length_cons, List.length_nil,
    Nat.reduceAdd, if_true]
  by_cases hA : get_attr_or_default_int64 "transA" 0 attributes = 0 <;>
    by_cases hB : get_attr_or_default_int64 "transB" 0 attributes = 0 <;>
    simp only [hA, hB, ne_eq, not_true_eq_false, not_false_eq_true, if_true, if_false] <;>
    split <;> try rfl
  all_goals
    cases hc : gemm_valid_c_shape C _ _ <;> simp

theorem GemmShapeInfer_infer_arity (inputs : List (List Int)) (attributes : Attributes)
    (num_outputs : Nat) (h : inputs.length < 2 ∨ num_outputs ≠ 1) :
    GemmShapeInfer_infer inputs attributes num_outputs
      = InferResult.failed StatusCode.INVALID_PARAM := by
  unfold GemmShapeInfer_infer
  rw [if_pos h]

theorem GemmShapeInfer_infer_rest (A B : List Int) (rest : List (List Int))
    (attributes : Attributes) (h : rest.length ≠ 1) :
    GemmShapeInfer_infer (A :: B :: rest) attributes 1
      = GemmShapeInfer_infer [A, B] attributes 1 := by
  have hl : ¬ ((A :: B :: rest).length < 2 ∨ (1 : Nat) ≠ 1) := by simp
  have hl2 : ¬ (([A, B] : List (List Int)).length < 2 ∨ (1 : Nat) ≠ 1) := by simp
  have hn : ¬ (A :: B :: rest).length = 3 := by
    simp only [List.length_cons]
    omega
  have hn2 : ¬ ([A, B] : List (List Int)).length = 3 := by simp
  unfold GemmShapeInfer_infer
  rw [if_neg hl, if_neg hl2]
  simp only [List.get?_cons_zero, List.get?_cons_succ]
  rcases A with _ | ⟨a0, _ | ⟨a1, _ | ⟨a2, A⟩⟩⟩ <;>
    rcases B with _ | ⟨b0, _ | ⟨b1, _ | ⟨b2, B⟩⟩⟩ <;> try rfl
  simp only [hn, hn2, if_false]


/-- C16 (amended). `GemmShapeInfer::infer` rejects fewer than 2 inputs and an
output count other than 1 with INVALID_PARAM.  With exactly three inputs and
one output, A and B rank-2 with k_a = k_b, it succeeds (writing (m, n)) if and
only if C is rank-1 with size 1 or n, or rank-2 with first dim 1 or m and
second dim 1 or n, and rejects every other C shape with INVALID_PARAM.  With
four or more inputs the inputs after B are not examined: the result is that of
the call on A and B alone, whatever A and B are; so it succeeds whenever A and
B are rank-2 with k_a = k_b. -/
theorem GemmShapeInfer_infer_inputs (attributes : Attributes) :
    (∀ (inputs : List (List Int)) (num_outputs : Nat),
      inputs.length < 2 ∨ num_outputs ≠ 1 →
      GemmShapeInfer_infer inputs attributes num_outputs
        = InferResult.failed StatusCode.INVALID_PARAM) ∧
    (∀ (a0 a1 b0 b1 : Int) (C : List Int),
      (gemm_dims_A (get_attr_or_default_int64 "transA" 0 attributes) a0 a1).2
        = (gemm_dims_B (get_attr_or_default_int64 "transB" 0 attributes) b0 b1).1 →
      (gemm_c_accepted C
          (gemm_dims_A (get_attr_or_default_int64 "transA" 0 attributes) a0 a1).1
          (gemm_dims_B (get_attr_or_default_int64 "transB" 0 attributes) b0 b1).2 →
        GemmShapeInfer_infer [[a0, a1], [b0, b1], C] attributes 1
          = InferResult.inferred
              [(gemm_dims_A (get_attr_or_default_int64 "transA" 0 attributes) a0 a1).1,
               (gemm_dims_B (get_attr_or_default_int64 "transB" 0 attributes) b0 b1).2]) ∧
      (¬ gemm_c_accepted C
          (gemm_dims_A (get_attr_or_default_int64 "transA" 0 attributes) a0 a1).1
          (gemm_dims_B (get_attr_or_default_int64 "transB" 0 attributes) b0 b1).2 →
        GemmShapeInfer_infer [[a0, a1], [b0, b1], C] attributes 1
          = InferResult.failed StatusCode.INVALID_PARAM)) ∧
    (∀ (A B : List Int) (rest : List (List Int)), 2 ≤ rest.length →
      GemmShapeInfer_infer (A :: B :: rest) attributes 1
        = GemmShapeInfer_infer [A, B] attributes 1) ∧
    (∀ (a0 a1 b0 b1 : Int) (rest : List (List Int)), 2 ≤ rest.length →
      (gemm_dims_A (get_attr_or_default_int64 "transA" 0 attributes) a0 a1).2
        = (gemm_dims_B (get_attr_or_default_int64 "transB" 0 attributes) b0 b1).1 →
      GemmShapeInfer_infer ([a0, a1] :: [b0, b1] :: rest) attributes 1
        = InferResult.inferred
            [(gemm_dims_A (get_attr_or_default_int64 "transA" 0 attributes) a0 a1).1,
             (gemm_dims_B (get_attr_or_default_int64 "transB" 0 attributes) b0 b1).2]) := by
  refine ⟨?_, ?_, ?_, ?_⟩
  · intro inputs num_outputs h
    exact GemmShapeInfer_infer_arity inputs attributes num_outputs h
  · intro a0 a1 b0 b1 C hk
    have key := GemmShapeInfer_infer_three a0 a1 b0 b1 C attributes
    rw [if_neg (not_not.2 hk)] at key
    refine ⟨fun h => ?_, fun h => ?_⟩
    · rw [key, if_pos ((gemm_valid_c_shape_iff _ _ _).2 h)]
    · rw [key, if_neg (fun hv => h ((gemm_valid_c_shape_iff _ _ _).1 hv))]
  · intro A B rest hr
    exact GemmShapeInfer_infer_rest A B rest attributes (by omega)
  · intro a0 a1 b0 b1 rest hr hk
    rw [GemmShapeInfer_infer_two a0 a1 b0 b1 attributes rest (by omega), if_neg (not_not.2 hk)]

/-- The counterexample to C16: with four inputs `GemmShapeInfer::infer` returns
OK and writes {16,64}, whatever the third and fourth shapes are; it does not
reject the input count. -/
theorem GemmShapeInfer_infer_four_inputs :
    GemmShapeInfer_infer [[16, 32], [32, 64], [16, 64], [1]] [] 1
      = InferResult.inferred [16, 64] ∧
    GemmShapeInfer_infer [[16, 32], [32, 64], [7, 7, 7], [5]] [] 1
      = InferResult.inferred [16, 64] := by
  decide

/-- With enough inputs, one output and `auto_pad` absent or "NOTSET",
`ConvShapeInfer::infer` returns NOT_IMPLEMENTED whenever `group` is at most 1,
the default included. -/
theorem ConvShapeInfer_infer_group_le_one (inputs : List (List Int)) (attributes : Attributes)
    (h1 : 2 ≤ inputs.length)
    (h2 : get_attr_or_default_string "auto_pad" "NOTSET" attributes = "NOTSET")
    (h3 : get_attr_or_default_int64 "group" 1 attributes ≤ 1) :
    ConvShapeInfer_infer inputs attributes 1 = InferResult.failed StatusCode.NOT_IMPLEMENTED := by
  unfold ConvShapeInfer_infer
  have hl : ¬ (inputs.length < 2 ∨ (1 : Nat) ≠ 1) := by
    simp only [ne_eq, not_true_eq_false, or_false]
    omega
  rw [if_neg hl]
  simp only [h2, ne_eq, not_true_eq_false, if_false, h3, if_true]

/-- C17 (the code departs from the claim). On the inputs {1,3,224,224} and
{64,3,7,7} with the attributes of the Conv scenario, `ConvShapeInfer::infer`
returns NOT_IMPLEMENTED when `group` is absent and when `group` is 1, and it
does not return NOT_IMPLEMENTED when `group` is 2: the test on `group` is
`group <= 1`. -/
theorem ConvShapeInfer_infer_group_inverted :
    get_attr_or_default_int64 "group" 1 sample_conv_attributes = 1 ∧
    ConvShapeInfer_infer [[1, 3, 224, 224], [64, 3, 7, 7]] sample_conv_attributes 1
      = InferResult.failed StatusCode.NOT_IMPLEMENTED ∧
    ConvShapeInfer_infer [[1, 3, 224, 224], [64, 3, 7, 7]]
      (("group", NodeAttribute.of_int64 1) :: sample_conv_attributes) 1
      = InferResult.failed StatusCode.NOT_IMPLEMENTED ∧
    (∃ shape, ConvShapeInfer_infer [[1, 3, 224, 224], [64, 3, 7, 7]]
      (("group", NodeAttribute.of_int64 2) :: sample_conv_attributes) 1
      = InferResult.inferred shape) := by
  refine ⟨by decide, by decide, by decide, [1, 7, 112, 112], by decide⟩

/-- C18 (the code departs from the claim). On the instance of the Conv scenario
(X {1,3,224,224}, W {64,3,7,7}, pads {3,3,3,3}, strides {2,2}, dilations {1,1})
`ConvShapeInfer::infer` returns NOT_IMPLEMENTED; it succeeds only with a `group`
above 1, and then the output is {1,7,112,112}: the second dim is
`kernel_shape[0]`, the first kernel dim 7, not the weight's dim 0, which is
64.  The spatial dims are the 112 of the claim. -/
theorem ConvShapeInfer_infer_output_channel :
    ConvShapeInfer_infer [[1, 3, 224, 224], [64, 3, 7, 7]] sample_conv_attributes 1
      = InferResult.failed StatusCode.NOT_IMPLEMENTED ∧
    ConvShapeInfer_infer [[1, 3, 224, 224], [64, 3, 7, 7]]
      (("group", NodeAttribute.of_int64 2) :: sample_conv_attributes) 1
      = InferResult.inferred [1, 7, 112, 112] ∧
    ConvShapeInfer_infer [[1, 3, 224, 224], [64, 3, 7, 7]]
      (("group", NodeAttribute.of_int64 2) :: ("kernel_shape", NodeAttribute.of_int64s [7, 7])
        :: sample_conv_attributes) 1
      = InferResult.inferred [1, 7, 112, 112] := by
  decide

/-- With one input of rank at least 2 and one output, `MaxPoolShapeInfer::infer`
returns INVALID_PARAM whenever `auto_pad` is a string other than "NOTSET". -/
theorem MaxPoolShapeInfer_infer_auto_pad (input_shape : List Int) (attributes : Attributes)
    (h1 : 2 ≤ input_shape.length)
    (h2 : get_attr_or_default_string "auto_pad" "NOTSET" attributes ≠ "NOTSET") :
    MaxPoolShapeInfer_infer [input_shape] attributes 1
      = InferResult.failed StatusCode.INVALID_PARAM := by
  unfold MaxPoolShapeInfer_infer
  have hl : ¬ (([input_shape] : List (List Int)).length ≠ 1 ∨ (1 : Nat) ≠ 1) := by simp
  have hd : ¬ input_shape.length < 2 := by omega
  rw [if_neg hl]
  simp only [List.get?_cons_zero, hd, if_false, h2, ne_eq, not_false_eq_true, if_true]

/-- With at least two inputs and one output, `ConvShapeInfer::infer` returns
NOT_IMPLEMENTED whenever `auto_pad` is a string other than "NOTSET". -/
theorem ConvShapeInfer_infer_auto_pad (inputs : List (List Int)) (attributes : Attributes)
    (h1 : 2 ≤ inputs.length)
    (h2 : get_attr_or_default_string "auto_pad" "NOTSET" attributes ≠ "NOTSET") :
    ConvShapeInfer_infer inputs attributes 1 = InferResult.failed StatusCode.NOT_IMPLEMENTED := by
  unfold ConvShapeInfer_infer
  have hl : ¬ (inputs.length < 2 ∨ (1 : Nat) ≠ 1) := by
    simp only [ne_eq, not_true_eq_false, or_false]
    omega
  rw [if_neg hl]
  simp only [h2, ne_eq, not_false_eq_true, if_true]

/-- C19 (the code departs from the claim). With `auto_pad` = "SAME_UPPER" the
Conv inferer returns NOT_IMPLEMENTED, but the MaxPool inferer returns
INVALID_PARAM.  An absent `auto_pad` is read as "NOTSET" by both. -/
theorem MaxPoolShapeInfer_infer_auto_pad_status :
    ConvShapeInfer_infer [[1, 3, 8, 8], [4, 3, 2, 2]]
      [("auto_pad", NodeAttribute.of_string "SAME_UPPER")] 1
      = InferResult.failed StatusCode.NOT_IMPLEMENTED ∧
    MaxPoolShapeInfer_infer [[1, 3, 8, 8]]
      [("auto_pad", NodeAttribute.of_string "SAME_UPPER")] 1
      = InferResult.failed StatusCode.INVALID_PARAM ∧
    get_attr_or_default_string "auto_pad" "NOTSET" [] = "NOTSET" ∧
    MaxPoolShapeInfer_infer [[1, 3, 8, 8]] [] 1 = InferResult.inferred [1, 3, 8, 8] ∧
    MaxPoolShapeInfer_infer [[1, 3, 8, 8]] [("auto_pad", NodeAttribute.of_string "NOTSET")] 1
      = InferResult.inferred [1, 3, 8, 8] := by
  decide

/-- The spatial loop of MaxPool has no defined result once its axis index is
outside `strides`. -/
theorem max_pool_spatial_dims_stride_index
    (input_shape kernel_shape pads dilations strides : List Int) (ceil_mode : Int)
    (i j remaining : Nat) (h : strides.length ≤ i) :
    max_pool_spatial_dims input_shape kernel_shape pads dilations strides ceil_mode i j
      (remaining + 1) = none := by
  have hs : vector_at strides i = none := by
    unfold vector_at
    exact List.get?_eq_none.2 h
  simp only [max_pool_spatial_dims, hs]
  split
  · rename_i heq
    cases heq
  · rfl

/-- C20 (the code departs from the claim). On the input {1,3,8,8} with
`kernel_shape` {2,2} and `strides` {2,2} the spatial axes are 2 and 3 and
`MaxPoolShapeInfer::infer` reads `strides[2]`, outside the vector of two
strides: the call has no defined result, where the stride of the claim,
`strides[j]`, gives {1,3,4,4}.  The read is in range only when the kernel rank
equals the input rank, as for the input {8,8}. -/
theorem MaxPoolShapeInfer_infer_stride_index :
    MaxPoolShapeInfer_infer [[1, 3, 8, 8]]
      [("kernel_shape", NodeAttribute.of_int64s [2, 2]),
       ("strides", NodeAttribute.of_int64s [2, 2])] 1 = InferResult.undefined ∧
    vector_at [2, 2] 2 = none ∧
    MaxPoolShapeInfer_infer [[3, 8, 8]]
      [("kernel_shape", NodeAttribute.of_int64s [2, 2]),
       ("strides", NodeAttribute.of_int64s [2, 2])] 1 = InferResult.undefined ∧
    MaxPoolShapeInfer_infer [[8, 8]]
      [("kernel_shape", NodeAttribute.of_int64s [2, 2]),
       ("strides", NodeAttribute.of_int64s [2, 2])] 1 = InferResult.inferred [4, 4] ∧
    MaxPoolShapeInfer_infer [[9, 8]]
      [("kernel_shape", NodeAttribute.of_int64s [2, 2]),
       ("strides", NodeAttribute.of_int64s [2, 2]),
       ("ceil_mode", NodeAttribute.of_int64 1)] 1 = InferResult.inferred [5, 4] := by
  decide

theorem max_pool_spatial_dims_out_of_range
    (input_shape kernel_shape pads dilations strides : List Int) (ceil_mode : Int)
    (remaining : Nat) :
    ∀ i j : Nat, 0 < remaining → strides.length < i + remaining →
      max_pool_spatial_dims input_shape kernel_shape pads dilations strides ceil_mode i j
        remaining = none := by
  induction remaining with
  | zero => intro i j h; omega
  | succ n ih =>
    intro i j _ hlen
    by_cases hi : strides.length ≤ i
    · exact max_pool_spatial_dims_stride_index _ _ _ _ _ _ _ _ _ hi
    · have hn : 0 < n := by omega
      have hrec := ih (i + 1) (j + 1) hn (by omega)
      simp only [max_pool_spatial_dims, hrec]
      split
      · split <;> rfl
      · rfl

/-- `MaxPoolShapeInfer::infer` succeeds only when the kernel rank is 0 or equals
the rank of the input: in every other case it reads `strides` out of range. -/
theorem MaxPoolShapeInfer_infer_success_rank (input_shape : List Int) (attributes : Attributes)
    (out : List Int)
    (h : MaxPoolShapeInfer_infer [input_shape] attributes 1 = InferResult.inferred out) :
    (get_attrs_or_default_int64 "kernel_shape" [] attributes).length = 0 ∨
    (get_attrs_or_default_int64 "kernel_shape" [] attributes).length = input_shape.length := by
  unfold MaxPoolShapeInfer_infer at h
  have hl : ¬ (([input_shape] : List (List Int)).length ≠ 1 ∨ (1 : Nat) ≠ 1) := by simp
  rw [if_neg hl] at h
  simp only [List.get?_cons_zero] at h
  generalize get_attrs_or_default_int64 "kernel_shape" [] attributes = ks at h ⊢
  generalize get_attrs_or_default_int64 "dilations" [] attributes = dil at h
  generalize get_attrs_or_default_int64 "pads" [] attributes = pads at h
  generalize get_attrs_or_default_int64 "strides" [] attributes = strides at h
  generalize get_attr_or_default_int64 "ceil_mode" 0 attributes = ceil at h
  generalize get_attr_or_default_string "auto_pad" "NOTSET" attributes = auto_pad at h
  by_contra hk
  have hk0 : 0 < ks.length := by omega
  by_cases c1 : input_shape.length < 2
  · rw [if_pos c1] at h; cases h
  rw [if_neg c1] at h
  by_cases c2 : auto_pad ≠ "NOTSET"
  · rw [if_pos c2] at h; cases h
  rw [if_neg c2] at h
  by_cases c3 : ks.length > input_shape.length
  · rw [if_pos c3] at h; cases h
  rw [if_neg c3] at h
  by_cases c4 : dil.length ≠ ks.length ∧ dil.length ≠ 0
  · rw [if_pos c4] at h; cases h
  rw [if_neg c4] at h
  by_cases c5 : pads.length % 2 ≠ 0
  · rw [if_pos c5] at h; cases h
  rw [if_neg c5] at h
  by_cases c6 : pads.length / 2 = ks.length ∧ pads.any (fun pad => decide (pad < 0)) = true
  · rw [if_pos c6] at h; cases h
  rw [if_neg c6] at h
  by_cases c7 : pads.length / 2 ≠ ks.length ∧ pads.length ≠ 0
  · rw [if_pos c7] at h; cases h
  rw [if_neg c7] at h
  by_cases c8 : strides.length ≠ ks.length ∧ strides.length ≠ 0
  · rw [if_pos c8] at h; cases h
  rw [if_neg c8] at h
  have hs : (if strides.length ≠ ks.length then List.replicate ks.length 1 else strides).length
      = ks.length := by
    by_cases e : strides.length = ks.length
    · rw [if_neg (not_not.2 e)]; exact e
    · rw [if_pos e]; exact List.length_replicate _ _
  rw [max_pool_spatial_dims_out_of_range _ _ _ _ _ _ _ _ _ hk0 (by rw [hs]; omega)] at h
  cases h

/-- Whenever `ConvShapeInfer::infer` succeeds on the inputs X and W, the
attribute `group` is above 1 and the second output dim is the first entry of the
kernel shape (the attribute `kernel_shape`, or the dims of W after the first two
when the attribute is absent or empty). -/
theorem ConvShapeInfer_infer_success (X W : List Int) (attributes : Attributes)
    (out : List Int)
    (h : ConvShapeInfer_infer [X, W] attributes 1 = InferResult.inferred out) :
    1 < get_attr_or_default_int64 "group" 1 attributes ∧
    out.get? 0 = X.get? 0 ∧
    out.get? 1
      = (if (get_attrs_or_default_int64 "kernel_shape" [] attributes).length = 0 then
          W.drop 2
        else get_attrs_or_default_int64 "kernel_shape" [] attributes).get? 0 := by
  unfold ConvShapeInfer_infer at h
  have hl : ¬ (([X, W] : List (List Int)).length < 2 ∨ (1 : Nat) ≠ 1) := by simp
  rw [if_neg hl] at h
  simp only [List.get?_cons_zero, List.get?_cons_succ] at h
  generalize get_attrs_or_default_int64 "kernel_shape" [] attributes = ks at h ⊢
  generalize get_attrs_or_default_int64 "dilations" [] attributes = dil at h
  generalize get_attrs_or_default_int64 "pads" [] attributes = pads at h
  generalize get_attrs_or_default_int64 "strides" [] attributes = strides at h
  generalize get_attr_or_default_int64 "group" 1 attributes = group at h ⊢
  generalize get_attr_or_default_string "auto_pad" "NOTSET" attributes = auto_pad at h
  by_cases c0 : auto_pad ≠ "NOTSET"
  · rw [if_pos c0] at h; cases h
  rw [if_neg c0] at h
  by_cases cg : group ≤ 1
  · rw [if_pos cg] at h; cases h
  rw [if_neg cg] at h
  by_cases c1 : X.length < 2
  · rw [if_pos c1] at h; cases h
  rw [if_neg c1] at h
  by_cases c2 : W.length < 2 ∨ X.length ≠ W.length
  · rw [if_pos c2] at h; cases h
  rw [if_neg c2] at h
  generalize (if ks.length = 0 then W.drop 2 else ks) = ks' at h ⊢
  by_cases c3 : ks'.length > X.length
  · rw [if_pos c3] at h; cases h
  rw [if_neg c3] at h
  by_cases c4 : dil.length ≠ ks'.length ∧ dil.length ≠ 0
  · rw [if_pos c4] at h; cases h
  rw [if_neg c4] at h
  by_cases c5 : pads.length % 2 ≠ 0
  · rw [if_pos c5] at h; cases h
  rw [if_neg c5] at h
  by_cases c6 : pads.length / 2 = ks'.length ∧ pads.any (fun pad => decide (pad < 0)) = true
  · rw [if_pos c6] at h; cases h
  rw [if_neg c6] at h
  by_cases c7 : pads.length / 2 ≠ ks'.length ∧ pads.length ≠ 0
  · rw [if_pos c7] at h; cases h
  rw [if_neg c7] at h
  by_cases c8 : strides.length ≠ ks'.length ∧ strides.length ≠ 0
  · rw [if_pos c8] at h; cases h
  rw [if_neg c8] at h
  refine ⟨by omega, ?_⟩
  split at h
  · rename_i batch channel dims hb hc hd
    simp only [InferResult.inferred.injEq] at h
    subst h
    unfold vector_at at hb hc
    simp only [List.get?_cons_zero, List.get?_cons_succ]
    exact ⟨hb.symm, hc.symm⟩
  · cases h
/-! ### Aligned allocation sizes -/

theorem and_not_low_mask (x k : Nat) (hx : x < 2 ^ 64) (hk : k ≤ 64) :
    x &&& (2 ^ 64 - 1 - (2 ^ k - 1)) = 2 ^ k * (x / 2 ^ k) := by
  have hpos : 0 < 2 ^ k := Nat.two_pow_pos k
  have hlt : 2 ^ k - 1 < 2 ^ 64 := by
    have : 2 ^ k ≤ 2 ^ 64 := Nat.pow_le_pow_right (by decide) hk
    omega
  have e : 2 ^ 64 - 1 - (2 ^ k - 1) = 2 ^ 64 - ((2 ^ k - 1) + 1) := by omega
  rw [e]
  apply Nat.eq_of_testBit_eq
  intro i
  rw [Nat.testBit_and, Nat.testBit_two_pow_sub_succ hlt, Nat.testBit_two_pow_sub_one,
    Nat.testBit_mul_pow_two, ← Nat.shiftRight_eq_div_pow, Nat.testBit_shiftRight]
  by_cases h1 : i < 64
  · by_cases h2 : i < k
    · simp [h1, h2]
    · have h3 : k ≤ i := Nat.le_of_not_lt h2
      have h4 : k + (i - k) = i := by omega
      simp [h1, h2, h3, h4]
  · have h5 : x.testBit i = false := by
      apply Nat.testBit_lt_two_pow
      exact Nat.lt_of_lt_of_le hx (Nat.pow_le_pow_right (by decide) (Nat.le_of_not_lt h1))
    by_cases h2 : i < k
    · simp [h1, h2, h5]
    · have h3 : k ≤ i := Nat.le_of_not_lt h2
      have h4 : k + (i - k) = i := by omega
      simp [h1, h2, h3, h4, h5]



theorem calc_aligned_mem_size_pow (s k : Nat) (hk : k < 64) :
    calc_aligned_mem_size s (2 ^ k) = (2 ^ k * ((s + (2 ^ k - 1)) / 2 ^ k)) % 2 ^ 64 := by
  have hpos : 0 < 2 ^ k := Nat.two_pow_pos k
  have hne : (2 : Nat) ^ k ≠ 0 := Nat.ne_of_gt hpos
  have e64 : (18446744073709551616 : Nat) = 2 ^ 64 := by norm_num
  have e63 : (18446744073709551615 : Nat) = 2 ^ 64 - 1 := by norm_num
  have hsplit : (2 : Nat) ^ 64 = 2 ^ k * 2 ^ (64 - k) := by
    rw [← Nat.pow_add]
    congr 1
    omega
  unfold calc_aligned_mem_size
  rw [if_neg hne]
  simp only [e64, e63]
  rw [and_not_low_mask _ k (Nat.mod_lt _ (Nat.two_pow_pos 64)) (Nat.le_of_lt hk)]
  rw [hsplit, Nat.mod_mul_right_div_self, Nat.mul_mod_mul_left]

theorem round_up_least (s P : Nat) (hP : 0 < P) :
    P ∣ P * ((s + (P - 1)) / P) ∧ s ≤ P * ((s + (P - 1)) / P) ∧
    ∀ m, P ∣ m → s ≤ m → P * ((s + (P - 1)) / P) ≤ m := by
  refine ⟨Dvd.intro _ rfl, ?_, ?_⟩
  · have h1 := Nat.div_add_mod (s + (P - 1)) P
    have h2 := Nat.mod_lt (s + (P - 1)) hP
    omega
  · rintro m ⟨c, rfl⟩ hs
    apply Nat.mul_le_mul_left
    apply Nat.le_of_lt_succ
    apply Nat.div_lt_of_lt_mul
    rw [Nat.mul_succ]
    omega

/-- C22. `calc_aligned_mem_size(s, 0)` is `s`, and for a power of two
`a = 2^k` (below 2^64) the result is the least multiple of `a` that is at least
`s`, reduced modulo 2^64; it is that multiple itself whenever `s + a` does not
exceed 2^64. -/
theorem calc_aligned_mem_size_spec (s k : Nat) (hs : s < 2 ^ 64) (hk : k < 64) :
    calc_aligned_mem_size s 0 = s ∧
    ∃ m, (2 ^ k ∣ m ∧ s ≤ m ∧ ∀ n, 2 ^ k ∣ n → s ≤ n → m ≤ n) ∧
      calc_aligned_mem_size s (2 ^ k) = m % 2 ^ 64 ∧
      (s + 2 ^ k ≤ 2 ^ 64 → calc_aligned_mem_size s (2 ^ k) = m) := by
  refine ⟨rfl, 2 ^ k * ((s + (2 ^ k - 1)) / 2 ^ k), round_up_least s (2 ^ k) (Nat.two_pow_pos k),
    calc_aligned_mem_size_pow s k hk, ?_⟩
  intro hfit
  rw [calc_aligned_mem_size_pow s k hk]
  apply Nat.mod_eq_of_lt
  have h1 := Nat.div_add_mod (s + (2 ^ k - 1)) (2 ^ k)
  have hpos : 0 < 2 ^ k := Nat.two_pow_pos k
  omega

theorem calc_aligned_mem_size_spec_witness :
    calc_aligned_mem_size 13 0 = 13 ∧
    ∃ m, (2 ^ 3 ∣ m ∧ 13 ≤ m ∧ ∀ n, 2 ^ 3 ∣ n → 13 ≤ n → m ≤ n) ∧
      calc_aligned_mem_size 13 (2 ^ 3) = m % 2 ^ 64 ∧
      (13 + 2 ^ 3 ≤ 2 ^ 64 → calc_aligned_mem_size 13 (2 ^ 3) = m) :=
  calc_aligned_mem_size_spec 13 3 (by decide) (by decide)

/-! ### Tensor storage -/

theorem wrap_int64_range (x : Int) :
    -9223372036854775808 ≤ wrap_int64 x ∧ wrap_int64 x < 9223372036854775808 := by
  unfold wrap_int64
  omega

theorem element_num_cons (d : Int) (ds : List Int) (h1 : -9223372036854775808 ≤ d)
    (h2 : d < 9223372036854775808) :
    element_num (d :: ds) = wrap_int64 (d :: ds).prod := by
  have h := foldl_mul_int64 ds d
  rw [wrap_int64_of_range d h1 h2] at h
  rw [List.prod_cons, ← h]
  rfl

theorem element_num_eq (shape : List Int)
    (hdims : ∀ d ∈ shape, -9223372036854775808 ≤ d ∧ d < 9223372036854775808) :
    element_num shape = if shape = [] then 0 else wrap_int64 shape.prod := by
  cases shape with
  | nil => rfl
  | cons d ds =>
    rw [if_neg (List.cons_ne_nil d ds)]
    exact element_num_cons d ds (hdims d (List.mem_cons_self d ds)).1
      (hdims d (List.mem_cons_self d ds)).2

theorem element_num_range (shape : List Int)
    (hdims : ∀ d ∈ shape, -9223372036854775808 ≤ d ∧ d < 9223372036854775808) :
    -9223372036854775808 ≤ element_num shape ∧ element_num shape < 9223372036854775808 := by
  rw [element_num_eq shape hdims]
  by_cases h : shape = []
  · rw [if_pos h]
    decide
  · rw [if_neg h]
    exact wrap_int64_range _

/-- C23. For a shape of `int64_t` dims, `Tensor::calc_storage_size` fails exactly
when `element_num` of the shape is negative; otherwise it returns OK and stores
the byte size of the element type times the element count, taken in `size_t`
(the exact product whenever it is below 2^64).  The element count is 0 for a
shape without dims and otherwise the product of the dims taken in `int64_t`
(the exact product whenever it fits); the byte sizes are
4,2,1,1,2,2,4,4,8,8,0. -/
theorem calc_storage_size_spec (data_type : PrimitiveDataType) (shape : List Int) (size : Nat)
    (hdims : ∀ d ∈ shape, -9223372036854775808 ≤ d ∧ d < 9223372036854775808) :
    ((calc_storage_size data_type shape size).1 ≠ StatusCode.OK ↔ element_num shape < 0) ∧
    (element_num shape < 0 →
      calc_storage_size data_type shape size = (StatusCode.FAIL, size)) ∧
    (0 ≤ element_num shape →
      calc_storage_size data_type shape size
        = (StatusCode.OK,
            (size_of_datatype data_type * (element_num shape).toNat) % 2 ^ 64)) ∧
    (0 ≤ element_num shape →
      size_of_datatype data_type * (element_num shape).toNat < 2 ^ 64 →
      calc_storage_size data_type shape size
        = (StatusCode.OK, size_of_datatype data_type * (element_num shape).toNat)) ∧
    (shape = [] → element_num shape = 0) ∧
    (shape ≠ [] → element_num shape = wrap_int64 shape.prod) ∧
    (shape ≠ [] → -9223372036854775808 ≤ shape.prod → shape.prod < 9223372036854775808 →
      element_num shape = shape.prod) ∧
    [PrimitiveDataType.FLOAT32, PrimitiveDataType.FLOAT16, PrimitiveDataType.INT8,
      PrimitiveDataType.UINT8, PrimitiveDataType.INT16, PrimitiveDataType.UINT16,
      PrimitiveDataType.INT32, PrimitiveDataType.UINT32, PrimitiveDataType.INT64,
      PrimitiveDataType.UINT64, PrimitiveDataType.UNKNOWN].map size_of_datatype
      = [4, 2, 1, 1, 2, 2, 4, 4, 8, 8, 0] := by
  have hrange := element_num_range shape hdims
  have hfail : element_num shape < 0 →
      calc_storage_size data_type shape size = (StatusCode.FAIL, size) := by
    intro h
    unfold calc_storage_size
    rw [if_pos h]
  have hok : 0 ≤ element_num shape →
      calc_storage_size data_type shape size
        = (StatusCode.OK,
            (size_of_datatype data_type * (element_num shape).toNat) % 2 ^ 64) := by
    intro h
    unfold calc_storage_size
    rw [if_neg (not_lt.2 h)]
    by_cases h0 : element_num shape = 0
    · rw [if_pos h0, h0]
      simp
    · rw [if_neg h0]
      have e : element_num shape % 18446744073709551616 = element_num shape := by omega
      rw [e]
      norm_num
  refine ⟨?_, hfail, hok, ?_, ?_, ?_, ?_, rfl⟩
  · constructor
    · intro hne
      by_contra hge
      rw [hok (not_lt.1 hge)] at hne
      exact hne rfl
    · intro hlt
      rw [hfail hlt]
      exact fun h => by cases h
  · intro h hfit
    rw [hok h, Nat.mod_eq_of_lt hfit]
  · intro h
    rw [h]
    rfl
  · intro h
    rw [element_num_eq shape hdims, if_neg h]
  · intro h h1 h2
    rw [element_num_eq shape hdims, if_neg h, wrap_int64_of_range _ h1 h2]

theorem calc_storage_size_spec_witness :
    calc_storage_size PrimitiveDataType.FLOAT32 [2, 3] 0 = (StatusCode.OK, 24) ∧
    calc_storage_size PrimitiveDataType.INT16 [] 7 = (StatusCode.OK, 0) ∧
    calc_storage_size PrimitiveDataType.INT8 [2, -1] 7 = (StatusCode.FAIL, 7) :=
  ⟨((calc_storage_size_spec PrimitiveDataType.FLOAT32 [2, 3] 0 (by decide)).2.2.2.1
      (by decide) (by decide)).trans (by decide),
    by decide, by decide⟩

/-- C24 (the code departs from the claim). `Tensor::init` with an allocator
returns OK in every case: on the shape {-1}, whose element count is negative,
and on an allocator that gives no buffer it returns OK with a null data
pointer.  On an element count of 0 it returns OK with a null data pointer, as
claimed. -/
theorem Tensor_init_always_ok :
    (∀ (t : Tensor) (data_type : PrimitiveDataType) (shape : List Int) (allocator : IAllocator),
      (Tensor.init t data_type shape allocator).1 = StatusCode.OK) ∧
    calc_storage_size PrimitiveDataType.FLOAT32 [-1] 0 = (StatusCode.FAIL, 0) ∧
    Tensor.init { name := "t", data_type := PrimitiveDataType.UNKNOWN, shape := [] }
        PrimitiveDataType.FLOAT32 [-1] sample_allocator
      = (StatusCode.OK,
          { name := "t", data_type := PrimitiveDataType.FLOAT32, shape := [-1],
            m_p_data := none, m_byte_offset := 0, m_allocator := true }) ∧
    Tensor.init { name := "t", data_type := PrimitiveDataType.UNKNOWN, shape := [] }
        PrimitiveDataType.FLOAT32 [2, 3] sample_failing_allocator
      = (StatusCode.OK,
          { name := "t", data_type := PrimitiveDataType.FLOAT32, shape := [2, 3],
            m_p_data := none, m_byte_offset := 0, m_allocator := true }) ∧
    Tensor.init { name := "t", data_type := PrimitiveDataType.UNKNOWN, shape := [] }
        PrimitiveDataType.FLOAT32 [2, 3] sample_allocator
      = (StatusCode.OK,
          { name := "t", data_type := PrimitiveDataType.FLOAT32, shape := [2, 3],
            m_p_data := some 4096, m_byte_offset := 0, m_allocator := true }) ∧
    (∀ (t : Tensor) (data_type : PrimitiveDataType) (shape : List Int) (allocator : IAllocator),
      element_num shape = 0 →
      (Tensor.init t data_type shape allocator).1 = StatusCode.OK ∧
      (Tensor.init t data_type shape allocator).2.m_p_data = none) := by
  refine ⟨fun _ _ _ _ => rfl, by decide, by decide, by decide, by decide, ?_⟩
  intro t data_type shape allocator h0
  refine ⟨rfl, ?_⟩
  have h : calc_storage_size data_type shape 0 = (StatusCode.OK, 0) := by
    unfold calc_storage_size
    rw [h0]
    rfl
  simp [Tensor.init, h]

/-! ### `NodeArg` comparison and attribute access -/

/-- C25 (the code departs from the claim). `NodeArg::operator!=` calls itself
and returns nothing, whatever the two args and however many nested calls are
allowed; `NodeArg::operator==` is true exactly when name, data type and shape
match. -/
theorem NodeArg_ne_no_result :
    (∀ (fuel : Nat) (lhs rhs : NodeArg), NodeArg.ne fuel lhs rhs = none) ∧
    (∀ lhs rhs : NodeArg,
      NodeArg.eq lhs rhs = true ↔
        lhs.name = rhs.name ∧ lhs.data_type = rhs.data_type ∧ lhs.shape = rhs.shape) ∧
    NodeArg.ne 1000 (NodeArg.named "x") (NodeArg.named "y") = none ∧
    NodeArg.eq (NodeArg.named "x") (NodeArg.named "y") = false := by
  have hne : ∀ (fuel : Nat) (lhs rhs : NodeArg), NodeArg.ne fuel lhs rhs = none := by
    intro fuel lhs rhs
    induction fuel with
    | zero => rfl
    | succ n ih => exact ih
  refine ⟨hne, ?_, hne _ _ _, by decide⟩
  intro lhs rhs
  simp [NodeArg.eq, and_assoc]

/-- C26. `utils::get_attr<T>` for `float`, `int64_t` and `std::string` returns
OK with the stored payload exactly when an attribute of that name exists and
its stored kind is the kind of `T`, and FAIL otherwise; `get_attr_or_default`
returns the stored payload in the first case and the default otherwise.  A
`float` requested from an INT64 attribute fails. -/
theorem get_attr_kind_checked (name : String) (attributes : Attributes) :
    (∀ v, get_attr_float name attributes = Except.ok v ↔
      ∃ attr, map_find attributes name = some attr ∧ attr.type = NodeAttributeType.FLOAT ∧
        attr.m_float = v) ∧
    ((¬ ∃ attr, map_find attributes name = some attr ∧ attr.type = NodeAttributeType.FLOAT) →
      get_attr_float name attributes = Except.error StatusCode.FAIL) ∧
    (∀ v, get_attr_int64 name attributes = Except.ok v ↔
      ∃ attr, map_find attributes name = some attr ∧ attr.type = NodeAttributeType.INT64 ∧
        attr.m_int64 = v) ∧
    ((¬ ∃ attr, map_find attributes name = some attr ∧ attr.type = NodeAttributeType.INT64) →
      get_attr_int64 name attributes = Except.error StatusCode.FAIL) ∧
    (∀ v, get_attr_string name attributes = Except.ok v ↔
      ∃ attr, map_find attributes name = some attr ∧ attr.type = NodeAttributeType.STRING ∧
        attr.m_string = v) ∧
    ((¬ ∃ attr, map_find attributes name = some attr ∧ attr.type = NodeAttributeType.STRING) →
      get_attr_string name attributes = Except.error StatusCode.FAIL) ∧
    (∀ default_value attr, map_find attributes name = some attr →
      get_attr_or_default_float name default_value attributes
        = if attr.type = NodeAttributeType.FLOAT then attr.m_float else default_value) ∧
    (∀ default_value attr, map_find attributes name = some attr →
      get_attr_or_default_int64 name default_value attributes
        = if attr.type = NodeAttributeType.INT64 then attr.m_int64 else default_value) ∧
    (∀ default_value attr, map_find attributes name = some attr →
      get_attr_or_default_string name default_value attributes
        = if attr.type = NodeAttributeType.STRING then attr.m_string else default_value) ∧
    (map_find attributes name = none →
      (∀ default_value, get_attr_or_default_float name default_value attributes
        = default_value) ∧
      (∀ default_value, get_attr_or_default_int64 name default_value attributes
        = default_value) ∧
      (∀ default_value, get_attr_or_default_string name default_value attributes
        = default_value)) ∧
    get_attr_float "alpha" [("alpha", NodeAttribute.of_int64 3)]
      = Except.error StatusCode.FAIL ∧
    get_attr_or_default_float "alpha" 7 [("alpha", NodeAttribute.of_int64 3)] = 7 := by
  refine ⟨?_, ?_, ?_, ?_, ?_, ?_, ?_, ?_, ?_, ?_, rfl, rfl⟩
  · intro v
    unfold get_attr_float
    cases h : map_find attributes name with
    | none => simp
    | some attr =>
      by_cases ht : attr.type = NodeAttributeType.FLOAT
      · simp [ht]
      · simp [ht]
  · intro hno
    unfold get_attr_float
    cases h : map_find attributes name with
    | none => rfl
    | some attr =>
      have ht : attr.type ≠ NodeAttributeType.FLOAT := fun e => hno ⟨attr, h, e⟩
      simp [ht]
  · intro v
    unfold get_attr_int64
    cases h : map_find attributes name with
    | none => simp
    | some attr =>
      by_cases ht : attr.type = NodeAttributeType.INT64
      · simp [ht]
      · simp [ht]
  · intro hno
    unfold get_attr_int64
    cases h : map_find attributes name with
    | none => rfl
    | some attr =>
      have ht : attr.type ≠ NodeAttributeType.INT64 := fun e => hno ⟨attr, h, e⟩
      simp [ht]
  · intro v
    unfold get_attr_string
    cases h : map_find attributes name with
    | none => simp
    | some attr =>
      by_cases ht : attr.type = NodeAttributeType.STRING
      · simp [ht]
      · simp [ht]
  · intro hno
    unfold get_attr_string
    cases h : map_find attributes name with
    | none => rfl
    | some attr =>
      have ht : attr.type ≠ NodeAttributeType.STRING := fun e => hno ⟨attr, h, e⟩
      simp [ht]
  · intro default_value attr h
    unfold get_attr_or_default_float get_attr_float
    rw [h]
    by_cases ht : attr.type = NodeAttributeType.FLOAT
    · simp [ht]
    · simp [ht]
  · intro default_value attr h
    unfold get_attr_or_default_int64 get_attr_int64
    rw [h]
    by_cases ht : attr.type = NodeAttributeType.INT64
    · simp [ht]
    · simp [ht]
  · intro default_value attr h
    unfold get_attr_or_default_string get_attr_string
    rw [h]
    by_cases ht : attr.type = NodeAttributeType.STRING
    · simp [ht]
    · simp [ht]
  · intro h
    refine ⟨?_, ?_, ?_⟩
    · intro default_value
      unfold get_attr_or_default_float get_attr_float
      rw [h]
    · intro default_value
      unfold get_attr_or_default_int64 get_attr_int64
      rw [h]
    · intro default_value
      unfold get_attr_or_default_string get_attr_string
      rw [h]

/-! ### The cycle scenario -/

/-- C27 (as amended). On the cycle n1 (a to b), n2 (b to c), n3 (c to a) with
shared `NodeArg` objects and "a" not declared as graph input, the name checks
return OK, `build_nodes_connections` returns OK and gives every node its input
and output edge, and `topological_sort` then returns INVALID_MODEL, as does
`construct_topology`.  With "a" also declared as graph input,
`construct_topology` returns INVALID_MODEL from the name checks and no node
has an edge. -/
theorem construct_topology_cycle (fuel : Nat) :
    Option.map Prod.fst (init_inputs_initializers_outputs (sample_cycle_graph false))
      = some StatusCode.OK ∧
    status_and_edges
        ((init_inputs_initializers_outputs (sample_cycle_graph false)).bind
          (fun r => build_nodes_connections fuel r.2))
      = some (StatusCode.OK,
          [("n1", [{ other_node := 2, src_arg_index := 0, dst_arg_index := 0 }],
              [{ other_node := 1, src_arg_index := 0, dst_arg_index := 0 }]),
           ("n2", [{ other_node := 0, src_arg_index := 0, dst_arg_index := 0 }],
              [{ other_node := 2, src_arg_index := 0, dst_arg_index := 0 }]),
           ("n3", [{ other_node := 1, src_arg_index := 0, dst_arg_index := 0 }],
              [{ other_node := 0, src_arg_index := 0, dst_arg_index := 0 }])]) ∧
    (init_inputs_initializers_outputs (sample_cycle_graph false)).bind
        (fun r => build_then_sort fuel r.2)
      = some (StatusCode.OK, StatusCode.INVALID_MODEL, []) ∧
    Option.map Prod.fst
        (construct_topology fuel (register_all_infer []) (sample_cycle_graph false))
      = some StatusCode.INVALID_MODEL ∧
    Option.map Prod.fst (init_inputs_initializers_outputs (sample_cycle_graph true))
      = some StatusCode.INVALID_MODEL ∧
    status_and_edges
        (construct_topology fuel (register_all_infer []) (sample_cycle_graph true))
      = some (StatusCode.INVALID_MODEL, [("n1", [], []), ("n2", [], []), ("n3", [], [])]) := by
  refine ⟨by decide, rfl, rfl, rfl, by decide, rfl⟩

/-- C27 (counterexample). With "a" declared as graph input the name checks
stop at the output "a" of n3 with INVALID_MODEL, so `construct_topology` never
calls `build_nodes_connections`; and run on the state the checks leave,
`build_nodes_connections` returns OK without an edge into n1 and
`topological_sort` returns OK with the order n1, n2, n3. -/
theorem topological_sort_cycle_with_declared_input :
    Option.map (fun r => (r.1, r.2.m_topology_context.output_args))
        (init_inputs_initializers_outputs (sample_cycle_graph true))
      = some (StatusCode.INVALID_MODEL, [("b", (0, 0)), ("c", (1, 0))]) ∧
    (init_inputs_initializers_outputs (sample_cycle_graph true)).bind
        (fun r => build_then_sort 0 r.2)
      = some (StatusCode.OK, StatusCode.OK, ["n1", "n2", "n3"]) ∧
    status_and_edges
        ((init_inputs_initializers_outputs (sample_cycle_graph true)).bind
          (fun r => build_nodes_connections 0 r.2))
      = some (StatusCode.OK,
          [("n1", [], [{ other_node := 1, src_arg_index := 0, dst_arg_index := 0 }]),
           ("n2", [{ other_node := 0, src_arg_index := 0, dst_arg_index := 0 }],
              [{ other_node := 2, src_arg_index := 0, dst_arg_index := 0 }]),
           ("n3", [{ other_node := 1, src_arg_index := 0, dst_arg_index := 0 }], [])]) := by
  refine ⟨by decide, by decide, by decide⟩

/-! ### The deserializer -/

/-- C28 (the code departs from the claim). For a "Constant" node whose first
attribute is a STRING, or which has no attribute or no output,
`constant_protonode_to_tensor` returns INVALID_MODEL, but `parse_onnx_graph`
drops that status: the load returns OK, without an initializer for the node. -/
theorem parse_onnx_graph_unsupported_constant (allocator : IAllocator) :
    constant_protonode_to_tensor (sample_constant [sample_attr_string]) allocator
      = some (Except.error StatusCode.INVALID_MODEL) ∧
    constant_protonode_to_tensor (sample_constant []) allocator
      = some (Except.error StatusCode.INVALID_MODEL) ∧
    constant_protonode_to_tensor
        { name := "k", op_type := "Constant", attributes := [sample_attr_int] } allocator
      = some (Except.error StatusCode.INVALID_MODEL) ∧
    loaded_summary
        (parse_onnx_graph allocator (sample_constant_graph [sample_attr_string])
          fresh_graph)
      = some (StatusCode.OK, [], [(0, "r", "Relu")]) ∧
    loaded_summary (parse_onnx_graph allocator (sample_constant_graph []) fresh_graph)
      = some (StatusCode.OK, [], [(0, "r", "Relu")]) ∧
    loaded_summary
        (parse_onnx_graph allocator
          { node := [{ name := "k", op_type := "Constant",
                       attributes := [sample_attr_int] }] } fresh_graph)
      = some (StatusCode.OK, [], []) := by
  refine ⟨rfl, rfl, rfl, rfl, rfl, rfl⟩

theorem map_find_map_replace {β : Type} (m : List (String × β)) (key : String) (value : β)
    (k : String) :
    map_find (m.map (fun kv => if kv.1 = key then (key, value) else kv)) k
      = if k = key then (map_find m key).map (fun _ => value) else map_find m k := by
  unfold map_find
  induction m with
  | nil => simp
  | cons kv m ih =>
    by_cases h1 : kv.1 = key
    · by_cases h2 : k = key
      · subst h2
        simp [List.find?_cons, h1]
      · have h3 : ¬ key = k := fun e => h2 e.symm
        have h4 : ¬ kv.1 = k := fun e => h2 (e.symm.trans h1)
        rw [if_neg h2] at ih ⊢
        simp only [List.map_cons, h1, if_true, List.find?_cons, h3, decide_False, h4]
        exact ih
    · by_cases h2 : k = key
      · subst h2
        rw [if_pos rfl] at ih ⊢
        simp only [List.map_cons, h1, if_false, List.find?_cons, decide_False]
        exact ih
      · rw [if_neg h2] at ih ⊢
        by_cases h4 : kv.1 = k
        · simp only [List.map_cons, h1, if_false, List.find?_cons, h4, decide_True]
          simp [h2, h4]
        · simp only [List.map_cons, h1, if_false, List.find?_cons, h4, decide_False]
          exact ih

theorem map_find_map_assign {β : Type} (m : List (String × β)) (key : String) (value : β)
    (k : String) :
    map_find (map_assign m key value) k = if k = key then some value else map_find m k := by
  unfold map_assign
  cases h : map_find m key with
  | some w =>
    simp only
    rw [map_find_map_replace, h]
    rfl
  | none =>
    simp only
    by_cases h2 : k = key
    · subst h2
      rw [if_pos rfl, map_find_append_of_none _ _ _ h]
      simp [map_find]
    · rw [if_neg h2]
      cases hk : map_find m k with
      | some v => exact map_find_append_of_some _ _ _ _ hk
      | none =>
        rw [map_find_append_of_none _ _ _ hk]
        have h3 : ¬ key = k := fun e => h2 e.symm
        simp [map_find, h3]

theorem get_or_create_nodearg_frame (g : Graph) (name : String) (node_arg : NodeArg) :
    (get_or_create_nodearg g name node_arg).2.m_nodes = g.m_nodes ∧
    (get_or_create_nodearg g name node_arg).2.m_initializer_map = g.m_initializer_map := by
  unfold get_or_create_nodearg
  cases map_find g.m_nodearg_map name with
  | some p => exact ⟨rfl, rfl⟩
  | none => exact ⟨rfl, rfl⟩

theorem create_node_args_frame (nodearg_map : List (String × NodeArg)) (names : List String)
    (graph : Graph) :
    (create_node_args nodearg_map names graph).2.m_nodes = graph.m_nodes ∧
    (create_node_args nodearg_map names graph).2.m_initializer_map
      = graph.m_initializer_map ∧
    (create_node_args nodearg_map names graph).1.length = names.length := by
  induction names generalizing graph with
  | nil => exact ⟨rfl, rfl, rfl⟩
  | cons name names ih =>
    simp only [create_node_args, List.length_cons]
    cases map_find nodearg_map name with
    | some arg =>
      simp only
      have h := get_or_create_nodearg_frame graph name arg
      have h2 := ih (get_or_create_nodearg graph name arg).2
      exact ⟨h2.1.trans h.1, h2.2.1.trans h.2, by rw [h2.2.2]⟩
    | none =>
      simp only
      have h := get_or_create_nodearg_frame graph name (NodeArg.named name)
      have h2 := ih (get_or_create_nodearg graph name (NodeArg.named name)).2
      exact ⟨h2.1.trans h.1, h2.2.1.trans h.2, by rw [h2.2.2]⟩

theorem parse_value_infos_frame (declare : Graph → String → Graph)
    (hdecl : ∀ g s, (declare g s).m_nodes = g.m_nodes ∧
      (declare g s).m_initializer_map = g.m_initializer_map)
    (infos : List ValueInfoProto) (name_to_nodearg_map : List (String × NodeArg))
    (ir_graph : Graph) :
    (parse_value_infos declare infos name_to_nodearg_map ir_graph).2.2.m_nodes
      = ir_graph.m_nodes ∧
    (parse_value_infos declare infos name_to_nodearg_map ir_graph).2.2.m_initializer_map
      = ir_graph.m_initializer_map := by
  induction infos generalizing name_to_nodearg_map ir_graph with
  | nil => exact ⟨rfl, rfl⟩
  | cons info infos ih =>
    unfold parse_value_infos
    by_cases hn : info.name ≠ ""
    · rw [if_pos hn]
      cases info.type with
      | other => exact ih _ _
      | tensor_type elem_type shape =>
        simp only
        by_cases hu : tensor_datatype_to_primitive elem_type = PrimitiveDataType.UNKNOWN
        · rw [if_pos hu]
          exact ⟨rfl, rfl⟩
        · rw [if_neg hu]
          have h1 := ih (map_insert name_to_nodearg_map info.name
            { name := info.name, data_type := tensor_datatype_to_primitive elem_type,
              shape := shapeproto_to_tensorshape shape })
            (declare (get_or_create_nodearg ir_graph info.name
              { name := info.name, data_type := tensor_datatype_to_primitive elem_type,
                shape := shapeproto_to_tensorshape shape }).2 info.name)
          have h2 := hdecl (get_or_create_nodearg ir_graph info.name
              { name := info.name, data_type := tensor_datatype_to_primitive elem_type,
                shape := shapeproto_to_tensorshape shape }).2 info.name
          have h3 := get_or_create_nodearg_frame ir_graph info.name
              { name := info.name, data_type := tensor_datatype_to_primitive elem_type,
                shape := shapeproto_to_tensorshape shape }
          exact ⟨h1.1.trans (h2.1.trans h3.1), h1.2.trans (h2.2.trans h3.2)⟩
    · rw [if_neg hn]
      exact ih _ _

theorem write_elements_ok (tensor out : Tensor) (count : Nat)
    (h : write_elements tensor count = some (Except.ok out)) : out = tensor := by
  unfold write_elements at h
  split at h
  · cases h
  · cases h
    rfl

theorem retrieve_tensor_data_name (proto_tensor : TensorProto) (allocator : IAllocator)
    (name : String) (tensor : Tensor)
    (h : retrieve_tensor_data proto_tensor allocator name = some (Except.ok tensor)) :
    tensor.name = name := by
  unfold retrieve_tensor_data at h
  cases hd : proto_tensor.data_type <;> rw [hd] at h <;> simp only at h <;>
    try (cases h)
  have hinit : Tensor.init (Tensor.named name) PrimitiveDataType.FLOAT32 proto_tensor.dims
      allocator = (StatusCode.OK,
        (Tensor.init (Tensor.named name) PrimitiveDataType.FLOAT32 proto_tensor.dims
          allocator).2) := rfl
  rw [hinit] at h
  simp only at h
  split at h
  · split at h
    · rw [write_elements_ok _ _ _ h]
      rfl
    · cases h
  · split at h
    · rw [write_elements_ok _ _ _ h]
      rfl
    · cases h

theorem constant_of_values_ok (name : String) (data_type : PrimitiveDataType) (dim : Int)
    (count : Nat) (allocator : IAllocator) (tensor : Tensor)
    (h : constant_of_values name data_type dim count allocator = some (Except.ok tensor)) :
    tensor.name = name ∧ tensor.data_type = data_type ∧ tensor.shape = [dim] := by
  unfold constant_of_values at h
  have hinit : Tensor.init (Tensor.named name) data_type [dim] allocator
      = (StatusCode.OK, (Tensor.init (Tensor.named name) data_type [dim] allocator).2) := rfl
  rw [hinit] at h
  simp only at h
  rw [write_elements_ok _ _ _ h]
  exact ⟨rfl, rfl, rfl⟩

theorem constant_protonode_to_tensor_name (proto_node : NodeProto) (allocator : IAllocator)
    (tensor : Tensor)
    (h : constant_protonode_to_tensor proto_node allocator = some (Except.ok tensor)) :
    proto_node.output.head? = some tensor.name := by
  unfold constant_protonode_to_tensor at h
  cases ho : proto_node.output with
  | nil => rw [ho] at h; cases h
  | cons name outs =>
    cases ha : proto_node.attributes with
    | nil => rw [ho, ha] at h; cases h
    | cons const_attr attrs =>
      rw [ho, ha] at h
      simp only at h
      cases ht : const_attr.type <;> rw [ht] at h <;> simp only at h <;>
        first
        | (cases h)
        | (rw [(constant_of_values_ok _ _ _ _ _ _ h).1]; rfl)
        | (rw [retrieve_tensor_data_name _ _ _ _ h]; rfl)

theorem add_initializer_find (g : Graph) (tensor : Tensor) (k : String) :
    map_find (add_initializer g tensor).m_initializer_map k
      = if k = tensor.name then some tensor else map_find g.m_initializer_map k := by
  unfold add_initializer
  exact map_find_map_assign _ _ _ _

theorem lift_constant_nodes_frame (allocator : IAllocator) (nodes : List NodeProto)
    (ir_graph g1 : Graph) (h : lift_constant_nodes allocator nodes ir_graph = some g1)
    (name : String)
    (hother : ∀ c ∈ nodes, c.op_type = "Constant" → c.output.head? ≠ some name) :
    g1.m_nodes = ir_graph.m_nodes ∧
    map_find g1.m_initializer_map name = map_find ir_graph.m_initializer_map name := by
  induction nodes generalizing ir_graph with
  | nil =>
    simp only [lift_constant_nodes] at h
    cases h
    exact ⟨rfl, rfl⟩
  | cons proto_node nodes ih =>
    have hrest : ∀ c ∈ nodes, c.op_type = "Constant" → c.output.head? ≠ some name :=
      fun c hc => hother c (List.mem_cons_of_mem _ hc)
    unfold lift_constant_nodes at h
    by_cases hc : proto_node.op_type ≠ "Constant"
    · rw [if_pos hc] at h
      exact ih ir_graph h hrest
    · rw [if_neg hc] at h
      cases hk : constant_protonode_to_tensor proto_node allocator with
      | none => rw [hk] at h; cases h
      | some r =>
        rw [hk] at h
        cases r with
        | error status => exact ih ir_graph h hrest
        | ok ir_tensor =>
          simp only at h
          have h1 := ih (add_initializer ir_graph ir_tensor) h hrest
          have hname := constant_protonode_to_tensor_name proto_node allocator ir_tensor hk
          have hne : name ≠ ir_tensor.name := by
            intro e
            apply hother proto_node (List.mem_cons_self _ _) (not_not.1 hc)
            rw [hname, e]
          refine ⟨h1.1, ?_⟩
          rw [h1.2, add_initializer_find, if_neg hne]

theorem lift_constant_nodes_nodes (allocator : IAllocator) (nodes : List NodeProto)
    (ir_graph g1 : Graph) (h : lift_constant_nodes allocator nodes ir_graph = some g1) :
    g1.m_nodes = ir_graph.m_nodes := by
  induction nodes generalizing ir_graph with
  | nil =>
    simp only [lift_constant_nodes] at h
    cases h
    rfl
  | cons proto_node nodes ih =>
    unfold lift_constant_nodes at h
    by_cases hc : proto_node.op_type ≠ "Constant"
    · rw [if_pos hc] at h
      exact ih ir_graph h
    · rw [if_neg hc] at h
      cases hk : constant_protonode_to_tensor proto_node allocator with
      | none => rw [hk] at h; cases h
      | some r =>
        rw [hk] at h
        cases r with
        | error status => exact ih ir_graph h
        | ok ir_tensor => exact ih (add_initializer ir_graph ir_tensor) h

/-- Step 1 leaves, for a "Constant" node whose first attribute is FLOATS and
whose first output name is not that of a later "Constant" node, an
initializer of type FLOAT32 and shape {n} under that name. -/
theorem lift_constant_nodes_floats (allocator : IAllocator) (before after : List NodeProto)
    (c : NodeProto) (name : String) (outs : List String) (attr : AttributeProto)
    (attrs : List AttributeProto) (ir_graph g1 : Graph)
    (h : lift_constant_nodes allocator (before ++ c :: after) ir_graph = some g1)
    (hc : c.op_type = "Constant") (ho : c.output = name :: outs)
    (ha : c.attributes = attr :: attrs) (ht : attr.type = AttributeProto_AttributeType.FLOATS)
    (hafter : ∀ d ∈ after, d.op_type = "Constant" → d.output.head? ≠ some name) :
    ∃ t, map_find g1.m_initializer_map name = some t ∧ t.name = name ∧
      t.data_type = PrimitiveDataType.FLOAT32 ∧ t.shape = [(attr.floats.length : Int)] := by
  induction before generalizing ir_graph with
  | nil =>
    simp only [List.nil_append] at h
    unfold lift_constant_nodes at h
    rw [if_neg (not_not.2 hc)] at h
    have hk : constant_protonode_to_tensor c allocator
        = constant_of_values name PrimitiveDataType.FLOAT32 attr.floats.length
            attr.floats.length allocator := by
      unfold constant_protonode_to_tensor
      rw [ho, ha]
      simp only [ht]
    cases hv : constant_of_values name PrimitiveDataType.FLOAT32 attr.floats.length
        attr.floats.length allocator with
    | none => rw [hk, hv] at h; cases h
    | some r =>
      rw [hk, hv] at h
      cases r with
      | error status =>
        exfalso
        unfold constant_of_values at hv
        have hinit : Tensor.init (Tensor.named name) PrimitiveDataType.FLOAT32
            [(attr.floats.length : Int)] allocator
            = (StatusCode.OK, (Tensor.init (Tensor.named name) PrimitiveDataType.FLOAT32
                [(attr.floats.length : Int)] allocator).2) := rfl
        rw [hinit] at hv
        simp only [write_elements] at hv
        split at hv <;> cases hv
      | ok ir_tensor =>
        simp only at h
        have hprops := constant_of_values_ok _ _ _ _ _ _ hv
        have h1 := lift_constant_nodes_frame allocator after _ g1 h name hafter
        refine ⟨ir_tensor, ?_, hprops⟩
        rw [h1.2, add_initializer_find, if_pos hprops.1.symm]
  | cons b before ih =>
    simp only [List.cons_append] at h
    unfold lift_constant_nodes at h
    by_cases hb : b.op_type ≠ "Constant"
    · rw [if_pos hb] at h
      exact ih ir_graph h
    · rw [if_neg hb] at h
      cases hk : constant_protonode_to_tensor b allocator with
      | none => rw [hk] at h; cases h
      | some r =>
        rw [hk] at h
        cases r with
        | error status => exact ih ir_graph h
        | ok ir_tensor => exact ih (add_initializer ir_graph ir_tensor) h

theorem parse_initializers_frame (allocator : IAllocator) (protos : List TensorProto)
    (name_to_nodearg_map map3 : List (String × NodeArg)) (ir_graph g3 : Graph)
    (status : StatusCode)
    (h : parse_initializers allocator protos name_to_nodearg_map ir_graph
      = some (status, map3, g3)) :
    g3.m_nodes = ir_graph.m_nodes ∧
    ∀ name, (∀ p ∈ protos, p.name ≠ name) →
      map_find g3.m_initializer_map name = map_find ir_graph.m_initializer_map name := by
  induction protos generalizing name_to_nodearg_map ir_graph with
  | nil =>
    simp only [parse_initializers] at h
    cases h
    exact ⟨rfl, fun _ _ => rfl⟩
  | cons proto protos ih =>
    unfold parse_initializers at h
    cases hr : retrieve_tensor_data proto allocator proto.name with
    | none => rw [hr] at h; cases h
    | some r =>
      rw [hr] at h
      cases r with
      | error st =>
        simp only at h
        cases h
        exact ⟨rfl, fun _ _ => rfl⟩
      | ok tensor =>
        simp only at h
        have hname := retrieve_tensor_data_name _ _ _ _ hr
        cases hg : get_nodearg ir_graph tensor.name with
        | none =>
          rw [hg] at h
          simp only at h
          have h1 := ih _ _ h
          have hf := get_or_create_nodearg_frame ir_graph tensor.name
            { name := tensor.name, data_type := tensor.data_type, shape := tensor.shape }
          refine ⟨h1.1.trans hf.1, ?_⟩
          intro name hne
          rw [h1.2 name (fun p hp => hne p (List.mem_cons_of_mem _ hp)), add_initializer_find]
          have : name ≠ tensor.name := by
            rw [hname]
            exact fun e => hne proto (List.mem_cons_self _ _) e.symm
          rw [if_neg this, hf.2]
        | some p =>
          rw [hg] at h
          simp only at h
          have h1 := ih _ _ h
          refine ⟨h1.1, ?_⟩
          intro name hne
          rw [h1.2 name (fun p hp => hne p (List.mem_cons_of_mem _ hp)), add_initializer_find]
          have : name ≠ tensor.name := by
            rw [hname]
            exact fun e => hne proto (List.mem_cons_self _ _) e.symm
          rw [if_neg this]

theorem write_elements_not_error (tensor : Tensor) (count : Nat) (status : StatusCode) :
    write_elements tensor count ≠ some (Except.error status) := by
  unfold write_elements
  intro h
  split at h <;> cases h

theorem retrieve_tensor_data_error (proto_tensor : TensorProto) (allocator : IAllocator)
    (name : String) (status : StatusCode)
    (h : retrieve_tensor_data proto_tensor allocator name = some (Except.error status)) :
    status ≠ StatusCode.OK := by
  unfold retrieve_tensor_data at h
  cases hd : proto_tensor.data_type <;> rw [hd] at h <;> simp only at h <;>
    try (cases h; exact fun e => by cases e)
  have hinit : Tensor.init (Tensor.named name) PrimitiveDataType.FLOAT32 proto_tensor.dims
      allocator = (StatusCode.OK,
        (Tensor.init (Tensor.named name) PrimitiveDataType.FLOAT32 proto_tensor.dims
          allocator).2) := rfl
  rw [hinit] at h
  simp only at h
  split at h
  · split at h
    · exact absurd h (write_elements_not_error _ _ _)
    · cases h
      exact fun e => by cases e
  · split at h
    · exact absurd h (write_elements_not_error _ _ _)
    · cases h
      exact fun e => by cases e

theorem retrieve_tensors_error (allocator : IAllocator) (tensors : List TensorProto)
    (acc : List Tensor) (status : StatusCode)
    (h : retrieve_tensors allocator tensors acc = some (Except.error status)) :
    status ≠ StatusCode.OK := by
  induction tensors generalizing acc with
  | nil => simp only [retrieve_tensors] at h; cases h
  | cons tensor tensors ih =>
    unfold retrieve_tensors at h
    cases hr : retrieve_tensor_data tensor allocator tensor.name with
    | none => rw [hr] at h; cases h
    | some r =>
      rw [hr] at h
      cases r with
      | ok ir_tensor => exact ih _ h
      | error st =>
        simp only at h
        cases h
        exact retrieve_tensor_data_error _ _ _ _ hr

theorem parse_onnx_attribute_error (proto_attr : AttributeProto) (allocator : IAllocator)
    (status : StatusCode)
    (h : parse_onnx_attribute proto_attr allocator = some (Except.error status)) :
    status ≠ StatusCode.OK := by
  unfold parse_onnx_attribute at h
  split at h
  · cases h
    exact fun e => by cases e
  · simp only at h
    split at h
    · cases h
    · cases h
    · cases h
    · split at h
      · cases h
      · cases h
      · rename_i st hr
        cases h
        exact retrieve_tensor_data_error _ _ _ _ hr
    · cases h
    · cases h
    · cases h
    · split at h
      · cases h
      · cases h
      · rename_i st hr
        cases h
        exact retrieve_tensors_error _ _ _ _ hr
    · cases h
      exact fun e => by cases e

theorem parse_node_attributes_error (allocator : IAllocator) (items : List AttributeProto)
    (attributes : Attributes) (status : StatusCode)
    (h : parse_node_attributes allocator items attributes = some (Except.error status)) :
    status ≠ StatusCode.OK := by
  induction items generalizing attributes with
  | nil => simp only [parse_node_attributes] at h; cases h
  | cons item items ih =>
    unfold parse_node_attributes at h
    cases hr : parse_onnx_attribute item allocator with
    | none => rw [hr] at h; cases h
    | some r =>
      rw [hr] at h
      cases r with
      | ok attr => exact ih _ h
      | error st =>
        simp only at h
        cases h
        exact parse_onnx_attribute_error _ _ _ hr

/-- What `parse_onnx_node` returns: on an error a status other than OK, on
success the node with the given id and the name and operator type of the
proto; the graph keeps its nodes and initializers. -/
theorem parse_onnx_node_spec (onnx_node : NodeProto) (node_id : Int) (graph graph2 : Graph)
    (nodearg_map : List (String × NodeArg)) (allocator : IAllocator)
    (r : Except StatusCode Node)
    (h : parse_onnx_node onnx_node node_id graph nodearg_map allocator = some (r, graph2)) :
    graph2.m_nodes = graph.m_nodes ∧ graph2.m_initializer_map = graph.m_initializer_map ∧
    (∀ status, r = Except.error status → status ≠ StatusCode.OK) ∧
    (∀ ir_node, r = Except.ok ir_node →
      ir_node.id = node_id ∧ ir_node.name = onnx_node.name ∧
        ir_node.type = onnx_node.op_type) := by
  unfold parse_onnx_node at h
  have hin := create_node_args_frame nodearg_map onnx_node.input graph
  have hout := create_node_args_frame nodearg_map onnx_node.output
    (create_node_args nodearg_map onnx_node.input graph).2
  cases ha : parse_node_attributes allocator onnx_node.attributes [] with
  | none => rw [ha] at h; cases h
  | some res =>
    rw [ha] at h
    cases res with
    | error st =>
      simp only at h
      cases h
      refine ⟨hout.1.trans hin.1, hout.2.1.trans hin.2.1, ?_, ?_⟩
      · intro status e
        cases e
        exact parse_node_attributes_error _ _ _ _ ha
      · intro ir_node e
        cases e
    | ok attributes =>
      simp only at h
      cases h
      refine ⟨hout.1.trans hin.1, hout.2.1.trans hin.2.1, ?_, ?_⟩
      · intro status e
        cases e
      · intro ir_node e
        cases e
        exact ⟨rfl, rfl, rfl⟩

theorem range_map_shift (n : Nat) (k : Int) :
    k :: (List.range n).map (fun (i : Nat) => k + 1 + (i : Int))
      = (List.range (n + 1)).map (fun (i : Nat) => k + (i : Int)) := by
  rw [List.range_succ_eq_map, List.map_cons, List.map_map]
  congr 1
  · simp
  · apply List.map_congr_left
    intro i _
    simp only [Function.comp, Nat.succ_eq_add_one, Nat.cast_add, Nat.cast_one]
    ring

/-- Step 5 appends, for the protos other than "Constant" in their order, nodes
with the names and operator types of the protos and consecutive ids. -/
theorem parse_nodes_spec (allocator : IAllocator) (name_to_nodearg_map : List (String × NodeArg))
    (nodes : List NodeProto) (node_id : Int) (ir_graph g5 : Graph)
    (h : parse_nodes allocator name_to_nodearg_map nodes node_id ir_graph
      = some (StatusCode.OK, g5)) :
    g5.m_initializer_map = ir_graph.m_initializer_map ∧
    ∃ added : List Node, g5.m_nodes = ir_graph.m_nodes ++ added ∧
      added.map (fun n => (n.name, n.type))
        = (nodes.filter (fun p => decide (p.op_type ≠ "Constant"))).map
            (fun p => (p.name, p.op_type)) ∧
      added.map Node.id = (List.range added.length).map (fun (i : Nat) => node_id + 1 + (i : Int)) := by
  induction nodes generalizing node_id ir_graph with
  | nil =>
    simp only [parse_nodes] at h
    cases h
    exact ⟨rfl, [], by simp, rfl, rfl⟩
  | cons proto_node nodes ih =>
    unfold parse_nodes at h
    by_cases hc : proto_node.op_type = "Constant"
    · rw [if_pos hc] at h
      obtain ⟨h1, added, h2, h3, h4⟩ := ih node_id ir_graph h
      refine ⟨h1, added, h2, ?_, h4⟩
      rw [h3, List.filter_cons_of_neg]
      simp [hc]
    · rw [if_neg hc] at h
      cases hp : parse_onnx_node proto_node (node_id + 1) ir_graph name_to_nodearg_map
          allocator with
      | none => rw [hp] at h; cases h
      | some res =>
        obtain ⟨r, graph⟩ := res
        rw [hp] at h
        have hspec := parse_onnx_node_spec _ _ _ _ _ _ _ hp
        cases r with
        | error status =>
          simp only at h
          have hst := hspec.2.2.1 status rfl
          cases h
          exact absurd rfl hst
        | ok ir_node =>
          simp only at h
          obtain ⟨h1, added, h2, h3, h4⟩ := ih (node_id + 1) (add_node graph ir_node) h
          have hnode := hspec.2.2.2 ir_node rfl
          refine ⟨?_, ir_node :: added, ?_, ?_, ?_⟩
          · rw [h1]
            exact hspec.2.1
          · rw [h2]
            simp only [add_node, List.append_assoc, List.singleton_append]
            rw [hspec.1]
          · rw [List.filter_cons_of_pos (by simp [hc])]
            simp only [List.map_cons, hnode.2.1, hnode.2.2, h3]
          · simp only [List.map_cons, List.length_cons, hnode.1, h4]
            exact range_map_shift added.length (node_id + 1)

theorem initialize_graph_frame (g : Graph) :
    (initialize_graph g).2.m_nodes = g.m_nodes ∧
    (initialize_graph g).2.m_initializer_map = g.m_initializer_map := by
  unfold initialize_graph
  simp only
  split
  · exact ⟨rfl, rfl⟩
  · exact ⟨rfl, rfl⟩

/-- C29 (as amended). When `parse_onnx_graph` returns OK on a fresh graph, no
node of the graph has the operator type "Constant", the nodes are the protos
other than "Constant" in source order with the ids 0, 1, 2, ..., and every
"Constant" proto with a first output name and a FLOATS first attribute of
length n is an initializer under that name with type FLOAT32 and shape {n},
provided no later "Constant" proto has that first output name and no graph
initializer has that name. -/
theorem parse_onnx_graph_constants (allocator : IAllocator) (onnx_graph : GraphProto)
    (heap : NodeArgPtr → NodeArg) (heap_next : NodeArgPtr) (g : Graph)
    (h : parse_onnx_graph allocator onnx_graph (Graph.empty heap heap_next)
      = some (StatusCode.OK, g)) :
    (∀ n ∈ g.m_nodes, n.type ≠ "Constant") ∧
    g.m_nodes.map (fun n => (n.name, n.type))
      = (onnx_graph.node.filter (fun p => decide (p.op_type ≠ "Constant"))).map
          (fun p => (p.name, p.op_type)) ∧
    g.m_nodes.map Node.id = (List.range g.m_nodes.length).map (fun (i : Nat) => (i : Int)) ∧
    ∀ (before after : List NodeProto) (c : NodeProto) (name : String) (outs : List String)
      (attr : AttributeProto) (attrs : List AttributeProto),
      onnx_graph.node = before ++ c :: after → c.op_type = "Constant" →
      c.output = name :: outs → c.attributes = attr :: attrs →
      attr.type = AttributeProto_AttributeType.FLOATS →
      (∀ d ∈ after, d.op_type = "Constant" → d.output.head? ≠ some name) →
      (∀ p ∈ onnx_graph.initializer, p.name ≠ name) →
      has_initializer g name = true ∧
      ∃ t, map_find g.m_initializer_map name = some t ∧
        t.data_type = PrimitiveDataType.FLOAT32 ∧ t.shape = [(attr.floats.length : Int)] := by
  unfold parse_onnx_graph at h
  cases h1 : lift_constant_nodes allocator onnx_graph.node (Graph.empty heap heap_next) with
  | none => rw [h1] at h; cases h
  | some g1 =>
    rw [h1] at h
    simp only at h
    have f2 := parse_value_infos_frame add_input_name (fun _ _ => ⟨rfl, rfl⟩) onnx_graph.input
      [] g1
    generalize parse_value_infos add_input_name onnx_graph.input [] g1 = r2 at h f2
    obtain ⟨st2, map2, g2⟩ := r2
    cases st2 <;> simp only at h <;> try cases h
    cases h3 : parse_initializers allocator onnx_graph.initializer map2 g2 with
    | none => rw [h3] at h; cases h
    | some r3 =>
      rw [h3] at h
      obtain ⟨st3, map3, g3⟩ := r3
      have f3 := parse_initializers_frame _ _ _ _ _ _ _ h3
      cases st3 <;> simp only at h <;> try cases h
      have f4 := parse_value_infos_frame add_output_name (fun _ _ => ⟨rfl, rfl⟩)
        onnx_graph.output map3 g3
      generalize parse_value_infos add_output_name onnx_graph.output map3 g3 = r4 at h f4
      obtain ⟨st4, map4, g4⟩ := r4
      cases st4 <;> simp only at h <;> try cases h
      generalize parse_value_info_templates onnx_graph.value_info map4 = r5 at h
      obtain ⟨st5, map5⟩ := r5
      cases st5 <;> simp only at h <;> try cases h
      cases h6 : parse_nodes allocator map5 onnx_graph.node (-1) g4 with
      | none => rw [h6] at h; cases h
      | some r6 =>
        rw [h6] at h
        obtain ⟨st6, g5⟩ := r6
        cases st6 <;> simp only at h <;> try cases h
        obtain ⟨f6, added, hadd, hnames, hids⟩ := parse_nodes_spec _ _ _ _ _ _ h6
        have f7 := initialize_graph_frame g5
        have hg : (initialize_graph g5).2 = g := by
          have := congrArg (fun o => Option.map Prod.snd o) h
          simpa using this
        rw [hg] at f7
        have hnodes0 : g4.m_nodes = [] := by
          simp only at f2 f4
          rw [f4.1, f3.1, f2.1, lift_constant_nodes_nodes _ _ _ _ h1]
          rfl
        have hnodes : g.m_nodes = added := by
          rw [f7.1, hadd, hnodes0, List.nil_append]
        have hmap : ∀ name, (∀ p ∈ onnx_graph.initializer, p.name ≠ name) →
            map_find g.m_initializer_map name = map_find g1.m_initializer_map name := by
          intro name hne
          simp only at f2 f4
          rw [f7.2, f6, f4.2, f3.2 name hne, f2.2]
        refine ⟨?_, ?_, ?_, ?_⟩
        · intro n hn htype
          rw [hnodes] at hn
          have hmem : (n.name, n.type) ∈ added.map (fun n => (n.name, n.type)) :=
            List.mem_map_of_mem _ hn
          rw [hnames] at hmem
          obtain ⟨p, hp, hpe⟩ := List.mem_map.1 hmem
          have hp2 := (List.mem_filter.1 hp).2
          have : p.op_type = n.type := congrArg Prod.snd hpe
          rw [this, htype] at hp2
          simp at hp2
        · rw [hnodes]
          exact hnames
        · rw [hnodes, hids]
          apply List.map_congr_left
          intro i _
          simp
        · intro before after c name outs attr attrs hsplit hc ho ha ht hafter hinit
          rw [hsplit] at h1
          obtain ⟨t, ht1, _, ht3, ht4⟩ :=
            lift_constant_nodes_floats allocator before after c name outs attr attrs _ g1 h1
              hc ho ha ht hafter
          have hfind := (hmap name hinit).trans ht1
          refine ⟨?_, t, hfind, ht3, ht4⟩
          unfold has_initializer
          rw [hfind]
          rfl

/-- C29 (counterexample). The "Constant" node with output "c" has a FLOATS
attribute of length 5, the graph proto also has an initializer named "c" with
dims {2}, and the load returns OK with the initializer "c" of shape {2}. -/
theorem parse_onnx_graph_constant_overridden :
    sample_constant_overridden.node.map
        (fun p => (p.op_type, p.output, p.attributes.map (fun a => (a.type, a.floats.length))))
      = [("Constant", ["c"], [(AttributeProto_AttributeType.FLOATS, 5)]),
         ("Relu", ["y"], [])] ∧
    loaded_summary (parse_onnx_graph sample_allocator sample_constant_overridden fresh_graph)
      = some (StatusCode.OK, [("c", PrimitiveDataType.FLOAT32, [2])], [(0, "r", "Relu")]) := by
  refine ⟨by decide, rfl⟩

theorem parse_onnx_graph_constants_witness :
    ∃ g, parse_onnx_graph sample_allocator
        (sample_constant_graph [sample_attr_floats [0, 0, 0, 0, 0]]) fresh_graph
        = some (StatusCode.OK, g) ∧
      (∀ n ∈ g.m_nodes, n.type ≠ "Constant") ∧
      g.m_nodes.map (fun n => (n.name, n.type)) = [("r", "Relu")] ∧
      g.m_nodes.map Node.id = [0] ∧
      has_initializer g "c" = true ∧
      ∃ t, map_find g.m_initializer_map "c" = some t ∧
        t.data_type = PrimitiveDataType.FLOAT32 ∧ t.shape = [5] :=
  ⟨_, rfl,
    (parse_onnx_graph_constants sample_allocator
      (sample_constant_graph [sample_attr_floats [0, 0, 0, 0, 0]])
      (fun _ => NodeArg.named "") 0 _ rfl).1,
    rfl, rfl,
    (parse_onnx_graph_constants sample_allocator
      (sample_constant_graph [sample_attr_floats [0, 0, 0, 0, 0]])
      (fun _ => NodeArg.named "") 0 _ rfl).2.2.2 []
        [{ name := "r", op_type := "Relu", input := ["c"], output := ["y"] }]
        (sample_constant [sample_attr_floats [0, 0, 0, 0, 0]]) "c" []
        (sample_attr_floats [0, 0, 0, 0, 0]) [] rfl rfl rfl rfl rfl
        (by decide) (by decide)⟩

/-! ### MaxPool: `ceil_mode` with exact strides -/

theorem mul_int64_tdiv_exact (tmp stride : Int) (h : stride ∣ tmp)
    (h1 : -9223372036854775808 ≤ tmp) (h2 : tmp < 9223372036854775808) :
    mul_int64 (Int.tdiv tmp stride) stride = tmp := by
  unfold mul_int64
  rw [Int.tdiv_mul_cancel h]
  exact wrap_int64_of_range tmp h1 h2

theorem max_pool_spatial_dims_exact (input_shape kernel_shape pads dilations strides : List Int)
    (ceil_mode : Int) (remaining : Nat) :
    ∀ i j : Nat,
      (∀ p ∈ max_pool_numerators input_shape kernel_shape pads dilations strides i j remaining,
        p.2 ∣ p.1) →
      max_pool_spatial_dims input_shape kernel_shape pads dilations strides ceil_mode i j
          remaining
        = max_pool_spatial_dims input_shape kernel_shape pads dilations strides 0 i j
            remaining := by
  induction remaining with
  | zero => intro i j _; rfl
  | succ n ih =>
    intro i j hdiv
    unfold max_pool_spatial_dims
    unfold max_pool_numerators at hdiv
    split
    · rename_i x pad_begin pad_end dilation kernel stride hx hb he hd hk hs
      rw [hx, hb, he, hd, hk, hs] at hdiv
      simp only at hdiv
      have hhead := hdiv _ (List.mem_cons_self _ _)
      have htail := ih (i + 1) (j + 1) (fun p hp => hdiv p (List.mem_cons_of_mem _ hp))
      simp only at hhead
      dsimp only
      cases hq : div_int64
          (sub_int64
            (sub_int64 (add_int64 (add_int64 x pad_begin) pad_end)
              (mul_int64 dilation (sub_int64 kernel 1)))
            1) stride with
      | none => rfl
      | some tmp2 =>
        dsimp only
        have htmp2 : tmp2 = Int.tdiv
            (sub_int64
              (sub_int64 (add_int64 (add_int64 x pad_begin) pad_end)
                (mul_int64 dilation (sub_int64 kernel 1)))
              1) stride := by
          unfold div_int64 at hq
          split at hq
          · cases hq
          · cases hq
            rfl
        have hexact : mul_int64 tmp2 stride
            = sub_int64
                (sub_int64 (add_int64 (add_int64 x pad_begin) pad_end)
                  (mul_int64 dilation (sub_int64 kernel 1)))
                1 := by
          rw [htmp2]
          apply mul_int64_tdiv_exact _ _ hhead
          · exact (wrap_int64_range _).1
          · exact (wrap_int64_range _).2
        rw [htail, if_pos hexact]
        simp
    · rfl

theorem get_attr_or_default_string_skip (name : String) (default_value : String)
    (key : String) (attr : NodeAttribute) (attributes : Attributes) (h : key ≠ name) :
    get_attr_or_default_string name default_value ((key, attr) :: attributes)
      = get_attr_or_default_string name default_value attributes := by
  simp [get_attr_or_default_string, get_attr_string, map_find, List.find?_cons, h]

theorem get_attrs_or_default_int64_skip (name : String) (default_value : List Int)
    (key : String) (attr : NodeAttribute) (attributes : Attributes) (h : key ≠ name) :
    get_attrs_or_default_int64 name default_value ((key, attr) :: attributes)
      = get_attrs_or_default_int64 name default_value attributes := by
  simp [get_attrs_or_default_int64, get_attrs_int64, map_find, List.find?_cons, h]

theorem get_attr_or_default_int64_head (name : String) (default_value value : Int)
    (attributes : Attributes) :
    get_attr_or_default_int64 name default_value
        ((name, NodeAttribute.of_int64 value) :: attributes) = value := by
  simp [get_attr_or_default_int64, get_attr_int64, map_find, List.find?_cons,
    NodeAttribute.of_int64]

/-- C21. When every stride that the MaxPool inferer uses divides its numerator
`tmp` exactly, the inferer gives the same result with a non-zero `ceil_mode`
(1 in particular) as with `ceil_mode` 0: the same output shape when it
succeeds, and no success with one and not the other. -/
theorem MaxPoolShapeInfer_infer_ceil_mode_exact (input_shape : List Int)
    (attributes : Attributes) (ceil_mode : Int)
    (hdiv : ∀ p ∈ MaxPoolShapeInfer_numerators input_shape attributes, p.2 ∣ p.1) :
    MaxPoolShapeInfer_infer [input_shape]
        (("ceil_mode", NodeAttribute.of_int64 ceil_mode) :: attributes) 1
      = MaxPoolShapeInfer_infer [input_shape]
          (("ceil_mode", NodeAttribute.of_int64 0) :: attributes) 1 := by
  unfold MaxPoolShapeInfer_numerators at hdiv
  simp only at hdiv
  have hloop := max_pool_spatial_dims_exact input_shape _ _ _ _ ceil_mode _ _ _ hdiv
  unfold MaxPoolShapeInfer_infer
  simp only [get_attr_or_default_int64_head,
    get_attr_or_default_string_skip "auto_pad" "NOTSET" "ceil_mode" _ attributes (by decide),
    get_attrs_or_default_int64_skip "dilations" [] "ceil_mode" _ attributes (by decide),
    get_attrs_or_default_int64_skip "kernel_shape" [] "ceil_mode" _ attributes (by decide),
    get_attrs_or_default_int64_skip "pads" [] "ceil_mode" _ attributes (by decide),
    get_attrs_or_default_int64_skip "strides" [] "ceil_mode" _ attributes (by decide),
    List.get?_cons_zero]
  rw [hloop]

theorem MaxPoolShapeInfer_infer_ceil_mode_exact_witness :
    MaxPoolShapeInfer_numerators [8, 8]
        [("kernel_shape", NodeAttribute.of_int64s [2, 2]),
         ("strides", NodeAttribute.of_int64s [2, 2])] = [(6, 2), (6, 2)] ∧
    MaxPoolShapeInfer_infer [[8, 8]]
        [("ceil_mode", NodeAttribute.of_int64 1),
         ("kernel_shape", NodeAttribute.of_int64s [2, 2]),
         ("strides", NodeAttribute.of_int64s [2, 2])] 1
      = MaxPoolShapeInfer_infer [[8, 8]]
          [("ceil_mode", NodeAttribute.of_int64 0),
           ("kernel_shape", NodeAttribute.of_int64s [2, 2]),
           ("strides", NodeAttribute.of_int64s [2, 2])] 1 ∧
    MaxPoolShapeInfer_infer [[8, 8]]
        [("ceil_mode", NodeAttribute.of_int64 1),
         ("kernel_shape", NodeAttribute.of_int64s [2, 2]),
         ("strides", NodeAttribute.of_int64s [2, 2])] 1 = InferResult.inferred [4, 4] :=
  ⟨by decide,
    MaxPoolShapeInfer_infer_ceil_mode_exact [8, 8]
      [("kernel_shape", NodeAttribute.of_int64s [2, 2]),
       ("strides", NodeAttribute.of_int64s [2, 2])] 1 (by decide),
    by decide⟩

/-! ### Edges made by `Graph::build_nodes_connections` -/

theorem edge_less_trichotomy (a b : Edge) (h1 : edge_less a b = false)
    (h2 : edge_less b a = false) : a = b := by
  obtain ⟨a1, a2, a3⟩ := a
  obtain ⟨b1, b2, b3⟩ := b
  simp only [edge_less] at h1 h2
  have e1 : a1 = b1 := by
    by_contra hne
    have hne' : ¬ b1 = a1 := fun e => hne e.symm
    simp only [hne, hne', if_false, decide_eq_false_iff_not, not_lt] at h1 h2
    exact hne (le_antisymm h2 h1)
  subst e1
  have e2 : a2 = b2 := by
    by_contra hne
    have hne' : ¬ b2 = a2 := fun e => hne e.symm
    simp only [if_true, hne, hne', if_false, decide_eq_false_iff_not, not_lt] at h1 h2
    exact hne (le_antisymm h2 h1)
  subst e2
  simp only [if_true, decide_eq_false_iff_not, not_lt] at h1 h2
  have e3 : a3 = b3 := le_antisymm h2 h1
  subst e3
  rfl

theorem mem_edge_set_insert (e x : Edge) (s : List Edge) :
    x ∈ edge_set_insert e s ↔ x = e ∨ x ∈ s := by
  induction s with
  | nil => simp [edge_set_insert]
  | cons y ys ih =>
    unfold edge_set_insert
    cases h1 : edge_less e y with
    | true => simp
    | false =>
      cases h2 : edge_less y e with
      | true =>
        simp only [Bool.false_eq_true, if_false, if_true, List.mem_cons, ih]
        tauto
      | false =>
        have := edge_less_trichotomy e y h1 h2
        subst this
        simp

theorem update_node_eq_map (id : Int) (f : Node → Node) (nodes : List Node)
    (hnodup : (nodes.map Node.id).Nodup) :
    update_node id f nodes = nodes.map (fun n => if n.id = id then f n else n) := by
  induction nodes with
  | nil => rfl
  | cons n ns ih =>
    rw [List.map_cons, List.nodup_cons] at hnodup
    unfold update_node
    by_cases h : n.id = id
    · rw [if_pos h, List.map_cons, if_pos h]
      congr 1
      symm
      calc ns.map (fun n => if n.id = id then f n else n) = ns.map (fun n => n) := by
            apply List.map_congr_left
            intro m hm
            have : m.id ≠ id := by
              intro e
              apply hnodup.1
              rw [h, ← e]
              exact List.mem_map_of_mem _ hm
            rw [if_neg this]
        _ = ns := List.map_id' ns
    · rw [if_neg h, List.map_cons, if_neg h, ih hnodup.2]

theorem find_node_of_mem (nodes : List Node) (n : Node) (hn : n ∈ nodes)
    (hnodup : (nodes.map Node.id).Nodup) : find_node nodes n.id = some n := by
  induction nodes with
  | nil => cases hn
  | cons m ms ih =>
    rw [List.map_cons, List.nodup_cons] at hnodup
    unfold find_node
    rw [List.find?_cons]
    by_cases h : m.id = n.id
    · simp only [h, decide_True]
      rcases List.mem_cons.1 hn with e | hmem
      · rw [e]
      · exfalso
        apply hnodup.1
        rw [h]
        exact List.mem_map_of_mem _ hmem
    · simp only [h, decide_False]
      rcases List.mem_cons.1 hn with e | hmem
      · exact absurd (e ▸ rfl) h
      · exact ih hmem hnodup.2

/-- The nodes after a successful `add_edge(src, dst, src_arg_index,
dst_arg_index)`. -/
theorem add_edge_shared_arg (fuel : Nat) (g : Graph) (u v : Node) (s d : Int) (p : NodeArgPtr)
    (hnodup : (g.m_nodes.map Node.id).Nodup) (hu : u ∈ g.m_nodes) (hv : v ∈ g.m_nodes)
    (hs : 0 ≤ s) (hd : 0 ≤ d) (hq : u.output_args.get? s.toNat = some p)
    (hp : v.input_args.get? d.toNat = some p) :
    add_edge fuel g u.id v.id s d
      = some (StatusCode.OK,
          { g with
            m_nodes :=
              (g.m_nodes.map (fun n =>
                if n.id = u.id then
                  n.add_output_edge
                    { other_node := v.id, src_arg_index := s, dst_arg_index := d }
                else n)).map (fun n =>
                if n.id = v.id then
                  n.add_input_edge
                    { other_node := u.id, src_arg_index := s, dst_arg_index := d }
                else n) }) := by
  have hids : ((g.m_nodes.map (fun n =>
      if n.id = u.id then
        n.add_output_edge { other_node := v.id, src_arg_index := s, dst_arg_index := d }
      else n)).map Node.id) = g.m_nodes.map Node.id := by
    rw [List.map_map]
    apply List.map_congr_left
    intro n _
    simp only [Function.comp]
    split <;> rfl
  unfold add_edge
  rw [find_node_of_mem _ u hu hnodup, find_node_of_mem _ v hv hnodup]
  simp only
  have hneg : ¬ (s < 0 ∨ d < 0) := by omega
  rw [if_neg hneg, hq, hp]
  simp only [ne_eq, not_true_eq_false, if_false]
  rw [update_node_eq_map _ _ _ hnodup, update_node_eq_map _ _ _ (hids ▸ hnodup)]

theorem ite_add_output_edge (n : Node) (src : Int) (e : Edge) :
    (if n.id = src then n.add_output_edge e else n).id = n.id ∧
    (if n.id = src then n.add_output_edge e else n).without_edges = n.without_edges ∧
    (if n.id = src then n.add_output_edge e else n).input_edges = n.input_edges ∧
    (if n.id = src then n.add_output_edge e else n).output_edges
      = if n.id = src then edge_set_insert e n.output_edges else n.output_edges := by
  by_cases h : n.id = src
  · simp only [if_pos h]
    exact ⟨rfl, rfl, rfl, rfl⟩
  · simp only [if_neg h, and_self]

theorem ite_add_input_edge (n : Node) (dst : Int) (e : Edge) :
    (if n.id = dst then n.add_input_edge e else n).id = n.id ∧
    (if n.id = dst then n.add_input_edge e else n).without_edges = n.without_edges ∧
    (if n.id = dst then n.add_input_edge e else n).output_edges = n.output_edges ∧
    (if n.id = dst then n.add_input_edge e else n).input_edges
      = if n.id = dst then edge_set_insert e n.input_edges else n.input_edges := by
  by_cases h : n.id = dst
  · simp only [if_pos h]
    exact ⟨rfl, rfl, rfl, rfl⟩
  · simp only [if_neg h, and_self]

theorem EdgesInv.add_edge {nodes0 nodes : List Node} {E : Int → Int → Int → Int → Prop}
    (hinv : EdgesInv nodes0 nodes E) (src dst s d : Int) :
    EdgesInv nodes0
      ((nodes.map (fun n =>
        if n.id = src then
          n.add_output_edge { other_node := dst, src_arg_index := s, dst_arg_index := d }
        else n)).map (fun n =>
        if n.id = dst then
          n.add_input_edge { other_node := src, src_arg_index := s, dst_arg_index := d }
        else n))
      (fun a b c e => E a b c e ∨ (a = src ∧ b = dst ∧ c = s ∧ e = d)) := by
  constructor
  · rw [← hinv.skeleton, List.map_map, List.map_map]
    apply List.map_congr_left
    intro n _
    simp only [Function.comp]
    rw [(ite_add_input_edge _ dst _).2.1, (ite_add_output_edge n src _).2.1]
  · intro n' hn' e
    rw [List.map_map] at hn'
    obtain ⟨n, hn, rfl⟩ := List.mem_map.1 hn'
    have h0 := hinv.input_edges n hn e
    simp only [Function.comp]
    rw [(ite_add_input_edge _ dst _).2.2.2, (ite_add_input_edge _ dst _).1,
      (ite_add_output_edge n src _).1, (ite_add_output_edge n src _).2.2.1]
    obtain ⟨e1, e2, e3⟩ := e
    by_cases h2 : n.id = dst
    · rw [if_pos h2, mem_edge_set_insert, h0]
      simp only [Edge.mk.injEq]
      tauto
    · rw [if_neg h2, h0]
      simp only
      tauto
  · intro n' hn' e
    rw [List.map_map] at hn'
    obtain ⟨n, hn, rfl⟩ := List.mem_map.1 hn'
    have h0 := hinv.output_edges n hn e
    simp only [Function.comp]
    rw [(ite_add_input_edge _ dst _).2.2.1, (ite_add_input_edge _ dst _).1,
      (ite_add_output_edge n src _).1, (ite_add_output_edge n src _).2.2.2]
    obtain ⟨e1, e2, e3⟩ := e
    by_cases h1 : n.id = src
    · rw [if_pos h1, mem_edge_set_insert, h0]
      simp only [Edge.mk.injEq]
      tauto
    · rw [if_neg h1, h0]
      simp only
      tauto

theorem EdgesInv.congr {nodes0 nodes : List Node} {E E' : Int → Int → Int → Int → Prop}
    (hinv : EdgesInv nodes0 nodes E) (h : ∀ a b c e, E a b c e ↔ E' a b c e) :
    EdgesInv nodes0 nodes E' :=
  ⟨hinv.skeleton, fun n hn e => (hinv.input_edges n hn e).trans (h _ _ _ _),
    fun n hn e => (hinv.output_edges n hn e).trans (h _ _ _ _)⟩

theorem EdgesInv.ids {nodes0 nodes : List Node} {E : Int → Int → Int → Int → Prop}
    (hinv : EdgesInv nodes0 nodes E) : nodes.map Node.id = nodes0.map Node.id := by
  have h := congrArg (List.map Node.id) hinv.skeleton
  simpa [List.map_map, Function.comp, Node.without_edges] using h

theorem EdgesInv.mem_of_mem0 {nodes0 nodes : List Node} {E : Int → Int → Int → Int → Prop}
    (hinv : EdgesInv nodes0 nodes E) (n0 : Node) (h0 : n0 ∈ nodes0) :
    ∃ n ∈ nodes, n.id = n0.id ∧ n.input_args = n0.input_args ∧
      n.output_args = n0.output_args ∧ n.without_edges = n0.without_edges := by
  have hmem : n0.without_edges ∈ nodes.map Node.without_edges := by
    rw [hinv.skeleton]
    exact List.mem_map_of_mem _ h0
  obtain ⟨n, hn, he⟩ := List.mem_map.1 hmem
  refine ⟨n, hn, ?_, ?_, ?_, he⟩
  · have h1 : n.without_edges.id = n0.without_edges.id := congrArg Node.id he
    exact h1
  · have h1 : n.without_edges.input_args = n0.without_edges.input_args := congrArg Node.input_args he
    exact h1
  · have h1 : n.without_edges.output_args = n0.without_edges.output_args := congrArg Node.output_args he
    exact h1

theorem EdgesInv.mem0_of_mem {nodes0 nodes : List Node} {E : Int → Int → Int → Int → Prop}
    (hinv : EdgesInv nodes0 nodes E) (n : Node) (h : n ∈ nodes) :
    ∃ n0 ∈ nodes0, n.id = n0.id ∧ n.input_args = n0.input_args ∧
      n.output_args = n0.output_args ∧ n.without_edges = n0.without_edges := by
  have hmem : n.without_edges ∈ nodes0.map Node.without_edges := by
    rw [← hinv.skeleton]
    exact List.mem_map_of_mem _ h
  obtain ⟨n0, hn0, he⟩ := List.mem_map.1 hmem
  refine ⟨n0, hn0, ?_, ?_, ?_, he.symm⟩
  · have h1 : n0.without_edges.id = n.without_edges.id := congrArg Node.id he
    exact h1.symm
  · have h1 : n0.without_edges.input_args = n.without_edges.input_args := congrArg Node.input_args he
    exact h1.symm
  · have h1 : n0.without_edges.output_args = n.without_edges.output_args := congrArg Node.output_args he
    exact h1.symm

/-- The inner loop of `build_nodes_connections` over the input args of one node:
it changes only the nodes, and when it ends with OK the edge sets hold, in
addition, the connections induced by the names of those input args. -/
theorem connect_inputs_spec (fuel : Nat) (nodes0 : List Node) (heap : NodeArgPtr → NodeArg)
    (oa : List (String × (Int × Int)))
    (hnodup : (nodes0.map Node.id).Nodup)
    (hcanon : ∀ u ∈ nodes0, ∀ v ∈ nodes0, ∀ q ∈ u.output_args, ∀ p ∈ v.input_args,
      (heap q).name = (heap p).name → q = p)
    (hoa : ∀ nm uid s, map_find oa nm = some (uid, s) →
      ∃ u ∈ nodes0, u.id = uid ∧ 0 ≤ s ∧
        ∃ q, u.output_args.get? s.toNat = some q ∧ (heap q).name = nm)
    (v0 : Node) (hv0 : v0 ∈ nodes0) :
    ∀ (args done : List NodeArgPtr) (g g' : Graph) (E : Int → Int → Int → Int → Prop)
      (st : StatusCode),
      v0.input_args = done ++ args → g.heap = heap →
      g.m_topology_context.output_args = oa → EdgesInv nodes0 g.m_nodes E →
      connect_inputs fuel v0.id args (done.length : Int) g = some (st, g') →
      ∃ nodes, g' = { g with m_nodes := nodes } ∧
        (st = StatusCode.OK →
          EdgesInv nodes0 nodes (fun a b c e => E a b c e ∨
            (b = v0.id ∧ ∃ (k : Nat) (p : NodeArgPtr), args.get? k = some p ∧
              e = (done.length : Int) + (k : Int) ∧ (heap p).name ≠ "" ∧
              map_find oa (heap p).name = some (a, c)))) := by
  intro args
  induction args with
  | nil =>
    intro done g g' E st _ _ _ hinv h
    simp only [connect_inputs] at h
    cases h
    refine ⟨g.m_nodes, rfl, fun _ => hinv.congr ?_⟩
    intro a b c e
    simp
  | cons input_arg rest ih =>
    intro done g g' E st hargs hheap hctx hinv h
    have hargs' : v0.input_args = (done ++ [input_arg]) ++ rest := by
      rw [hargs, List.append_assoc]
      rfl
    have hlen : (((done ++ [input_arg]).length : Nat) : Int) = (done.length : Int) + 1 := by
      simp
    have hshift : ∀ (E1 : Int → Int → Int → Int → Prop) (extra : Int → Int → Int → Int → Prop),
        (∀ a b c e, extra a b c e ↔
          (b = v0.id ∧ e = (done.length : Int) ∧ (heap input_arg).name ≠ "" ∧
            map_find oa (heap input_arg).name = some (a, c))) →
        ∀ a b c e,
          ((E a b c e ∨ extra a b c e) ∨
            (b = v0.id ∧ ∃ (k : Nat) (p : NodeArgPtr), rest.get? k = some p ∧
              e = (((done ++ [input_arg]).length : Nat) : Int) + (k : Int) ∧
              (heap p).name ≠ "" ∧ map_find oa (heap p).name = some (a, c))) ↔
          (E a b c e ∨
            (b = v0.id ∧ ∃ (k : Nat) (p : NodeArgPtr),
              (input_arg :: rest).get? k = some p ∧
              e = (done.length : Int) + (k : Int) ∧ (heap p).name ≠ "" ∧
              map_find oa (heap p).name = some (a, c))) := by
      intro E1 extra hextra a b c e
      rw [hextra, hlen]
      constructor
      · rintro ((h1 | ⟨hb, he, hne, hf⟩) | ⟨hb, k, p, hk, he, hne, hf⟩)
        · exact Or.inl h1
        · exact Or.inr ⟨hb, 0, input_arg, rfl, by simpa using he, hne, hf⟩
        · refine Or.inr ⟨hb, k + 1, p, by simpa using hk, ?_, hne, hf⟩
          rw [he]
          push_cast
          ring
      · rintro (h1 | ⟨hb, k, p, hk, he, hne, hf⟩)
        · exact Or.inl (Or.inl h1)
        · cases k with
          | zero =>
            simp only [List.get?_cons_zero, Option.some.injEq] at hk
            subst hk
            exact Or.inl (Or.inr ⟨hb, by simpa using he, hne, hf⟩)
          | succ k =>
            refine Or.inr ⟨hb, k, p, by simpa using hk, ?_, hne, hf⟩
            rw [he]
            push_cast
            ring
    unfold connect_inputs at h
    simp only at h
    rw [hheap, hctx] at h
    by_cases hname : (heap input_arg).name = ""
    · rw [if_pos hname] at h
      rw [← hlen] at h
      obtain ⟨nodes, hg, hE⟩ := ih (done ++ [input_arg]) g g' E st hargs' hheap hctx hinv h
      refine ⟨nodes, hg, fun hst => (hE hst).congr ?_⟩
      intro a b c e
      have := hshift E (fun _ _ _ _ => False) (fun a b c e => by simp [hname]) a b c e
      simpa using this
    · rw [if_neg hname] at h
      cases hfind : map_find oa (heap input_arg).name with
      | none =>
        rw [hfind] at h
        simp only at h
        split at h
        · cases h
          exact ⟨g.m_nodes, rfl, fun hst => by cases hst⟩
        · rw [← hlen] at h
          obtain ⟨nodes, hg, hE⟩ := ih (done ++ [input_arg]) g g' E st hargs' hheap hctx hinv h
          refine ⟨nodes, hg, fun hst => (hE hst).congr ?_⟩
          intro a b c e
          have := hshift E (fun _ _ _ _ => False) (fun a b c e => by simp [hfind]) a b c e
          simpa using this
      | some found =>
        obtain ⟨uid, s⟩ := found
        rw [hfind] at h
        simp only at h
        obtain ⟨u0, hu0, huid, hs, q, hq, hqname⟩ := hoa _ _ _ hfind
        obtain ⟨u, hu, hu1, _, hu3, _⟩ := hinv.mem_of_mem0 u0 hu0
        obtain ⟨v, hv, hv1, hv2, _, _⟩ := hinv.mem_of_mem0 v0 hv0
        have hp0 : v0.input_args.get? done.length = some input_arg := by
          rw [hargs, List.get?_eq_getElem?, List.getElem?_append_right (le_refl _)]
          simp
        have hqp : q = input_arg :=
          hcanon u0 hu0 v0 hv0 q (List.get?_mem hq) input_arg (List.get?_mem hp0) hqname
        have hedge := add_edge_shared_arg fuel g u v s (done.length : Int) input_arg
          (hinv.ids ▸ hnodup) hu hv hs (Int.natCast_nonneg _)
          (by rw [hu3, hq, hqp]) (by rw [hv2]; simpa using hp0)
        rw [hu1, huid, hv1] at hedge
        rw [hedge] at h
        simp only at h
        rw [← hlen] at h
        have hinv1 := hinv.add_edge uid v0.id s (done.length : Int)
        obtain ⟨nodes, hg, hE⟩ := ih (done ++ [input_arg]) _ g' _ st hargs' (by exact hheap) (by exact hctx) hinv1 h
        refine ⟨nodes, hg, fun hst => (hE hst).congr ?_⟩
        intro a b c e
        refine hshift E (fun a b c e => a = uid ∧ b = v0.id ∧ c = s ∧ e = (done.length : Int))
          ?_ a b c e
        intro a b c e
        rw [hfind]
        simp only [ne_eq, hname, not_false_eq_true, Option.some.injEq, Prod.mk.injEq, true_and]
        constructor
        · rintro ⟨rfl, rfl, rfl, rfl⟩
          exact ⟨rfl, rfl, rfl, rfl⟩
        · rintro ⟨rfl, rfl, rfl, rfl⟩
          exact ⟨rfl, rfl, rfl, rfl⟩

theorem name_match_cons (heap : NodeArgPtr → NodeArg) (oa : List (String × (Int × Int)))
    (node : Node) (rest : List Node) (a b c e : Int) :
    name_match heap oa (node :: rest) a b c e ↔
      (b = node.id ∧ ∃ (k : Nat) (p : NodeArgPtr), node.input_args.get? k = some p ∧
        e = ((([] : List NodeArgPtr).length : Nat) : Int) + (k : Int) ∧ (heap p).name ≠ "" ∧
        map_find oa (heap p).name = some (a, c)) ∨ name_match heap oa rest a b c e := by
  unfold name_match
  simp only [List.mem_cons, exists_eq_or_imp, List.length_nil, Nat.cast_zero, zero_add]
  constructor
  · rintro (⟨hid, h⟩ | h)
    · exact Or.inl ⟨hid.symm, h⟩
    · exact Or.inr h
  · rintro (⟨hid, h⟩ | h)
    · exact Or.inl ⟨hid.symm, h⟩
    · exact Or.inr h

theorem name_match_no_inputs (heap : NodeArgPtr → NodeArg) (oa : List (String × (Int × Int)))
    (node : Node) (rest : List Node) (hin : node.input_args = []) (a b c e : Int) :
    name_match heap oa (node :: rest) a b c e ↔ name_match heap oa rest a b c e := by
  rw [name_match_cons, hin]
  simp

/-- The outer loop of `build_nodes_connections`: it changes only the nodes, and
when it ends with OK the edge sets hold, in addition, the connections induced
by the input names of the nodes it ran over, and `unused_nodes_id` has gained
the ids of the nodes without args among them. -/
theorem connect_nodes_spec (fuel : Nat) (nodes0 : List Node) (heap : NodeArgPtr → NodeArg)
    (oa : List (String × (Int × Int)))
    (hnodup : (nodes0.map Node.id).Nodup)
    (hcanon : ∀ u ∈ nodes0, ∀ v ∈ nodes0, ∀ q ∈ u.output_args, ∀ p ∈ v.input_args,
      (heap q).name = (heap p).name → q = p)
    (hoa : ∀ nm uid s, map_find oa nm = some (uid, s) →
      ∃ u ∈ nodes0, u.id = uid ∧ 0 ≤ s ∧
        ∃ q, u.output_args.get? s.toNat = some q ∧ (heap q).name = nm) :
    ∀ (todo : List Node) (unused : List Int) (g : Graph)
      (E : Int → Int → Int → Int → Prop) (st : StatusCode) (unused' : List Int) (g' : Graph),
      (∀ n ∈ todo, n ∈ nodes0) → g.heap = heap →
      g.m_topology_context.output_args = oa → EdgesInv nodes0 g.m_nodes E →
      connect_nodes fuel todo unused g = some (st, unused', g') →
      ∃ nodes, g' = { g with m_nodes := nodes } ∧
        (st = StatusCode.OK →
          unused' = unused ++ (todo.filter Node.is_unused).map Node.id ∧
          EdgesInv nodes0 nodes (fun a b c e => E a b c e ∨ name_match heap oa todo a b c e)) := by
  intro todo
  induction todo with
  | nil =>
    intro unused g E st unused' g' _ _ _ hinv h
    simp only [connect_nodes] at h
    cases h
    refine ⟨g.m_nodes, rfl, fun _ => ⟨by simp, hinv.congr ?_⟩⟩
    intro a b c e
    simp [name_match]
  | cons node rest ih =>
    intro unused g E st unused' g' hsub hheap hctx hinv h
    have hnode : node ∈ nodes0 := hsub node (List.mem_cons_self _ _)
    have hrest : ∀ n ∈ rest, n ∈ nodes0 := fun n hn => hsub n (List.mem_cons_of_mem _ hn)
    unfold connect_nodes at h
    by_cases hin : node.input_args ≠ []
    · rw [if_pos hin] at h
      have hun : Node.is_unused node = false := by
        simp [Node.is_unused, hin]
      cases hc : connect_inputs fuel node.id node.input_args 0 g with
      | none => rw [hc] at h; cases h
      | some r =>
        obtain ⟨st1, g1⟩ := r
        rw [hc] at h
        obtain ⟨nodes1, hg1, hE1⟩ := connect_inputs_spec fuel nodes0 heap oa hnodup hcanon hoa
          node hnode node.input_args [] g g1 E st1 rfl hheap hctx hinv hc
        cases st1 with
        | OK =>
          simp only at h
          subst hg1
          obtain ⟨nodes, hg, hE⟩ := ih unused _ _ st unused' g' hrest (by exact hheap)
            (by exact hctx) (hE1 rfl) h
          refine ⟨nodes, hg, fun hst => ⟨?_, ((hE hst).2).congr ?_⟩⟩
          · rw [(hE hst).1, List.filter_cons, hun]
            rfl
          · intro a b c e
            rw [name_match_cons]
            exact or_assoc
        | _ =>
          simp only at h
          cases h
          exact ⟨nodes1, hg1, fun hst => by cases hst⟩
    · rw [if_neg hin] at h
      have hin' : node.input_args = [] := not_not.1 hin
      by_cases hout : node.output_args = []
      · rw [if_pos hout] at h
        have hun : Node.is_unused node = true := by
          simp [Node.is_unused, hin', hout]
        obtain ⟨nodes, hg, hE⟩ := ih _ g E st unused' g' hrest hheap hctx hinv h
        refine ⟨nodes, hg, fun hst => ⟨?_, ((hE hst).2).congr ?_⟩⟩
        · rw [(hE hst).1, List.filter_cons, hun]
          simp
        · intro a b c e
          rw [name_match_no_inputs heap oa node rest hin']
      · rw [if_neg hout] at h
        have hun : Node.is_unused node = false := by
          simp [Node.is_unused, hout]
        obtain ⟨nodes, hg, hE⟩ := ih _ g E st unused' g' hrest hheap hctx hinv h
        refine ⟨nodes, hg, fun hst => ⟨?_, ((hE hst).2).congr ?_⟩⟩
        · rw [(hE hst).1, List.filter_cons, hun]
          rfl
        · intro a b c e
          rw [name_match_no_inputs heap oa node rest hin']

theorem map_find_append_singleton {β : Type} (m : List (String × β)) (key : String)
    (value : β) (h : map_find m key = none) (k : String) (v : β) :
    map_find (m ++ [(key, value)]) k = some v ↔
      map_find m k = some v ∨ (k = key ∧ v = value) := by
  cases hk : map_find m k with
  | some w =>
    rw [map_find_append_of_some _ _ _ _ hk]
    constructor
    · exact Or.inl
    · rintro (h1 | ⟨rfl, _⟩)
      · exact h1
      · rw [h] at hk
        cases hk
  | none =>
    rw [map_find_append_of_none _ _ _ hk]
    by_cases e : key = k
    · subst e
      simp [map_find, eq_comm]
    · have e' : ¬ k = key := fun x => e x.symm
      simp [map_find, e, e']

/-- The bindings of `output_args` after the loop over the output args of one
node has ended with OK: the former ones and, for every output arg with a
non-empty name, its name bound to the node and the index of the arg. -/
theorem check_node_outputs_bindings (heap : NodeArgPtr → NodeArg) (iai : List String) (id : Int) :
    ∀ (outs : List NodeArgPtr) (idx : Int) (oa oa' : List (String × (Int × Int))),
      check_node_outputs heap iai id outs idx oa = (StatusCode.OK, oa') →
      ∀ (nm : String) (v : Int × Int),
        map_find oa' nm = some v ↔
          map_find oa nm = some v ∨
            ∃ (k : Nat) (q : NodeArgPtr), outs.get? k = some q ∧ (heap q).name = nm ∧
              nm ≠ "" ∧ v = (id, idx + (k : Int)) := by
  intro outs
  induction outs with
  | nil =>
    intro idx oa oa' h nm v
    simp only [check_node_outputs, Prod.mk.injEq, true_and] at h
    subst h
    simp
  | cons output outputs ih =>
    intro idx oa oa' h nm v
    have hsplit : ∀ (P : Prop),
        (P ∨ ∃ (k : Nat) (q : NodeArgPtr), outputs.get? k = some q ∧ (heap q).name = nm ∧
          nm ≠ "" ∧ v = (id, idx + 1 + (k : Int))) ↔
        (P ∨ ∃ (k : Nat) (q : NodeArgPtr), (output :: outputs).get? (k + 1) = some q ∧
          (heap q).name = nm ∧ nm ≠ "" ∧ v = (id, idx + ((k + 1 : Nat) : Int))) := by
      intro P
      have e : ∀ k : Nat, idx + 1 + (k : Int) = idx + ((k + 1 : Nat) : Int) := by
        intro k
        push_cast
        ring
      simp only [List.get?_cons_succ, e]
    have hcases : ∀ (Q : Nat → NodeArgPtr → Prop),
        (∃ (k : Nat) (q : NodeArgPtr), (output :: outputs).get? k = some q ∧ Q k q) ↔
        (Q 0 output ∨ ∃ (k : Nat) (q : NodeArgPtr),
          (output :: outputs).get? (k + 1) = some q ∧ Q (k + 1) q) := by
      intro Q
      constructor
      · rintro ⟨k, q, hk, hq⟩
        cases k with
        | zero =>
          simp only [List.get?_cons_zero, Option.some.injEq] at hk
          subst hk
          exact Or.inl hq
        | succ k => exact Or.inr ⟨k, q, hk, hq⟩
      · rintro (hq | ⟨k, q, hk, hq⟩)
        · exact ⟨0, output, rfl, hq⟩
        · exact ⟨k + 1, q, hk, hq⟩
    unfold check_node_outputs at h
    simp only at h
    by_cases hne : (heap output).name ≠ ""
    · rw [if_pos hne] at h
      by_cases hin : (heap output).name ∈ iai
      · rw [if_pos hin] at h
        cases h
      · rw [if_neg hin] at h
        cases hf : map_find oa (heap output).name with
        | some w =>
          rw [hf] at h
          cases h
        | none =>
          rw [hf] at h
          simp only at h
          rw [ih _ _ _ h nm v, map_find_append_singleton _ _ _ hf, hsplit,
            hcases (fun k q => (heap q).name = nm ∧ nm ≠ "" ∧ v = (id, idx + (k : Int)))]
          simp only [Nat.cast_zero, add_zero]
          constructor
          · rintro ((h1 | ⟨rfl, rfl⟩) | h3)
            · exact Or.inl h1
            · exact Or.inr (Or.inl ⟨rfl, hne, rfl⟩)
            · exact Or.inr (Or.inr h3)
          · rintro (h1 | ⟨rfl, _, rfl⟩ | h3)
            · exact Or.inl (Or.inl h1)
            · exact Or.inl (Or.inr ⟨rfl, rfl⟩)
            · exact Or.inr h3
    · rw [if_neg hne] at h
      rw [ih _ _ _ h nm v, hsplit,
        hcases (fun k q => (heap q).name = nm ∧ nm ≠ "" ∧ v = (id, idx + (k : Int)))]
      constructor
      · rintro (h1 | h3)
        · exact Or.inl h1
        · exact Or.inr (Or.inr h3)
      · rintro (h1 | ⟨e, h2, _⟩ | h3)
        · exact Or.inl h1
        · exact absurd (e ▸ h2) hne
        · exact Or.inr h3

/-- The bindings of `output_args` after the loop of `check_no_duplicate_names`
has ended with OK. -/
theorem check_nodes_names_bindings (heap : NodeArgPtr → NodeArg) (iai : List String) :
    ∀ (nodes : List Node) (m m' : List (String × Int)) (oa oa' : List (String × (Int × Int))),
      check_nodes_names heap iai nodes m oa = (StatusCode.OK, m', oa') →
      ∀ (nm : String) (v : Int × Int),
        map_find oa' nm = some v ↔
          map_find oa nm = some v ∨
            ∃ u ∈ nodes, ∃ (k : Nat) (q : NodeArgPtr), u.output_args.get? k = some q ∧
              (heap q).name = nm ∧ nm ≠ "" ∧ v = (u.id, (k : Int)) := by
  intro nodes
  induction nodes with
  | nil =>
    intro m m' oa oa' h nm v
    simp only [check_nodes_names, Prod.mk.injEq, true_and] at h
    rw [← h.2]
    simp
  | cons item items ih =>
    intro m m' oa oa' h nm v
    unfold check_nodes_names at h
    split at h
    · cases h
    · simp only at h
      cases hc : check_node_outputs heap iai item.id item.output_args 0 oa with
      | mk st1 oa1 =>
        rw [hc] at h
        cases st1 with
        | OK =>
          simp only at h
          rw [ih _ _ _ _ h nm v, check_node_outputs_bindings heap iai item.id _ _ _ _ hc nm v]
          simp only [zero_add, List.mem_cons, exists_eq_or_imp]
          exact or_assoc
        | _ =>
          simp only at h
          cases h

theorem remove_edge_without_input_args (g : Graph) (src id s d : Int)
    (h : ∀ n ∈ g.m_nodes, n.id = id → n.input_args = []) :
    remove_edge g src id s d = (StatusCode.FAIL, g) := by
  unfold remove_edge
  cases hsrc : find_node g.m_nodes src with
  | none => rfl
  | some node_src =>
    cases hdst : find_node g.m_nodes id with
    | none => rfl
    | some node_dst =>
      obtain ⟨hmem, hid⟩ := find_node_some hdst
      simp only
      split
      · rfl
      · split
        · rfl
        · rw [h node_dst hmem hid]
          rfl

theorem remove_input_edges_without_input_args (id : Int) (edges : List Edge) (g : Graph)
    (h : ∀ n ∈ g.m_nodes, n.id = id → n.input_args = []) :
    remove_input_edges id edges g = some g := by
  induction edges with
  | nil => rfl
  | cons e es ih =>
    unfold remove_input_edges
    rw [remove_edge_without_input_args g _ id _ _ h]
    exact ih

/-- `remove_node` on an id whose node has no input args: it either refuses or
erases the first node of that id and changes nothing else. -/
theorem remove_node_without_input_args (g g' : Graph) (id : Int)
    (h : ∀ n ∈ g.m_nodes, n.id = id → n.input_args = [])
    (hr : remove_node g id = some (StatusCode.OK, g')) :
    g' = { g with m_nodes := g.m_nodes.eraseP (fun n => decide (n.id = id)) } := by
  unfold remove_node at hr
  cases hf : find_node g.m_nodes id with
  | none =>
    rw [hf] at hr
    simp only [Option.some.injEq, Prod.mk.injEq, true_and] at hr
    have hnone := find_node_none hf
    have he : g.m_nodes.eraseP (fun n => decide (n.id = id)) = g.m_nodes := by
      apply List.eraseP_of_forall_not
      intro n hn
      simpa using hnone n hn
    rw [he, ← hr]
  | some node =>
    rw [hf] at hr
    simp only at hr
    split at hr
    · cases hr
    · rw [remove_input_edges_without_input_args id _ g h] at hr
      simp only [Option.some.injEq, Prod.mk.injEq, true_and] at hr
      exact hr.symm

theorem remove_unused_nodes_spec (ids : List Int) :
    ∀ (g g' : Graph),
      (∀ id ∈ ids, ∀ n ∈ g.m_nodes, n.id = id → n.input_args = []) →
      remove_unused_nodes ids g = some (StatusCode.OK, g') →
      g' = { g with
              m_nodes :=
                ids.foldl (fun ns id => ns.eraseP (fun n => decide (n.id = id))) g.m_nodes } := by
  induction ids with
  | nil =>
    intro g g' _ hr
    simp only [remove_unused_nodes, Option.some.injEq, Prod.mk.injEq, true_and] at hr
    rw [← hr]
    rfl
  | cons id ids ih =>
    intro g g' h hr
    unfold remove_unused_nodes at hr
    cases hn : remove_node g id with
    | none => rw [hn] at hr; cases hr
    | some r =>
      obtain ⟨st, g1⟩ := r
      rw [hn] at hr
      cases st with
      | OK =>
        simp only at hr
        have hg1 := remove_node_without_input_args g g1 id (h id (List.mem_cons_self _ _)) hn
        subst hg1
        rw [ih _ g' ?_ hr]
        · rfl
        · intro id' hid' n hmem
          exact h id' (List.mem_cons_of_mem _ hid') n (List.mem_of_mem_eraseP hmem)
      | _ =>
        simp only at hr
        cases hr

theorem eraseP_id_eq_filter (id : Int) (ns : List Node) (hnodup : (ns.map Node.id).Nodup) :
    ns.eraseP (fun n => decide (n.id = id)) = ns.filter (fun n => decide (n.id ≠ id)) := by
  induction ns with
  | nil => rfl
  | cons n ns ih =>
    rw [List.map_cons, List.nodup_cons] at hnodup
    by_cases h : n.id = id
    · rw [List.eraseP_cons_of_pos (by simpa using h), List.filter_cons_of_neg (by simpa using h)]
      symm
      apply List.filter_eq_self.2
      intro m hm
      have : m.id ≠ id := by
        intro e
        apply hnodup.1
        rw [h, ← e]
        exact List.mem_map_of_mem _ hm
      simpa using this
    · rw [List.eraseP_cons_of_neg (by simpa using h), List.filter_cons_of_pos (by simpa using h),
        ih hnodup.2]

theorem foldl_eraseP_eq_filter (ids : List Int) :
    ∀ (ns : List Node), (ns.map Node.id).Nodup →
      ids.foldl (fun ns id => ns.eraseP (fun n => decide (n.id = id))) ns
        = ns.filter (fun n => decide (n.id ∉ ids)) := by
  induction ids with
  | nil =>
    intro ns _
    simp
  | cons id ids ih =>
    intro ns hnodup
    rw [List.foldl_cons, eraseP_id_eq_filter id ns hnodup, ih, List.filter_filter]
    · apply List.filter_congr
      intro n _
      simp only [List.mem_cons, not_or, Bool.decide_and, Bool.and_comm]
    · exact hnodup.sublist ((List.filter_sublist ns).map Node.id)

theorem node_eq_of_id_eq (nodes : List Node) (hnodup : (nodes.map Node.id).Nodup)
    (a b : Node) (ha : a ∈ nodes) (hb : b ∈ nodes) (h : a.id = b.id) : a = b :=
  List.inj_on_of_nodup_map hnodup ha hb h

/-- What `build_nodes_connections` leaves when it returns OK on nodes with
distinct ids and empty edge sets whose args are shared by name, given that
`output_args` binds a name only to a node and index of an output arg of that
name: before the nodes without args are dropped, the nodes are the former
ones with the edge sets holding exactly the connections induced by the names;
the nodes without args are then dropped and nothing else changes. -/
theorem build_nodes_connections_spec (fuel : Nat) (g g' : Graph)
    (hnodup : (g.m_nodes.map Node.id).Nodup)
    (hfresh : ∀ n ∈ g.m_nodes, n.input_edges = [] ∧ n.output_edges = [])
    (hcanon : ∀ u ∈ g.m_nodes, ∀ v ∈ g.m_nodes, ∀ q ∈ u.output_args, ∀ p ∈ v.input_args,
      (g.heap q).name = (g.heap p).name → q = p)
    (hoa : ∀ nm uid s, map_find g.m_topology_context.output_args nm = some (uid, s) →
      ∃ u ∈ g.m_nodes, u.id = uid ∧ 0 ≤ s ∧
        ∃ q, u.output_args.get? s.toNat = some q ∧ (g.heap q).name = nm)
    (h : build_nodes_connections fuel g = some (StatusCode.OK, g')) :
    ∃ nodes1,
      EdgesInv g.m_nodes nodes1
        (name_match g.heap g.m_topology_context.output_args g.m_nodes) ∧
      g'.m_nodes = nodes1.filter (fun n => !n.is_unused) ∧ g'.heap = g.heap := by
  have hinv0 : EdgesInv g.m_nodes g.m_nodes (fun _ _ _ _ => False) := by
    refine ⟨rfl, ?_, ?_⟩
    · intro n hn e
      rw [(hfresh n hn).1]
      simp
    · intro n hn e
      rw [(hfresh n hn).2]
      simp
  unfold build_nodes_connections at h
  cases hc : connect_nodes fuel g.m_nodes [] g with
  | none => rw [hc] at h; cases h
  | some r =>
    obtain ⟨st1, unused, g1⟩ := r
    rw [hc] at h
    obtain ⟨nodes1, hg1, hE1⟩ := connect_nodes_spec fuel g.m_nodes g.heap
      g.m_topology_context.output_args hnodup hcanon hoa g.m_nodes [] g _ st1 unused g1
      (fun _ hn => hn) rfl rfl hinv0 hc
    cases st1 with
    | OK =>
      simp only at h
      obtain ⟨hunused, hinv1⟩ := hE1 rfl
      have hinv : EdgesInv g.m_nodes nodes1
          (name_match g.heap g.m_topology_context.output_args g.m_nodes) :=
        hinv1.congr (fun a b c e => by simp)
      have hnodup1 : (nodes1.map Node.id).Nodup := hinv.ids ▸ hnodup
      have hargs : ∀ n ∈ nodes1, ∀ n0 ∈ g.m_nodes, n.id = n0.id →
          n.input_args = n0.input_args ∧ n.output_args = n0.output_args := by
        intro n hn n0 hn0 hid
        obtain ⟨m0, hm0, h1, h2, h3, _⟩ := hinv.mem0_of_mem n hn
        have : m0 = n0 := node_eq_of_id_eq _ hnodup m0 n0 hm0 hn0 (h1.symm.trans hid)
        subst this
        exact ⟨h2, h3⟩
      have hmem_unused : ∀ n ∈ nodes1, (n.id ∈ unused ↔ n.is_unused = true) := by
        intro n hn
        rw [hunused]
        simp only [List.nil_append, List.mem_map, List.mem_filter]
        constructor
        · rintro ⟨n0, ⟨hn0, hun⟩, hid⟩
          obtain ⟨h1, h2⟩ := hargs n hn n0 hn0 hid.symm
          simpa [Node.is_unused, h1, h2] using hun
        · intro hun
          obtain ⟨m0, hm0, h1, h2, h3, _⟩ := hinv.mem0_of_mem n hn
          refine ⟨m0, ⟨hm0, ?_⟩, h1.symm⟩
          simpa [Node.is_unused, h2, h3] using hun
      subst hg1
      have hno_inputs : ∀ id ∈ unused, ∀ n ∈ nodes1, n.id = id → n.input_args = [] := by
        intro id hid n hn hnid
        have hun : n.is_unused = true := (hmem_unused n hn).1 (hnid ▸ hid)
        simp only [Node.is_unused, Bool.and_eq_true, decide_eq_true_eq] at hun
        exact hun.1
      cases hrem : remove_unused_nodes unused
          { g with m_nodes := nodes1 } with
      | none => rw [hrem] at h; cases h
      | some r =>
        obtain ⟨st2, g2⟩ := r
        rw [hrem] at h
        cases st2 with
        | OK =>
          have hg2 := remove_unused_nodes_spec unused _ g2 hno_inputs hrem
          subst hg2
          simp only [init_node_arg_to_connected_nodes, Option.some.injEq, Prod.mk.injEq,
            true_and] at h
          subst h
          refine ⟨nodes1, hinv, ?_, rfl⟩
          simp only
          rw [foldl_eraseP_eq_filter unused nodes1 hnodup1]
          apply List.filter_congr
          intro n hn
          have := hmem_unused n hn
          by_cases hu : n.is_unused = true
          · simp [hu, this.2 hu]
          · have hn' : n.id ∉ unused := fun hm => hu (this.1 hm)
            simp [hu, hn']
        | _ =>
          simp only at h
          cases h
    | _ =>
      simp only at h
      cases h

theorem check_no_duplicate_names_bindings (g g0 : Graph)
    (h : check_no_duplicate_names g = (StatusCode.OK, g0)) :
    g0.m_nodes = g.m_nodes ∧ g0.heap = g.heap ∧
    ∀ (nm : String) (v : Int × Int),
      map_find g0.m_topology_context.output_args nm = some v ↔
        ∃ u ∈ g.m_nodes, ∃ (k : Nat) (q : NodeArgPtr), u.output_args.get? k = some q ∧
          (g.heap q).name = nm ∧ nm ≠ "" ∧ v = (u.id, (k : Int)) := by
  unfold check_no_duplicate_names at h
  cases hc : check_nodes_names g.heap g.m_topology_context.inputs_and_initializers g.m_nodes
      [] [] with
  | mk st r =>
    obtain ⟨m', oa'⟩ := r
    rw [hc] at h
    simp only [Prod.mk.injEq] at h
    obtain ⟨hst, hg0⟩ := h
    subst hst
    subst hg0
    refine ⟨rfl, rfl, ?_⟩
    intro nm v
    have := check_nodes_names_bindings g.heap _ _ _ _ _ _ hc nm v
    simpa [map_find] using this

/-- C30. Let `check_no_duplicate_names` return OK on a graph whose node ids are
distinct, whose nodes carry no edge yet and whose node args are shared by name,
and let `build_nodes_connections` then return OK.  Then for all nodes u and v
left in the graph, v has the input edge (u, s, d) exactly when the input arg
of v at index d has a non-empty name equal to the name of the output arg of u
at index s; v has the input edge (u, s, d) exactly when u has the output edge
(v, s, d); and every edge leads to a node left in the graph. -/
theorem build_nodes_connections_edges (fuel : Nat) (g g0 g' : Graph)
    (hnodup : (g.m_nodes.map Node.id).Nodup)
    (hfresh : ∀ n ∈ g.m_nodes, n.input_edges = [] ∧ n.output_edges = [])
    (hcanon : ∀ u ∈ g.m_nodes, ∀ v ∈ g.m_nodes, ∀ q ∈ u.output_args, ∀ p ∈ v.input_args,
      (g.heap q).name = (g.heap p).name → q = p)
    (hcheck : check_no_duplicate_names g = (StatusCode.OK, g0))
    (hbuild : build_nodes_connections fuel g0 = some (StatusCode.OK, g')) :
    (∀ v ∈ g'.m_nodes, ∀ u ∈ g'.m_nodes, ∀ s d : Int,
      (({ other_node := u.id, src_arg_index := s, dst_arg_index := d } : Edge) ∈ v.input_edges ↔
        0 ≤ s ∧ 0 ≤ d ∧ ∃ p q, v.input_args.get? d.toNat = some p ∧
          u.output_args.get? s.toNat = some q ∧ (g'.heap p).name ≠ "" ∧
          (g'.heap p).name = (g'.heap q).name) ∧
      (({ other_node := u.id, src_arg_index := s, dst_arg_index := d } : Edge) ∈ v.input_edges ↔
        ({ other_node := v.id, src_arg_index := s, dst_arg_index := d } : Edge)
          ∈ u.output_edges)) ∧
    (∀ v ∈ g'.m_nodes, ∀ e ∈ v.input_edges, ∃ u ∈ g'.m_nodes, u.id = e.other_node) ∧
    (∀ u ∈ g'.m_nodes, ∀ e ∈ u.output_edges, ∃ v ∈ g'.m_nodes, v.id = e.other_node) := by
  obtain ⟨hn0, hh0, hbind⟩ := check_no_duplicate_names_bindings g g0 hcheck
  have hoa : ∀ nm uid s, map_find g0.m_topology_context.output_args nm = some (uid, s) →
      ∃ u ∈ g0.m_nodes, u.id = uid ∧ 0 ≤ s ∧
        ∃ q, u.output_args.get? s.toNat = some q ∧ (g0.heap q).name = nm := by
    intro nm uid s hf
    obtain ⟨u, hu, k, q, hq, hname, _, hv⟩ := (hbind nm (uid, s)).1 hf
    simp only [Prod.mk.injEq] at hv
    refine ⟨u, hn0 ▸ hu, hv.1.symm, ?_, q, ?_, ?_⟩
    · rw [hv.2]
      exact Int.natCast_nonneg k
    · rw [hv.2]
      simpa using hq
    · rw [hh0]
      exact hname
  obtain ⟨nodes1, hinv, hnodes, hheap⟩ := build_nodes_connections_spec fuel g0 g'
    (hn0 ▸ hnodup) (hn0 ▸ hfresh) (by rw [hn0, hh0]; exact hcanon) hoa hbuild
  rw [hn0, hh0] at hinv
  rw [hh0] at hheap
  have hsub : ∀ n ∈ g'.m_nodes, n ∈ nodes1 := by
    intro n hn
    rw [hnodes] at hn
    exact (List.mem_filter.1 hn).1
  have hargs : ∀ n ∈ nodes1, ∀ n0 ∈ g.m_nodes, n0.id = n.id →
      n0.input_args = n.input_args ∧ n0.output_args = n.output_args := by
    intro n hn n0 hn0' hid
    obtain ⟨m0, hm0, h1, h2, h3, _⟩ := hinv.mem0_of_mem n hn
    have : m0 = n0 := node_eq_of_id_eq _ hnodup m0 n0 hm0 hn0' (h1.symm.trans hid.symm)
    subst this
    exact ⟨h2.symm, h3.symm⟩
  have hkept : ∀ n0 ∈ g.m_nodes, (n0.input_args ≠ [] ∨ n0.output_args ≠ []) →
      ∃ n ∈ g'.m_nodes, n.id = n0.id := by
    intro n0 hn0' hne
    obtain ⟨n, hn, h1, h2, h3, _⟩ := hinv.mem_of_mem0 n0 hn0'
    refine ⟨n, ?_, h1⟩
    rw [hnodes]
    apply List.mem_filter.2
    refine ⟨hn, ?_⟩
    rcases hne with hne | hne
    · simp [Node.is_unused, h2, hne]
    · simp [Node.is_unused, h3, hne]
  refine ⟨?_, ?_, ?_⟩
  · intro v hv u hu s d
    have hv1 := hsub v hv
    have hu1 := hsub u hu
    constructor
    · rw [hinv.input_edges v hv1, hheap]
      simp only
      unfold name_match
      constructor
      · rintro ⟨v0, hv0, hvid, k, p, hk, hd, hne, hfind⟩
        obtain ⟨u0, hu0, k', q, hq, hname, _, huv⟩ := (hbind _ _).1 hfind
        simp only [Prod.mk.injEq] at huv
        have ha := hargs v hv1 v0 hv0 hvid
        have hb := hargs u hu1 u0 hu0 huv.1.symm
        refine ⟨?_, ?_, p, q, ?_, ?_, hne, hname.symm⟩
        · rw [huv.2]
          exact Int.natCast_nonneg k'
        · rw [hd]
          exact Int.natCast_nonneg k
        · rw [hd, ← ha.1]
          simpa using hk
        · rw [huv.2, ← hb.2]
          simpa using hq
      · rintro ⟨hs, hd, p, q, hp, hq, hne, hname⟩
        obtain ⟨v0, hv0, h1, h2, _, _⟩ := hinv.mem0_of_mem v hv1
        obtain ⟨u0, hu0, h3, _, h4, _⟩ := hinv.mem0_of_mem u hu1
        refine ⟨v0, hv0, h1.symm, d.toNat, p, ?_, ?_, hne, ?_⟩
        · rw [← h2]
          exact hp
        · exact (Int.toNat_of_nonneg hd).symm
        · apply (hbind _ _).2
          refine ⟨u0, hu0, s.toNat, q, ?_, hname.symm, hne, ?_⟩
          · rw [← h4]
            exact hq
          · rw [Int.toNat_of_nonneg hs, h3]
    · rw [hinv.input_edges v hv1, hinv.output_edges u hu1]
  · intro v hv e he
    obtain ⟨v0, _, _, k, p, _, _, _, hfind⟩ := (hinv.input_edges v (hsub v hv) e).1 he
    obtain ⟨u0, hu0, k', q, hq, _, _, huv⟩ := (hbind _ _).1 hfind
    simp only [Prod.mk.injEq] at huv
    obtain ⟨u, hu, hid⟩ := hkept u0 hu0 (Or.inr (fun e0 => by rw [e0] at hq; cases hq))
    exact ⟨u, hu, hid.trans huv.1.symm⟩
  · intro u hu e he
    obtain ⟨v0, hv0, hvid, k, p, hk, _⟩ := (hinv.output_edges u (hsub u hu) e).1 he
    obtain ⟨v, hv, hid⟩ := hkept v0 hv0 (Or.inl (fun e0 => by rw [e0] at hk; cases hk))
    exact ⟨v, hv, hid.trans hvid⟩

theorem build_nodes_connections_edges_witness :
    ∃ g', build_nodes_connections 0 (check_no_duplicate_names (sample_cycle_graph false)).2
        = some (StatusCode.OK, g') ∧
      (∀ v ∈ g'.m_nodes, ∀ u ∈ g'.m_nodes, ∀ s d : Int,
        (({ other_node := u.id, src_arg_index := s, dst_arg_index := d } : Edge)
            ∈ v.input_edges ↔
          0 ≤ s ∧ 0 ≤ d ∧ ∃ p q, v.input_args.get? d.toNat = some p ∧
            u.output_args.get? s.toNat = some q ∧ (g'.heap p).name ≠ "" ∧
            (g'.heap p).name = (g'.heap q).name) ∧
        (({ other_node := u.id, src_arg_index := s, dst_arg_index := d } : Edge)
            ∈ v.input_edges ↔
          ({ other_node := v.id, src_arg_index := s, dst_arg_index := d } : Edge)
            ∈ u.output_edges)) ∧
      (∀ v ∈ g'.m_nodes, ∀ e ∈ v.input_edges, ∃ u ∈ g'.m_nodes, u.id = e.other_node) ∧
      (∀ u ∈ g'.m_nodes, ∀ e ∈ u.output_edges, ∃ v ∈ g'.m_nodes, v.id = e.other_node) :=
  ⟨_, rfl,
    build_nodes_connections_edges 0 (sample_cycle_graph false)
      (check_no_duplicate_names (sample_cycle_graph false)).2 _ (by decide) (by decide)
      (by decide) (Prod.ext (by decide) rfl) rfl⟩


/-! ### Nodes dropped by `Graph::build_nodes_connections` -/

theorem update_node_skeleton (id : Int) (f : Node → Node)
    (hf : ∀ n, (f n).without_edges = n.without_edges) (nodes : List Node) :
    (update_node id f nodes).map Node.without_edges = nodes.map Node.without_edges := by
  induction nodes with
  | nil => rfl
  | cons n ns ih =>
    unfold update_node
    split
    · rw [List.map_cons, List.map_cons, hf]
    · rw [List.map_cons, List.map_cons, ih]

theorem add_edge_skeleton (fuel : Nat) (g g' : Graph) (src dst s d : Int) (st : StatusCode)
    (h : add_edge fuel g src dst s d = some (st, g')) :
    ∃ nodes, g' = { g with m_nodes := nodes } ∧
      nodes.map Node.without_edges = g.m_nodes.map Node.without_edges := by
  have hsame : ∀ st', some (st', g) = some (st, g') →
      ∃ nodes, g' = { g with m_nodes := nodes } ∧
        nodes.map Node.without_edges = g.m_nodes.map Node.without_edges := by
    intro st' e
    simp only [Option.some.injEq, Prod.mk.injEq] at e
    exact ⟨g.m_nodes, e.2.symm, rfl⟩
  have hconn : ∀ st' (nodes : List Node),
      nodes.map Node.without_edges = g.m_nodes.map Node.without_edges →
      some (st', ({ g with m_nodes := nodes } : Graph)) = some (st, g') →
      ∃ nodes, g' = { g with m_nodes := nodes } ∧
        nodes.map Node.without_edges = g.m_nodes.map Node.without_edges := by
    intro st' nodes hn e
    simp only [Option.some.injEq, Prod.mk.injEq] at e
    exact ⟨nodes, e.2.symm, hn⟩
  have hskel : (update_node dst
      (fun n => n.add_input_edge
        { other_node := src, src_arg_index := s, dst_arg_index := d })
      (update_node src
        (fun n => n.add_output_edge
          { other_node := dst, src_arg_index := s, dst_arg_index := d })
        g.m_nodes)).map Node.without_edges = g.m_nodes.map Node.without_edges := by
    exact (update_node_skeleton dst
      (fun n => n.add_input_edge
        { other_node := src, src_arg_index := s, dst_arg_index := d })
      (fun _ => rfl) _).trans
      (update_node_skeleton src
        (fun n => n.add_output_edge
          { other_node := dst, src_arg_index := s, dst_arg_index := d })
        (fun _ => rfl) _)
  unfold add_edge at h
  split at h
  · exact hsame _ h
  · split at h
    · exact hsame _ h
    · split at h
      · exact hsame _ h
      · split at h
        · exact hsame _ h
        · split at h
          · exact hsame _ h
          · simp only at h
            split at h
            · split at h
              · cases h
              · exact hsame _ h
              · exact hconn _ _ hskel h
            · exact hconn _ _ hskel h

theorem connect_inputs_skeleton (fuel : Nat) (node_id : Int) :
    ∀ (args : List NodeArgPtr) (idx : Int) (g g' : Graph) (st : StatusCode),
      connect_inputs fuel node_id args idx g = some (st, g') →
      ∃ nodes, g' = { g with m_nodes := nodes } ∧
        nodes.map Node.without_edges = g.m_nodes.map Node.without_edges := by
  intro args
  induction args with
  | nil =>
    intro idx g g' st h
    simp only [connect_inputs, Option.some.injEq, Prod.mk.injEq] at h
    exact ⟨g.m_nodes, h.2.symm, rfl⟩
  | cons input_arg rest ih =>
    intro idx g g' st h
    unfold connect_inputs at h
    simp only at h
    split at h
    · exact ih _ _ _ _ h
    · split at h
      · rename_i output_node_id output_index _
        cases he : add_edge fuel g output_node_id node_id output_index idx with
        | none => rw [he] at h; cases h
        | some r =>
          obtain ⟨st1, g1⟩ := r
          rw [he] at h
          simp only at h
          obtain ⟨nodes1, hg1, hs1⟩ := add_edge_skeleton fuel g g1 _ _ _ _ st1 he
          subst hg1
          obtain ⟨nodes, hg, hs⟩ := ih _ _ _ _ h
          exact ⟨nodes, hg, hs.trans hs1⟩
      · split at h
        · simp only [Option.some.injEq, Prod.mk.injEq] at h
          exact ⟨g.m_nodes, h.2.symm, rfl⟩
        · exact ih _ _ _ _ h

theorem connect_nodes_skeleton (fuel : Nat) :
    ∀ (todo : List Node) (unused : List Int) (g : Graph) (st : StatusCode)
      (unused' : List Int) (g' : Graph),
      connect_nodes fuel todo unused g = some (st, unused', g') →
      ∃ nodes, g' = { g with m_nodes := nodes } ∧
        nodes.map Node.without_edges = g.m_nodes.map Node.without_edges ∧
        (st = StatusCode.OK →
          unused' = unused ++ (todo.filter Node.is_unused).map Node.id) := by
  intro todo
  induction todo with
  | nil =>
    intro unused g st unused' g' h
    simp only [connect_nodes, Option.some.injEq, Prod.mk.injEq] at h
    exact ⟨g.m_nodes, h.2.2.symm, rfl, fun _ => by simp [h.2.1]⟩
  | cons node rest ih =>
    intro unused g st unused' g' h
    unfold connect_nodes at h
    by_cases hin : node.input_args ≠ []
    · rw [if_pos hin] at h
      have hun : Node.is_unused node = false := by
        simp [Node.is_unused, hin]
      cases hc : connect_inputs fuel node.id node.input_args 0 g with
      | none => rw [hc] at h; cases h
      | some r =>
        obtain ⟨st1, g1⟩ := r
        rw [hc] at h
        obtain ⟨nodes1, hg1, hs1⟩ := connect_inputs_skeleton fuel node.id _ _ _ _ _ hc
        cases st1 with
        | OK =>
          simp only at h
          subst hg1
          obtain ⟨nodes, hg, hs, hu⟩ := ih _ _ _ _ _ h
          refine ⟨nodes, hg, hs.trans hs1, fun hst => ?_⟩
          rw [hu hst, List.filter_cons, hun]
          rfl
        | _ =>
          simp only at h
          cases h
          exact ⟨nodes1, hg1, hs1, fun hst => by cases hst⟩
    · rw [if_neg hin] at h
      have hin' : node.input_args = [] := not_not.1 hin
      by_cases hout : node.output_args = []
      · rw [if_pos hout] at h
        have hun : Node.is_unused node = true := by
          simp [Node.is_unused, hin', hout]
        obtain ⟨nodes, hg, hs, hu⟩ := ih _ _ _ _ _ h
        refine ⟨nodes, hg, hs, fun hst => ?_⟩
        rw [hu hst, List.filter_cons, hun]
        simp
      · rw [if_neg hout] at h
        have hun : Node.is_unused node = false := by
          simp [Node.is_unused, hout]
        obtain ⟨nodes, hg, hs, hu⟩ := ih _ _ _ _ _ h
        refine ⟨nodes, hg, hs, fun hst => ?_⟩
        rw [hu hst, List.filter_cons, hun]
        rfl

theorem without_edges_args (a b : Node) (h : a.without_edges = b.without_edges) :
    a.id = b.id ∧ a.input_args = b.input_args ∧ a.output_args = b.output_args := by
  have h1 : a.without_edges.id = b.without_edges.id := congrArg Node.id h
  have h2 : a.without_edges.input_args = b.without_edges.input_args :=
    congrArg Node.input_args h
  have h3 : a.without_edges.output_args = b.without_edges.output_args :=
    congrArg Node.output_args h
  exact ⟨h1, h2, h3⟩

theorem skeleton_mem (nodes0 nodes : List Node)
    (hs : nodes.map Node.without_edges = nodes0.map Node.without_edges)
    (n : Node) (hn : n ∈ nodes) :
    ∃ n0 ∈ nodes0, n0.id = n.id ∧ n0.input_args = n.input_args ∧
      n0.output_args = n.output_args := by
  have hm : n.without_edges ∈ nodes0.map Node.without_edges :=
    hs ▸ List.mem_map_of_mem _ hn
  obtain ⟨n0, hn0, he⟩ := List.mem_map.1 hm
  exact ⟨n0, hn0, without_edges_args n0 n he⟩

theorem skeleton_ids (nodes0 nodes : List Node)
    (hs : nodes.map Node.without_edges = nodes0.map Node.without_edges) :
    nodes.map Node.id = nodes0.map Node.id := by
  have h := congrArg (List.map Node.id) hs
  simpa [List.map_map, Function.comp_def, Node.without_edges] using h

/-- C31. When `build_nodes_connections` returns OK on a graph whose node ids
are distinct, the nodes left are, up to their edge sets and in the former
order, the former nodes except those with no input arg and no output arg. -/
theorem build_nodes_connections_drops_unused (fuel : Nat) (g g' : Graph)
    (hnodup : (g.m_nodes.map Node.id).Nodup)
    (h : build_nodes_connections fuel g = some (StatusCode.OK, g')) :
    g'.m_nodes.map Node.without_edges
      = (g.m_nodes.filter (fun n => !n.is_unused)).map Node.without_edges := by
  unfold build_nodes_connections at h
  cases hc : connect_nodes fuel g.m_nodes [] g with
  | none => rw [hc] at h; cases h
  | some r =>
    obtain ⟨st1, unused, g1⟩ := r
    rw [hc] at h
    obtain ⟨nodes1, hg1, hs1, hu1⟩ := connect_nodes_skeleton fuel _ _ _ _ _ _ hc
    cases st1 with
    | OK =>
      simp only at h
      have hunused := hu1 rfl
      rw [List.nil_append] at hunused
      subst hg1
      have hnodup1 : (nodes1.map Node.id).Nodup := by
        rw [skeleton_ids _ _ hs1]
        exact hnodup
      have hmem_unused : ∀ n0 ∈ g.m_nodes, (n0.id ∈ unused ↔ n0.is_unused = true) := by
        intro n0 hn0
        rw [hunused]
        simp only [List.mem_map, List.mem_filter]
        constructor
        · rintro ⟨m0, ⟨hm0, hun⟩, hid⟩
          have : m0 = n0 := node_eq_of_id_eq _ hnodup m0 n0 hm0 hn0 hid
          exact this ▸ hun
        · intro hun
          exact ⟨n0, ⟨hn0, hun⟩, rfl⟩
      have hno_inputs : ∀ id ∈ unused, ∀ n ∈ nodes1, n.id = id → n.input_args = [] := by
        intro id hid n hn hnid
        obtain ⟨n0, hn0, h1, h2, _⟩ := skeleton_mem _ _ hs1 n hn
        have hun : n0.is_unused = true := (hmem_unused n0 hn0).1 (by rw [h1, hnid]; exact hid)
        simp only [Node.is_unused, Bool.and_eq_true, decide_eq_true_eq] at hun
        rw [← h2]
        exact hun.1
      cases hrem : remove_unused_nodes unused { g with m_nodes := nodes1 } with
      | none => rw [hrem] at h; cases h
      | some r =>
        obtain ⟨st2, g2⟩ := r
        rw [hrem] at h
        cases st2 with
        | OK =>
          have hg2 := remove_unused_nodes_spec unused _ g2 hno_inputs hrem
          subst hg2
          simp only [init_node_arg_to_connected_nodes, Option.some.injEq, Prod.mk.injEq,
            true_and] at h
          subst h
          simp only
          rw [foldl_eraseP_eq_filter unused nodes1 hnodup1]
          have hf1 : (nodes1.filter (fun n => decide (n.id ∉ unused))).map Node.without_edges
              = (nodes1.map Node.without_edges).filter (fun n => decide (n.id ∉ unused)) := by
            rw [List.filter_map]
            rfl
          have hf2 : (g.m_nodes.filter (fun n => decide (n.id ∉ unused))).map Node.without_edges
              = (g.m_nodes.map Node.without_edges).filter (fun n => decide (n.id ∉ unused)) := by
            rw [List.filter_map]
            rfl
          rw [hf1, hs1, ← hf2]
          congr 1
          apply List.filter_congr
          intro n hn
          have := hmem_unused n hn
          by_cases hu : n.is_unused = true
          · simp [hu, this.2 hu]
          · have hn' : n.id ∉ unused := fun hm => hu (this.1 hm)
            simp [hu, hn']
        | _ =>
          simp only at h
          cases h
    | _ =>
      simp only at h
      cases h

theorem build_nodes_connections_drops_unused_witness :
    ∃ g', build_nodes_connections 0 (check_no_duplicate_names sample_unused_node_graph).2
        = some (StatusCode.OK, g') ∧
      g'.m_nodes.map Node.id = [0, 2] ∧
      g'.m_nodes.map Node.without_edges
        = ((check_no_duplicate_names sample_unused_node_graph).2.m_nodes.filter
            (fun n => !n.is_unused)).map Node.without_edges :=
  ⟨_, rfl, by decide,
    build_nodes_connections_drops_unused 0 _ _ (by decide) rfl⟩


/-! ### `Graph::add_edge` and `Graph::remove_node` -/

/-- C34 (the code departs from the claim). `add_edge` returns FAIL and leaves
the graph as it is when a node id is unknown or an index is negative or out of
range, and it returns OK with the edge inserted on both sides when the two args
are the same `NodeArg` object.  When they are two objects it returns no status,
whether they agree in name, data type and shape (the args "x" and "x" of the
sample) or not (the args "x" and "bad"): `NodeArg::operator!=` never
returns. -/
theorem add_edge_distinct_objects_no_status :
    (∀ (fuel : Nat) (g : Graph) (src dst s d : Int),
      (find_node g.m_nodes src = none ∨ find_node g.m_nodes dst = none ∨ s < 0 ∨ d < 0 ∨
        (∀ node_src, find_node g.m_nodes src = some node_src →
          node_src.output_args.get? s.toNat = none) ∨
        (∀ node_dst, find_node g.m_nodes dst = some node_dst →
          node_dst.input_args.get? d.toNat = none)) →
      add_edge fuel g src dst s d = some (StatusCode.FAIL, g)) ∧
    (∀ (fuel : Nat) (g : Graph) (src dst s d : Int) (node_src node_dst : Node)
      (arg : NodeArgPtr),
      find_node g.m_nodes src = some node_src → find_node g.m_nodes dst = some node_dst →
      0 ≤ s → 0 ≤ d → node_src.output_args.get? s.toNat = some arg →
      node_dst.input_args.get? d.toNat = some arg →
      add_edge fuel g src dst s d
        = some (StatusCode.OK,
            { g with
              m_nodes :=
                update_node dst
                  (fun n => n.add_input_edge
                    { other_node := src, src_arg_index := s, dst_arg_index := d })
                  (update_node src
                    (fun n => n.add_output_edge
                      { other_node := dst, src_arg_index := s, dst_arg_index := d })
                    g.m_nodes) })) ∧
    (∀ (fuel : Nat) (g : Graph) (src dst s d : Int) (node_src node_dst : Node)
      (src_arg dst_arg : NodeArgPtr),
      find_node g.m_nodes src = some node_src → find_node g.m_nodes dst = some node_dst →
      0 ≤ s → 0 ≤ d → node_src.output_args.get? s.toNat = some src_arg →
      node_dst.input_args.get? d.toNat = some dst_arg → src_arg ≠ dst_arg →
      add_edge fuel g src dst s d = none) ∧
    NodeArg.eq (sample_split_args.heap 0) (sample_split_args.heap 1) = true ∧
    (∀ fuel, add_edge fuel sample_split_args 0 1 0 0 = none) ∧
    NodeArg.eq (sample_split_args.heap 0) (sample_split_args.heap 2) = false ∧
    (∀ fuel, add_edge fuel sample_split_args 0 1 0 1 = none) := by
  have hdistinct : ∀ (fuel : Nat) (g : Graph) (src dst s d : Int) (node_src node_dst : Node)
      (src_arg dst_arg : NodeArgPtr),
      find_node g.m_nodes src = some node_src → find_node g.m_nodes dst = some node_dst →
      0 ≤ s → 0 ≤ d → node_src.output_args.get? s.toNat = some src_arg →
      node_dst.input_args.get? d.toNat = some dst_arg → src_arg ≠ dst_arg →
      add_edge fuel g src dst s d = none := by
    intro fuel g src dst s d node_src node_dst src_arg dst_arg h1 h2 hs hd h4 h5 h6
    exact add_edge_distinct_args fuel g src dst s d node_src node_dst src_arg dst_arg h1 h2
      (by omega) h4 h5 h6
  refine ⟨?_, ?_, hdistinct, by decide, ?_, by decide, ?_⟩
  · intro fuel g src dst s d h
    unfold add_edge
    cases h1 : find_node g.m_nodes src with
    | none => rfl
    | some node_src =>
      cases h2 : find_node g.m_nodes dst with
      | none => rfl
      | some node_dst =>
        simp only
        by_cases h3 : s < 0 ∨ d < 0
        · rw [if_pos h3]
        · rw [if_neg h3]
          rcases h with h | h | h | h | h | h
          · rw [h1] at h; cases h
          · rw [h2] at h; cases h
          · exact absurd (Or.inl h) h3
          · exact absurd (Or.inr h) h3
          · rw [h node_src h1]
          · rw [h node_dst h2]
            cases node_src.output_args.get? s.toNat <;> rfl
  · intro fuel g src dst s d node_src node_dst arg h1 h2 hs hd h4 h5
    unfold add_edge
    rw [h1, h2]
    have h3 : ¬ (s < 0 ∨ d < 0) := by omega
    simp only [h3, if_false, h4, h5, ne_eq, not_true_eq_false]
  · intro fuel
    exact hdistinct fuel sample_split_args 0 1 0 0
      { id := 0, name := "n0", type := "Relu", input_args := [], output_args := [0],
        input_edges := [], output_edges := [] }
      { id := 1, name := "n1", type := "Add", input_args := [1, 2], output_args := [],
        input_edges := [], output_edges := [] }
      0 1 (by decide) (by decide) (by decide) (by decide) (by decide) (by decide) (by decide)
  · intro fuel
    exact hdistinct fuel sample_split_args 0 1 0 1
      { id := 0, name := "n0", type := "Relu", input_args := [], output_args := [0],
        input_edges := [], output_edges := [] }
      { id := 1, name := "n1", type := "Add", input_args := [1, 2], output_args := [],
        input_edges := [], output_edges := [] }
      0 2 (by decide) (by decide) (by decide) (by decide) (by decide) (by decide) (by decide)

/-- C35 (the code departs from the claim). `remove_node` returns FAIL and
leaves the graph as it is when the node has an output edge, and returns OK
when the id is unknown or the node has no edge at all.  When the node has an
input edge that `remove_edge` removes, `remove_node` has no defined result:
the loop over the input edges of the node stands on the very element that
`remove_edge` erases from that set.  Such is `remove_node(2)` after
`build_nodes_connections` has connected the node 0 to the node 2 in the
sample. -/
theorem remove_node_input_edge_undefined :
    (∀ (g : Graph) (id : Int) (node : Node),
      find_node g.m_nodes id = some node → node.output_edges ≠ [] →
      remove_node g id = some (StatusCode.FAIL, g)) ∧
    (∀ (g : Graph) (id : Int), find_node g.m_nodes id = none →
      remove_node g id = some (StatusCode.OK, g)) ∧
    (∀ (g : Graph) (id : Int) (node : Node),
      find_node g.m_nodes id = some node → node.output_edges = [] → node.input_edges = [] →
      remove_node g id
        = some (StatusCode.OK,
            { g with m_nodes := g.m_nodes.eraseP (fun n => decide (n.id = id)) })) ∧
    (∀ (g : Graph) (id : Int) (node : Node) (input_edge : Edge) (rest : List Edge),
      find_node g.m_nodes id = some node → node.output_edges = [] →
      node.input_edges = input_edge :: rest →
      (remove_edge g input_edge.other_node id input_edge.src_arg_index
        input_edge.dst_arg_index).1 = StatusCode.OK →
      remove_node g id = none) ∧
    (∃ g', build_nodes_connections 0 (check_no_duplicate_names sample_unused_node_graph).2
        = some (StatusCode.OK, g') ∧
      g'.m_nodes.map (fun n => (n.id, n.input_edges, n.output_edges))
        = [(0, [], [{ other_node := 2, src_arg_index := 0, dst_arg_index := 0 }]),
           (2, [{ other_node := 0, src_arg_index := 0, dst_arg_index := 0 }], [])] ∧
      remove_node g' 2 = none ∧
      remove_node g' 0 = some (StatusCode.FAIL, g')) := by
  refine ⟨?_, ?_, ?_, ?_, ⟨_, rfl, by decide, rfl, rfl⟩⟩
  · intro g id node hf hout
    unfold remove_node
    rw [hf]
    have : node.output_edges.length ≠ 0 := by
      intro h
      exact hout (List.length_eq_zero.1 h)
    simp only [this, ne_eq, not_false_eq_true, if_true]
  · intro g id hf
    unfold remove_node
    rw [hf]
  · intro g id node hf hout hin
    unfold remove_node
    rw [hf]
    simp only [hout, hin, List.length_nil, ne_eq, not_true_eq_false, if_false,
      remove_input_edges]
  · intro g id node input_edge rest hf hout hin hrem
    unfold remove_node
    rw [hf]
    simp only [hout, hin, List.length_nil, ne_eq, not_true_eq_false, if_false]
    unfold remove_input_edges
    cases hr : remove_edge g input_edge.other_node id input_edge.src_arg_index
        input_edge.dst_arg_index with
    | mk st g1 =>
      rw [hr] at hrem
      simp only at hrem
      subst hrem
      rfl


/-! ### The input lists of `Graph::initialize` -/

theorem collect_overridable_filter {α : Type} (f : α → Option NodeArgPtr) (p : α → Bool) :
    ∀ (names : List α),
      (∀ a ∈ names, ∀ b ∈ names, f a = f b → p a = p b) →
      collect_overridable (names.map f) ((names.filter (fun a => !p a)).map f)
        = (names.filter p).map f := by
  intro names
  induction names with
  | nil => intro _; rfl
  | cons n ns ih =>
    intro h
    have ih' := ih (fun a ha b hb => h a (List.mem_cons_of_mem _ ha) b (List.mem_cons_of_mem _ hb))
    cases hp : p n with
    | false =>
      rw [List.filter_cons_of_pos (by simp [hp]), List.filter_cons_of_neg (by simp [hp]),
        List.map_cons, List.map_cons]
      unfold collect_overridable
      rw [if_pos rfl]
      exact ih'
    | true =>
      rw [List.filter_cons_of_neg (by simp [hp]), List.filter_cons_of_pos (by simp [hp]),
        List.map_cons, List.map_cons]
      cases he : (ns.filter (fun a => !p a)).map f with
      | nil =>
        unfold collect_overridable
        rw [← he, ih']
      | cons e es =>
        have hmem : e ∈ (ns.filter (fun a => !p a)).map f := by
          rw [he]
          exact List.mem_cons_self _ _
        obtain ⟨m, hm, hfm⟩ := List.mem_map.1 hmem
        rw [List.mem_filter] at hm
        have hne : f n ≠ e := by
          intro e1
          have := h n (List.mem_cons_self _ _) m (List.mem_cons_of_mem _ hm.1)
            (e1.trans hfm.symm)
          rw [hp] at this
          rw [← this] at hm
          simp at hm
        unfold collect_overridable
        rw [if_neg hne, ← he, ih']

theorem initializer_lookup_isNone (g : Graph) (name : String) :
    (map_find
      (g.m_initializer_map.foldl (fun m kv => map_insert m kv.1 (get_nodearg g kv.1)) [])
      name).isNone = decide (name ∉ map_keys g.m_initializer_map) := by
  rw [map_find_foldl_insert (fun kv : String × Tensor => kv.1)
    (fun kv => get_nodearg g kv.1), map_find_nil]
  cases hf : g.m_initializer_map.find? (fun kv => decide (kv.1 = name)) with
  | none =>
    have := List.find?_eq_none.1 hf
    have hnot : name ∉ map_keys g.m_initializer_map := by
      simp only [map_keys, List.mem_map, not_exists, not_and]
      intro kv hkv e
      exact this kv hkv (by simpa using e)
    simp [hnot]
  | some kv =>
    have h1 := List.find?_some hf
    have h2 := List.mem_of_find?_eq_some hf
    have hmem : name ∈ map_keys g.m_initializer_map := by
      simp only [map_keys, List.mem_map]
      exact ⟨kv, h2, by simpa using h1⟩
    simp [hmem]

/-- C32. Let every declared input name have a `NodeArg` and let distinct names
have distinct `NodeArg` objects.  When `initialize` returns OK, the inputs
including initializers are the `NodeArg`s of the declared input names in
declaration order, the inputs excluding initializers are those of the names
that are no initializer name, and the overridable initializers are those of the
names that are an initializer name, each in declaration order. -/
theorem initialize_graph_inputs (g : Graph)
    (hargs : ∀ name ∈ g.m_inputs_name, get_nodearg g name ≠ none)
    (hinj : ∀ (a b : String) (p : NodeArgPtr),
      get_nodearg g a = some p → get_nodearg g b = some p → a = b)
    (hok : (initialize_graph g).1 = StatusCode.OK) :
    (initialize_graph g).2.m_inputs_include_initializer
      = g.m_inputs_name.map (get_nodearg g) ∧
    (initialize_graph g).2.m_inputs_exclude_initializer
      = (g.m_inputs_name.filter
          (fun name => decide (name ∉ map_keys g.m_initializer_map))).map (get_nodearg g) ∧
    (initialize_graph g).2.m_overridable_initializers
      = (g.m_inputs_name.filter
          (fun name => decide (name ∈ map_keys g.m_initializer_map))).map (get_nodearg g) := by
  have hfilter : g.m_inputs_name.filter (fun name => (map_find
      (g.m_initializer_map.foldl (fun m kv => map_insert m kv.1 (get_nodearg g kv.1)) [])
      name).isNone)
      = g.m_inputs_name.filter (fun name => decide (name ∉ map_keys g.m_initializer_map)) := by
    apply List.filter_congr
    intro name _
    exact initializer_lookup_isNone g name
  have hover := collect_overridable_filter (get_nodearg g)
    (fun name => decide (name ∈ map_keys g.m_initializer_map)) g.m_inputs_name
    (by
      intro a ha b _ hab
      cases hp : get_nodearg g a with
      | none => exact absurd hp (hargs a ha)
      | some p =>
        have : a = b := hinj a b p hp (hab ▸ hp)
        rw [this])
  have hneg : (fun a => !decide (a ∈ map_keys g.m_initializer_map))
      = (fun name => decide (name ∉ map_keys g.m_initializer_map)) := by
    funext a
    simp
  rw [hneg] at hover
  unfold initialize_graph at hok ⊢
  dsimp only at hok ⊢
  rw [hfilter] at hok ⊢
  cases hr : resolve_outputs (collect_nodes_outputs g.heap g.m_nodes)
      (g.m_initializer_map.foldl (fun m kv => map_insert m kv.1 (get_nodearg g kv.1)) [])
      (g.m_inputs_name.foldl (fun m name => map_insert m name (get_nodearg g name)) [])
      g.m_outputs_name [] with
  | mk st outs =>
    rw [hr] at hok
    cases st with
    | OK => exact ⟨rfl, rfl, hover⟩
    | _ => simp at hok

theorem initialize_graph_inputs_witness :
    (initialize_graph sample_mixed_inputs).2.m_inputs_include_initializer
      = [some 0, some 1, some 2] ∧
    (initialize_graph sample_mixed_inputs).2.m_inputs_exclude_initializer = [some 0, some 2] ∧
    (initialize_graph sample_mixed_inputs).2.m_overridable_initializers = [some 1] ∧
    (initialize_graph sample_mixed_inputs).2.m_inputs_include_initializer
      = sample_mixed_inputs.m_inputs_name.map (get_nodearg sample_mixed_inputs) ∧
    (initialize_graph sample_mixed_inputs).2.m_inputs_exclude_initializer
      = (sample_mixed_inputs.m_inputs_name.filter
          (fun name => decide (name ∉ map_keys sample_mixed_inputs.m_initializer_map))).map
          (get_nodearg sample_mixed_inputs) ∧
    (initialize_graph sample_mixed_inputs).2.m_overridable_initializers
      = (sample_mixed_inputs.m_inputs_name.filter
          (fun name => decide (name ∈ map_keys sample_mixed_inputs.m_initializer_map))).map
          (get_nodearg sample_mixed_inputs) :=
  ⟨by decide, by decide, by decide,
    initialize_graph_inputs sample_mixed_inputs (by decide)
      (by
        intro a b p ha hb
        have hnm : sample_mixed_inputs.m_nodearg_map = [("x", 0), ("w", 1), ("y", 2)] := by
          decide
        simp only [get_nodearg, hnm, map_find] at ha hb
        simp only [List.find?_cons, List.find?_nil] at ha hb
        by_cases h1 : "x" = a <;> by_cases h2 : "w" = a <;> by_cases h3 : "y" = a <;>
          by_cases h4 : "x" = b <;> by_cases h5 : "w" = b <;> by_cases h6 : "y" = b <;>
          simp [h1, h2, h3, h4, h5, h6] at ha hb <;> subst_vars <;> simp_all)
      (by decide)⟩


/-! ### `Graph::check_inputs_initializers_names` on a second call -/

theorem check_input_names_spec (heap : NodeArgPtr → NodeArg) :
    ∀ (ps : List NodeArgPtr) (names : List String),
      ∃ r, check_input_names heap (ps.map some) names = some r ∧
        (r.1 = StatusCode.OK ∨ r.1 = StatusCode.INVALID_MODEL) ∧
        (r.1 = StatusCode.INVALID_MODEL ↔
          ¬ (ps.map (fun p => (heap p).name)).Nodup ∨
            ∃ p ∈ ps, (heap p).name ∈ names) := by
  intro ps
  induction ps with
  | nil =>
    intro names
    exact ⟨_, rfl, Or.inl rfl, by simp⟩
  | cons p ps ih =>
    intro names
    rw [List.map_cons]
    unfold check_input_names
    by_cases h : (heap p).name ∈ names
    · rw [if_pos h]
      refine ⟨_, rfl, Or.inr rfl, ?_⟩
      simp only [true_iff]
      exact Or.inr ⟨p, List.mem_cons_self _ _, h⟩
    · rw [if_neg h]
      obtain ⟨r, hr, hst, hiff⟩ := ih (names ++ [(heap p).name])
      refine ⟨r, hr, hst, ?_⟩
      rw [hiff, List.map_cons, List.nodup_cons]
      simp only [List.mem_append, List.mem_cons, List.not_mem_nil, or_false, List.mem_map]
      constructor
      · rintro (h1 | ⟨q, hq, h2 | h2⟩)
        · exact Or.inl (fun hc => h1 hc.2)
        · exact Or.inr ⟨q, Or.inr hq, h2⟩
        · exact Or.inl (fun hc => hc.1 ⟨q, hq, h2⟩)
      · rintro (h1 | ⟨q, hq | hq, h2⟩)
        · by_cases hn : (ps.map (fun p => (heap p).name)).Nodup
          · right
            have : ∃ q ∈ ps, (heap q).name = (heap p).name := by
              by_contra hc
              exact h1 ⟨fun ⟨q, hq, he⟩ => hc ⟨q, hq, he⟩, hn⟩
            obtain ⟨q, hq, he⟩ := this
            exact ⟨q, hq, Or.inr he⟩
          · exact Or.inl hn
        · exact absurd (hq ▸ h2) h
        · exact Or.inr ⟨q, hq, Or.inl h2⟩

/-- C33 (the code departs from the claim). `check_inputs_initializers_names`
does not clear `inputs_and_initializers` on entry: with the true inputs all
held by a `NodeArg`, it returns INVALID_MODEL exactly when two of them have the
same name or one of them has a name left in the set by an earlier call.  On
the sample, whose only declared input is "x" and which has no initializer, the
first `construct_topology` returns INVALID_MODEL for the unknown node input
"bad" and leaves "x" in the set; the next call of
`check_inputs_initializers_names`, and with it of `construct_topology`, returns
INVALID_MODEL although no two true inputs share a name. -/
theorem check_inputs_initializers_names_stale_names :
    (∀ (g : Graph) (ps : List NodeArgPtr), g.m_inputs_exclude_initializer = ps.map some →
      ∃ r, check_inputs_initializers_names g = some r ∧
        (r.1 = StatusCode.OK ∨ r.1 = StatusCode.INVALID_MODEL) ∧
        (r.1 = StatusCode.INVALID_MODEL ↔
          ¬ (ps.map (fun p => (g.heap p).name)).Nodup ∨
            ∃ p ∈ ps, (g.heap p).name ∈ g.m_topology_context.inputs_and_initializers)) ∧
    sample_unknown_input.m_topology_context.inputs_and_initializers = [] ∧
    Option.map Prod.fst (check_inputs_initializers_names sample_unknown_input)
      = some StatusCode.OK ∧
    (∃ g1, construct_topology 0 (register_all_infer []) sample_unknown_input
        = some (StatusCode.INVALID_MODEL, g1) ∧
      g1.m_inputs_exclude_initializer = [some 0] ∧ (g1.heap 0).name = "x" ∧
      g1.m_initializer_map = [] ∧
      g1.m_topology_context.inputs_and_initializers = ["x"] ∧
      Option.map Prod.fst (check_inputs_initializers_names g1)
        = some StatusCode.INVALID_MODEL ∧
      Option.map Prod.fst (construct_topology 0 (register_all_infer []) g1)
        = some StatusCode.INVALID_MODEL) := by
  refine ⟨?_, by decide, by decide, ⟨_, rfl, by decide, by decide, by decide, by decide,
    by decide, by decide⟩⟩
  intro g ps hps
  obtain ⟨r, hr, hst, hiff⟩ := check_input_names_spec g.heap ps
    g.m_topology_context.inputs_and_initializers
  obtain ⟨st, names⟩ := r
  unfold check_inputs_initializers_names
  rw [hps, hr]
  cases st with
  | OK => exact ⟨_, rfl, hst, hiff⟩
  | _ => exact ⟨_, rfl, hst, hiff⟩


/-! ### Determinism and termination of `Graph::topological_sort` -/

theorem find_node_edges_only (nodes : List Node) (id : Int) :
    find_node (nodes.map Node.edges_only) id = (find_node nodes id).map Node.edges_only := by
  unfold find_node
  induction nodes with
  | nil => rfl
  | cons n ns ih =>
    rw [List.map_cons, List.find?_cons, List.find?_cons]
    have : (Node.edges_only n).id = n.id := rfl
    rw [this]
    by_cases h : n.id = id
    · simp [h]
    · simp only [h, decide_False]
      exact ih

theorem topo_roots_edges_only (nodes : List Node) :
    ∀ s : TopoState,
      topo_roots (nodes.map Node.edges_only) s.edges_only = (topo_roots nodes s).edges_only := by
  induction nodes with
  | nil => intro s; rfl
  | cons n ns ih =>
    intro s
    rw [List.map_cons]
    unfold topo_roots
    have h1 : (Node.edges_only n).input_edges = n.input_edges := rfl
    rw [h1]
    by_cases h : n.input_edges.length = 0
    · rw [if_pos h, if_pos h, ← ih]
      congr 1
      simp [TopoState.edges_only, Node.edges_only]
    · rw [if_neg h, if_neg h, ih]

theorem topo_leaves_edges_only (nodes : List Node) :
    ∀ st : List Int, topo_leaves (nodes.map Node.edges_only) st = topo_leaves nodes st := by
  induction nodes with
  | nil => intro st; rfl
  | cons n ns ih =>
    intro st
    rw [List.map_cons]
    unfold topo_leaves
    have h1 : (Node.edges_only n).output_edges = n.output_edges := rfl
    have h2 : (Node.edges_only n).id = n.id := rfl
    rw [h1, h2, ih, ih]

theorem topo_init_edges_only (nodes : List Node) :
    topo_init (nodes.map Node.edges_only) = (topo_init nodes).edges_only := by
  unfold topo_init
  have h := topo_roots_edges_only nodes
    { topological_nodes := [], downstream_nodes := [], nodes_visited := [],
      nodes_added := [], nodes_stack := [] }
  have h0 : TopoState.edges_only
      { topological_nodes := [], downstream_nodes := [], nodes_visited := [],
        nodes_added := [], nodes_stack := [] }
      = { topological_nodes := [], downstream_nodes := [], nodes_visited := [],
          nodes_added := [], nodes_stack := [] } := rfl
  rw [h0] at h
  simp only [h, topo_leaves_edges_only]
  rfl

theorem topo_weight_edges_only (nodes : List Node) (visited : List Int) :
    topo_weight (nodes.map Node.edges_only) visited = topo_weight nodes visited := by
  unfold topo_weight
  induction nodes with
  | nil => rfl
  | cons n ns ih =>
    rw [List.map_cons, List.filter_cons, List.filter_cons]
    have h2 : (Node.edges_only n).id = n.id := rfl
    rw [h2]
    by_cases h : n.id ∉ visited
    · simp only [h, not_false_eq_true, decide_True, if_true, List.map_cons, List.sum_cons]
      rw [ih]
      rfl
    · simp only [h, decide_False]
      exact ih

theorem topo_step_edges_only (nodes : List Node) (s : TopoState) :
    topo_step (nodes.map Node.edges_only) s.edges_only
      = Sum.map (fun r => (r.1, r.2.map Node.edges_only)) TopoState.edges_only
          (topo_step nodes s) := by
  unfold topo_step
  have hstack : s.edges_only.nodes_stack = s.nodes_stack := rfl
  rw [hstack]
  cases hst : s.nodes_stack with
  | nil =>
    simp only [Sum.map_inl]
    unfold topo_finish
    simp only [TopoState.edges_only, List.length_map]
    split <;> rfl
  | cons cur rest =>
    simp only
    rw [find_node_edges_only]
    cases hf : find_node nodes cur with
    | none => rfl
    | some n =>
      simp only [Option.map_some']
      have hadded : s.edges_only.nodes_added = s.nodes_added := rfl
      have hvisited : s.edges_only.nodes_visited = s.nodes_visited := rfl
      have hdown : s.edges_only.downstream_nodes = s.downstream_nodes := rfl
      have hin : (Node.edges_only n).input_edges = n.input_edges := rfl
      rw [hadded, hvisited, hdown, hin]
      by_cases h1 : cur ∈ s.nodes_added
      · rw [if_pos h1, if_pos h1]
        rfl
      · rw [if_neg h1, if_neg h1]
        by_cases h2 : cur ∈ s.nodes_visited
        · rw [if_pos h2, if_pos h2]
          simp [TopoState.edges_only]
        · rw [if_neg h2, if_neg h2]
          cases topo_scan_inputs (cur :: s.downstream_nodes) (cur :: s.nodes_visited)
              n.input_edges (cur :: rest) with
          | none => rfl
          | some st => rfl

theorem topo_loop_edges_only (nodes : List Node) (fuel : Nat) :
    ∀ s : TopoState,
      topo_loop (nodes.map Node.edges_only) fuel s.edges_only
        = (topo_loop nodes fuel s).map (fun r => (r.1, r.2.map Node.edges_only)) := by
  induction fuel with
  | zero => intro s; rfl
  | succ fuel ih =>
    intro s
    unfold topo_loop
    rw [topo_step_edges_only]
    cases topo_step nodes s with
    | inl r => rfl
    | inr s' => exact ih s'

theorem topological_sort_edges_only (nodes : List Node) :
    topological_sort (nodes.map Node.edges_only)
      = (topological_sort nodes).map (fun r => (r.1, r.2.map Node.edges_only)) := by
  unfold topological_sort
  have hfuel : topo_fuel (nodes.map Node.edges_only) (topo_init (nodes.map Node.edges_only))
      = topo_fuel nodes (topo_init nodes) := by
    unfold topo_fuel
    rw [topo_init_edges_only, topo_weight_edges_only]
    rfl
  rw [hfuel, topo_init_edges_only, topo_loop_edges_only]

theorem map_id_edges_only (l : List Node) :
    (l.map Node.edges_only).map Node.id = l.map Node.id := by
  rw [List.map_map]
  rfl

/-- C36. When `topological_sort` returns OK, the result begins with the nodes
without input edges in the order of `nodes`, and no later entry is such a
node.  The status and the order of the node ids in the result are determined
by the sequence of node ids and edge sets alone: every node sequence that
agrees with `nodes` in these gets OK and the same order. -/
theorem topological_sort_roots_first (nodes topo : List Node)
    (h : topological_sort nodes = some (StatusCode.OK, topo)) :
    (∃ E, topo = nodes.filter (fun n => decide (n.input_edges.length = 0)) ++ E ∧
      ∀ n ∈ E, n.input_edges.length ≠ 0) ∧
    (∀ nodes' : List Node,
      nodes'.map (fun n => (n.id, n.input_edges, n.output_edges))
        = nodes.map (fun n => (n.id, n.input_edges, n.output_edges)) →
      (topological_sort nodes').map (fun r => (r.1, r.2.map Node.id))
        = some (StatusCode.OK, topo.map Node.id)) := by
  constructor
  · obtain ⟨E, hE1, hE2, -, -, -⟩ := topological_sort_ok_shape nodes topo h
    refine ⟨E, hE1, ?_⟩
    intro n hn
    have := (List.mem_filter.1 (hE2.mem_iff.1 hn)).2
    simpa [is_root] using this
  · intro nodes' hkey
    have hmap : nodes'.map Node.edges_only = nodes.map Node.edges_only := by
      have := congrArg (List.map (fun (k : Int × List Edge × List Edge) =>
        ({ id := k.1, name := "", type := "", input_args := [], output_args := [],
           input_edges := k.2.1, output_edges := k.2.2, attributes := [] } : Node))) hkey
      simpa [List.map_map, Function.comp_def, Node.edges_only] using this
    have h1 := topological_sort_edges_only nodes'
    have h2 := topological_sort_edges_only nodes
    rw [hmap, h2, h] at h1
    cases hr : topological_sort nodes' with
    | none =>
      rw [hr] at h1
      cases h1
    | some r =>
      rw [hr] at h1
      simp only [Option.map_some', Option.some.injEq, Prod.mk.injEq] at h1
      simp only [Option.map_some', Option.some.injEq, Prod.mk.injEq]
      refine ⟨h1.1.symm, ?_⟩
      rw [← map_id_edges_only r.2, ← map_id_edges_only topo, h1.2]

theorem topological_sort_roots_first_witness :
    topological_sort sample_dag = some (StatusCode.OK, sample_dag_order) ∧
    (∃ E, sample_dag_order
        = sample_dag.filter (fun n => decide (n.input_edges.length = 0)) ++ E ∧
      ∀ n ∈ E, n.input_edges.length ≠ 0) ∧
    (∀ nodes' : List Node,
      nodes'.map (fun n => (n.id, n.input_edges, n.output_edges))
        = sample_dag.map (fun n => (n.id, n.input_edges, n.output_edges)) →
      (topological_sort nodes').map (fun r => (r.1, r.2.map Node.id))
        = some (StatusCode.OK, sample_dag_order.map Node.id)) :=
  ⟨by decide, topological_sort_roots_first sample_dag sample_dag_order (by decide)⟩

theorem topo_loop_more_fuel (nodes : List Node) (fuel : Nat) :
    ∀ (s : TopoState) (r : StatusCode × List Node) (k : Nat),
      topo_loop nodes fuel s = some r → topo_loop nodes (fuel + k) s = some r := by
  induction fuel with
  | zero =>
    intro s r k h
    cases h
  | succ fuel ih =>
    intro s r k h
    rw [Nat.add_right_comm]
    unfold topo_loop at h ⊢
    cases hs : topo_step nodes s with
    | inl r1 =>
      rw [hs] at h
      exact h
    | inr s1 =>
      rw [hs] at h
      exact ih s1 r k h

theorem topo_weight_le (nodes : List Node) (visited : List Int) :
    topo_weight nodes visited ≤ (nodes.map (fun n => n.input_edges.length + 1)).sum := by
  unfold topo_weight
  induction nodes with
  | nil => simp
  | cons n ns ih =>
    rw [List.filter_cons]
    split
    · simp only [List.map_cons, List.sum_cons]
      omega
    · simp only [List.map_cons, List.sum_cons]
      omega

theorem topo_leaves_length (nodes : List Node) :
    ∀ st : List Int, (topo_leaves nodes st).length ≤ nodes.length + st.length := by
  induction nodes with
  | nil => intro st; simp [topo_leaves]
  | cons n ns ih =>
    intro st
    unfold topo_leaves
    split
    · have := ih (n.id :: st)
      simp only [List.length_cons] at this ⊢
      omega
    · have := ih st
      simp only [List.length_cons]
      omega

/-- C37. `topological_sort` returns on every node list, cyclic or not, with OK
or INVALID_MODEL.  Every iteration of the loop over the stack that does not
return lowers the sum of the stack size and the weight of the unvisited nodes
(one plus the number of input edges, per node), so the loop leaves within one
more iteration than that sum at the start, which is at most the number of nodes
plus the number of input edges plus the number of nodes without output edges;
granting more iterations changes nothing. -/
theorem topological_sort_terminates (nodes : List Node) :
    (∃ r, topological_sort nodes = some r ∧
      (r.1 = StatusCode.OK ∨ r.1 = StatusCode.INVALID_MODEL)) ∧
    (∀ s s' : TopoState, topo_step nodes s = Sum.inr s' →
      topo_weight nodes s'.nodes_visited + s'.nodes_stack.length
        < topo_weight nodes s.nodes_visited + s.nodes_stack.length) ∧
    topo_fuel nodes (topo_init nodes)
      ≤ (nodes.map (fun n => n.input_edges.length + 1)).sum + nodes.length + 1 ∧
    (∀ fuel, topo_fuel nodes (topo_init nodes) ≤ fuel →
      topo_loop nodes fuel (topo_init nodes) = topological_sort nodes) := by
  obtain ⟨r, hr, hst⟩ := topological_sort_total nodes
  refine ⟨⟨r, hr, hst⟩, ?_, ?_, ?_⟩
  · intro s s' h
    exact topo_step_decreases nodes s s' h
  · unfold topo_fuel
    have h1 := topo_weight_le nodes (topo_init nodes).nodes_visited
    have h2 := topo_leaves_length nodes []
    have h3 : (topo_init nodes).nodes_stack = topo_leaves nodes [] := rfl
    rw [h3]
    simp only [List.length_nil] at h2
    omega
  · intro fuel hfuel
    rw [hr]
    obtain ⟨k, hk⟩ := Nat.exists_eq_add_of_le hfuel
    rw [hk]
    exact topo_loop_more_fuel nodes _ _ r k hr


/-! ### Initializers without `NodeArg` -/

theorem collect_erase_initializers_missing (g : Graph) (used : List (Option NodeArgPtr)) :
    ∀ (imap : List (String × Tensor)) (acc : List String),
      (∃ kv ∈ imap, get_nodearg g kv.1 = none) →
      collect_erase_initializers g used imap acc = none := by
  intro imap
  induction imap with
  | nil =>
    intro acc h
    obtain ⟨kv, hkv, _⟩ := h
    cases hkv
  | cons kv rest ih =>
    intro acc h
    obtain ⟨name, t⟩ := kv
    unfold collect_erase_initializers
    cases hg : get_nodearg g name with
    | none => rfl
    | some p =>
      have hrest : ∃ kv ∈ rest, get_nodearg g kv.1 = none := by
        obtain ⟨kv, hkv, hn⟩ := h
        rcases List.mem_cons.1 hkv with e | hmem
        · subst e
          rw [hg] at hn
          cases hn
        · exact ⟨kv, hmem, hn⟩
      simp only
      split
      · exact ih _ hrest
      · exact ih _ hrest

theorem has_initializer_mem (g : Graph) (name : String) (h : has_initializer g name = true) :
    ∃ kv ∈ g.m_initializer_map, kv.1 = name := by
  unfold has_initializer map_find at h
  cases hf : g.m_initializer_map.find? (fun kv => decide (kv.1 = name)) with
  | none => simp [hf] at h
  | some kv =>
    exact ⟨kv, List.mem_of_find?_eq_some hf, by simpa using List.find?_some hf⟩

theorem remove_edge_frame (g : Graph) (src dst s d : Int) :
    ∃ nodes, (remove_edge g src dst s d).2 = { g with m_nodes := nodes } := by
  unfold remove_edge
  split
  · exact ⟨g.m_nodes, rfl⟩
  · split
    · exact ⟨g.m_nodes, rfl⟩
    · split
      · exact ⟨g.m_nodes, rfl⟩
      · split
        · exact ⟨g.m_nodes, rfl⟩
        · split
          · exact ⟨g.m_nodes, rfl⟩
          · split
            · exact ⟨g.m_nodes, rfl⟩
            · exact ⟨_, rfl⟩

theorem remove_input_edges_frame (id : Int) (edges : List Edge) :
    ∀ (g g' : Graph), remove_input_edges id edges g = some g' →
      ∃ nodes, g' = { g with m_nodes := nodes } := by
  induction edges with
  | nil =>
    intro g g' h
    simp only [remove_input_edges, Option.some.injEq] at h
    exact ⟨g.m_nodes, h.symm⟩
  | cons e es ih =>
    intro g g' h
    unfold remove_input_edges at h
    obtain ⟨nodes1, h1⟩ := remove_edge_frame g e.other_node id e.src_arg_index e.dst_arg_index
    cases hr : remove_edge g e.other_node id e.src_arg_index e.dst_arg_index with
    | mk st g1 =>
      rw [hr] at h h1
      simp only at h1
      subst h1
      cases st with
      | OK => cases h
      | _ =>
        simp only at h
        obtain ⟨nodes, hn⟩ := ih _ _ h
        exact ⟨nodes, hn⟩

theorem remove_node_frame (g g' : Graph) (id : Int) (st : StatusCode)
    (h : remove_node g id = some (st, g')) :
    ∃ nodes, g' = { g with m_nodes := nodes } := by
  unfold remove_node at h
  split at h
  · simp only [Option.some.injEq, Prod.mk.injEq] at h
    exact ⟨g.m_nodes, h.2.symm⟩
  · split at h
    · simp only [Option.some.injEq, Prod.mk.injEq] at h
      exact ⟨g.m_nodes, h.2.symm⟩
    · split at h
      · cases h
      · rename_i g1 hg1
        obtain ⟨nodes1, h1⟩ := remove_input_edges_frame _ _ _ _ hg1
        subst h1
        simp only [Option.some.injEq, Prod.mk.injEq] at h
        exact ⟨_, h.2.symm⟩

theorem remove_unused_nodes_frame (ids : List Int) :
    ∀ (g g' : Graph) (st : StatusCode), remove_unused_nodes ids g = some (st, g') →
      ∃ nodes, g' = { g with m_nodes := nodes } := by
  induction ids with
  | nil =>
    intro g g' st h
    simp only [remove_unused_nodes, Option.some.injEq, Prod.mk.injEq] at h
    exact ⟨g.m_nodes, h.2.symm⟩
  | cons id ids ih =>
    intro g g' st h
    unfold remove_unused_nodes at h
    cases hr : remove_node g id with
    | none => rw [hr] at h; cases h
    | some r =>
      obtain ⟨st1, g1⟩ := r
      rw [hr] at h
      obtain ⟨nodes1, h1⟩ := remove_node_frame g g1 id st1 hr
      subst h1
      cases st1 with
      | OK =>
        simp only at h
        obtain ⟨nodes, hn⟩ := ih _ _ _ h
        exact ⟨nodes, hn⟩
      | _ =>
        simp only [Option.some.injEq, Prod.mk.injEq] at h
        exact ⟨nodes1, h.2.symm⟩

theorem build_nodes_connections_frame (fuel : Nat) (g g' : Graph) (st : StatusCode)
    (h : build_nodes_connections fuel g = some (st, g')) :
    g'.m_initializer_map = g.m_initializer_map ∧ g'.m_nodearg_map = g.m_nodearg_map := by
  unfold build_nodes_connections at h
  cases hc : connect_nodes fuel g.m_nodes [] g with
  | none => rw [hc] at h; cases h
  | some r =>
    obtain ⟨st1, unused, g1⟩ := r
    rw [hc] at h
    obtain ⟨nodes1, hg1, -, -⟩ := connect_nodes_skeleton fuel _ _ _ _ _ _ hc
    subst hg1
    cases st1 with
    | OK =>
      simp only at h
      cases hrem : remove_unused_nodes unused { g with m_nodes := nodes1 } with
      | none => rw [hrem] at h; cases h
      | some r =>
        obtain ⟨st2, g2⟩ := r
        rw [hrem] at h
        obtain ⟨nodes2, hg2⟩ := remove_unused_nodes_frame _ _ _ _ hrem
        subst hg2
        cases st2 with
        | OK =>
          simp only [init_node_arg_to_connected_nodes, Option.some.injEq, Prod.mk.injEq] at h
          rw [← h.2]
          exact ⟨rfl, rfl⟩
        | _ =>
          simp only [Option.some.injEq, Prod.mk.injEq] at h
          rw [← h.2]
          exact ⟨rfl, rfl⟩
    | _ =>
      simp only [Option.some.injEq, Prod.mk.injEq] at h
      rw [← h.2]
      exact ⟨rfl, rfl⟩

theorem init_inputs_initializers_outputs_frame (g g' : Graph) (st : StatusCode)
    (h : init_inputs_initializers_outputs g = some (st, g')) :
    g'.m_initializer_map = g.m_initializer_map ∧ g'.m_nodearg_map = g.m_nodearg_map := by
  unfold init_inputs_initializers_outputs at h
  have hcheck : ∀ g1 st1, check_inputs_initializers_names g = some (st1, g1) →
      g1.m_initializer_map = g.m_initializer_map ∧ g1.m_nodearg_map = g.m_nodearg_map := by
    intro g1 st1 h1
    unfold check_inputs_initializers_names at h1
    split at h1
    · cases h1
    · simp only [Option.some.injEq, Prod.mk.injEq] at h1
      rw [← h1.2]
      exact ⟨rfl, rfl⟩
    · simp only [Option.some.injEq, Prod.mk.injEq] at h1
      rw [← h1.2]
      exact ⟨rfl, rfl⟩
  cases hc : check_inputs_initializers_names g with
  | none => rw [hc] at h; cases h
  | some r =>
    obtain ⟨st1, g1⟩ := r
    rw [hc] at h
    obtain ⟨e1, e2⟩ := hcheck g1 st1 hc
    cases st1 with
    | OK =>
      simp only [Option.some.injEq] at h
      have h2 : g' = (check_no_duplicate_names g1).2 := by rw [h]
      subst h2
      unfold check_no_duplicate_names
      exact ⟨e1, e2⟩
    | _ =>
      simp only [Option.some.injEq, Prod.mk.injEq] at h
      rw [← h.2]
      exact ⟨e1, e2⟩

/-- C38. When some initializer name has no `NodeArg`,
`clean_unused_initializers_args` returns FAIL and leaves the graph as it is,
and `construct_topology` does not return OK, whichever inferers are
registered: no step of it creates a `NodeArg`. -/
theorem clean_unused_initializers_args_missing_nodearg (g : Graph) (name : String)
    (hinit : has_initializer g name = true) (hnone : get_nodearg g name = none) :
    clean_unused_initializers_args g = (StatusCode.FAIL, g) ∧
    ∀ (fuel : Nat) (registry : NodeInferMap) (g' : Graph),
      construct_topology fuel registry g ≠ some (StatusCode.OK, g') := by
  have hclean : ∀ g0 : Graph, g0.m_initializer_map = g.m_initializer_map →
      g0.m_nodearg_map = g.m_nodearg_map →
      clean_unused_initializers_args g0 = (StatusCode.FAIL, g0) := by
    intro g0 e1 e2
    obtain ⟨kv, hkv, hname⟩ := has_initializer_mem g name hinit
    unfold clean_unused_initializers_args
    rw [collect_erase_initializers_missing g0 _ _ _
      ⟨kv, e1 ▸ hkv, by
        unfold get_nodearg at hnone ⊢
        rw [e2, hname]
        exact hnone⟩]
  refine ⟨hclean g rfl rfl, ?_⟩
  intro fuel registry g' h
  unfold construct_topology at h
  cases h1 : init_inputs_initializers_outputs g with
  | none => rw [h1] at h; cases h
  | some r1 =>
    obtain ⟨st1, g1⟩ := r1
    rw [h1] at h
    obtain ⟨a1, b1⟩ := init_inputs_initializers_outputs_frame g g1 st1 h1
    cases st1 with
    | OK =>
      simp only at h
      cases h2 : build_nodes_connections fuel g1 with
      | none => rw [h2] at h; cases h
      | some r2 =>
        obtain ⟨st2, g2⟩ := r2
        rw [h2] at h
        obtain ⟨a2, b2⟩ := build_nodes_connections_frame fuel g1 g2 st2 h2
        cases st2 with
        | OK =>
          simp only at h
          cases h3 : topological_sort g2.m_nodes with
          | none => rw [h3] at h; cases h
          | some r3 =>
            obtain ⟨st3, topo⟩ := r3
            rw [h3] at h
            cases st3 with
            | OK =>
              simp only at h
              cases h4 : infer_shape registry { g2 with m_topological_nodes := topo } with
              | none => rw [h4] at h; cases h
              | some r4 =>
                obtain ⟨st4, g3⟩ := r4
                rw [h4] at h
                have hg3 : g3.m_initializer_map = g2.m_initializer_map ∧
                    g3.m_nodearg_map = g2.m_nodearg_map := by
                  unfold infer_shape at h4
                  split at h4
                  · cases h4
                  · simp only [Option.some.injEq, Prod.mk.injEq] at h4
                    rw [← h4.2]
                    exact ⟨rfl, rfl⟩
                cases st4 with
                | OK =>
                  simp only at h
                  rw [hclean _ (by
                      show g3.m_initializer_map = g.m_initializer_map
                      rw [hg3.1, a2, a1]) (by
                      show g3.m_nodearg_map = g.m_nodearg_map
                      rw [hg3.2, b2, b1])] at h
                  cases h
                | _ => cases h
            | _ => cases h
        | _ => cases h
    | _ => cases h

theorem clean_unused_initializers_args_missing_nodearg_witness :
    parse_onnx_graph sample_allocator sample_unconsumed_constant fresh_graph
      = some (StatusCode.OK, sample_unconsumed_graph) ∧
    sample_unconsumed_graph.m_nodes = [] ∧
    map_keys sample_unconsumed_graph.m_initializer_map = ["c"] ∧
    sample_unconsumed_graph.m_nodearg_map = [] ∧
    Option.map Prod.fst (construct_topology 0 (register_all_infer []) sample_unconsumed_graph)
      = some StatusCode.FAIL ∧
    clean_unused_initializers_args sample_unconsumed_graph
      = (StatusCode.FAIL, sample_unconsumed_graph) ∧
    ∀ (fuel : Nat) (registry : NodeInferMap) (g' : Graph),
      construct_topology fuel registry sample_unconsumed_graph ≠ some (StatusCode.OK, g') :=
  ⟨rfl, by decide, by decide, by decide, by decide,
    clean_unused_initializers_args_missing_nodearg sample_unconsumed_graph "c"
      (by decide) (by decide)⟩


/-! ### Flatten keeps the element count -/

theorem mul_int64_wrap_wrap (a b : Int) :
    mul_int64 (wrap_int64 a) (wrap_int64 b) = wrap_int64 (a * b) := by
  unfold mul_int64
  rw [wrap_int64_mul_wrap, mul_comm a (wrap_int64 b), wrap_int64_mul_wrap, mul_comm b a]

/-- C39. For an input shape of rank r ≥ 1 with dims in the range of `int64_t`
and an attribute `axis` with -r ≤ axis ≤ r (1 when absent),
`FlattenShapeInfer::infer` writes two dims whose product in `int64_t` is
`TensorShape::element_num` of the input shape. -/
theorem FlattenShapeInfer_infer_element_num (input_shape : List Int) (attributes : Attributes)
    (hrank : 1 ≤ input_shape.length)
    (hdims : ∀ d ∈ input_shape, -9223372036854775808 ≤ d ∧ d < 9223372036854775808)
    (hlow : -(input_shape.length : Int) ≤ get_attr_or_default_int64 "axis" 1 attributes)
    (hhigh : get_attr_or_default_int64 "axis" 1 attributes ≤ input_shape.length) :
    ∃ d0 d1, FlattenShapeInfer_infer [input_shape] attributes 1 = InferResult.inferred [d0, d1] ∧
      mul_int64 d0 d1 = element_num input_shape := by
  have haxis : 0 ≤ flatten_axis attributes input_shape.length ∧
      flatten_axis attributes input_shape.length ≤ input_shape.length := by
    unfold flatten_axis
    split <;> omega
  refine ⟨_, _, (FlattenShapeInfer_infer_spec input_shape attributes).1 haxis, ?_⟩
  have hne : input_shape ≠ [] := by
    intro e
    rw [e] at hrank
    simp at hrank
  rw [mul_int64_wrap_wrap, List.prod_take_mul_prod_drop, element_num_eq input_shape hdims,
    if_neg hne]

theorem FlattenShapeInfer_infer_element_num_witness :
    FlattenShapeInfer_infer [[2, 3, 4]] [("axis", NodeAttribute.of_int64 (-1))] 1
      = InferResult.inferred [6, 4] ∧
    element_num [2, 3, 4] = 24 ∧
    ∃ d0 d1, FlattenShapeInfer_infer [[2, 3, 4]] [("axis", NodeAttribute.of_int64 (-1))] 1
        = InferResult.inferred [d0, d1] ∧
      mul_int64 d0 d1 = element_num [2, 3, 4] :=
  ⟨by decide, by decide,
    FlattenShapeInfer_infer_element_num [2, 3, 4] [("axis", NodeAttribute.of_int64 (-1))]
      (by decide) (by decide) (by decide) (by decide)⟩


/-! ### Reads of `ConvShapeInfer::infer` outside its vectors -/

theorem conv_spatial_dims_past_input
    (input_shape kernel_shape pads dilations strides : List Int) :
    ∀ (remaining i : Nat), remaining ≠ 0 → input_shape.length < i + 2 + remaining →
      conv_spatial_dims input_shape kernel_shape pads dilations strides i remaining = none := by
  intro remaining
  induction remaining with
  | zero => intro i h; exact absurd rfl h
  | succ remaining ih =>
    intro i _ hlen
    unfold conv_spatial_dims
    cases hx : vector_at input_shape (i + 2) with
    | none => rfl
    | some x =>
      have hi : i + 2 < input_shape.length := by
        unfold vector_at at hx
        exact (List.get?_eq_some.1 hx).1
      have hrem : remaining ≠ 0 := by omega
      have hrest := ih (i + 1) hrem (by omega)
      rw [hrest]
      cases vector_at pads i <;> cases vector_at pads (i + pads.length / 2) <;>
        cases vector_at dilations i <;> cases vector_at kernel_shape i <;>
        cases vector_at strides i <;> try rfl
      simp only
      split <;> rfl

theorem conv_spatial_dims_zero_stride
    (input_shape kernel_shape pads dilations strides : List Int) (i remaining : Nat)
    (h : vector_at strides i = some 0) :
    conv_spatial_dims input_shape kernel_shape pads dilations strides i (remaining + 1)
      = none := by
  unfold conv_spatial_dims
  rw [h]
  cases vector_at input_shape (i + 2) <;> cases vector_at pads i <;>
    cases vector_at pads (i + pads.length / 2) <;> cases vector_at dilations i <;>
    cases vector_at kernel_shape i <;> rfl

/-- C40 (the code departs from the claim). `ConvShapeInfer::infer` accepts a
kernel of any rank up to the rank of the input, not up to that rank less 2, and
does not look at the values of the strides.  Its loop over the spatial axes has
no defined behaviour once `i + 2` passes the input, and none on a stride 0.  So
it is on the inputs {1,3,8,8} and {4,3,3,3} with `group` 2 and `kernel_shape`
{3,3,3} (the read `input_shape[4]`) or with `strides` {0,0} (a division by
zero), and on the inputs {1,3} and {4,3} (the read `kernel_shape[0]` of an
empty kernel); without these attributes the first pair gives {1,3,6,6}. -/
theorem ConvShapeInfer_infer_unchecked_reads :
    (∀ (input_shape kernel_shape pads dilations strides : List Int) (remaining i : Nat),
      remaining ≠ 0 → input_shape.length < i + 2 + remaining →
      conv_spatial_dims input_shape kernel_shape pads dilations strides i remaining = none) ∧
    (∀ (input_shape kernel_shape pads dilations strides : List Int) (i remaining : Nat),
      vector_at strides i = some 0 →
      conv_spatial_dims input_shape kernel_shape pads dilations strides i (remaining + 1)
        = none) ∧
    ConvShapeInfer_infer [[1, 3, 8, 8], [4, 3, 3, 3]] [("group", NodeAttribute.of_int64 2)] 1
      = InferResult.inferred [1, 3, 6, 6] ∧
    ConvShapeInfer_infer [[1, 3, 8, 8], [4, 3, 3, 3]]
      [("group", NodeAttribute.of_int64 2),
       ("kernel_shape", NodeAttribute.of_int64s [3, 3, 3])] 1
      = InferResult.undefined ∧
    ConvShapeInfer_infer [[1, 3, 8, 8], [4, 3, 3, 3]]
      [("group", NodeAttribute.of_int64 2), ("strides", NodeAttribute.of_int64s [0, 0])] 1
      = InferResult.undefined ∧
    ConvShapeInfer_infer [[1, 3], [4, 3]] [("group", NodeAttribute.of_int64 2)] 1
      = InferResult.undefined := by
  refine ⟨?_, ?_, by decide, by decide, by decide, by decide⟩
  · intro input_shape kernel_shape pads dilations strides remaining i h1 h2
    exact conv_spatial_dims_past_input input_shape kernel_shape pads dilations strides
      remaining i h1 h2
  · intro input_shape kernel_shape pads dilations strides i remaining h
    exact conv_spatial_dims_zero_stride input_shape kernel_shape pads dilations strides
      i remaining h


end simple_ai
